import Mathlib

/-!
# Entity edit-packet codec

A shallow embedding of `libraries/entities/src/EntityItemProperties.cpp` (the
constructor, `getChangedProperties`, `copyFromScriptValue`, `markAllChanged`,
`encodeEntityEditPacket`, `decodeEntityEditPacket`, `encodeEraseEntityMessage`).
The last part embeds `libraries/shared/src/LogHandler.cpp` (the constructor,
`stringForLogType`, the setters, `printMessage`, `addOnlyOnceMessageRegex`,
`newRepeatedMessageID`, `printRepeatedMessage`, `flushRepeatedMessages`).

Conventions of the embedding.

* A fixed-width C++ value (`quint64`, `float`, `glm::vec3`, `xColor`, `QUuid` in its
  RFC 4122 form) is its object representation: the bytes that `memcpy` moves.
* The memory behind the `data` pointer of the decoder is a list of bytes; a read past
  the end of the list yields zero bytes, so every read is total.  `bytesToRead` is a
  separate argument, exactly as in the source.
* Everything the source uses but does not define (byte-count coding, the property
  flag serialisation, octal codes, quaternion packing, a few constants) is a field of
  `Ext`; what the theorems need from them is stated as explicit laws.
-/

set_option autoImplicit false

namespace Hifi

/-! ## Bytes and fixed-width values -/

abbrev Byte := UInt8

/-- Object representation of a fixed-width value: exactly `n` bytes. -/
abbrev Raw (n : Nat) := { l : List Byte // l.length = n }

/-- The all-zero value of width `n`. -/
def Raw.zero (n : Nat) : Raw n := ⟨List.replicate n 0, by simp⟩

abbrev quint64 := Raw 8
abbrev float32 := Raw 4
abbrev vec3 := Raw 12
abbrev quat := Raw 16
abbrev xColor := Raw 3
abbrev QUuid := Raw 16
/-- A `QString`, identified with its 8-bit form (`qPrintable`). -/
abbrev QString := List Byte

/-- Byte `i` of the memory behind a pointer; zero past the end of the list. -/
def peek (data : List Byte) (i : Nat) : Byte := data.getD i 0

/-- The `n` bytes at offset `pos` (what `QByteArray(dataAt, n)` copies for `n ≥ 0`). -/
def readBytes (n : Nat) (data : List Byte) (pos : Nat) : List Byte :=
  (List.range n).map (fun i => peek data (pos + i))

/-- Reading a fixed-width value: `memcpy(&value, dataAt, sizeof(value))`. -/
def readRaw (n : Nat) (data : List Byte) (pos : Nat) : Raw n :=
  ⟨readBytes n data pos, by simp [readBytes]⟩

/-- The NUL-terminated string at the start of `l`: what `QString((const char*)dataAt)`
and `QByteArray(dataAt, size)` with a negative `size` read. -/
def cString (l : List Byte) : List Byte := l.takeWhile (fun b => b != 0)

/-- The constructor `QByteArray((const char*)dataAt, size)` at `dataAt = data + pos`:
`size` bytes, or the NUL-terminated string when `size` is negative. -/
def qByteArray (data : List Byte) (pos : Nat) (size : Int) : List Byte :=
  if size < 0 then cString (data.drop pos) else readBytes size.toNat data pos

/-- In-memory form of a `uint16_t` on the little-endian host. -/
def u16Bytes (n : Nat) : List Byte := [UInt8.ofNat (n % 256), UInt8.ofNat (n / 256 % 256)]

/-- Reading a `uint16_t` by `memcpy` on the little-endian host. -/
def readU16 (data : List Byte) (pos : Nat) : Nat :=
  (peek data pos).toNat + 256 * (peek data (pos + 1)).toNat

/-! ## Property tags and flag sets -/

/-- The enumeration `EntityPropertyList`, in the order the source lists its items
(the three reserved items first, `PROP_LAST_ITEM` closing the enumeration). -/
inductive EntityPropertyList
  | PROP_PAGED_PROPERTY
  | PROP_CUSTOM_PROPERTIES_INCLUDED
  | PROP_VISIBLE
  | PROP_POSITION
  | PROP_RADIUS
  | PROP_ROTATION
  | PROP_MASS
  | PROP_VELOCITY
  | PROP_GRAVITY
  | PROP_DAMPING
  | PROP_LIFETIME
  | PROP_SCRIPT
  | PROP_COLOR
  | PROP_MODEL_URL
  | PROP_ANIMATION_URL
  | PROP_ANIMATION_FPS
  | PROP_ANIMATION_FRAME_INDEX
  | PROP_ANIMATION_PLAYING
  | PROP_LAST_ITEM
  deriving DecidableEq, Repr, Fintype

export EntityPropertyList (PROP_PAGED_PROPERTY PROP_CUSTOM_PROPERTIES_INCLUDED PROP_VISIBLE
  PROP_POSITION PROP_RADIUS PROP_ROTATION PROP_MASS PROP_VELOCITY PROP_GRAVITY PROP_DAMPING
  PROP_LIFETIME PROP_SCRIPT PROP_COLOR PROP_MODEL_URL PROP_ANIMATION_URL PROP_ANIMATION_FPS
  PROP_ANIMATION_FRAME_INDEX PROP_ANIMATION_PLAYING PROP_LAST_ITEM)

/-- Position of a tag in the enumeration (its bit position in a flag set). -/
def EntityPropertyList.index (t : EntityPropertyList) : Nat := t.toCtorIdx

/-- The type `EntityPropertyFlags`: a set of tags; two flag sets are equal when they
hold the same tags. -/
abbrev EntityPropertyFlags := Finset EntityPropertyList

/-! ## Entity identity and properties -/

/-- The class `EntityItemID`. -/
structure EntityItemID where
  id : QUuid
  creatorTokenID : Nat
  isKnownID : Bool
  deriving DecidableEq

/-- The data members of `EntityItemProperties` (values and their changed bits). -/
structure EntityItemProperties where
  id : QUuid
  idSet : Bool
  lastEdited : quint64
  created : quint64
  type : Nat
  position : vec3
  radius : float32
  rotation : quat
  mass : float32
  velocity : vec3
  gravity : vec3
  damping : float32
  lifetime : float32
  script : QString
  positionChanged : Bool
  radiusChanged : Bool
  rotationChanged : Bool
  massChanged : Bool
  velocityChanged : Bool
  gravityChanged : Bool
  dampingChanged : Bool
  lifetimeChanged : Bool
  scriptChanged : Bool
  color : xColor
  modelURL : QString
  animationURL : QString
  animationIsPlaying : Bool
  animationFrameIndex : float32
  animationFPS : float32
  glowLevel : float32
  colorChanged : Bool
  modelURLChanged : Bool
  animationURLChanged : Bool
  animationIsPlayingChanged : Bool
  animationFrameIndexChanged : Bool
  animationFPSChanged : Bool
  glowLevelChanged : Bool
  defaultSettings : Bool
  deriving DecidableEq

namespace EntityItemProperties

/-- The member function `getChangedProperties`, tag by tag in the order of the source. -/
def getChangedProperties (p : EntityItemProperties) : EntityPropertyFlags :=
  let changedProperties : EntityPropertyFlags := ∅
  let changedProperties := if p.radiusChanged then insert PROP_RADIUS changedProperties
    else changedProperties
  let changedProperties := if p.positionChanged then insert PROP_POSITION changedProperties
    else changedProperties
  let changedProperties := if p.rotationChanged then insert PROP_ROTATION changedProperties
    else changedProperties
  let changedProperties := if p.massChanged then insert PROP_MASS changedProperties
    else changedProperties
  let changedProperties := if p.velocityChanged then insert PROP_VELOCITY changedProperties
    else changedProperties
  let changedProperties := if p.gravityChanged then insert PROP_GRAVITY changedProperties
    else changedProperties
  let changedProperties := if p.dampingChanged then insert PROP_DAMPING changedProperties
    else changedProperties
  let changedProperties := if p.lifetimeChanged then insert PROP_LIFETIME changedProperties
    else changedProperties
  let changedProperties := if p.scriptChanged then insert PROP_SCRIPT changedProperties
    else changedProperties
  let changedProperties := if p.colorChanged then insert PROP_COLOR changedProperties
    else changedProperties
  let changedProperties := if p.modelURLChanged then insert PROP_MODEL_URL changedProperties
    else changedProperties
  let changedProperties := if p.animationURLChanged
    then insert PROP_ANIMATION_URL changedProperties else changedProperties
  let changedProperties := if p.animationIsPlayingChanged
    then insert PROP_ANIMATION_PLAYING changedProperties else changedProperties
  let changedProperties := if p.animationFrameIndexChanged
    then insert PROP_ANIMATION_FRAME_INDEX changedProperties else changedProperties
  let changedProperties := if p.animationFPSChanged
    then insert PROP_ANIMATION_FPS changedProperties else changedProperties
  changedProperties

/-- Modelled from the spec: the setters of `EntityItemProperties.h` (the header is not
among the sources).  A setter of an attribute assigns the value to the record and marks
the attribute changed (ChangeTracker `markChanged`); `setLastEdited`, `setCreated` and
`setType` assign only. -/
def setLastEdited (p : EntityItemProperties) (v : quint64) : EntityItemProperties :=
  { p with lastEdited := v }

/-- Modelled from the spec: see `setLastEdited`. -/
def setCreated (p : EntityItemProperties) (v : quint64) : EntityItemProperties :=
  { p with created := v }

/-- Modelled from the spec: see `setLastEdited`. -/
def setType (p : EntityItemProperties) (v : Nat) : EntityItemProperties :=
  { p with type := v }

/-- Modelled from the spec: see `setLastEdited`. -/
def setPosition (p : EntityItemProperties) (v : vec3) : EntityItemProperties :=
  { p with position := v, positionChanged := true }

/-- Modelled from the spec: see `setLastEdited`. -/
def setRadius (p : EntityItemProperties) (v : float32) : EntityItemProperties :=
  { p with radius := v, radiusChanged := true }

/-- Modelled from the spec: see `setLastEdited`. -/
def setRotation (p : EntityItemProperties) (v : quat) : EntityItemProperties :=
  { p with rotation := v, rotationChanged := true }

/-- Modelled from the spec: see `setLastEdited`. -/
def setMass (p : EntityItemProperties) (v : float32) : EntityItemProperties :=
  { p with mass := v, massChanged := true }

/-- Modelled from the spec: see `setLastEdited`. -/
def setVelocity (p : EntityItemProperties) (v : vec3) : EntityItemProperties :=
  { p with velocity := v, velocityChanged := true }

/-- Modelled from the spec: see `setLastEdited`. -/
def setGravity (p : EntityItemProperties) (v : vec3) : EntityItemProperties :=
  { p with gravity := v, gravityChanged := true }

/-- Modelled from the spec: see `setLastEdited`. -/
def setDamping (p : EntityItemProperties) (v : float32) : EntityItemProperties :=
  { p with damping := v, dampingChanged := true }

/-- Modelled from the spec: see `setLastEdited`. -/
def setLifetime (p : EntityItemProperties) (v : float32) : EntityItemProperties :=
  { p with lifetime := v, lifetimeChanged := true }

/-- Modelled from the spec: see `setLastEdited`. -/
def setColor (p : EntityItemProperties) (v : xColor) : EntityItemProperties :=
  { p with color := v, colorChanged := true }

/-- Modelled from the spec: see `setLastEdited`. -/
def setModelURL (p : EntityItemProperties) (v : QString) : EntityItemProperties :=
  { p with modelURL := v, modelURLChanged := true }

/-- Modelled from the spec: see `setLastEdited`. -/
def setAnimationURL (p : EntityItemProperties) (v : QString) : EntityItemProperties :=
  { p with animationURL := v, animationURLChanged := true }

/-- Modelled from the spec: see `setLastEdited`. -/
def setAnimationFPS (p : EntityItemProperties) (v : float32) : EntityItemProperties :=
  { p with animationFPS := v, animationFPSChanged := true }

/-- Modelled from the spec: see `setLastEdited`. -/
def setAnimationFrameIndex (p : EntityItemProperties) (v : float32) : EntityItemProperties :=
  { p with animationFrameIndex := v, animationFrameIndexChanged := true }

/-- Modelled from the spec: see `setLastEdited`. -/
def setAnimationIsPlaying (p : EntityItemProperties) (v : Bool) : EntityItemProperties :=
  { p with animationIsPlaying := v, animationIsPlayingChanged := true }

/-- The member function `markAllChanged` (lines 1168 to 1187): every changed bit is set,
the one of the glow level included. -/
def markAllChanged (p : EntityItemProperties) : EntityItemProperties :=
  { p with
    positionChanged := true
    radiusChanged := true
    rotationChanged := true
    massChanged := true
    velocityChanged := true
    gravityChanged := true
    dampingChanged := true
    lifetimeChanged := true
    scriptChanged := true
    colorChanged := true
    modelURLChanged := true
    animationURLChanged := true
    animationIsPlayingChanged := true
    animationFrameIndexChanged := true
    animationFPSChanged := true
    glowLevelChanged := true }

end EntityItemProperties

/-- The constants that the constructor of `EntityItemProperties` names and that are
declared outside the sources. -/
structure EntityDefaults where
  UNKNOWN_ENTITY_ID : QUuid
  UNKNOWN_CREATED_TIME : quint64
  Unknown : Nat
  ENTITY_DEFAULT_RADIUS : float32
  ENTITY_DEFAULT_ROTATION : quat
  DEFAULT_MASS : float32
  DEFAULT_VELOCITY : vec3
  DEFAULT_GRAVITY : vec3
  DEFAULT_DAMPING : float32
  DEFAULT_LIFETIME : float32
  DEFAULT_SCRIPT : QString
  ENTITY_DEFAULT_ANIMATION_FPS : float32

/-- The constructor `EntityItemProperties::EntityItemProperties()` (lines 22 to 68), member
by member (a Lean name cannot repeat the name of the class as C++ does); the zero of a
number is the all-zero object representation, `_color()` is the zero-initialized colour,
and the list of sitting points, which no function embedded here reads, is left out. -/
def EntityItemProperties.construct (d : EntityDefaults) : EntityItemProperties where
  id := d.UNKNOWN_ENTITY_ID
  idSet := false
  lastEdited := Raw.zero 8
  created := d.UNKNOWN_CREATED_TIME
  type := d.Unknown
  position := Raw.zero 12
  radius := d.ENTITY_DEFAULT_RADIUS
  rotation := d.ENTITY_DEFAULT_ROTATION
  mass := d.DEFAULT_MASS
  velocity := d.DEFAULT_VELOCITY
  gravity := d.DEFAULT_GRAVITY
  damping := d.DEFAULT_DAMPING
  lifetime := d.DEFAULT_LIFETIME
  script := d.DEFAULT_SCRIPT
  positionChanged := false
  radiusChanged := false
  rotationChanged := false
  massChanged := false
  velocityChanged := false
  gravityChanged := false
  dampingChanged := false
  lifetimeChanged := false
  scriptChanged := false
  color := Raw.zero 3
  modelURL := []
  animationURL := []
  animationIsPlaying := false
  animationFrameIndex := Raw.zero 4
  animationFPS := d.ENTITY_DEFAULT_ANIMATION_FPS
  glowLevel := Raw.zero 4
  colorChanged := false
  modelURLChanged := false
  animationURLChanged := false
  animationIsPlayingChanged := false
  animationFrameIndexChanged := false
  animationFPSChanged := false
  glowLevelChanged := false
  defaultSettings := true

/-! ## copyFromScriptValue -/

/-- A value of the script engine (`QScriptValue`, a class of the Qt library), as far as
`copyFromScriptValue` looks at it: a value is invalid or it is valid, and a valid value
has the results of its conversions (`toVariant().toFloat()`, `toInt()`, `toBool()`,
`toString()`) and named properties. -/
inductive QScriptValue where
  | invalid : QScriptValue
  | value (toFloat : float32) (toInt : Int) (toBool : Bool) (toString : QString)
      (properties : List (String × QScriptValue)) : QScriptValue

namespace QScriptValue

/-- The member function `isValid`. -/
def isValid : QScriptValue → Bool
  | invalid => false
  | value .. => true

/-- The member function `property(name)`: the property of that name, invalid when there is
none. -/
def property (v : QScriptValue) (name : String) : QScriptValue :=
  match v with
  | invalid => invalid
  | value _ _ _ _ properties => (properties.lookup name).getD invalid

/-- The conversion `toVariant().toFloat()`. -/
def toFloat : QScriptValue → float32
  | invalid => Raw.zero 4
  | value f _ _ _ _ => f

/-- The conversion `toVariant().toInt()`. -/
def toInt : QScriptValue → Int
  | invalid => 0
  | value _ i _ _ _ => i

/-- The conversion `toVariant().toBool()`. -/
def toBool : QScriptValue → Bool
  | invalid => false
  | value _ _ b _ _ => b

/-- The conversion `toVariant().toString()`. -/
def toString : QScriptValue → QString
  | invalid => []
  | value _ _ _ s _ => s

end QScriptValue

/-- What `copyFromScriptValue` calls but the sources do not define: the comparison
`operator!=` of `float`, `glm::vec3` and `glm::quat`, the function
`EntityTypes::getEntityTypeFromName` and the clock `usecTimestampNow()`. -/
structure ScriptExt where
  floatNe : float32 → float32 → Bool
  vec3Ne : vec3 → vec3 → Bool
  quatNe : quat → quat → Bool
  getEntityTypeFromName : QString → Nat
  usecTimestampNow : quint64

/-- A `glm::vec3` with the components `x`, `y`, `z`. -/
def mkVec3 (x y z : float32) : vec3 :=
  ⟨x.val ++ (y.val ++ z.val), by simp [x.property, y.property, z.property]⟩

/-- A `glm::quat` with the components `x`, `y`, `z`, `w`. -/
def mkQuat (x y z w : float32) : quat :=
  ⟨x.val ++ (y.val ++ (z.val ++ w.val)),
    by simp [x.property, y.property, z.property, w.property]⟩

/-- The conversion of an `int` to `unsigned char`. -/
def ucharOfInt (i : Int) : Byte := UInt8.ofNat (i % 256).toNat

/-- An `xColor` with the components `red`, `green`, `blue`, each an `int` converted to
`unsigned char`. -/
def mkColor (red green blue : Int) : xColor :=
  ⟨[ucharOfInt red, ucharOfInt green, ucharOfInt blue], rfl⟩

/-- The block of `copyFromScriptValue` for the attribute of `tag` (lines 209 to 395); tags
without a block leave the object alone. -/
def copyBlock (e : ScriptExt) (object : QScriptValue) (tag : EntityPropertyList)
    (p : EntityItemProperties) : EntityItemProperties :=
  match tag with
  | PROP_POSITION =>
    let position := object.property "position"
    if position.isValid then
      let x := position.property "x"
      let y := position.property "y"
      let z := position.property "z"
      if x.isValid && y.isValid && z.isValid then
        let newPosition := mkVec3 x.toFloat y.toFloat z.toFloat
        if p.defaultSettings || e.vec3Ne newPosition p.position then
          p.setPosition newPosition
        else p
      else p
    else p
  | PROP_RADIUS =>
    let radius := object.property "radius"
    if radius.isValid then
      let newRadius := radius.toFloat
      if p.defaultSettings || e.floatNe newRadius p.radius then
        { p with radius := newRadius, radiusChanged := true }
      else p
    else p
  | PROP_ROTATION =>
    let rotation := object.property "rotation"
    if rotation.isValid then
      let x := rotation.property "x"
      let y := rotation.property "y"
      let z := rotation.property "z"
      let w := rotation.property "w"
      if x.isValid && y.isValid && z.isValid && w.isValid then
        let newRotation := mkQuat x.toFloat y.toFloat z.toFloat w.toFloat
        if p.defaultSettings || e.quatNe newRotation p.rotation then
          { p with rotation := newRotation, rotationChanged := true }
        else p
      else p
    else p
  | PROP_MASS =>
    let mass := object.property "mass"
    if mass.isValid then
      let newValue := mass.toFloat
      if p.defaultSettings || e.floatNe newValue p.mass then
        { p with mass := newValue, massChanged := true }
      else p
    else p
  | PROP_VELOCITY =>
    let velocity := object.property "velocity"
    if velocity.isValid then
      let x := velocity.property "x"
      let y := velocity.property "y"
      let z := velocity.property "z"
      if x.isValid && y.isValid && z.isValid then
        let newValue := mkVec3 x.toFloat y.toFloat z.toFloat
        if p.defaultSettings || e.vec3Ne newValue p.velocity then
          { p with velocity := newValue, velocityChanged := true }
        else p
      else p
    else p
  | PROP_GRAVITY =>
    let gravity := object.property "gravity"
    if gravity.isValid then
      let x := gravity.property "x"
      let y := gravity.property "y"
      let z := gravity.property "z"
      if x.isValid && y.isValid && z.isValid then
        let newValue := mkVec3 x.toFloat y.toFloat z.toFloat
        if p.defaultSettings || e.vec3Ne newValue p.gravity then
          { p with gravity := newValue, gravityChanged := true }
        else p
      else p
    else p
  | PROP_DAMPING =>
    let damping := object.property "damping"
    if damping.isValid then
      let newValue := damping.toFloat
      if p.defaultSettings || e.floatNe newValue p.damping then
        { p with damping := newValue, dampingChanged := true }
      else p
    else p
  | PROP_LIFETIME =>
    let lifetime := object.property "lifetime"
    if lifetime.isValid then
      let newValue := lifetime.toFloat
      if p.defaultSettings || e.floatNe newValue p.lifetime then
        { p with lifetime := newValue, lifetimeChanged := true }
      else p
    else p
  | PROP_SCRIPT =>
    let script := object.property "script"
    if script.isValid then
      let newValue := script.toString
      if p.defaultSettings || decide (newValue ≠ p.script) then
        { p with script := newValue, scriptChanged := true }
      else p
    else p
  | PROP_COLOR =>
    let color := object.property "color"
    if color.isValid then
      let red := color.property "red"
      let green := color.property "green"
      let blue := color.property "blue"
      if red.isValid && green.isValid && blue.isValid then
        let newColor := mkColor red.toInt green.toInt blue.toInt
        if p.defaultSettings || (peek newColor.val 0 != peek p.color.val 0
            || peek newColor.val 1 != peek p.color.val 1
            || peek newColor.val 2 != peek p.color.val 2) then
          { p with color := newColor, colorChanged := true }
        else p
      else p
    else p
  | PROP_MODEL_URL =>
    let modelURL := object.property "modelURL"
    if modelURL.isValid then
      let newModelURL := modelURL.toString
      if p.defaultSettings || decide (newModelURL ≠ p.modelURL) then
        { p with modelURL := newModelURL, modelURLChanged := true }
      else p
    else p
  | PROP_ANIMATION_URL =>
    let animationURL := object.property "animationURL"
    if animationURL.isValid then
      let newAnimationURL := animationURL.toString
      if p.defaultSettings || decide (newAnimationURL ≠ p.animationURL) then
        { p with animationURL := newAnimationURL, animationURLChanged := true }
      else p
    else p
  | PROP_ANIMATION_PLAYING =>
    let animationIsPlaying := object.property "animationIsPlaying"
    if animationIsPlaying.isValid then
      let newIsAnimationPlaying := animationIsPlaying.toBool
      if p.defaultSettings || (newIsAnimationPlaying != p.animationIsPlaying) then
        { p with animationIsPlaying := newIsAnimationPlaying, animationIsPlayingChanged := true }
      else p
    else p
  | PROP_ANIMATION_FRAME_INDEX =>
    let animationFrameIndex := object.property "animationFrameIndex"
    if animationFrameIndex.isValid then
      let newFrameIndex := animationFrameIndex.toFloat
      if p.defaultSettings || e.floatNe newFrameIndex p.animationFrameIndex then
        { p with animationFrameIndex := newFrameIndex, animationFrameIndexChanged := true }
      else p
    else p
  | PROP_ANIMATION_FPS =>
    let animationFPS := object.property "animationFPS"
    if animationFPS.isValid then
      let newFPS := animationFPS.toFloat
      if p.defaultSettings || e.floatNe newFPS p.animationFPS then
        { p with animationFPS := newFPS, animationFPSChanged := true }
      else p
    else p
  | _ => p

/-- The block of `copyFromScriptValue` for the type (lines 202 to 207). -/
def copyType (e : ScriptExt) (object : QScriptValue) (p : EntityItemProperties) :
    EntityItemProperties :=
  let typeScriptValue := object.property "type"
  if typeScriptValue.isValid then
    let typeName := typeScriptValue.toString
    { p with type := e.getEntityTypeFromName typeName }
  else p

/-- The block of `copyFromScriptValue` for the glow level (lines 397 to 405). -/
def copyGlowLevel (e : ScriptExt) (object : QScriptValue) (p : EntityItemProperties) :
    EntityItemProperties :=
  let glowLevel := object.property "glowLevel"
  if glowLevel.isValid then
    let newGlowLevel := glowLevel.toFloat
    if p.defaultSettings || e.floatNe newGlowLevel p.glowLevel then
      { p with glowLevel := newGlowLevel, glowLevelChanged := true }
    else p
  else p

/-- The member function `copyFromScriptValue(object)` (lines 200 to 408): the blocks in
the order of the source, then the time stamp. -/
def copyFromScriptValue (e : ScriptExt) (object : QScriptValue) (p : EntityItemProperties) :
    EntityItemProperties :=
  let p := copyType e object p
  let p := copyBlock e object PROP_POSITION p
  let p := copyBlock e object PROP_RADIUS p
  let p := copyBlock e object PROP_ROTATION p
  let p := copyBlock e object PROP_MASS p
  let p := copyBlock e object PROP_VELOCITY p
  let p := copyBlock e object PROP_GRAVITY p
  let p := copyBlock e object PROP_DAMPING p
  let p := copyBlock e object PROP_LIFETIME p
  let p := copyBlock e object PROP_SCRIPT p
  let p := copyBlock e object PROP_COLOR p
  let p := copyBlock e object PROP_MODEL_URL p
  let p := copyBlock e object PROP_ANIMATION_URL p
  let p := copyBlock e object PROP_ANIMATION_PLAYING p
  let p := copyBlock e object PROP_ANIMATION_FRAME_INDEX p
  let p := copyBlock e object PROP_ANIMATION_FPS p
  let p := copyGlowLevel e object p
  { p with lastEdited := e.usecTimestampNow }

/-! ## Collaborators declared outside the sources -/

/-- Modelled from the spec: the constants and helper functions that the codec calls but
that are declared outside the two source files.  `byteCountCoded32/64` and
`byteCountDecoded32/64` are the two conversions of `ByteCountCoded<T>` (VarintCodec),
`encodeFlags` and `decodeFlags` those of `PropertyFlags<Enum>` (PropertyFlagSet; the
second component of `decodeFlags` is `getEncodedLength()`), `rootOctcode` is
`pointToOctalCode(0, 0, 0, 0.5)` (the routing prefix) and `bytesOfOctcode data` is
`bytesRequiredForCodeLength(numberOfThreeBitSectionsInCode(data))`. -/
structure Ext where
  NEW_ENTITY : QUuid
  UNKNOWN_ENTITY_TOKEN : Nat
  USE_EXISTING_CREATED_TIME : quint64
  rootOctcode : List Byte
  bytesOfOctcode : List Byte → Nat
  byteCountCoded32 : Nat → List Byte
  byteCountDecoded32 : List Byte → Nat
  byteCountCoded64 : Nat → List Byte
  byteCountDecoded64 : List Byte → Nat
  encodeFlags : EntityPropertyFlags → List Byte
  decodeFlags : List Byte → EntityPropertyFlags × Nat
  packOrientationQuatToBytes : quat → List Byte
  unpackOrientationQuatFromBytes : List Byte → quat × Nat

/-! ## The packet builder -/

/-- Modelled from the spec: the class `OctreePacketData` (PacketBuilder, §4.4), declared
outside the sources: a byte buffer of fixed capacity `targetSize` of which
`uncompressed` are the bytes in use. -/
structure OctreePacketData where
  targetSize : Int
  uncompressed : List Byte
  subTreeAt : Nat
  deriving DecidableEq

/-- A checkpoint of the packet builder: the saved length. -/
structure LevelDetails where
  startIndex : Nat
  deriving DecidableEq

namespace OctreePacketData

/-- Modelled from the spec: `OctreePacketData(false, sizeIn)`, an empty uncompressed
buffer of capacity `sizeIn`. -/
def create (sizeIn : Int) : OctreePacketData :=
  { targetSize := sizeIn, uncompressed := [], subTreeAt := 0 }

/-- Modelled from the spec: `appendValue(bytes) -> bool` appends if capacity remains and
returns false (appending nothing) otherwise; the capacity check precedes the write. -/
def append (p : OctreePacketData) (bytes : List Byte) : Bool × OctreePacketData :=
  if ((p.uncompressed.length : Int) + (bytes.length : Int)) ≤ p.targetSize then
    (true, { p with uncompressed := p.uncompressed ++ bytes })
  else (false, p)

/-- Modelled from the spec: `startSubTree(octcode)` writes the routing prefix and opens
its region. -/
def startSubTree (p : OctreePacketData) (octcode : List Byte) : Bool × OctreePacketData :=
  let possibleStartAt := p.uncompressed.length
  let r := p.append octcode
  if r.1 then (true, { r.2 with subTreeAt := possibleStartAt }) else (false, r.2)

/-- Modelled from the spec: `endSubTree()` closes the routing-prefix region. -/
def endSubTree (p : OctreePacketData) : OctreePacketData :=
  { p with subTreeAt := p.uncompressed.length }

/-- Modelled from the spec: `discardSubTree()` rolls the buffer back to the start of the
routing-prefix region. -/
def discardSubTree (p : OctreePacketData) : OctreePacketData :=
  { p with uncompressed := p.uncompressed.take p.subTreeAt }

/-- Modelled from the spec: `startLevel() -> Checkpoint` records the current length. -/
def startLevel (p : OctreePacketData) : LevelDetails :=
  { startIndex := p.uncompressed.length }

/-- Modelled from the spec: `endLevel(checkpoint)` commits; the bytes are already in
place. -/
def endLevel (p : OctreePacketData) (_key : LevelDetails) : OctreePacketData := p

/-- Modelled from the spec: `discardLevel(checkpoint)` rolls the logical length back to
the checkpoint. -/
def discardLevel (p : OctreePacketData) (key : LevelDetails) : OctreePacketData :=
  { p with uncompressed := p.uncompressed.take key.startIndex }

/-- Modelled from the spec: `getUncompressedByteOffset()`, the current length. -/
def getUncompressedByteOffset (p : OctreePacketData) : Nat := p.uncompressed.length

/-- Modelled from the spec: `getUncompressedSize()`, the current length. -/
def getUncompressedSize (p : OctreePacketData) : Nat := p.uncompressed.length

/-- Modelled from the spec: `getUncompressedData(offset)`, the buffer from `offset` on. -/
def getUncompressedData (p : OctreePacketData) (offset : Nat) : List Byte :=
  p.uncompressed.drop offset

/-- Modelled from the spec: `updatePriorBytes(offset, bytes)` overwrites a previously
written region in place; a region that is not inside the written bytes is left alone.
The shift after a shorter replacement is done by the caller, as in the source. -/
def updatePriorBytes (p : OctreePacketData) (offset : Nat) (bytes : List Byte) :
    OctreePacketData :=
  if offset + bytes.length ≤ p.uncompressed.length then
    { p with uncompressed :=
        p.uncompressed.take offset ++ bytes ++ p.uncompressed.drop (offset + bytes.length) }
  else p

/-- Modelled from the spec: `setUncompressedSize(n)` shrinks the logical length. -/
def setUncompressedSize (p : OctreePacketData) (n : Nat) : OctreePacketData :=
  { p with uncompressed := p.uncompressed.take n }

/-- Modelled from the spec: `getFinalizedData()`; without compression the finalized
bytes are the bytes in use. -/
def getFinalizedData (p : OctreePacketData) : List Byte := p.uncompressed

/-- Modelled from the spec: `getFinalizedSize()`. -/
def getFinalizedSize (p : OctreePacketData) : Nat := p.uncompressed.length

end OctreePacketData

/-! ## Payloads of the attribute values -/

/-- Modelled from the spec: `appendValue(bool)`, boolean flags take 1 byte. -/
def bytesOfBool (b : Bool) : List Byte := [if b then 1 else 0]

/-- Modelled from the spec: `appendValue(const QString&)`, text fields are `u16 length`
followed by the raw bytes, not NUL-terminated on the wire. -/
def bytesOfQString (s : QString) : List Byte := u16Bytes s.length ++ s

/-- The enumeration `OctreeElement::AppendState`. -/
inductive AppendState
  | COMPLETED
  | PARTIAL
  | NONE
  deriving DecidableEq, Repr

/-! ## encodeEntityEditPacket -/

/-- The local variables of `encodeEntityEditPacket` that the attribute blocks update. -/
structure EncodeState where
  packetData : OctreePacketData
  propertyFlags : EntityPropertyFlags
  propertiesDidntFit : EntityPropertyFlags
  propertyCount : Nat
  appendState : AppendState
  deriving DecidableEq

/-- One attribute block of `encodeEntityEditPacket`:
`if (requestedProperties.getHasProperty(tag)) { startLevel; append; ... } else { ... }`. -/
def appendProperty (requestedProperties : EntityPropertyFlags) (tag : EntityPropertyList)
    (payload : List Byte) (s : EncodeState) : EncodeState :=
  if tag ∈ requestedProperties then
    let propertyLevel := s.packetData.startLevel
    let r := s.packetData.append payload
    if r.1 then
      { s with
        packetData := r.2.endLevel propertyLevel
        propertyFlags := insert tag s.propertyFlags
        propertiesDidntFit := s.propertiesDidntFit.erase tag
        propertyCount := s.propertyCount + 1 }
    else
      { s with
        packetData := r.2.discardLevel propertyLevel
        appendState := AppendState.PARTIAL }
  else
    { s with propertiesDidntFit := s.propertiesDidntFit.erase tag }

/-- The fourteen attribute blocks of `encodeEntityEditPacket`, in the order of the
source (lines 536 to 777). -/
def appendProperties (x : Ext) (properties : EntityItemProperties)
    (requestedProperties : EntityPropertyFlags) (s : EncodeState) : EncodeState :=
  let s := appendProperty requestedProperties PROP_POSITION properties.position.val s
  let s := appendProperty requestedProperties PROP_RADIUS properties.radius.val s
  let s := appendProperty requestedProperties PROP_ROTATION
    (x.packOrientationQuatToBytes properties.rotation) s
  let s := appendProperty requestedProperties PROP_MASS properties.mass.val s
  let s := appendProperty requestedProperties PROP_VELOCITY properties.velocity.val s
  let s := appendProperty requestedProperties PROP_GRAVITY properties.gravity.val s
  let s := appendProperty requestedProperties PROP_DAMPING properties.damping.val s
  let s := appendProperty requestedProperties PROP_LIFETIME properties.lifetime.val s
  let s := appendProperty requestedProperties PROP_COLOR properties.color.val s
  let s := appendProperty requestedProperties PROP_MODEL_URL
    (bytesOfQString properties.modelURL) s
  let s := appendProperty requestedProperties PROP_ANIMATION_URL
    (bytesOfQString properties.animationURL) s
  let s := appendProperty requestedProperties PROP_ANIMATION_FPS
    properties.animationFPS.val s
  let s := appendProperty requestedProperties PROP_ANIMATION_FRAME_INDEX
    properties.animationFrameIndex.val s
  let s := appendProperty requestedProperties PROP_ANIMATION_PLAYING
    (bytesOfBool properties.animationIsPlaying) s
  s

/-- The header part of `encodeEntityEditPacket` (lines 496 to 525): every field is
appended on its own, whether or not an earlier one fitted. -/
structure HeaderState where
  packetData : OctreePacketData
  entityLevel : LevelDetails
  propertyFlagsOffset : Nat
  oldPropertyFlagsLength : Nat
  headerFits : Bool
  startOfEntityItemData : Nat
  deriving DecidableEq

/-- Lines 459 to 525 of `encodeEntityEditPacket`. -/
def appendHeader (x : Ext) (id : EntityItemID) (properties : EntityItemProperties)
    (packetData : OctreePacketData) : HeaderState :=
  let isNewEntityItem : Bool := decide (id.id = x.NEW_ENTITY)
  let encodedID := id.id.val
  let encodedToken := if isNewEntityItem then x.byteCountCoded32 id.creatorTokenID else []
  let encodedType := x.byteCountCoded32 (properties.type % 4294967296)
  let encodedUpdateDelta := x.byteCountCoded64 0
  let propertyFlags : EntityPropertyFlags := {PROP_LAST_ITEM}
  let entityLevel := packetData.startLevel
  let r := packetData.append properties.lastEdited.val
  let successLastEditedFits := r.1
  let r := r.2.append encodedID
  let r := if isNewEntityItem && r.1 then r.2.append encodedToken else r
  let successIDFits := r.1
  let r := r.2.append encodedType
  let successTypeFits := r.1
  let r := r.2.append encodedUpdateDelta
  let successLastUpdatedFits := r.1
  let propertyFlagsOffset := r.2.getUncompressedByteOffset
  let encodedPropertyFlags := x.encodeFlags propertyFlags
  let oldPropertyFlagsLength := encodedPropertyFlags.length
  let r := r.2.append encodedPropertyFlags
  let successPropertyFlagsFits := r.1
  { packetData := r.2
    entityLevel := entityLevel
    propertyFlagsOffset := propertyFlagsOffset
    oldPropertyFlagsLength := oldPropertyFlagsLength
    headerFits := successIDFits && successTypeFits && successLastEditedFits
      && successLastUpdatedFits && successPropertyFlagsFits
    startOfEntityItemData := r.2.getUncompressedByteOffset }

/-- Lines 780 to 801 of `encodeEntityEditPacket`: the provisional flags are overwritten
by the final ones and, when those are shorter, the attribute data is moved down. -/
def repairPropertyFlags (x : Ext) (h : HeaderState) (propertyFlags : EntityPropertyFlags)
    (packetData : OctreePacketData) : OctreePacketData :=
  let endOfEntityItemData := packetData.getUncompressedByteOffset
  let encodedPropertyFlags := x.encodeFlags propertyFlags
  let newPropertyFlagsLength := encodedPropertyFlags.length
  let packetData := packetData.updatePriorBytes h.propertyFlagsOffset encodedPropertyFlags
  if newPropertyFlagsLength < h.oldPropertyFlagsLength then
    let oldSize := packetData.getUncompressedSize
    let modelItemDataLength := endOfEntityItemData - h.startOfEntityItemData
    let modelItemData :=
      (packetData.getUncompressedData
        (h.propertyFlagsOffset + h.oldPropertyFlagsLength)).take modelItemDataLength
    let newEntityItemDataStart := h.propertyFlagsOffset + newPropertyFlagsLength
    let packetData := packetData.updatePriorBytes newEntityItemDataStart modelItemData
    let newSize := oldSize - (h.oldPropertyFlagsLength - newPropertyFlagsLength)
    packetData.setUncompressedSize newSize
  else packetData

/-- Everything one run of `encodeEntityEditPacket` computes: the three results
(`success`, `sizeOut`, the bytes copied to `bufferOut`) and the locals at the end. -/
structure EncodeRun where
  success : Bool
  sizeOut : Nat
  bufferOut : List Byte
  packetData : OctreePacketData
  octcodeFits : Bool
  headerFits : Bool
  requestedProperties : EntityPropertyFlags
  propertyFlags : EntityPropertyFlags
  propertiesDidntFit : EntityPropertyFlags
  propertyCount : Nat
  appendState : AppendState
  propertyFlagsOffset : Nat
  oldPropertyFlagsLength : Nat
  deriving DecidableEq

/-- Lines 821 to 838: the packet is finalized and copied out, or discarded. -/
def finishEncode (success octcodeFits headerFits : Bool)
    (requestedProperties : EntityPropertyFlags) (s : EncodeState)
    (propertyFlagsOffset oldPropertyFlagsLength : Nat) : EncodeRun :=
  let packetData := if success then s.packetData.endSubTree else s.packetData.discardSubTree
  { success := success
    sizeOut := if success then packetData.getFinalizedSize else 0
    bufferOut := if success then packetData.getFinalizedData else []
    packetData := packetData
    octcodeFits := octcodeFits
    headerFits := headerFits
    requestedProperties := requestedProperties
    propertyFlags := s.propertyFlags
    propertiesDidntFit := s.propertiesDidntFit
    propertyCount := s.propertyCount
    appendState := s.appendState
    propertyFlagsOffset := propertyFlagsOffset
    oldPropertyFlagsLength := oldPropertyFlagsLength }

/-- The body of `encodeEntityEditPacket(command, id, properties, bufferOut, sizeIn,
sizeOut)` with all its locals (`command` is not used by the source). -/
def encodeRun (x : Ext) (id : EntityItemID) (properties : EntityItemProperties)
    (sizeIn : Int) : EncodeRun :=
  let packetData := OctreePacketData.create sizeIn
  let r := packetData.startSubTree x.rootOctcode
  let requestedProperties := properties.getChangedProperties
  if r.1 then
    let h := appendHeader x id properties r.2
    let s0 : EncodeState :=
      { packetData := h.packetData
        propertyFlags := {PROP_LAST_ITEM}
        propertiesDidntFit := requestedProperties
        propertyCount := 0
        appendState := AppendState.COMPLETED }
    let s :=
      if h.headerFits then
        appendProperties x properties requestedProperties
          { s0 with propertyFlags := s0.propertyFlags.erase PROP_LAST_ITEM }
      else s0
    let s :=
      if s.propertyCount > 0 then
        { s with packetData :=
            (repairPropertyFlags x h s.propertyFlags s.packetData).endLevel h.entityLevel }
      else
        { s with
          packetData := s.packetData.discardLevel h.entityLevel
          appendState := AppendState.NONE }
    let success := decide (s.appendState = AppendState.COMPLETED)
    finishEncode success true h.headerFits requestedProperties s
      h.propertyFlagsOffset h.oldPropertyFlagsLength
  else
    finishEncode false false false requestedProperties
      { packetData := r.2
        propertyFlags := ∅
        propertiesDidntFit := requestedProperties
        propertyCount := 0
        appendState := AppendState.COMPLETED } 0 0

/-- What the caller of `encodeEntityEditPacket` sees. -/
structure EncodeResult where
  success : Bool
  sizeOut : Nat
  bufferOut : List Byte
  deriving DecidableEq

/-- The function `EntityItemProperties::encodeEntityEditPacket`: the return value,
`sizeOut`, and the bytes copied to `bufferOut`. -/
def encodeEntityEditPacket (x : Ext) (id : EntityItemID) (properties : EntityItemProperties)
    (sizeIn : Int) : EncodeResult :=
  let run := encodeRun x id properties sizeIn
  { success := run.success, sizeOut := run.sizeOut, bufferOut := run.bufferOut }

/-! ## decodeEntityEditPacket -/

/-- The locals of `decodeEntityEditPacket` that the attribute blocks update
(`dataAt` is `data + processedBytes` throughout). -/
structure DecodeState where
  processedBytes : Nat
  properties : EntityItemProperties
  deriving DecidableEq

/-- The body of the attribute block of `decodeEntityEditPacket` for `tag` (lines 971 to
1111); tags without a block leave the state alone. -/
def decodeProperty (x : Ext) (data : List Byte) (tag : EntityPropertyList)
    (s : DecodeState) : DecodeState :=
  match tag with
  | PROP_POSITION =>
    { processedBytes := s.processedBytes + 12
      properties := s.properties.setPosition (readRaw 12 data s.processedBytes) }
  | PROP_RADIUS =>
    { processedBytes := s.processedBytes + 4
      properties := s.properties.setRadius (readRaw 4 data s.processedBytes) }
  | PROP_ROTATION =>
    let r := x.unpackOrientationQuatFromBytes (data.drop s.processedBytes)
    { processedBytes := s.processedBytes + r.2
      properties := s.properties.setRotation r.1 }
  | PROP_MASS =>
    { processedBytes := s.processedBytes + 4
      properties := s.properties.setMass (readRaw 4 data s.processedBytes) }
  | PROP_VELOCITY =>
    { processedBytes := s.processedBytes + 12
      properties := s.properties.setVelocity (readRaw 12 data s.processedBytes) }
  | PROP_GRAVITY =>
    { processedBytes := s.processedBytes + 12
      properties := s.properties.setGravity (readRaw 12 data s.processedBytes) }
  | PROP_DAMPING =>
    { processedBytes := s.processedBytes + 4
      properties := s.properties.setDamping (readRaw 4 data s.processedBytes) }
  | PROP_LIFETIME =>
    { processedBytes := s.processedBytes + 4
      properties := s.properties.setLifetime (readRaw 4 data s.processedBytes) }
  | PROP_COLOR =>
    { processedBytes := s.processedBytes + 3
      properties := s.properties.setColor (readRaw 3 data s.processedBytes) }
  | PROP_MODEL_URL =>
    let modelURLbytesToRead := readU16 data s.processedBytes
    let modelURLString := cString (data.drop (s.processedBytes + 2))
    { processedBytes := s.processedBytes + 2 + modelURLbytesToRead
      properties := s.properties.setModelURL modelURLString }
  | PROP_ANIMATION_URL =>
    let animationURLbytesToRead := readU16 data s.processedBytes
    let animationURLString := cString (data.drop (s.processedBytes + 2))
    { processedBytes := s.processedBytes + 2 + animationURLbytesToRead
      properties := s.properties.setAnimationURL animationURLString }
  | PROP_ANIMATION_FPS =>
    { processedBytes := s.processedBytes + 4
      properties := s.properties.setAnimationFPS (readRaw 4 data s.processedBytes) }
  | PROP_ANIMATION_FRAME_INDEX =>
    { processedBytes := s.processedBytes + 4
      properties := s.properties.setAnimationFrameIndex (readRaw 4 data s.processedBytes) }
  | PROP_ANIMATION_PLAYING =>
    { processedBytes := s.processedBytes + 1
      properties := s.properties.setAnimationIsPlaying (peek data s.processedBytes != 0) }
  | _ => s

/-- One attribute block: `if (propertyFlags.getHasProperty(tag)) { ... }`. -/
def readProperty (x : Ext) (data : List Byte) (propertyFlags : EntityPropertyFlags)
    (tag : EntityPropertyList) (s : DecodeState) : DecodeState :=
  if tag ∈ propertyFlags then decodeProperty x data tag s else s

/-- The fourteen attribute blocks of `decodeEntityEditPacket`, in the order of the
source. -/
def readProperties (x : Ext) (data : List Byte) (propertyFlags : EntityPropertyFlags)
    (s : DecodeState) : DecodeState :=
  let s := readProperty x data propertyFlags PROP_POSITION s
  let s := readProperty x data propertyFlags PROP_RADIUS s
  let s := readProperty x data propertyFlags PROP_ROTATION s
  let s := readProperty x data propertyFlags PROP_MASS s
  let s := readProperty x data propertyFlags PROP_VELOCITY s
  let s := readProperty x data propertyFlags PROP_GRAVITY s
  let s := readProperty x data propertyFlags PROP_DAMPING s
  let s := readProperty x data propertyFlags PROP_LIFETIME s
  let s := readProperty x data propertyFlags PROP_COLOR s
  let s := readProperty x data propertyFlags PROP_MODEL_URL s
  let s := readProperty x data propertyFlags PROP_ANIMATION_URL s
  let s := readProperty x data propertyFlags PROP_ANIMATION_FPS s
  let s := readProperty x data propertyFlags PROP_ANIMATION_FRAME_INDEX s
  let s := readProperty x data propertyFlags PROP_ANIMATION_PLAYING s
  s

/-- What `decodeEntityEditPacket` leaves behind: its return value and its three
output arguments. -/
structure DecodeResult where
  valid : Bool
  processedBytes : Nat
  entityID : EntityItemID
  properties : EntityItemProperties
  deriving DecidableEq

/-- The header part of `decodeEntityEditPacket` (lines 866 to 969), up to and including
the property flags: the entity id, the decoded flags and the state before the first
attribute block. -/
structure DecodedHeader where
  valid : Bool
  entityID : EntityItemID
  propertyFlags : EntityPropertyFlags
  state : DecodeState
  deriving DecidableEq

/-- Lines 866 to 969 of `decodeEntityEditPacket`. -/
def readHeader (x : Ext) (data : List Byte) (bytesToRead : Int)
    (properties : EntityItemProperties) : DecodedHeader :=
  let bytesToReadOfOctcode := x.bytesOfOctcode data
  let processedBytes := bytesToReadOfOctcode
  let lastEdited : quint64 := readRaw 8 data processedBytes
  let processedBytes := processedBytes + 8
  let properties := properties.setLastEdited lastEdited
  let editID : QUuid := readRaw 16 data processedBytes
  let processedBytes := processedBytes + 16
  let isNewEntityItem : Bool := decide (editID = x.NEW_ENTITY)
  let encodedToken := qByteArray data processedBytes (bytesToRead - processedBytes)
  let creatorTokenID := x.byteCountDecoded32 encodedToken
  let encodedToken := x.byteCountCoded32 creatorTokenID
  let entityID : EntityItemID :=
    if isNewEntityItem then
      { id := x.NEW_ENTITY, creatorTokenID := creatorTokenID, isKnownID := false }
    else
      { id := editID, creatorTokenID := x.UNKNOWN_ENTITY_TOKEN, isKnownID := true }
  let valid : Bool := if isNewEntityItem then true else true
  let processedBytes :=
    if isNewEntityItem then processedBytes + encodedToken.length else processedBytes
  let properties :=
    if isNewEntityItem then properties.setCreated lastEdited
    else properties.setCreated x.USE_EXISTING_CREATED_TIME
  let encodedType := qByteArray data processedBytes (bytesToRead - processedBytes)
  let entityTypeCode := x.byteCountDecoded32 encodedType
  let properties := properties.setType entityTypeCode
  let encodedType := x.byteCountCoded32 entityTypeCode
  let processedBytes := processedBytes + encodedType.length
  let encodedUpdateDelta := qByteArray data processedBytes (bytesToRead - processedBytes)
  let updateDelta := x.byteCountDecoded64 encodedUpdateDelta
  let encodedUpdateDelta := x.byteCountCoded64 updateDelta
  let processedBytes := processedBytes + encodedUpdateDelta.length
  let encodedPropertyFlags := qByteArray data processedBytes (bytesToRead - processedBytes)
  let propertyFlags := x.decodeFlags encodedPropertyFlags
  let processedBytes := processedBytes + propertyFlags.2
  { valid := valid
    entityID := entityID
    propertyFlags := propertyFlags.1
    state := { processedBytes := processedBytes, properties := properties } }

/-- The function `EntityItemProperties::decodeEntityEditPacket(data, bytesToRead,
processedBytes, entityID, properties)`.  Every field of `entityID` is assigned on both
branches of the source, so its prior value is no input. -/
def decodeEntityEditPacket (x : Ext) (data : List Byte) (bytesToRead : Int)
    (properties : EntityItemProperties) : DecodeResult :=
  let h := readHeader x data bytesToRead properties
  let s := readProperties x data h.propertyFlags h.state
  { valid := h.valid
    processedBytes := s.processedBytes
    entityID := h.entityID
    properties := s.properties }

/-! ## encodeEraseEntityMessage -/

/-- The effect of `memcpy(buffer + pos, bytes, n)` on the memory behind `buffer`: the
bytes from `pos` on are replaced, everything else stays.  The source checks no bound, so
a write that passes the end of the list extends it. -/
def memcpyAt (buffer : List Byte) (pos : Nat) (bytes : List Byte) : List Byte :=
  buffer.take pos ++ bytes ++ buffer.drop (pos + bytes.length)

/-- What `encodeEraseEntityMessage` leaves behind: its return value, the memory behind
`outputBuffer` and `outputLength`. -/
structure EraseResult where
  result : Bool
  outputBuffer : List Byte
  outputLength : Nat
  deriving DecidableEq

/-- The function `EntityItemProperties::encodeEraseEntityMessage(entityItemID,
outputBuffer, maxLength, outputLength)` (lines 1120 to 1165); `maxLength` is not used by
the source, and `NUM_BYTES_RFC4122_UUID` is 16. -/
def encodeEraseEntityMessage (entityItemID : EntityItemID) (outputBuffer : List Byte)
    (_maxLength : Nat) : EraseResult :=
  let copyAt := 0
  let numberOfIds := 1
  let outputBuffer := memcpyAt outputBuffer copyAt (u16Bytes numberOfIds)
  let copyAt := copyAt + 2
  let outputLength := 2
  let entityID := entityItemID.id
  let encodedEntityID := entityID.val
  let outputBuffer := memcpyAt outputBuffer copyAt (encodedEntityID.take 16)
  let outputLength := outputLength + 16
  { result := true, outputBuffer := outputBuffer, outputLength := outputLength }

/-! ## The order of the attributes and their payloads -/

/-- The tags that have an attribute block, in the order of the blocks. -/
def wireOrder : List EntityPropertyList :=
  [PROP_POSITION, PROP_RADIUS, PROP_ROTATION, PROP_MASS, PROP_VELOCITY, PROP_GRAVITY,
   PROP_DAMPING, PROP_LIFETIME, PROP_COLOR, PROP_MODEL_URL, PROP_ANIMATION_URL,
   PROP_ANIMATION_FPS, PROP_ANIMATION_FRAME_INDEX, PROP_ANIMATION_PLAYING]

/-- The bytes that the attribute block of `encodeEntityEditPacket` for `tag` appends. -/
def payloadOf (x : Ext) (properties : EntityItemProperties) (tag : EntityPropertyList) :
    List Byte :=
  match tag with
  | PROP_POSITION => properties.position.val
  | PROP_RADIUS => properties.radius.val
  | PROP_ROTATION => x.packOrientationQuatToBytes properties.rotation
  | PROP_MASS => properties.mass.val
  | PROP_VELOCITY => properties.velocity.val
  | PROP_GRAVITY => properties.gravity.val
  | PROP_DAMPING => properties.damping.val
  | PROP_LIFETIME => properties.lifetime.val
  | PROP_COLOR => properties.color.val
  | PROP_MODEL_URL => bytesOfQString properties.modelURL
  | PROP_ANIMATION_URL => bytesOfQString properties.animationURL
  | PROP_ANIMATION_FPS => properties.animationFPS.val
  | PROP_ANIMATION_FRAME_INDEX => properties.animationFrameIndex.val
  | PROP_ANIMATION_PLAYING => bytesOfBool properties.animationIsPlaying
  | _ => []

/-- The payloads of the tags of `flags`, concatenated in the order of `wireOrder`. -/
def payloadsOf (x : Ext) (properties : EntityItemProperties) (flags : EntityPropertyFlags) :
    List Byte :=
  ((wireOrder.filter (fun t => t ∈ flags)).map (payloadOf x properties)).flatten

/-- The fields of the entity record that `encodeEntityEditPacket` writes before the
property flags: `lastEdited`, id, creator token (new entities only), type, update delta. -/
def recordHeaderBytes (x : Ext) (id : EntityItemID) (properties : EntityItemProperties) :
    List Byte :=
  properties.lastEdited.val ++ (id.id.val
    ++ ((if id.id = x.NEW_ENTITY then x.byteCountCoded32 id.creatorTokenID else [])
    ++ (x.byteCountCoded32 (properties.type % 4294967296)
    ++ x.byteCountCoded64 0)))

/-- Everything that `encodeEntityEditPacket` writes before the property flags: the
routing prefix and the fields of `recordHeaderBytes`. -/
def headerBytes (x : Ext) (id : EntityItemID) (properties : EntityItemProperties) :
    List Byte :=
  x.rootOctcode ++ recordHeaderBytes x id properties

/-! ## Laws of the collaborators -/

/-- Modelled from the spec: the routing prefix has a self-describing length. -/
def Ext.OctcodeLaw (x : Ext) : Prop :=
  ∀ rest : List Byte, x.bytesOfOctcode (x.rootOctcode ++ rest) = x.rootOctcode.length

/-- Modelled from the spec: VarintCodec on 32-bit values is self-delimiting, decoding
what was encoded whatever follows it. -/
def Ext.ByteCount32Law (x : Ext) : Prop :=
  ∀ v : Nat, v < 4294967296 → ∀ rest : List Byte,
    x.byteCountDecoded32 (x.byteCountCoded32 v ++ rest) = v

/-- Modelled from the spec: VarintCodec on 64-bit values is self-delimiting. -/
def Ext.ByteCount64Law (x : Ext) : Prop :=
  ∀ v : Nat, v < 18446744073709551616 → ∀ rest : List Byte,
    x.byteCountDecoded64 (x.byteCountCoded64 v ++ rest) = v

/-- Modelled from the spec: the PropertyFlagSet encoding is self-delimiting, `decode`
returning the flag set and the bytes consumed. -/
def Ext.FlagsLaw (x : Ext) : Prop :=
  ∀ (f : EntityPropertyFlags) (rest : List Byte),
    x.decodeFlags (x.encodeFlags f ++ rest) = (f, (x.encodeFlags f).length)

/-- Modelled from the spec: the PropertyFlagSet is a bit vector indexed by the tags, so
the length of its encoding is decided by the highest tag present: a flag set whose tags
are all dominated by tags of another one is encoded in no more bytes. -/
def Ext.FlagsLengthLaw (x : Ext) : Prop :=
  ∀ f g : EntityPropertyFlags, (∀ t ∈ f, ∃ u ∈ g, t.index ≤ u.index) →
    (x.encodeFlags f).length ≤ (x.encodeFlags g).length

/-- Assumption on the quaternion packing: unpacking returns the packed value and the
number of bytes it was packed into. -/
def Ext.QuatLaw (x : Ext) : Prop :=
  ∀ (q : quat) (rest : List Byte),
    x.unpackOrientationQuatFromBytes (x.packOrientationQuatToBytes q ++ rest)
      = (q, (x.packOrientationQuatToBytes q).length)

/-- Modelled from the spec: the orientation "uses a packed variable-size encoding": the
unpacking reads the bytes that the packing produced, and only them, and reports their
number.  Nothing is assumed about the value unpacked: the packing may round. -/
def Ext.QuatFramingLaw (x : Ext) : Prop :=
  ∀ (q : quat) (rest : List Byte),
    x.unpackOrientationQuatFromBytes (x.packOrientationQuatToBytes q ++ rest)
      = ((x.unpackOrientationQuatFromBytes (x.packOrientationQuatToBytes q)).1,
          (x.packOrientationQuatToBytes q).length)

/-- The snapshot as its receiver can know it: the rotation is what unpacking gives for
the packed rotation, every other member is as sent. -/
def Ext.received (x : Ext) (p : EntityItemProperties) : EntityItemProperties :=
  { p with
    rotation :=
      (x.unpackOrientationQuatFromBytes (x.packOrientationQuatToBytes p.rotation)).1 }

/-! ## A reference instance of the collaborators -/

/-- Variable-length coding of an unsigned integer, seven bits a byte, low bits first;
the high bit of a byte says that another byte follows. -/
def varint : Nat → Nat → List Byte
  | 0, _ => []
  | k + 1, v =>
    if v < 128 then [UInt8.ofNat v] else UInt8.ofNat (v % 128 + 128) :: varint k (v / 128)

/-- The value of the variable-length code at the start of a byte sequence. -/
def unvarint : List Byte → Nat
  | [] => 0
  | b :: bs => if b.toNat < 128 then b.toNat else (b.toNat - 128) + 128 * unvarint bs

/-- All tags in the order of the enumeration. -/
def allTags : List EntityPropertyList :=
  [PROP_PAGED_PROPERTY, PROP_CUSTOM_PROPERTIES_INCLUDED, PROP_VISIBLE, PROP_POSITION,
   PROP_RADIUS, PROP_ROTATION, PROP_MASS, PROP_VELOCITY, PROP_GRAVITY, PROP_DAMPING,
   PROP_LIFETIME, PROP_SCRIPT, PROP_COLOR, PROP_MODEL_URL, PROP_ANIMATION_URL,
   PROP_ANIMATION_FPS, PROP_ANIMATION_FRAME_INDEX, PROP_ANIMATION_PLAYING, PROP_LAST_ITEM]

/-- The number whose binary digits are `bits`, lowest first. -/
def ofBits : List Bool → Nat
  | [] => 0
  | b :: bs => (if b then 1 else 0) + 2 * ofBits bs

/-- Binary digit `i` of `v`. -/
def bitAt (v i : Nat) : Bool := decide (v / 2 ^ i % 2 = 1)

/-- The bit vector of a flag set as a number: bit `t.index` is set when `t` is present. -/
def flagBits (f : EntityPropertyFlags) : Nat :=
  ofBits (allTags.map (fun t => decide (t ∈ f)))

/-- The flag set of a bit vector. -/
def flagsOfBits (v : Nat) : EntityPropertyFlags :=
  (allTags.filter (fun t => bitAt v t.index)).toFinset

/-- A reference instance: the sentinel id is all ones, the routing prefix of the root is
the single byte 0 (no three-bit section), integers are coded by `varint`, a flag set is
the `varint` of its bit vector, a quaternion is packed as its sixteen bytes. -/
def refExt : Ext where
  NEW_ENTITY := ⟨List.replicate 16 255, by decide⟩
  UNKNOWN_ENTITY_TOKEN := 4294967295
  USE_EXISTING_CREATED_TIME := ⟨[254, 255, 255, 255, 255, 255, 255, 255], by decide⟩
  rootOctcode := [0]
  bytesOfOctcode := fun data => 1 + (3 * (peek data 0).toNat + 7) / 8
  byteCountCoded32 := varint 5
  byteCountDecoded32 := unvarint
  byteCountCoded64 := varint 10
  byteCountDecoded64 := unvarint
  encodeFlags := fun f => varint 3 (flagBits f)
  decodeFlags := fun bytes => (flagsOfBits (unvarint bytes), (varint 3 (unvarint bytes)).length)
  packOrientationQuatToBytes := fun q => q.val
  unpackOrientationQuatFromBytes := fun bytes => (readRaw 16 bytes 0, 16)

/-! ## Further instances of the collaborators -/

/-- The tag at the other end of the enumeration: the tag with index `i` goes to the tag
with index `18 - i`. -/
def mirrored (t : EntityPropertyList) : EntityPropertyList :=
  allTags.getD (18 - t.index) PROP_LAST_ITEM

/-- An instance whose flag coding is the `varint` of a bit vector, as in `refExt`, with
the tags assigned to the bits from the other end: the tag with index `i` has the bit
`18 - i`, so that PROP_LAST_ITEM has the lowest bit and is coded in one byte.  The coding
is self-delimiting and a subset is never coded in more bytes than a superset.  Everything
else is as in `refExt`. -/
def mirroredExt : Ext :=
  { refExt with
    encodeFlags := fun f => varint 3 (flagBits (f.image mirrored))
    decodeFlags := fun bytes =>
      ((flagsOfBits (unvarint bytes)).image mirrored, (varint 3 (unvarint bytes)).length) }

/-- An instance whose quaternion packing rounds: the first eight of the sixteen bytes are
sent, and the receiver fills up with zero bytes.  Everything else is as in `refExt`. -/
def lossyExt : Ext :=
  { refExt with
    packOrientationQuatToBytes := fun q => q.val.take 8
    unpackOrientationQuatFromBytes := fun bytes =>
      (⟨readBytes 8 bytes 0 ++ List.replicate 8 0, by simp [readBytes]⟩, 8) }

/-! ## Auxiliary definitions for the proofs -/

/-- One attribute block with the payload of its tag. -/
def appendStep (x : Ext) (properties : EntityItemProperties)
    (requestedProperties : EntityPropertyFlags) (s : EncodeState) (tag : EntityPropertyList) :
    EncodeState :=
  appendProperty requestedProperties tag (payloadOf x properties tag) s

/-- The payloads of the requested tags among `ts`, in the order of `ts`. -/
def payloadsIn (x : Ext) (p : EntityItemProperties) (req : EntityPropertyFlags)
    (ts : List EntityPropertyList) : List Byte :=
  ((ts.filter (fun t => t ∈ req)).map (payloadOf x p)).flatten

/-- The second buffer continues the first one: same capacity, same routing-prefix mark,
and the bytes of the first are an initial segment of the bytes of the second. -/
def OctreePacketData.Grows (p q : OctreePacketData) : Prop :=
  q.targetSize = p.targetSize ∧ q.subTreeAt = p.subTreeAt
    ∧ ∃ d, q.uncompressed = p.uncompressed ++ d

/-- The packet after the routing prefix was written. -/
def prefixPacket (x : Ext) (sizeIn : Int) : OctreePacketData :=
  OctreePacketData.mk sizeIn x.rootOctcode 0

/-- The locals after the attribute phase, for a routing prefix that fitted. -/
def attributePhase (x : Ext) (id : EntityItemID) (p : EntityItemProperties) (sizeIn : Int) :
    EncodeState :=
  if (appendHeader x id p (prefixPacket x sizeIn)).headerFits then
    wireOrder.foldl (appendStep x p p.getChangedProperties)
      (EncodeState.mk (appendHeader x id p (prefixPacket x sizeIn)).packetData ∅
        p.getChangedProperties 0 AppendState.COMPLETED)
  else
    EncodeState.mk (appendHeader x id p (prefixPacket x sizeIn)).packetData {PROP_LAST_ITEM}
      p.getChangedProperties 0 AppendState.COMPLETED

/-- Copying the attribute of `tag` from a snapshot into a target through its setter. -/
def copyAttribute (tag : EntityPropertyList) (src tgt : EntityItemProperties) :
    EntityItemProperties :=
  match tag with
  | PROP_POSITION => tgt.setPosition src.position
  | PROP_RADIUS => tgt.setRadius src.radius
  | PROP_ROTATION => tgt.setRotation src.rotation
  | PROP_MASS => tgt.setMass src.mass
  | PROP_VELOCITY => tgt.setVelocity src.velocity
  | PROP_GRAVITY => tgt.setGravity src.gravity
  | PROP_DAMPING => tgt.setDamping src.damping
  | PROP_LIFETIME => tgt.setLifetime src.lifetime
  | PROP_COLOR => tgt.setColor src.color
  | PROP_MODEL_URL => tgt.setModelURL src.modelURL
  | PROP_ANIMATION_URL => tgt.setAnimationURL src.animationURL
  | PROP_ANIMATION_FPS => tgt.setAnimationFPS src.animationFPS
  | PROP_ANIMATION_FRAME_INDEX => tgt.setAnimationFrameIndex src.animationFrameIndex
  | PROP_ANIMATION_PLAYING => tgt.setAnimationIsPlaying src.animationIsPlaying
  | _ => tgt

/-- The target after the attributes of the tags of `flags` were copied from the
snapshot, in the order of the blocks. -/
def applyEdits (src : EntityItemProperties) (flags : EntityPropertyFlags)
    (ts : List EntityPropertyList) (tgt : EntityItemProperties) : EntityItemProperties :=
  ts.foldl (fun acc t => if t ∈ flags then copyAttribute t src acc else acc) tgt

/-- The value of an attribute. -/
inductive AttributeValue
  | vector (v : vec3)
  | scalar (v : float32)
  | rotation (v : quat)
  | colour (v : xColor)
  | text (v : QString)
  | flag (v : Bool)
  | absent
  deriving DecidableEq

/-- The value that `properties` holds for the attribute of `tag` (reserved tags and the
end marker have none). -/
def attributeOf (tag : EntityPropertyList) (p : EntityItemProperties) : AttributeValue :=
  match tag with
  | PROP_POSITION => AttributeValue.vector p.position
  | PROP_RADIUS => AttributeValue.scalar p.radius
  | PROP_ROTATION => AttributeValue.rotation p.rotation
  | PROP_MASS => AttributeValue.scalar p.mass
  | PROP_VELOCITY => AttributeValue.vector p.velocity
  | PROP_GRAVITY => AttributeValue.vector p.gravity
  | PROP_DAMPING => AttributeValue.scalar p.damping
  | PROP_LIFETIME => AttributeValue.scalar p.lifetime
  | PROP_SCRIPT => AttributeValue.text p.script
  | PROP_COLOR => AttributeValue.colour p.color
  | PROP_MODEL_URL => AttributeValue.text p.modelURL
  | PROP_ANIMATION_URL => AttributeValue.text p.animationURL
  | PROP_ANIMATION_FPS => AttributeValue.scalar p.animationFPS
  | PROP_ANIMATION_FRAME_INDEX => AttributeValue.scalar p.animationFrameIndex
  | PROP_ANIMATION_PLAYING => AttributeValue.flag p.animationIsPlaying
  | _ => AttributeValue.absent

/-- The changed bit that `properties` holds for the attribute of `tag`. -/
def changedBitOf (tag : EntityPropertyList) (p : EntityItemProperties) : Bool :=
  match tag with
  | PROP_POSITION => p.positionChanged
  | PROP_RADIUS => p.radiusChanged
  | PROP_ROTATION => p.rotationChanged
  | PROP_MASS => p.massChanged
  | PROP_VELOCITY => p.velocityChanged
  | PROP_GRAVITY => p.gravityChanged
  | PROP_DAMPING => p.dampingChanged
  | PROP_LIFETIME => p.lifetimeChanged
  | PROP_SCRIPT => p.scriptChanged
  | PROP_COLOR => p.colorChanged
  | PROP_MODEL_URL => p.modelURLChanged
  | PROP_ANIMATION_URL => p.animationURLChanged
  | PROP_ANIMATION_FPS => p.animationFPSChanged
  | PROP_ANIMATION_FRAME_INDEX => p.animationFrameIndexChanged
  | PROP_ANIMATION_PLAYING => p.animationIsPlayingChanged
  | _ => false

/-- The members of `properties` that belong to no tag of a flag set. -/
structure OtherMembers where
  id : QUuid
  idSet : Bool
  lastEdited : quint64
  created : quint64
  type : Nat
  glowLevel : float32
  glowLevelChanged : Bool
  defaultSettings : Bool
  deriving DecidableEq

/-- The members of `properties` outside the attributes with a tag. -/
def otherMembers (p : EntityItemProperties) : OtherMembers :=
  { id := p.id, idSet := p.idSet, lastEdited := p.lastEdited, created := p.created,
    type := p.type, glowLevel := p.glowLevel, glowLevelChanged := p.glowLevelChanged,
    defaultSettings := p.defaultSettings }

/-! ## Example inputs -/

/-- A snapshot with every value zero and no changed bit. -/
def blankProperties : EntityItemProperties where
  id := Raw.zero 16
  idSet := false
  lastEdited := Raw.zero 8
  created := Raw.zero 8
  type := 0
  position := Raw.zero 12
  radius := Raw.zero 4
  rotation := Raw.zero 16
  mass := Raw.zero 4
  velocity := Raw.zero 12
  gravity := Raw.zero 12
  damping := Raw.zero 4
  lifetime := Raw.zero 4
  script := []
  positionChanged := false
  radiusChanged := false
  rotationChanged := false
  massChanged := false
  velocityChanged := false
  gravityChanged := false
  dampingChanged := false
  lifetimeChanged := false
  scriptChanged := false
  color := Raw.zero 3
  modelURL := []
  animationURL := []
  animationIsPlaying := false
  animationFrameIndex := Raw.zero 4
  animationFPS := Raw.zero 4
  glowLevel := Raw.zero 4
  colorChanged := false
  modelURLChanged := false
  animationURLChanged := false
  animationIsPlayingChanged := false
  animationFrameIndexChanged := false
  animationFPSChanged := false
  glowLevelChanged := false
  defaultSettings := false

/-- An edit of type 2 in which only position = (1, 2, 3) and radius = 0.5 are marked
changed (single-precision values in little-endian memory order). -/
def exampleEdit : EntityItemProperties :=
  { blankProperties with
    lastEdited := ⟨[1, 2, 3, 4, 5, 6, 7, 8], rfl⟩
    type := 2
    position := ⟨[0, 0, 128, 63, 0, 0, 0, 64, 0, 0, 64, 64], rfl⟩
    radius := ⟨[0, 0, 0, 63], rfl⟩
    positionChanged := true
    radiusChanged := true }

/-- The example edit with a rotation, marked changed as well. -/
def rotatedEdit : EntityItemProperties :=
  { exampleEdit with
    rotation := ⟨[1, 2, 3, 4, 5, 6, 7, 8, 9, 10, 11, 12, 13, 14, 15, 16], rfl⟩
    rotationChanged := true }

/-- The id of an existing entity. -/
def knownID : EntityItemID :=
  { id := ⟨[1, 2, 3, 4, 5, 6, 7, 8, 9, 10, 11, 12, 13, 14, 15, 16], rfl⟩
    creatorTokenID := 0
    isKnownID := true }

/-- The id of a new entity with creator token 300. -/
def newID : EntityItemID :=
  { id := refExt.NEW_ENTITY, creatorTokenID := 300, isKnownID := false }

/-- The attribute order as the specification names it: position, radius, rotation, mass,
velocity, gravity, damping, lifetime, color, model URL, animation URL, animation FPS,
animation frame index, animation playing. -/
def specifiedOrder : List EntityPropertyList :=
  [PROP_POSITION, PROP_RADIUS, PROP_ROTATION, PROP_MASS, PROP_VELOCITY, PROP_GRAVITY,
   PROP_DAMPING, PROP_LIFETIME, PROP_COLOR, PROP_MODEL_URL, PROP_ANIMATION_URL,
   PROP_ANIMATION_FPS, PROP_ANIMATION_FRAME_INDEX, PROP_ANIMATION_PLAYING]

/-- Default constants for the examples: every value zero, no script. -/
def refDefaults : EntityDefaults where
  UNKNOWN_ENTITY_ID := Raw.zero 16
  UNKNOWN_CREATED_TIME := Raw.zero 8
  Unknown := 0
  ENTITY_DEFAULT_RADIUS := Raw.zero 4
  ENTITY_DEFAULT_ROTATION := Raw.zero 16
  DEFAULT_MASS := Raw.zero 4
  DEFAULT_VELOCITY := Raw.zero 12
  DEFAULT_GRAVITY := Raw.zero 12
  DEFAULT_DAMPING := Raw.zero 4
  DEFAULT_LIFETIME := Raw.zero 4
  DEFAULT_SCRIPT := []
  ENTITY_DEFAULT_ANIMATION_FPS := Raw.zero 4

/-- The fifteen tags that `getChangedProperties` can report. -/
def reportableTags : EntityPropertyFlags :=
  {PROP_POSITION, PROP_RADIUS, PROP_ROTATION, PROP_MASS, PROP_VELOCITY, PROP_GRAVITY,
   PROP_DAMPING, PROP_LIFETIME, PROP_SCRIPT, PROP_COLOR, PROP_MODEL_URL, PROP_ANIMATION_URL,
   PROP_ANIMATION_PLAYING, PROP_ANIMATION_FRAME_INDEX, PROP_ANIMATION_FPS}

/-- The example edit with the type code 4000000000. -/
def unknownTypeEdit : EntityItemProperties :=
  { exampleEdit with type := 4000000000 }

/-- The packet of `unknownTypeEdit` for the entity `knownID` under the reference
collaborators: routing prefix, timestamp 1..8, id 1..16, type code 4000000000 (five
bytes), update delta 0, flags of position and radius, position (1, 2, 3), radius 0.5. -/
def unknownTypePacket : List Byte :=
  [0, 1, 2, 3, 4, 5, 6, 7, 8, 1, 2, 3, 4, 5, 6, 7, 8, 9, 10, 11, 12, 13, 14, 15, 16,
   128, 208, 172, 243, 14, 0, 24,
   0, 0, 128, 63, 0, 0, 0, 64, 0, 0, 64, 64, 0, 0, 0, 63]

/-- An edit of type 1 that sets the model URL to the two characters "ab", the animation
URL to the two characters "cd" and the animation playback flag to true. -/
def urlEdit : EntityItemProperties :=
  { blankProperties with
    type := 1
    modelURL := [97, 98]
    modelURLChanged := true
    animationURL := [99, 100]
    animationURLChanged := true
    animationIsPlaying := true
    animationIsPlayingChanged := true }

/-- The packet of `urlEdit` for the entity `knownID` under the reference collaborators:
routing prefix, timestamp 0, id 1..16, type 1, update delta 0, flags of model URL,
animation URL and animation playing (three bytes), the text field of the model URL
(length 2, then "ab"), the text field of the animation URL (length 2, then "cd"), the
flag byte 1. -/
def urlPacket : List Byte :=
  [0, 0, 0, 0, 0, 0, 0, 0, 0, 1, 2, 3, 4, 5, 6, 7, 8, 9, 10, 11, 12, 13, 14, 15, 16,
   1, 0, 128, 192, 9,
   2, 0, 97, 98,
   2, 0, 99, 100,
   1]

/-- The packet `urlPacket` with the flag byte 7 in place of 1: every byte of both text
fields is as in `urlPacket`. -/
def urlPacketOtherFlag : List Byte :=
  [0, 0, 0, 0, 0, 0, 0, 0, 0, 1, 2, 3, 4, 5, 6, 7, 8, 9, 10, 11, 12, 13, 14, 15, 16,
   1, 0, 128, 192, 9,
   2, 0, 97, 98,
   2, 0, 99, 100,
   7]

/-! ## The payload widths as the specification names them -/

/-- The width that the specification gives the payload of `tag` when it is read at offset
`pos` of `data`: 12 bytes for a vector of three floats, 4 for a scalar float, 1 for a
boolean flag, 3 for a colour, `2 + declared length` for a text field, the size that the
unpacking reports for the packed orientation, and nothing for a tag without payload. -/
def specifiedWidth (x : Ext) (data : List Byte) (tag : EntityPropertyList) (pos : Nat) : Nat :=
  match tag with
  | PROP_POSITION => 12
  | PROP_VELOCITY => 12
  | PROP_GRAVITY => 12
  | PROP_RADIUS => 4
  | PROP_MASS => 4
  | PROP_DAMPING => 4
  | PROP_LIFETIME => 4
  | PROP_ANIMATION_FPS => 4
  | PROP_ANIMATION_FRAME_INDEX => 4
  | PROP_ANIMATION_PLAYING => 1
  | PROP_COLOR => 3
  | PROP_MODEL_URL => 2 + readU16 data pos
  | PROP_ANIMATION_URL => 2 + readU16 data pos
  | PROP_ROTATION => (x.unpackOrientationQuatFromBytes (data.drop pos)).2
  | _ => 0

/-- The sum of the widths of the flagged tags of `ts`, the first one read at offset `pos`
and each further one where the one before it ends. -/
def specifiedWidths (x : Ext) (data : List Byte) (flags : EntityPropertyFlags) :
    List EntityPropertyList → Nat → Nat
  | [], _ => 0
  | t :: ts, pos =>
    if t ∈ flags then
      specifiedWidth x data t pos
        + specifiedWidths x data flags ts (pos + specifiedWidth x data t pos)
    else specifiedWidths x data flags ts pos

/-- The width of the payload of a tag whose payload has a fixed width, and 0 for the
other tags. -/
def fixedWidth (tag : EntityPropertyList) : Nat :=
  match tag with
  | PROP_POSITION => 12
  | PROP_VELOCITY => 12
  | PROP_GRAVITY => 12
  | PROP_RADIUS => 4
  | PROP_MASS => 4
  | PROP_DAMPING => 4
  | PROP_LIFETIME => 4
  | PROP_ANIMATION_FPS => 4
  | PROP_ANIMATION_FRAME_INDEX => 4
  | PROP_ANIMATION_PLAYING => 1
  | PROP_COLOR => 3
  | _ => 0

/-! ## What a script object supplies -/

/-- The tags in the order of the blocks of `copyFromScriptValue`. -/
def scriptOrder : List EntityPropertyList :=
  [PROP_POSITION, PROP_RADIUS, PROP_ROTATION, PROP_MASS, PROP_VELOCITY, PROP_GRAVITY,
   PROP_DAMPING, PROP_LIFETIME, PROP_SCRIPT, PROP_COLOR, PROP_MODEL_URL, PROP_ANIMATION_URL,
   PROP_ANIMATION_PLAYING, PROP_ANIMATION_FRAME_INDEX, PROP_ANIMATION_FPS]

/-- A scalar that a script object supplies under `name`: nothing when the property is
missing. -/
def suppliedScalar (object : QScriptValue) (name : String) : Option AttributeValue :=
  if (object.property name).isValid then
    some (AttributeValue.scalar (object.property name).toFloat)
  else none

/-- A vector that a script object supplies under `name`: nothing when the property or one
of its components `x`, `y`, `z` is missing. -/
def suppliedVector (object : QScriptValue) (name : String) : Option AttributeValue :=
  if (object.property name).isValid
      ∧ ((object.property name).property "x").isValid
      ∧ ((object.property name).property "y").isValid
      ∧ ((object.property name).property "z").isValid then
    some (AttributeValue.vector (mkVec3 ((object.property name).property "x").toFloat
      ((object.property name).property "y").toFloat
      ((object.property name).property "z").toFloat))
  else none

/-- A text that a script object supplies under `name`: nothing when the property is
missing. -/
def suppliedText (object : QScriptValue) (name : String) : Option AttributeValue :=
  if (object.property name).isValid then
    some (AttributeValue.text (object.property name).toString)
  else none

/-- The complete valid value that a script object supplies for the attribute of `tag`:
nothing when the property is missing or when a component of a vector, of the rotation or
of the colour is missing. -/
def suppliedValue (object : QScriptValue) (tag : EntityPropertyList) : Option AttributeValue :=
  match tag with
  | PROP_POSITION => suppliedVector object "position"
  | PROP_RADIUS => suppliedScalar object "radius"
  | PROP_ROTATION =>
    if (object.property "rotation").isValid
        ∧ ((object.property "rotation").property "x").isValid
        ∧ ((object.property "rotation").property "y").isValid
        ∧ ((object.property "rotation").property "z").isValid
        ∧ ((object.property "rotation").property "w").isValid then
      some (AttributeValue.rotation (mkQuat
        ((object.property "rotation").property "x").toFloat
        ((object.property "rotation").property "y").toFloat
        ((object.property "rotation").property "z").toFloat
        ((object.property "rotation").property "w").toFloat))
    else none
  | PROP_MASS => suppliedScalar object "mass"
  | PROP_VELOCITY => suppliedVector object "velocity"
  | PROP_GRAVITY => suppliedVector object "gravity"
  | PROP_DAMPING => suppliedScalar object "damping"
  | PROP_LIFETIME => suppliedScalar object "lifetime"
  | PROP_SCRIPT => suppliedText object "script"
  | PROP_COLOR =>
    if (object.property "color").isValid
        ∧ ((object.property "color").property "red").isValid
        ∧ ((object.property "color").property "green").isValid
        ∧ ((object.property "color").property "blue").isValid then
      some (AttributeValue.colour (mkColor
        ((object.property "color").property "red").toInt
        ((object.property "color").property "green").toInt
        ((object.property "color").property "blue").toInt))
    else none
  | PROP_MODEL_URL => suppliedText object "modelURL"
  | PROP_ANIMATION_URL => suppliedText object "animationURL"
  | PROP_ANIMATION_PLAYING =>
    if (object.property "animationIsPlaying").isValid then
      some (AttributeValue.flag (object.property "animationIsPlaying").toBool)
    else none
  | PROP_ANIMATION_FRAME_INDEX => suppliedScalar object "animationFrameIndex"
  | PROP_ANIMATION_FPS => suppliedScalar object "animationFPS"
  | _ => none

/-- Whether two values of an attribute differ, by the comparison of their C++ type:
`operator!=` of `float`, `glm::vec3` and `glm::quat` for numbers, plain inequality for
colours, texts and flags. -/
def valueDiffers (e : ScriptExt) (a b : AttributeValue) : Bool :=
  match a, b with
  | AttributeValue.scalar u, AttributeValue.scalar v => e.floatNe u v
  | AttributeValue.vector u, AttributeValue.vector v => e.vec3Ne u v
  | AttributeValue.rotation u, AttributeValue.rotation v => e.quatNe u v
  | AttributeValue.colour u, AttributeValue.colour v => decide (u ≠ v)
  | AttributeValue.text u, AttributeValue.text v => decide (u ≠ v)
  | AttributeValue.flag u, AttributeValue.flag v => decide (u ≠ v)
  | _, _ => false

/-- A reference instance of the comparisons: object representations are compared (which
is `operator!=` on numbers that are neither NaN nor zeros of different sign), every type
name stands for the type 1, and the clock shows 9. -/
def refScriptExt : ScriptExt where
  floatNe := fun a b => decide (a ≠ b)
  vec3Ne := fun a b => decide (a ≠ b)
  quatNe := fun a b => decide (a ≠ b)
  getEntityTypeFromName := fun _ => 1
  usecTimestampNow := ⟨[9, 0, 0, 0, 0, 0, 0, 0], rfl⟩

/-- A script value that is the number with single-precision representation `f`. -/
def scriptNumber (f : float32) : QScriptValue :=
  QScriptValue.value f 0 false [] []

/-- A script object with the radius 0.5, a mass of 0 and a velocity whose component `z`
is missing. -/
def exampleScript : QScriptValue :=
  QScriptValue.value (Raw.zero 4) 0 false []
    [("radius", scriptNumber ⟨[0, 0, 0, 63], rfl⟩),
     ("mass", scriptNumber (Raw.zero 4)),
     ("velocity", QScriptValue.value (Raw.zero 4) 0 false []
        [("x", scriptNumber ⟨[0, 0, 128, 63], rfl⟩), ("y", scriptNumber (Raw.zero 4))]),
     ("glowLevel", scriptNumber ⟨[0, 0, 128, 63], rfl⟩)]

/-! ## The attribute phase block by block -/

/-- The locals of the attribute phase when the header fitted, before the first block. -/
def attributeStart (x : Ext) (id : EntityItemID) (p : EntityItemProperties) (sizeIn : Int) :
    EncodeState :=
  EncodeState.mk (appendHeader x id p (prefixPacket x sizeIn)).packetData ∅
    p.getChangedProperties 0 AppendState.COMPLETED

/-- The locals of the attribute phase right before the block of `tag` runs. -/
def stateBefore (x : Ext) (id : EntityItemID) (p : EntityItemProperties) (sizeIn : Int)
    (tag : EntityPropertyList) : EncodeState :=
  (wireOrder.takeWhile (fun t => t != tag)).foldl (appendStep x p p.getChangedProperties)
    (attributeStart x id p sizeIn)

/-- Whether the payload of `tag` fitted when its block tried to append it. -/
def appendSucceeded (x : Ext) (id : EntityItemID) (p : EntityItemProperties) (sizeIn : Int)
    (tag : EntityPropertyList) : Bool :=
  ((stateBefore x id p sizeIn tag).packetData.append (payloadOf x p tag)).1

/-! ## The log handler (`libraries/shared/src/LogHandler.cpp`)

Conventions of this part.

* Every member function holds the recursive mutex for its whole body, so a call is one
  atomic step on the members: a function from the handler to the handler after the call,
  the value returned and what the calls of `fprintf(stdout, "%s", ...)` wrote, in order.
* A `const char*` is the memory behind it: the string it stands for ends before the first
  NUL byte (`cString`).  So `fprintf(stdout, "%s", qPrintable(logMessage))` writes
  `logMessage` up to its first NUL byte only.
* An execution that is undefined in C++ (an index outside a `std::vector`, `++` on an `int`
  that is `INT_MAX`, a `resize` to a negative size) is a `Fault`.
* What the calls read from Qt and from the process (the clock, the process and thread
  identifiers, regular-expression matching) is a parameter.
-/

/-- The 8-bit form of a string literal of the source. -/
def literal (s : String) : QString := s.toList.map (fun c => UInt8.ofNat c.toNat)

/-- What makes an execution undefined. -/
inductive Fault
  | indexOutOfRange
  | signedOverflow
  | lengthError
  deriving DecidableEq

deriving instance DecidableEq for Except

/-- Largest value of an `int`. -/
def INT_MAX : Int := 2147483647

/-- The effect of `++c` on the `int` `c`. -/
def increment (c : Int) : Except Fault Int :=
  if c < INT_MAX then Except.ok (c + 1) else Except.error Fault.signedOverflow

/-- Reading `v[i]` of a `std::vector` with an `int` index. -/
def vectorAt {α : Type} (v : List α) (i : Int) : Except Fault α :=
  if 0 ≤ i then
    match v[i.toNat]? with
    | some a => Except.ok a
    | none => Except.error Fault.indexOutOfRange
  else Except.error Fault.indexOutOfRange

/-- The assignment `v[i] = a` on a `std::vector` with an `int` index. -/
def vectorSet {α : Type} (v : List α) (i : Int) (a : α) : Except Fault (List α) :=
  if 0 ≤ i ∧ i.toNat < v.length then Except.ok (v.set i.toNat a)
  else Except.error Fault.indexOutOfRange

/-- The call `v.resize(n)` of a `std::vector<QString>` with the `int` `n`: the first `n`
elements, filled up with empty strings. -/
def vectorResize (v : List QString) (n : Int) : Except Fault (List QString) :=
  if 0 ≤ n then Except.ok (v.take n.toNat ++ List.replicate (n.toNat - v.length) [])
  else Except.error Fault.lengthError

/-- Modelled from the spec: the values of `LogMsgType`, declared in `LogHandler.h`. The six
enumerators are the labels of the `switch` in `stringForLogType`; `other value` is a value
of the underlying type that is none of them (`verboseMessageHandler` casts a `QtMsgType`). -/
inductive LogMsgType
  | LogInfo
  | LogDebug
  | LogWarning
  | LogCritical
  | LogFatal
  | LogSuppressed
  | other (value : Int)
  deriving DecidableEq

/-- The source function `stringForLogType` (lines 46–63). -/
def stringForLogType : LogMsgType → QString
  | LogMsgType.LogInfo => literal "INFO"
  | LogMsgType.LogDebug => literal "DEBUG"
  | LogMsgType.LogWarning => literal "WARNING"
  | LogMsgType.LogCritical => literal "CRITICAL"
  | LogMsgType.LogFatal => literal "FATAL"
  | LogMsgType.LogSuppressed => literal "SUPPRESS"
  | _ => literal "UNKNOWN"

def DATE_STRING_FORMAT : QString := literal "MM/dd hh:mm:ss"

def DATE_STRING_FORMAT_WITH_MILLISECONDS : QString := literal "MM/dd hh:mm:ss.zzz"

/-- The two fields of the Qt structure `QMessageLogContext` that the handler reads; a null
pointer is `none`. -/
structure QMessageLogContext where
  category : Option QString
  file : Option QString
  deriving DecidableEq

/-- The default-constructed context `QMessageLogContext()`: null pointers. -/
def QMessageLogContext.null : QMessageLogContext := { category := none, file := none }

/-- Regular expressions of Qt: `indexIn regexString message` is
`QRegExp(regexString).indexIn(message)`, `-1` when the expression matches nowhere. -/
structure LogExt where
  indexIn : QString → QString → Int

/-- What one call reads from its process: `currentDateTime format` is
`QDateTime::currentDateTime().toString(format)`. -/
structure Caller where
  currentDateTime : QString → QString
  applicationPid : Int
  currentThreadId : Nat

/-- Modelled from the spec: an element of `_onetimeMessages` (declared in `LogHandler.h`):
the expression and the number of matches counted so far. -/
structure OnceOnlyMessage where
  regexp : QString
  messageCount : Int
  deriving DecidableEq

/-- Modelled from the spec: the members of `LogHandler` (declared in `LogHandler.h`), under
the names the source uses without the leading underscore. -/
structure LogHandler where
  targetName : QString
  shouldOutputProcessID : Bool
  shouldOutputThreadID : Bool
  shouldDisplayMilliseconds : Bool
  onetimeMessages : List OnceOnlyMessage
  currentMessageID : Int
  repeatCounts : List Int
  repeatedMessageStrings : List QString
  deriving DecidableEq

/-- Modelled from the spec: the members as `LogHandler.h` initialises them, before the body
of the constructor runs: no target name, the options off, no once-only expression,
`_currentMessageID` zero and both vectors empty. -/
def LogHandler.initial : LogHandler :=
  { targetName := [], shouldOutputProcessID := false, shouldOutputThreadID := false,
    shouldDisplayMilliseconds := false, onetimeMessages := [], currentMessageID := 0,
    repeatCounts := [], repeatedMessageStrings := [] }

/-- The Qt function `QString::split(sep)`: the pieces between the separators, empty pieces
kept. -/
def QString.split (sep : Byte) : QString → List QString
  | [] => [[]]
  | b :: rest =>
    if b = sep then [] :: QString.split sep rest
    else
      match QString.split sep rest with
      | [] => [[b]]
      | part :: parts => (b :: part) :: parts

/-- The Qt function `QStringList::join(sep)`. -/
def QStringList.join (sep : QString) : List QString → QString
  | [] => []
  | [part] => part
  | part :: next :: parts => part ++ sep ++ QStringList.join sep (next :: parts)

/-- The Qt functions `QString::setNum(n)` and `QString::arg(n)` of an integer: its decimal
digits. -/
def QString.setNum (n : Int) : QString :=
  (if n < 0 then [45] else []) ++ (Nat.toDigits 10 n.natAbs).map (fun c => UInt8.ofNat c.toNat)

/-- The value of `QString("[%1] [%2] [%3]").arg(a1, a2, a3)`: Qt replaces the three markers
in one pass. -/
def arg3 (a1 a2 a3 : QString) : QString :=
  literal "[" ++ a1 ++ literal "] [" ++ a2 ++ literal "] [" ++ a3 ++ literal "]"

/-- The value of `QString(" [%1]").arg(a)`. -/
def arg1 (a : QString) : QString := literal " [" ++ a ++ literal "]"

/-- The string `QString(p)` of a `const char*`: empty for the null pointer, else the bytes
before the first NUL byte. -/
def ofCString (p : Option QString) : QString := cString (p.getD [])

/-- The call `strrchr(file, 47)` followed by `basename + 1`: what follows the last slash,
`none` when `file` has no slash. -/
def basename (file : QString) : Option QString :=
  if 47 ∈ file then some (file.reverse.takeWhile (fun b => b != 47)).reverse else none

/-- Outcome of the loop over `_onetimeMessages`: the elements after the loop and whether
the loop left `printMessage` through `return QString()`. -/
structure Scanned where
  onetimeMessages : List OnceOnlyMessage
  suppressed : Bool
  deriving DecidableEq

/-- The loop of `printMessage` over `_onetimeMessages` (lines 116–126). The elements are
visited by reference, so `messageCount++` changes the stored element. -/
def scanOnetimeMessages (x : LogExt) (message : QString) :
    List OnceOnlyMessage → Except Fault Scanned
  | [] => Except.ok { onetimeMessages := [], suppressed := false }
  | onceOnly :: rest =>
    if x.indexIn onceOnly.regexp message != -1 then
      match increment onceOnly.messageCount with
      | Except.error e => Except.error e
      | Except.ok count =>
        Except.ok
          { onetimeMessages := { onceOnly with messageCount := count } :: rest,
            suppressed := !(onceOnly.messageCount == 0) }
    else
      match scanOnetimeMessages x message rest with
      | Except.error e => Except.error e
      | Except.ok s =>
        Except.ok { onetimeMessages := onceOnly :: s.onetimeMessages, suppressed := s.suppressed }

/-- What `printMessage` appends for a `qml` message (lines 154–158): the name of the source
file without its directories, in brackets; nothing for another category, a null pointer or
a file name without a slash.  `strcmp` and `strrchr` see the C strings. -/
def sourceFileField (context : QMessageLogContext) : QString :=
  match context.category, context.file with
  | some category, some file =>
    if cString category = literal "qml" then
      match basename (cString file) with
      | some name => arg1 name
      | none => []
    else []
  | _, _ => []

/-- The local `prefixString` of `printMessage` (lines 132–158). -/
def LogHandler.prefixString (h : LogHandler) (now : Caller) (type : LogMsgType)
    (context : QMessageLogContext) : QString :=
  let dateFormat :=
    if h.shouldDisplayMilliseconds then DATE_STRING_FORMAT_WITH_MILLISECONDS
    else DATE_STRING_FORMAT
  let p0 := arg3 (now.currentDateTime dateFormat) (stringForLogType type)
    (ofCString context.category)
  let p1 := if h.shouldOutputProcessID then p0 ++ arg1 (QString.setNum now.applicationPid) else p0
  let p2 := if h.shouldOutputThreadID then p1 ++ arg1 (QString.setNum now.currentThreadId) else p1
  let p3 := if !h.targetName.isEmpty then p2 ++ arg1 h.targetName else p2
  p3 ++ sourceFileField context

/-- The local `logMessage` of `printMessage` (line 160): `"%1 %2\n"` filled with the
prefix and the message whose lines are joined by newline, prefix and a space. -/
def LogHandler.logMessage (h : LogHandler) (now : Caller) (type : LogMsgType)
    (context : QMessageLogContext) (message : QString) : QString :=
  h.prefixString now type context ++ literal " " ++
    QStringList.join ([10] ++ h.prefixString now type context ++ literal " ")
      (QString.split 10 message) ++ [10]

/-- Result of `printMessage`: the handler after the call, the string returned and what was
written to `stdout`, one element for each call of `fprintf`. -/
structure Printed where
  handler : LogHandler
  returned : QString
  written : List QString
  deriving DecidableEq

/-- The member function `LogHandler::printMessage` (lines 108–168).  Line 162 writes
`qPrintable(logMessage)` with the format `%s`, which stops at the first NUL byte; the whole
`logMessage` is returned. -/
def LogHandler.printMessage (h : LogHandler) (x : LogExt) (now : Caller) (type : LogMsgType)
    (context : QMessageLogContext) (message : QString) : Except Fault Printed :=
  if message.isEmpty then Except.ok { handler := h, returned := [], written := [] }
  else
    match (if type = LogMsgType.LogDebug then scanOnetimeMessages x message h.onetimeMessages
      else Except.ok { onetimeMessages := h.onetimeMessages, suppressed := false }) with
    | Except.error e => Except.error e
    | Except.ok s =>
      let h1 := { h with onetimeMessages := s.onetimeMessages }
      if s.suppressed then Except.ok { handler := h1, returned := [], written := [] }
      else
        Except.ok
          { handler := h1, returned := h1.logMessage now type context message,
            written := [cString (h1.logMessage now type context message)] }

def LogHandler.setTargetName (h : LogHandler) (targetName : QString) : LogHandler :=
  { h with targetName := targetName }

def LogHandler.setShouldOutputProcessID (h : LogHandler) (shouldOutputProcessID : Bool) :
    LogHandler :=
  { h with shouldOutputProcessID := shouldOutputProcessID }

def LogHandler.setShouldOutputThreadID (h : LogHandler) (shouldOutputThreadID : Bool) :
    LogHandler :=
  { h with shouldOutputThreadID := shouldOutputThreadID }

def LogHandler.setShouldDisplayMilliseconds (h : LogHandler) (shouldDisplayMilliseconds : Bool) :
    LogHandler :=
  { h with shouldDisplayMilliseconds := shouldDisplayMilliseconds }

/-- The member function `LogHandler::addOnlyOnceMessageRegex` (lines 184–190); the count of
the new element starts at zero. -/
def LogHandler.addOnlyOnceMessageRegex (h : LogHandler) (regexString : QString) :
    QString × LogHandler :=
  (regexString,
    { h with onetimeMessages :=
        h.onetimeMessages ++ [{ regexp := regexString, messageCount := 0 }] })

/-- The member function `LogHandler::newRepeatedMessageID` (lines 192–199): the identifier
returned and the handler after the call. -/
def LogHandler.newRepeatedMessageID (h : LogHandler) : Except Fault (Int × LogHandler) :=
  let newMessageId := h.currentMessageID
  match increment h.currentMessageID with
  | Except.error e => Except.error e
  | Except.ok currentMessageID =>
    match vectorResize h.repeatedMessageStrings currentMessageID with
    | Except.error e => Except.error e
    | Except.ok strings =>
      Except.ok (newMessageId,
        { h with currentMessageID := currentMessageID, repeatCounts := h.repeatCounts ++ [0],
                 repeatedMessageStrings := strings })

/-- Result of a member function that returns nothing: the handler after the call and what
was written to `stdout`. -/
structure Effect where
  handler : LogHandler
  written : List QString
  deriving DecidableEq

/-- The member function `LogHandler::printRepeatedMessage` (lines 201–215). -/
def LogHandler.printRepeatedMessage (h : LogHandler) (x : LogExt) (now : Caller)
    (messageID : Int) (type : LogMsgType) (context : QMessageLogContext) (message : QString) :
    Except Fault Effect :=
  if messageID ≥ h.currentMessageID then Except.ok { handler := h, written := [] }
  else
    match vectorAt h.repeatCounts messageID with
    | Except.error e => Except.error e
    | Except.ok repeatCount =>
      match (if repeatCount = 0 then
          (match h.printMessage x now type context message with
           | Except.error e => Except.error e
           | Except.ok r => Except.ok { handler := r.handler, written := r.written })
        else
          (match vectorSet h.repeatedMessageStrings messageID message with
           | Except.error e => Except.error e
           | Except.ok strings =>
             Except.ok { handler := { h with repeatedMessageStrings := strings }, written := [] }) :
          Except Fault Effect) with
      | Except.error e => Except.error e
      | Except.ok s =>
        match vectorAt s.handler.repeatCounts messageID with
        | Except.error e => Except.error e
        | Except.ok count =>
          match increment count with
          | Except.error e => Except.error e
          | Except.ok count1 =>
            match vectorSet s.handler.repeatCounts messageID count1 with
            | Except.error e => Except.error e
            | Except.ok counts =>
              Except.ok
                { handler := { s.handler with repeatCounts := counts }, written := s.written }

/-- The text built in the loop of `flushRepeatedMessages` (lines 99–100). -/
def repeatLogMessage (repeatCount : Int) (last : QString) : QString :=
  QString.setNum repeatCount ++ literal " repeated log entries - Last entry: " ++ [34] ++ last ++
    [34]

/-- One turn of the loop of `flushRepeatedMessages` (lines 97–104), at index `m`; `now m`
is what the call of `printMessage` in this turn reads from the process. -/
def flushTurn (x : LogExt) (now : Nat → Caller) (s : Effect) (m : Nat) : Except Fault Effect :=
  match vectorAt s.handler.repeatCounts m with
  | Except.error e => Except.error e
  | Except.ok repeatCount =>
    if repeatCount > 1 then
      match vectorAt s.handler.repeatedMessageStrings m with
      | Except.error e => Except.error e
      | Except.ok last =>
        match s.handler.printMessage x (now m) LogMsgType.LogSuppressed QMessageLogContext.null
            (repeatLogMessage repeatCount last) with
        | Except.error e => Except.error e
        | Except.ok r =>
          match vectorSet r.handler.repeatCounts m 0 with
          | Except.error e => Except.error e
          | Except.ok counts =>
            match vectorSet r.handler.repeatedMessageStrings m [] with
            | Except.error e => Except.error e
            | Except.ok strings =>
              Except.ok
                { handler := { r.handler with repeatCounts := counts,
                                              repeatedMessageStrings := strings },
                  written := s.written ++ r.written }
    else Except.ok s

/-- The turns of the loop of `flushRepeatedMessages` at the indices `ms`, in order. -/
def flushTurns (x : LogExt) (now : Nat → Caller) : List Nat → Effect → Except Fault Effect
  | [], s => Except.ok s
  | m :: ms, s =>
    match flushTurn x now s m with
    | Except.error e => Except.error e
    | Except.ok s1 => flushTurns x now ms s1

/-- The member function `LogHandler::flushRepeatedMessages` (lines 92–106). No turn changes
the size of `_repeatCounts`, so the loop visits the indices below the size at entry. -/
def LogHandler.flushRepeatedMessages (h : LogHandler) (x : LogExt) (now : Nat → Caller) :
    Except Fault Effect :=
  flushTurns x now (List.range h.repeatCounts.length) { handler := h, written := [] }

/-! ## Runs of the log handler -/

/-- The constructor `LogHandler::LogHandler` (lines 35–39) on the members as initialised:
it prints the time zone. -/
def LogHandler.construct (x : LogExt) (now : Caller) : Except Fault Printed :=
  LogHandler.initial.printMessage x now LogMsgType.LogInfo QMessageLogContext.null
    (literal "Time zone: " ++ now.currentDateTime (literal "t"))

/-- A call of a member function of the handler, with what the call reads from its
process. -/
inductive Call
  | setTargetName (targetName : QString)
  | setShouldOutputProcessID (shouldOutputProcessID : Bool)
  | setShouldOutputThreadID (shouldOutputThreadID : Bool)
  | setShouldDisplayMilliseconds (shouldDisplayMilliseconds : Bool)
  | printMessage (now : Caller) (type : LogMsgType) (context : QMessageLogContext)
      (message : QString)
  | addOnlyOnceMessageRegex (regexString : QString)
  | newRepeatedMessageID
  | printRepeatedMessage (now : Caller) (messageID : Int) (type : LogMsgType)
      (context : QMessageLogContext) (message : QString)
  | flushRepeatedMessages (now : Nat → Caller)

/-- A handler together with what has been written to `stdout` and the identifiers that
`newRepeatedMessageID` has returned, both in order. -/
structure Trace where
  handler : LogHandler
  written : List QString
  issued : List Int
  deriving DecidableEq

/-- One call on the handler of a trace. -/
def perform (x : LogExt) (t : Trace) : Call → Except Fault Trace
  | Call.setTargetName targetName =>
    Except.ok { t with handler := t.handler.setTargetName targetName }
  | Call.setShouldOutputProcessID b =>
    Except.ok { t with handler := t.handler.setShouldOutputProcessID b }
  | Call.setShouldOutputThreadID b =>
    Except.ok { t with handler := t.handler.setShouldOutputThreadID b }
  | Call.setShouldDisplayMilliseconds b =>
    Except.ok { t with handler := t.handler.setShouldDisplayMilliseconds b }
  | Call.printMessage now type context message =>
    match t.handler.printMessage x now type context message with
    | Except.error e => Except.error e
    | Except.ok r => Except.ok { t with handler := r.handler, written := t.written ++ r.written }
  | Call.addOnlyOnceMessageRegex regexString =>
    Except.ok { t with handler := (t.handler.addOnlyOnceMessageRegex regexString).2 }
  | Call.newRepeatedMessageID =>
    match t.handler.newRepeatedMessageID with
    | Except.error e => Except.error e
    | Except.ok r => Except.ok { t with handler := r.2, issued := t.issued ++ [r.1] }
  | Call.printRepeatedMessage now messageID type context message =>
    match t.handler.printRepeatedMessage x now messageID type context message with
    | Except.error e => Except.error e
    | Except.ok r => Except.ok { t with handler := r.handler, written := t.written ++ r.written }
  | Call.flushRepeatedMessages now =>
    match t.handler.flushRepeatedMessages x now with
    | Except.error e => Except.error e
    | Except.ok r => Except.ok { t with handler := r.handler, written := t.written ++ r.written }

/-- The calls of `calls` in order. -/
def performAll (x : LogExt) : List Call → Trace → Except Fault Trace
  | [], t => Except.ok t
  | call :: calls, t =>
    match perform x t call with
    | Except.error e => Except.error e
    | Except.ok t1 => performAll x calls t1

/-- A run of the handler: the constructor, then `calls`. -/
def run (x : LogExt) (now : Caller) (calls : List Call) : Except Fault Trace :=
  match LogHandler.construct x now with
  | Except.error e => Except.error e
  | Except.ok r => performAll x calls { handler := r.handler, written := r.written, issued := [] }

/-- The bookkeeping of the repeated messages is consistent: both vectors have
`_currentMessageID` elements. -/
def LogHandler.Consistent (h : LogHandler) : Prop :=
  (h.repeatCounts.length : Int) = h.currentMessageID ∧
    (h.repeatedMessageStrings.length : Int) = h.currentMessageID

instance (h : LogHandler) : Decidable h.Consistent := by
  unfold LogHandler.Consistent
  infer_instance

/-- Whether the expression of a once-only element matches the message. -/
def OnceOnlyMessage.matches (p : OnceOnlyMessage) (x : LogExt) (message : QString) : Bool :=
  x.indexIn p.regexp message != -1

/-- Position of the first element, in registration order, whose expression matches the
message. -/
def firstMatch (x : LogExt) (message : QString) : List OnceOnlyMessage → Option Nat
  | [] => none
  | p :: rest =>
    if p.matches x message then some 0 else (firstMatch x message rest).map (fun i => i + 1)

/-- Whether the once-only elements suppress the message: it is a `LogDebug` message and
the first element that matches it has a count other than zero. -/
def LogHandler.suppresses (h : LogHandler) (x : LogExt) (type : LogMsgType)
    (message : QString) : Bool :=
  type == LogMsgType.LogDebug &&
    match firstMatch x message h.onetimeMessages with
    | some i => (h.onetimeMessages[i]?).any (fun p => p.messageCount != 0)
    | none => false

/-- A call of `printMessage`. -/
structure PrintCall where
  now : Caller
  type : LogMsgType
  context : QMessageLogContext
  message : QString

/-- The calls of `printMessage` in `calls`, in order. -/
def printAll (x : LogExt) : List PrintCall → LogHandler → Except Fault LogHandler
  | [], h => Except.ok h
  | c :: calls, h =>
    match h.printMessage x c.now c.type c.context c.message with
    | Except.error e => Except.error e
    | Except.ok r => printAll x calls r.handler

/-- Whether the scan of the once-only elements for this call stops at position `i`: the
message is not empty, its type is `LogDebug` and `i` is its first match. -/
def PrintCall.stopsAt (c : PrintCall) (x : LogExt) (patterns : List OnceOnlyMessage)
    (i : Nat) : Bool :=
  !c.message.isEmpty && c.type == LogMsgType.LogDebug &&
    firstMatch x c.message patterns == some i

/-- The wording of the specification for the text of a message: every newline of the
message is replaced by a newline, the leading text `pre` and a space. -/
def replaceNewlines (pre : QString) : QString → QString
  | [] => []
  | b :: rest =>
    if b = 10 then [10] ++ pre ++ [32] ++ replaceNewlines pre rest
    else b :: replaceNewlines pre rest

/-- The wording of the specification for the lines of the output: every piece is a line
that begins with the leading text `pre` and a space. -/
def linesWith (pre : QString) : List QString → QString
  | [] => []
  | piece :: pieces => pre ++ [32] ++ piece ++ [10] ++ linesWith pre pieces

/-- The wording of the specification for what a flush writes: for every index of `ms`
whose count is greater than one, in order, the line of type `LogSuppressed` with the count,
the fixed text and the last message in quotes. -/
def suppressedLines (h : LogHandler) (now : Nat → Caller) (ms : List Nat) : List QString :=
  ms.filterMap (fun m =>
    match h.repeatCounts[m]?, h.repeatedMessageStrings[m]? with
    | some c, some last =>
      if c > 1 then
        some (h.logMessage (now m) LogMsgType.LogSuppressed QMessageLogContext.null
          (QString.setNum c ++ literal " repeated log entries - Last entry: " ++ [34] ++ last
            ++ [34]))
      else none
    | _, _ => none)

/-- A matcher for the examples: the expression matches when the message begins with it. -/
def refLogExt : LogExt := { indexIn := fun r m => if r.isPrefixOf m then 0 else -1 }

/-- A caller for the examples. -/
def refCaller : Caller :=
  { currentDateTime := fun format => if format = literal "t" then literal "UTC"
      else literal "11/18 13:55:36",
    applicationPid := 4242, currentThreadId := 7 }

/-- A handler for the examples: the process identifier and the target name `app` are
written, the expression `ab` is registered and has matched once, the expression `cd` is
registered and has not matched, and two repeated-message identifiers are issued, the first
seen five times and the second once. -/
def exampleHandler : LogHandler :=
  { targetName := literal "app", shouldOutputProcessID := true, shouldOutputThreadID := false,
    shouldDisplayMilliseconds := false,
    onetimeMessages := [{ regexp := literal "ab", messageCount := 1 },
                        { regexp := literal "cd", messageCount := 0 }],
    currentMessageID := 2, repeatCounts := [5, 1],
    repeatedMessageStrings := [literal "tick", []] }

/-- The line the constructor writes with `refCaller`. -/
def timeZoneLine : QString := literal "[11/18 13:55:36] [INFO] [] Time zone: UTC" ++ [10]

/-- Calls for the examples: two identifiers are issued, the first is used three times, then
the repeated messages are flushed. -/
def exampleCalls : List Call :=
  [Call.newRepeatedMessageID, Call.newRepeatedMessageID,
   Call.printRepeatedMessage refCaller 0 LogMsgType.LogDebug QMessageLogContext.null
     (literal "a"),
   Call.printRepeatedMessage refCaller 0 LogMsgType.LogDebug QMessageLogContext.null
     (literal "b"),
   Call.printRepeatedMessage refCaller 0 LogMsgType.LogDebug QMessageLogContext.null
     (literal "c"),
   Call.flushRepeatedMessages (fun _ => refCaller)]

/-- The trace of the run of `exampleCalls`. -/
def exampleTrace : Trace :=
  { handler := { LogHandler.initial with
      currentMessageID := 2, repeatCounts := [0, 0], repeatedMessageStrings := [[], []] },
    written := [timeZoneLine, literal "[11/18 13:55:36] [DEBUG] [] a" ++ [10],
      literal "[11/18 13:55:36] [SUPPRESS] [] 3 repeated log entries - Last entry: " ++ [34] ++
        literal "c" ++ [34, 10]],
    issued := [0, 1] }

/-- A handler for the examples in which the expressions `ab` and `cd` have just been
registered, in this order. -/
def registeredHandler : LogHandler :=
  ((LogHandler.initial.addOnlyOnceMessageRegex (literal "ab")).2.addOnlyOnceMessageRegex
    (literal "cd")).2

/-- A call for the examples: the `LogDebug` message `abc`. -/
def earlierCall : PrintCall :=
  { now := refCaller, type := LogMsgType.LogDebug, context := QMessageLogContext.null,
    message := literal "abc" }

/-- A copy of `exampleHandler` for the examples in which the identifier 0 has not been
seen since the last flush: its count is zero. -/
def unseenHandler : LogHandler := { exampleHandler with repeatCounts := [0, 1] }

/-- A copy of `exampleHandler` for the examples in which the last message stored for the
identifier 0 holds a NUL byte: `ti`, NUL, `ck`. -/
def nulHandler : LogHandler :=
  { exampleHandler with repeatedMessageStrings := [literal "ti" ++ [0] ++ literal "ck", []] }

/-- A handler for the examples in which the expressions `ab` and `a` have just been
registered, in this order: every message that `ab` matches is matched by `a` too. -/
def overlapHandler : LogHandler :=
  ((LogHandler.initial.addOnlyOnceMessageRegex (literal "ab")).2.addOnlyOnceMessageRegex
    (literal "a")).2

/-- A call for the examples: the `LogDebug` message `abX`. -/
def overlapCall : PrintCall :=
  { now := refCaller, type := LogMsgType.LogDebug, context := QMessageLogContext.null,
    message := literal "abX" }

/-- A call for the examples: the `LogWarning` message `abc`. -/
def warningCall : PrintCall :=
  { now := refCaller, type := LogMsgType.LogWarning, context := QMessageLogContext.null,
    message := literal "abc" }

/-! ## Reading from memory -/

theorem peek_append_right (pre post : List Byte) (i : Nat) :
    peek (pre ++ post) (pre.length + i) = peek post i := by
  simp [peek, List.getD_eq_getElem?_getD, List.getElem?_append_right]

theorem peek_append_left (l post : List Byte) (i : Nat) (h : i < l.length) :
    peek (l ++ post) i = peek l i := by
  simp [peek, List.getD_eq_getElem?_getD, List.getElem?_append_left h]

theorem readBytes_length (n : Nat) (data : List Byte) (pos : Nat) :
    (readBytes n data pos).length = n := by
  simp [readBytes]

theorem readBytes_self (l post : List Byte) : readBytes l.length (l ++ post) 0 = l := by
  apply List.ext_getElem
  · simp [readBytes]
  · intro i h1 h2
    have hi : i < l.length := by simpa [readBytes] using h1
    simp [readBytes, peek, List.getD_eq_getElem?_getD, List.getElem?_append_left hi,
      List.getElem?_eq_getElem hi]

theorem readBytes_shift (n : Nat) (pre post : List Byte) (pos : Nat) :
    readBytes n (pre ++ post) (pre.length + pos) = readBytes n post pos := by
  simp [readBytes, Nat.add_assoc, peek_append_right]

theorem readBytes_at (pre l post : List Byte) :
    readBytes l.length (pre ++ (l ++ post)) pre.length = l := by
  have := readBytes_shift l.length pre (l ++ post) 0
  simpa [readBytes_self] using this

theorem readBytes_add (a b : Nat) (data : List Byte) (pos : Nat) :
    readBytes (a + b) data pos = readBytes a data pos ++ readBytes b data (pos + a) := by
  simp [readBytes, List.range_add, List.map_append, Nat.add_assoc]

theorem readRaw_at (n : Nat) (v : Raw n) (pre post : List Byte) :
    readRaw n (pre ++ (v.val ++ post)) pre.length = v := by
  apply Subtype.ext
  have h := readBytes_at pre v.val post
  rw [v.property] at h
  simpa [readRaw] using h

theorem qByteArray_at (pre e post : List Byte) (size : Int) (h : (e.length : Int) ≤ size) :
    ∃ rest, qByteArray (pre ++ (e ++ post)) pre.length size = e ++ rest := by
  have h0 : ¬ size < 0 := by omega
  obtain ⟨k, hk⟩ : ∃ k, size.toNat = e.length + k := ⟨size.toNat - e.length, by omega⟩
  refine ⟨readBytes k (pre ++ (e ++ post)) (pre.length + e.length), ?_⟩
  simp only [qByteArray, h0, if_false, hk, readBytes_add, readBytes_at]

/-! ## The packet builder: basic facts -/

namespace OctreePacketData

theorem append_fst (p : OctreePacketData) (bs : List Byte) :
    (p.append bs).1
      = decide (((p.uncompressed.length : Int) + (bs.length : Int)) ≤ p.targetSize) := by
  unfold append; split_ifs with h <;> simp [h]

theorem append_targetSize (p : OctreePacketData) (bs : List Byte) :
    (p.append bs).2.targetSize = p.targetSize := by
  unfold append; split_ifs <;> rfl

theorem append_subTreeAt (p : OctreePacketData) (bs : List Byte) :
    (p.append bs).2.subTreeAt = p.subTreeAt := by
  unfold append; split_ifs <;> rfl

theorem append_true (p : OctreePacketData) (bs : List Byte) (h : (p.append bs).1 = true) :
    (p.append bs).2.uncompressed = p.uncompressed ++ bs := by
  unfold append at h ⊢; split_ifs at h ⊢; simp_all

theorem append_false (p : OctreePacketData) (bs : List Byte) (h : (p.append bs).1 = false) :
    (p.append bs).2 = p := by
  unfold append at h ⊢; split_ifs at h ⊢; simp_all

theorem append_extends (p : OctreePacketData) (bs : List Byte) :
    ∃ d, (p.append bs).2.uncompressed = p.uncompressed ++ d := by
  unfold append; split_ifs
  · exact ⟨bs, rfl⟩
  · exact ⟨[], by simp⟩

end OctreePacketData

/-! ## The attribute blocks of the encoder as a fold -/

theorem appendProperties_eq_foldl (x : Ext) (properties : EntityItemProperties)
    (requestedProperties : EntityPropertyFlags) (s : EncodeState) :
    appendProperties x properties requestedProperties s
      = wireOrder.foldl (appendStep x properties requestedProperties) s := rfl

/-- The three outcomes of an attribute block: the tag is not requested; the payload
fits; the payload does not fit. -/
theorem appendStep_cases (x : Ext) (p : EntityItemProperties) (req : EntityPropertyFlags)
    (s : EncodeState) (t : EntityPropertyList) :
    (t ∉ req ∧
      appendStep x p req s t =
        EncodeState.mk s.packetData s.propertyFlags (s.propertiesDidntFit.erase t)
          s.propertyCount s.appendState)
    ∨ (t ∈ req ∧ (s.packetData.append (payloadOf x p t)).1 = true ∧
      appendStep x p req s t =
        EncodeState.mk
          (OctreePacketData.mk s.packetData.targetSize
            (s.packetData.uncompressed ++ payloadOf x p t) s.packetData.subTreeAt)
          (insert t s.propertyFlags) (s.propertiesDidntFit.erase t)
          (s.propertyCount + 1) s.appendState)
    ∨ (t ∈ req ∧ (s.packetData.append (payloadOf x p t)).1 = false ∧
      appendStep x p req s t =
        EncodeState.mk s.packetData s.propertyFlags s.propertiesDidntFit
          s.propertyCount AppendState.PARTIAL) := by
  by_cases h : t ∈ req
  · cases hfit : (s.packetData.append (payloadOf x p t)).1
    · refine Or.inr (Or.inr ⟨h, rfl, ?_⟩)
      have h2 := OctreePacketData.append_false _ _ hfit
      simp [appendStep, appendProperty, h, hfit, h2, OctreePacketData.discardLevel,
        OctreePacketData.startLevel]
    · refine Or.inr (Or.inl ⟨h, rfl, ?_⟩)
      have h2 := OctreePacketData.append_true _ _ hfit
      have h3 := OctreePacketData.append_targetSize s.packetData (payloadOf x p t)
      have h4 := OctreePacketData.append_subTreeAt s.packetData (payloadOf x p t)
      simp only [appendStep, appendProperty, h, hfit, if_true, OctreePacketData.endLevel]
      rw [← h2, ← h3, ← h4]
  · refine Or.inl ⟨h, ?_⟩
    simp [appendStep, appendProperty, h]

theorem payloadsOf_eq (x : Ext) (p : EntityItemProperties) (f : EntityPropertyFlags) :
    payloadsOf x p f = payloadsIn x p f wireOrder := rfl

theorem payloadsIn_nil (x : Ext) (p : EntityItemProperties) (req : EntityPropertyFlags) :
    payloadsIn x p req [] = [] := rfl

theorem payloadsIn_cons_mem (x : Ext) (p : EntityItemProperties) (req : EntityPropertyFlags)
    (t : EntityPropertyList) (ts : List EntityPropertyList) (h : t ∈ req) :
    payloadsIn x p req (t :: ts) = payloadOf x p t ++ payloadsIn x p req ts := by
  simp [payloadsIn, h]

theorem payloadsIn_cons_not_mem (x : Ext) (p : EntityItemProperties)
    (req : EntityPropertyFlags) (t : EntityPropertyList) (ts : List EntityPropertyList)
    (h : t ∉ req) :
    payloadsIn x p req (t :: ts) = payloadsIn x p req ts := by
  simp [payloadsIn, h]

/-- What the attribute blocks never undo. -/
theorem appendFold_frame (x : Ext) (p : EntityItemProperties) (req : EntityPropertyFlags)
    (ts : List EntityPropertyList) (s : EncodeState) :
    (ts.foldl (appendStep x p req) s).packetData.targetSize = s.packetData.targetSize
    ∧ (ts.foldl (appendStep x p req) s).packetData.subTreeAt = s.packetData.subTreeAt
    ∧ (∃ d, (ts.foldl (appendStep x p req) s).packetData.uncompressed
        = s.packetData.uncompressed ++ d)
    ∧ s.propertyCount ≤ (ts.foldl (appendStep x p req) s).propertyCount
    ∧ s.propertyFlags ⊆ (ts.foldl (appendStep x p req) s).propertyFlags
    ∧ ((ts.foldl (appendStep x p req) s).appendState = AppendState.COMPLETED →
        s.appendState = AppendState.COMPLETED)
    ∧ (s.appendState ≠ AppendState.NONE →
        (ts.foldl (appendStep x p req) s).appendState ≠ AppendState.NONE) := by
  induction ts generalizing s with
  | nil => exact ⟨rfl, rfl, ⟨[], by simp⟩, le_refl _, Finset.Subset.refl _, id, id⟩
  | cons t ts ih =>
    simp only [List.foldl_cons]
    have key := appendStep_cases x p req s t
    generalize appendStep x p req s t = s1 at key ⊢
    obtain ⟨h1, h2, ⟨d, h3⟩, h4, h5, h6, h7⟩ := ih s1
    rcases key with ⟨_, rfl⟩ | ⟨_, _, rfl⟩ | ⟨_, _, rfl⟩
    · exact ⟨h1, h2, ⟨d, h3⟩, h4, h5, h6, h7⟩
    · refine ⟨h1, h2, ⟨payloadOf x p t ++ d, ?_⟩, ?_, ?_, h6, h7⟩
      · rw [h3, List.append_assoc]
      · exact le_trans (Nat.le_succ _) h4
      · exact (Finset.subset_insert _ _).trans h5
    · refine ⟨h1, h2, ⟨d, h3⟩, h4, h5, ?_, ?_⟩
      · intro hc; exact absurd (h6 hc) (by simp)
      · intro _; exact h7 (by simp)

/-- When no block dropped its attribute, the buffer holds the payloads of the requested
tags in order, the flags are those tags, and each of them was counted. -/
theorem appendFold_completed (x : Ext) (p : EntityItemProperties) (req : EntityPropertyFlags)
    (ts : List EntityPropertyList) (s : EncodeState)
    (h : (ts.foldl (appendStep x p req) s).appendState = AppendState.COMPLETED) :
    (ts.foldl (appendStep x p req) s).packetData.uncompressed
        = s.packetData.uncompressed ++ payloadsIn x p req ts
    ∧ (ts.foldl (appendStep x p req) s).propertyFlags
        = s.propertyFlags ∪ (ts.filter (fun t => t ∈ req)).toFinset
    ∧ (ts.foldl (appendStep x p req) s).propertyCount
        = s.propertyCount + (ts.filter (fun t => t ∈ req)).length := by
  induction ts generalizing s with
  | nil => simp [payloadsIn_nil]
  | cons t ts ih =>
    simp only [List.foldl_cons] at h ⊢
    have key := appendStep_cases x p req s t
    generalize appendStep x p req s t = s1 at key h ⊢
    obtain ⟨h1, h2, h3⟩ := ih s1 h
    have hs1 := (appendFold_frame x p req ts s1).2.2.2.2.2.1 h
    rcases key with ⟨hm, rfl⟩ | ⟨hm, _, rfl⟩ | ⟨hm, _, rfl⟩
    · rw [h1, h2, h3, payloadsIn_cons_not_mem x p req t ts hm]
      simp [List.filter_cons, hm]
    · rw [h1, h2, h3, payloadsIn_cons_mem x p req t ts hm]
      refine ⟨by simp [List.append_assoc], ?_, ?_⟩
      · ext u; simp [List.filter_cons, hm]
      · simp [List.filter_cons, hm]; omega
    · simp at hs1

/-- When the capacity holds every requested payload, no block drops its attribute. -/
theorem appendFold_fits (x : Ext) (p : EntityItemProperties) (req : EntityPropertyFlags)
    (ts : List EntityPropertyList) (s : EncodeState)
    (hs : s.appendState = AppendState.COMPLETED)
    (hcap : ((s.packetData.uncompressed.length : Int) + ((payloadsIn x p req ts).length : Int))
      ≤ s.packetData.targetSize) :
    (ts.foldl (appendStep x p req) s).appendState = AppendState.COMPLETED := by
  induction ts generalizing s with
  | nil => simpa using hs
  | cons t ts ih =>
    simp only [List.foldl_cons]
    have key := appendStep_cases x p req s t
    generalize appendStep x p req s t = s1 at key ⊢
    rcases key with ⟨hm, rfl⟩ | ⟨hm, _, rfl⟩ | ⟨hm, hf, rfl⟩
    · apply ih
      · exact hs
      · rw [payloadsIn_cons_not_mem x p req t ts hm] at hcap; exact hcap
    · apply ih
      · exact hs
      · rw [payloadsIn_cons_mem x p req t ts hm] at hcap
        simp only [List.length_append, Nat.cast_add] at hcap ⊢
        omega
    · rw [payloadsIn_cons_mem x p req t ts hm] at hcap
      rw [OctreePacketData.append_fst] at hf
      simp only [List.length_append, Nat.cast_add, decide_eq_false_iff_not] at hcap hf
      omega

/-- The flags that the attribute blocks add are requested tags of the blocks. -/
theorem appendFold_flags_subset (x : Ext) (p : EntityItemProperties)
    (req : EntityPropertyFlags) (ts : List EntityPropertyList) (s : EncodeState) :
    (ts.foldl (appendStep x p req) s).propertyFlags
      ⊆ s.propertyFlags ∪ (ts.filter (fun t => t ∈ req)).toFinset := by
  induction ts generalizing s with
  | nil => simp
  | cons t ts ih =>
    simp only [List.foldl_cons]
    have key := appendStep_cases x p req s t
    generalize appendStep x p req s t = s1 at key ⊢
    have h := ih s1
    rcases key with ⟨hm, rfl⟩ | ⟨hm, _, rfl⟩ | ⟨hm, _, rfl⟩
    · intro u hu
      have := h hu
      simp [List.filter_cons, hm] at this ⊢; exact this
    · intro u hu
      have := h hu
      simp [List.filter_cons, hm] at this ⊢; tauto
    · intro u hu
      have := h hu
      simp [List.filter_cons, hm] at this ⊢; tauto

/-- No attribute was dropped exactly when every requested tag of the blocks ended up in
the flags. -/
theorem appendFold_completed_iff (x : Ext) (p : EntityItemProperties)
    (req : EntityPropertyFlags) (ts : List EntityPropertyList) (s : EncodeState)
    (hnd : ts.Nodup) (hfresh : ∀ t ∈ ts, t ∉ s.propertyFlags) :
    (ts.foldl (appendStep x p req) s).appendState = AppendState.COMPLETED
      ↔ (s.appendState = AppendState.COMPLETED
          ∧ ∀ t ∈ ts, t ∈ req → t ∈ (ts.foldl (appendStep x p req) s).propertyFlags) := by
  induction ts generalizing s with
  | nil => simp
  | cons t ts ih =>
    simp only [List.foldl_cons]
    obtain ⟨hnt, hnd'⟩ := List.nodup_cons.mp hnd
    have htfresh : t ∉ s.propertyFlags := hfresh t (List.mem_cons_self _ _)
    have hrest : ∀ u ∈ ts, u ∉ s.propertyFlags := fun u hu =>
      hfresh u (List.mem_cons_of_mem _ hu)
    have key := appendStep_cases x p req s t
    generalize appendStep x p req s t = s1 at key ⊢
    have hsub := appendFold_flags_subset x p req ts s1
    have hmono := (appendFold_frame x p req ts s1).2.2.2.2.1
    have hcomp := (appendFold_frame x p req ts s1).2.2.2.2.2.1
    have ih1 := ih s1 hnd'
    rcases key with ⟨hm, rfl⟩ | ⟨hm, _, rfl⟩ | ⟨hm, _, rfl⟩
    · rw [ih1 hrest]
      constructor
      · rintro ⟨h1, h2⟩
        refine ⟨h1, ?_⟩
        intro u hu hreq
        rcases List.mem_cons.mp hu with rfl | hu'
        · exact absurd hreq hm
        · exact h2 u hu' hreq
      · rintro ⟨h1, h2⟩
        exact ⟨h1, fun u hu hreq => h2 u (List.mem_cons_of_mem _ hu) hreq⟩
    · have hf' : ∀ u ∈ ts, u ∉ insert t s.propertyFlags := by
        intro u hu
        have hne : u ≠ t := fun h => hnt (h ▸ hu)
        simp [hne, hrest u hu]
      rw [ih1 hf']
      have ht := hmono (Finset.mem_insert_self t s.propertyFlags)
      constructor
      · rintro ⟨h1, h2⟩
        refine ⟨h1, ?_⟩
        intro u hu hreq
        rcases List.mem_cons.mp hu with rfl | hu'
        · exact ht
        · exact h2 u hu' hreq
      · rintro ⟨h1, h2⟩
        exact ⟨h1, fun u hu hreq => h2 u (List.mem_cons_of_mem _ hu) hreq⟩
    · constructor
      · intro hc; exact absurd (hcomp hc) (by simp)
      · rintro ⟨_, h2⟩
        have hin := hsub (h2 t (List.mem_cons_self _ _) hm)
        simp only [Finset.mem_union, List.mem_toFinset, List.mem_filter] at hin
        rcases hin with h | ⟨h, _⟩
        · exact absurd h htfresh
        · exact absurd h hnt

/-- The count of written attributes is the number of flags. -/
theorem appendFold_count (x : Ext) (p : EntityItemProperties)
    (req : EntityPropertyFlags) (ts : List EntityPropertyList) (s : EncodeState)
    (hnd : ts.Nodup) (hfresh : ∀ t ∈ ts, t ∉ s.propertyFlags)
    (hc : s.propertyCount = s.propertyFlags.card) :
    (ts.foldl (appendStep x p req) s).propertyCount
      = (ts.foldl (appendStep x p req) s).propertyFlags.card := by
  induction ts generalizing s with
  | nil => simpa using hc
  | cons t ts ih =>
    simp only [List.foldl_cons]
    obtain ⟨hnt, hnd'⟩ := List.nodup_cons.mp hnd
    have htfresh : t ∉ s.propertyFlags := hfresh t (List.mem_cons_self _ _)
    have hrest : ∀ u ∈ ts, u ∉ s.propertyFlags := fun u hu =>
      hfresh u (List.mem_cons_of_mem _ hu)
    have key := appendStep_cases x p req s t
    generalize appendStep x p req s t = s1 at key ⊢
    have ih1 := ih s1 hnd'
    rcases key with ⟨_, rfl⟩ | ⟨_, _, rfl⟩ | ⟨_, _, rfl⟩
    · exact ih1 hrest hc
    · apply ih1
      · intro u hu
        have hne : u ≠ t := fun h => hnt (h ▸ hu)
        simp [hne, hrest u hu]
      · simp [Finset.card_insert_of_not_mem htfresh, hc]
    · exact ih1 hrest hc

/-! ## The header of the encoder -/

theorem appendHeader_old (x : Ext) (id : EntityItemID) (p : EntityItemProperties)
    (pd : OctreePacketData) :
    (appendHeader x id p pd).oldPropertyFlagsLength = (x.encodeFlags {PROP_LAST_ITEM}).length :=
  rfl

theorem appendHeader_entityLevel (x : Ext) (id : EntityItemID) (p : EntityItemProperties)
    (pd : OctreePacketData) :
    (appendHeader x id p pd).entityLevel.startIndex = pd.uncompressed.length := rfl

/-- When every header field fitted, the buffer holds them in order, followed by the
provisional property flags. -/
theorem appendHeader_fits (x : Ext) (id : EntityItemID) (p : EntityItemProperties)
    (pd : OctreePacketData) (h : (appendHeader x id p pd).headerFits = true) :
    (appendHeader x id p pd).packetData.uncompressed
        = pd.uncompressed ++ (recordHeaderBytes x id p ++ x.encodeFlags {PROP_LAST_ITEM})
    ∧ (appendHeader x id p pd).propertyFlagsOffset
        = (pd.uncompressed ++ recordHeaderBytes x id p).length
    ∧ (appendHeader x id p pd).startOfEntityItemData
        = (pd.uncompressed ++ recordHeaderBytes x id p).length
            + (x.encodeFlags {PROP_LAST_ITEM}).length := by
  unfold appendHeader at h ⊢
  simp only [Bool.and_eq_true] at h
  obtain ⟨⟨⟨⟨h3, h4⟩, h1⟩, h5⟩, h6⟩ := h
  have e1 := OctreePacketData.append_true _ _ h1
  by_cases hnew : id.id = x.NEW_ENTITY
  · have hd : decide (id.id = x.NEW_ENTITY) = true := decide_eq_true hnew
    cases h2 : ((pd.append p.lastEdited.val).2.append id.id.val).1
    · simp [hd, h2] at h3
    · simp only [hd, h2, and_self, if_true] at h3 h4 h5 h6
      have e2 := OctreePacketData.append_true _ _ h2
      have e3 := OctreePacketData.append_true _ _ h3
      have e4 := OctreePacketData.append_true _ _ h4
      have e5 := OctreePacketData.append_true _ _ h5
      have e6 := OctreePacketData.append_true _ _ h6
      simp only [hd, h2, Bool.and_self, if_true,
        OctreePacketData.getUncompressedByteOffset, e1, e2, e3, e4, e5, e6, recordHeaderBytes,
        if_pos hnew]
      refine ⟨?_, ?_, ?_⟩ <;> simp [List.append_assoc]; omega
  · have hd : decide (id.id = x.NEW_ENTITY) = false := decide_eq_false hnew
    simp only [hd, Bool.false_eq_true, false_and, if_false] at h3 h4 h5 h6
    have e3 := OctreePacketData.append_true _ _ h3
    have e4 := OctreePacketData.append_true _ _ h4
    have e5 := OctreePacketData.append_true _ _ h5
    have e6 := OctreePacketData.append_true _ _ h6
    simp only [hd, Bool.false_and, Bool.false_eq_true, if_false,
      OctreePacketData.getUncompressedByteOffset, e1, e3, e4, e5, e6, recordHeaderBytes,
      if_neg hnew]
    refine ⟨?_, ?_, ?_⟩ <;> simp [List.append_assoc]; omega

theorem OctreePacketData.Grows.refl (p : OctreePacketData) : p.Grows p :=
  ⟨rfl, rfl, [], by simp⟩

theorem OctreePacketData.Grows.trans {p q r : OctreePacketData} (h1 : p.Grows q)
    (h2 : q.Grows r) : p.Grows r := by
  obtain ⟨a1, b1, d1, c1⟩ := h1
  obtain ⟨a2, b2, d2, c2⟩ := h2
  exact ⟨a2.trans a1, b2.trans b1, d1 ++ d2, by rw [c2, c1, List.append_assoc]⟩

theorem OctreePacketData.grows_append (p : OctreePacketData) (bs : List Byte) :
    p.Grows (p.append bs).2 :=
  ⟨OctreePacketData.append_targetSize p bs, OctreePacketData.append_subTreeAt p bs,
    OctreePacketData.append_extends p bs⟩

theorem appendHeader_frame (x : Ext) (id : EntityItemID) (p : EntityItemProperties)
    (pd : OctreePacketData) : pd.Grows (appendHeader x id p pd).packetData := by
  unfold appendHeader
  simp only []
  have g1 := OctreePacketData.grows_append pd p.lastEdited.val
  have g2 := OctreePacketData.grows_append (pd.append p.lastEdited.val).2 id.id.val
  cases hc : (decide (id.id = x.NEW_ENTITY) && ((pd.append p.lastEdited.val).2.append id.id.val).1)
  · simp only [Bool.false_eq_true, if_false]
    exact g1.trans (g2.trans ((OctreePacketData.grows_append _ _).trans
      ((OctreePacketData.grows_append _ _).trans (OctreePacketData.grows_append _ _))))
  · simp only [if_true]
    exact g1.trans (g2.trans ((OctreePacketData.grows_append _ _).trans
      ((OctreePacketData.grows_append _ _).trans ((OctreePacketData.grows_append _ _).trans
        (OctreePacketData.grows_append _ _)))))

/-! ## The repair of the property flags -/

theorem take_eq_left {α : Type} (A C : List α) (n : Nat) (h : n = A.length) :
    (A ++ C).take n = A := by
  subst h; simp

theorem drop_eq_right {α : Type} (A C : List α) (n : Nat) (h : n = A.length) :
    (A ++ C).drop n = C := by
  subst h; simp

theorem OctreePacketData.updatePriorBytes_at (p : OctreePacketData) (A B C N : List Byte)
    (h : p.uncompressed = A ++ (B ++ C)) (hl : N.length = B.length) :
    p.updatePriorBytes A.length N
      = OctreePacketData.mk p.targetSize (A ++ (N ++ C)) p.subTreeAt := by
  unfold OctreePacketData.updatePriorBytes
  have hc : A.length + N.length ≤ p.uncompressed.length := by
    rw [h]; simp only [List.length_append]; omega
  have t : (A ++ (B ++ C)).take A.length = A := take_eq_left A _ _ rfl
  have d : (A ++ (B ++ C)).drop (A.length + N.length) = C := by
    rw [← List.append_assoc]
    exact drop_eq_right (A ++ B) C _ (by simp [hl])
  rw [if_pos hc, h, t, d, List.append_assoc]

/-- The repaired buffer: header, final flags, attribute data, with nothing between. -/
theorem repairPropertyFlags_eq (x : Ext) (h : HeaderState) (flags : EntityPropertyFlags)
    (pd : OctreePacketData) (H P D : List Byte)
    (hbuf : pd.uncompressed = H ++ (P ++ D)) (hoff : h.propertyFlagsOffset = H.length)
    (hold : h.oldPropertyFlagsLength = P.length)
    (hstart : h.startOfEntityItemData = H.length + P.length)
    (hle : (x.encodeFlags flags).length ≤ P.length) :
    repairPropertyFlags x h flags pd
      = OctreePacketData.mk pd.targetSize (H ++ (x.encodeFlags flags ++ D)) pd.subTreeAt := by
  generalize hN : x.encodeFlags flags = N at hle
  obtain ⟨P1, P2, rfl, hP1⟩ : ∃ P1 P2, P = P1 ++ P2 ∧ P1.length = N.length :=
    ⟨P.take N.length, P.drop N.length, (List.take_append_drop _ _).symm, by
      rw [List.length_take]; omega⟩
  have hbuf' : pd.uncompressed = H ++ (P1 ++ (P2 ++ D)) := by
    rw [hbuf, List.append_assoc]
  have e1 := OctreePacketData.updatePriorBytes_at pd H P1 (P2 ++ D) N hbuf' hP1.symm
  unfold repairPropertyFlags
  simp only [hN, hoff, hold, hstart, e1, OctreePacketData.getUncompressedByteOffset,
    OctreePacketData.getUncompressedSize, OctreePacketData.getUncompressedData]
  split_ifs with hlt
  · have hlenD : pd.uncompressed.length - (H.length + (P1 ++ P2).length) = D.length := by
      rw [hbuf]; simp only [List.length_append]; omega
    have hdrop : (H ++ (N ++ (P2 ++ D))).drop (H.length + (P1 ++ P2).length) = D := by
      have : H ++ (N ++ (P2 ++ D)) = (H ++ (N ++ P2)) ++ D := by simp [List.append_assoc]
      rw [this]
      exact drop_eq_right _ D _ (by simp only [List.length_append]; omega)
    rw [hlenD, hdrop, List.take_length]
    obtain ⟨B, C, hBC, hB⟩ : ∃ B C, P2 ++ D = B ++ C ∧ D.length = B.length :=
      ⟨(P2 ++ D).take D.length, (P2 ++ D).drop D.length, (List.take_append_drop _ _).symm, by
        rw [List.length_take, List.length_append]; omega⟩
    have hsplit : H ++ (N ++ (P2 ++ D)) = (H ++ N) ++ (B ++ C) := by
      rw [hBC, List.append_assoc]
    have e2 := OctreePacketData.updatePriorBytes_at
      (OctreePacketData.mk pd.targetSize (H ++ (N ++ (P2 ++ D))) pd.subTreeAt)
      (H ++ N) B C D hsplit hB
    have hlen : H.length + N.length = (H ++ N).length := by simp
    rw [hlen, e2]
    simp only [OctreePacketData.setUncompressedSize]
    congr 1
    have hC : C.length = P2.length := by
      have := congrArg List.length hBC
      simp only [List.length_append] at this; omega
    have : (H ++ N ++ (D ++ C)) = (H ++ (N ++ D)) ++ C := by simp [List.append_assoc]
    rw [this]
    exact take_eq_left _ C _ (by simp only [List.length_append] at hlt ⊢; omega)
  · have : P2 = [] := by
      apply List.eq_nil_of_length_eq_zero
      simp only [List.length_append] at hlt hle; omega
    rw [this, List.nil_append]

/-! ## The run of the encoder -/

theorem startSubTree_fits (x : Ext) (sizeIn : Int) (h : (x.rootOctcode.length : Int) ≤ sizeIn) :
    (OctreePacketData.create sizeIn).startSubTree x.rootOctcode
      = (true, prefixPacket x sizeIn) := by
  simp [OctreePacketData.startSubTree, OctreePacketData.append, OctreePacketData.create, h,
    prefixPacket]

theorem startSubTree_not_fits (x : Ext) (sizeIn : Int)
    (h : ¬ (x.rootOctcode.length : Int) ≤ sizeIn) :
    (OctreePacketData.create sizeIn).startSubTree x.rootOctcode
      = (false, OctreePacketData.create sizeIn) := by
  simp [OctreePacketData.startSubTree, OctreePacketData.append, OctreePacketData.create, h]

/-- The run when the routing prefix does not fit. -/
theorem encodeRun_octcode_too_long (x : Ext) (id : EntityItemID) (p : EntityItemProperties)
    (sizeIn : Int) (h : ¬ (x.rootOctcode.length : Int) ≤ sizeIn) :
    encodeRun x id p sizeIn =
      finishEncode false false false p.getChangedProperties
        (EncodeState.mk (OctreePacketData.create sizeIn) ∅ p.getChangedProperties 0
          AppendState.COMPLETED) 0 0 := by
  unfold encodeRun
  simp only [startSubTree_not_fits x sizeIn h, Bool.false_eq_true, if_false]

/-- The run when the routing prefix fits. -/
theorem encodeRun_octcode_fits (x : Ext) (id : EntityItemID) (p : EntityItemProperties)
    (sizeIn : Int) (h : (x.rootOctcode.length : Int) ≤ sizeIn) :
    encodeRun x id p sizeIn =
      if 0 < (attributePhase x id p sizeIn).propertyCount then
        finishEncode (decide ((attributePhase x id p sizeIn).appendState = AppendState.COMPLETED))
          true (appendHeader x id p (prefixPacket x sizeIn)).headerFits p.getChangedProperties
          (EncodeState.mk
            (repairPropertyFlags x (appendHeader x id p (prefixPacket x sizeIn))
              (attributePhase x id p sizeIn).propertyFlags
              (attributePhase x id p sizeIn).packetData)
            (attributePhase x id p sizeIn).propertyFlags
            (attributePhase x id p sizeIn).propertiesDidntFit
            (attributePhase x id p sizeIn).propertyCount
            (attributePhase x id p sizeIn).appendState)
          (appendHeader x id p (prefixPacket x sizeIn)).propertyFlagsOffset
          (appendHeader x id p (prefixPacket x sizeIn)).oldPropertyFlagsLength
      else
        finishEncode false true (appendHeader x id p (prefixPacket x sizeIn)).headerFits
          p.getChangedProperties
          (EncodeState.mk
            ((attributePhase x id p sizeIn).packetData.discardLevel
              (appendHeader x id p (prefixPacket x sizeIn)).entityLevel)
            (attributePhase x id p sizeIn).propertyFlags
            (attributePhase x id p sizeIn).propertiesDidntFit
            (attributePhase x id p sizeIn).propertyCount
            AppendState.NONE)
          (appendHeader x id p (prefixPacket x sizeIn)).propertyFlagsOffset
          (appendHeader x id p (prefixPacket x sizeIn)).oldPropertyFlagsLength := by
  unfold encodeRun
  simp only [startSubTree_fits x sizeIn h, if_true]
  have hf : attributePhase x id p sizeIn =
      (if (appendHeader x id p (prefixPacket x sizeIn)).headerFits = true then
        appendProperties x p p.getChangedProperties
          { packetData := (appendHeader x id p (prefixPacket x sizeIn)).packetData
            propertyFlags := Finset.erase {PROP_LAST_ITEM} PROP_LAST_ITEM
            propertiesDidntFit := p.getChangedProperties
            propertyCount := 0
            appendState := AppendState.COMPLETED }
      else
        { packetData := (appendHeader x id p (prefixPacket x sizeIn)).packetData
          propertyFlags := {PROP_LAST_ITEM}
          propertiesDidntFit := p.getChangedProperties
          propertyCount := 0
          appendState := AppendState.COMPLETED }) := by
    unfold attributePhase
    rw [appendProperties_eq_foldl]
    simp
  rw [← hf]
  by_cases hc : 0 < (attributePhase x id p sizeIn).propertyCount
  · simp only [gt_iff_lt, hc, if_true, OctreePacketData.endLevel]
  · simp only [gt_iff_lt, hc, if_false]
    simp

theorem wireOrder_nodup : wireOrder.Nodup := by decide

theorem prefixPacket_grows (x : Ext) (id : EntityItemID) (p : EntityItemProperties)
    (sizeIn : Int) :
    (prefixPacket x sizeIn).Grows (attributePhase x id p sizeIn).packetData := by
  have g := appendHeader_frame x id p (prefixPacket x sizeIn)
  unfold attributePhase
  split_ifs
  · obtain ⟨a, b, c, _⟩ := appendFold_frame x p p.getChangedProperties wireOrder
      (EncodeState.mk (appendHeader x id p (prefixPacket x sizeIn)).packetData ∅
        p.getChangedProperties 0 AppendState.COMPLETED)
    exact g.trans ⟨a, b, c⟩
  · exact g

/-- Without a complete header no attribute is attempted. -/
theorem attributePhase_no_header (x : Ext) (id : EntityItemID) (p : EntityItemProperties)
    (sizeIn : Int) (h : (appendHeader x id p (prefixPacket x sizeIn)).headerFits = false) :
    attributePhase x id p sizeIn =
      EncodeState.mk (appendHeader x id p (prefixPacket x sizeIn)).packetData {PROP_LAST_ITEM}
        p.getChangedProperties 0 AppendState.COMPLETED := by
  unfold attributePhase; simp [h]

theorem attributePhase_header (x : Ext) (id : EntityItemID) (p : EntityItemProperties)
    (sizeIn : Int) (h : (appendHeader x id p (prefixPacket x sizeIn)).headerFits = true) :
    attributePhase x id p sizeIn =
      wireOrder.foldl (appendStep x p p.getChangedProperties)
        (EncodeState.mk (appendHeader x id p (prefixPacket x sizeIn)).packetData ∅
          p.getChangedProperties 0 AppendState.COMPLETED) := by
  unfold attributePhase; simp [h]

theorem attributePhase_count_pos (x : Ext) (id : EntityItemID) (p : EntityItemProperties)
    (sizeIn : Int) (h : 0 < (attributePhase x id p sizeIn).propertyCount) :
    (appendHeader x id p (prefixPacket x sizeIn)).headerFits = true := by
  cases hf : (appendHeader x id p (prefixPacket x sizeIn)).headerFits
  · rw [attributePhase_no_header x id p sizeIn hf] at h
    simp at h
  · rfl

/-- Success of a run: the routing prefix fitted, at least one attribute was written and
no attribute block dropped its attribute. -/
theorem encodeRun_success_iff (x : Ext) (id : EntityItemID) (p : EntityItemProperties)
    (sizeIn : Int) :
    (encodeRun x id p sizeIn).success = true
      ↔ ((x.rootOctcode.length : Int) ≤ sizeIn
          ∧ 0 < (attributePhase x id p sizeIn).propertyCount
          ∧ (attributePhase x id p sizeIn).appendState = AppendState.COMPLETED) := by
  by_cases h : (x.rootOctcode.length : Int) ≤ sizeIn
  · rw [encodeRun_octcode_fits x id p sizeIn h]
    split_ifs with hc
    · simp [finishEncode, h, hc]
    · simp [finishEncode, h, hc]
  · rw [encodeRun_octcode_too_long x id p sizeIn h]
    simp [finishEncode, h]

/-- The locals of a run whose routing prefix fitted. -/
theorem encodeRun_locals (x : Ext) (id : EntityItemID) (p : EntityItemProperties)
    (sizeIn : Int) (h : (x.rootOctcode.length : Int) ≤ sizeIn) :
    (encodeRun x id p sizeIn).propertyFlags = (attributePhase x id p sizeIn).propertyFlags
    ∧ (encodeRun x id p sizeIn).propertyCount = (attributePhase x id p sizeIn).propertyCount
    ∧ (encodeRun x id p sizeIn).propertiesDidntFit
        = (attributePhase x id p sizeIn).propertiesDidntFit
    ∧ (encodeRun x id p sizeIn).oldPropertyFlagsLength
        = (x.encodeFlags {PROP_LAST_ITEM}).length
    ∧ (encodeRun x id p sizeIn).headerFits
        = (appendHeader x id p (prefixPacket x sizeIn)).headerFits
    ∧ (encodeRun x id p sizeIn).octcodeFits = true := by
  rw [encodeRun_octcode_fits x id p sizeIn h]
  split_ifs <;> simp [finishEncode, appendHeader_old]

/-- The locals of a run whose routing prefix did not fit. -/
theorem encodeRun_locals_octcode_too_long (x : Ext) (id : EntityItemID) (p : EntityItemProperties)
    (sizeIn : Int) (h : ¬ (x.rootOctcode.length : Int) ≤ sizeIn) :
    (encodeRun x id p sizeIn).propertyFlags = ∅
    ∧ (encodeRun x id p sizeIn).propertyCount = 0
    ∧ (encodeRun x id p sizeIn).success = false
    ∧ (encodeRun x id p sizeIn).octcodeFits = false := by
  rw [encodeRun_octcode_too_long x id p sizeIn h]
  simp [finishEncode]

/-- The outputs of a run. -/
theorem encodeRun_outputs (x : Ext) (id : EntityItemID) (p : EntityItemProperties)
    (sizeIn : Int) :
    ((encodeRun x id p sizeIn).success = false →
        (encodeRun x id p sizeIn).sizeOut = 0 ∧ (encodeRun x id p sizeIn).bufferOut = []
        ∧ (encodeRun x id p sizeIn).packetData.uncompressed = [])
    ∧ ((encodeRun x id p sizeIn).success = true →
        (encodeRun x id p sizeIn).sizeOut = (encodeRun x id p sizeIn).bufferOut.length
        ∧ (encodeRun x id p sizeIn).bufferOut
            = (repairPropertyFlags x (appendHeader x id p (prefixPacket x sizeIn))
                (attributePhase x id p sizeIn).propertyFlags
                (attributePhase x id p sizeIn).packetData).uncompressed) := by
  have g := prefixPacket_grows x id p sizeIn
  by_cases h : (x.rootOctcode.length : Int) ≤ sizeIn
  · rw [encodeRun_octcode_fits x id p sizeIn h]
    split_ifs with hc
    · cases hs : decide ((attributePhase x id p sizeIn).appendState = AppendState.COMPLETED)
      · have hsub : (repairPropertyFlags x (appendHeader x id p (prefixPacket x sizeIn))
            (attributePhase x id p sizeIn).propertyFlags
            (attributePhase x id p sizeIn).packetData).subTreeAt = 0 := by
          unfold repairPropertyFlags OctreePacketData.updatePriorBytes
            OctreePacketData.setUncompressedSize
          simp only []
          split_ifs <;> exact g.2.1
        simp [finishEncode, OctreePacketData.discardSubTree, hsub]
      · simp [finishEncode, OctreePacketData.endSubTree, OctreePacketData.getFinalizedSize,
          OctreePacketData.getFinalizedData]
    · have hsub : (attributePhase x id p sizeIn).packetData.subTreeAt = 0 := g.2.1
      simp [finishEncode, OctreePacketData.discardSubTree, OctreePacketData.discardLevel, hsub]
  · rw [encodeRun_octcode_too_long x id p sizeIn h]
    simp [finishEncode, OctreePacketData.discardSubTree, OctreePacketData.create]

/-! ## Sizes -/

theorem recordHeaderBytes_length (x : Ext) (id : EntityItemID) (p : EntityItemProperties) :
    24 ≤ (recordHeaderBytes x id p).length := by
  simp only [recordHeaderBytes, List.length_append, p.lastEdited.property, id.id.property]
  omega

theorem OctreePacketData.updatePriorBytes_length (p : OctreePacketData) (offset : Nat)
    (bytes : List Byte) :
    (p.updatePriorBytes offset bytes).uncompressed.length = p.uncompressed.length := by
  unfold OctreePacketData.updatePriorBytes
  split_ifs with h
  · simp only [List.length_append, List.length_take, List.length_drop]; omega
  · rfl

/-- The repair removes at most the bytes of the provisional flags. -/
theorem repairPropertyFlags_length (x : Ext) (h : HeaderState) (flags : EntityPropertyFlags)
    (pd : OctreePacketData) :
    pd.uncompressed.length - h.oldPropertyFlagsLength
      ≤ (repairPropertyFlags x h flags pd).uncompressed.length := by
  unfold repairPropertyFlags
  simp only [OctreePacketData.getUncompressedSize, OctreePacketData.setUncompressedSize]
  split_ifs with hlt
  · simp only [List.length_take, OctreePacketData.updatePriorBytes_length]; omega
  · simp only [OctreePacketData.updatePriorBytes_length]; omega

theorem OctreePacketData.append_of_cap (p : OctreePacketData) (bs : List Byte)
    (h : ((p.uncompressed.length : Int) + (bs.length : Int)) ≤ p.targetSize) :
    p.append bs = (true, OctreePacketData.mk p.targetSize (p.uncompressed ++ bs) p.subTreeAt) := by
  unfold OctreePacketData.append; rw [if_pos h]

/-- A capacity that holds the header fields and the provisional flags lets the header
fit. -/
theorem appendHeader_of_cap (x : Ext) (id : EntityItemID) (p : EntityItemProperties)
    (pd : OctreePacketData)
    (h : ((pd.uncompressed.length : Int) + ((recordHeaderBytes x id p).length : Int)
      + ((x.encodeFlags {PROP_LAST_ITEM}).length : Int)) ≤ pd.targetSize) :
    (appendHeader x id p pd).headerFits = true := by
  simp only [recordHeaderBytes, List.length_append, Nat.cast_add] at h
  have a1 := OctreePacketData.append_of_cap pd p.lastEdited.val (by omega)
  have a2 := OctreePacketData.append_of_cap
    (OctreePacketData.mk pd.targetSize (pd.uncompressed ++ p.lastEdited.val) pd.subTreeAt)
    id.id.val (by simp only [List.length_append, Nat.cast_add]; omega)
  unfold appendHeader
  simp only [a1, a2]
  by_cases hnew : id.id = x.NEW_ENTITY
  · have hd : decide (id.id = x.NEW_ENTITY) = true := decide_eq_true hnew
    rw [if_pos hnew] at h
    have a3 := OctreePacketData.append_of_cap
      (OctreePacketData.mk pd.targetSize (pd.uncompressed ++ p.lastEdited.val ++ id.id.val)
        pd.subTreeAt)
      (x.byteCountCoded32 id.creatorTokenID)
      (by simp only [List.length_append, Nat.cast_add]; omega)
    have a4 := OctreePacketData.append_of_cap
      (OctreePacketData.mk pd.targetSize (pd.uncompressed ++ p.lastEdited.val ++ id.id.val
        ++ x.byteCountCoded32 id.creatorTokenID) pd.subTreeAt)
      (x.byteCountCoded32 (p.type % 4294967296))
      (by simp only [List.length_append, Nat.cast_add]; omega)
    have a5 := OctreePacketData.append_of_cap
      (OctreePacketData.mk pd.targetSize (pd.uncompressed ++ p.lastEdited.val ++ id.id.val
        ++ x.byteCountCoded32 id.creatorTokenID ++ x.byteCountCoded32 (p.type % 4294967296))
        pd.subTreeAt)
      (x.byteCountCoded64 0)
      (by simp only [List.length_append, Nat.cast_add]; omega)
    have a6 := OctreePacketData.append_of_cap
      (OctreePacketData.mk pd.targetSize (pd.uncompressed ++ p.lastEdited.val ++ id.id.val
        ++ x.byteCountCoded32 id.creatorTokenID ++ x.byteCountCoded32 (p.type % 4294967296)
        ++ x.byteCountCoded64 0) pd.subTreeAt)
      (x.encodeFlags {PROP_LAST_ITEM})
      (by simp only [List.length_append, Nat.cast_add]; omega)
    simp only [hd, Bool.and_self, if_true, a3, a4, a5, a6]
  · have hd : decide (id.id = x.NEW_ENTITY) = false := decide_eq_false hnew
    rw [if_neg hnew] at h
    have a4 := OctreePacketData.append_of_cap
      (OctreePacketData.mk pd.targetSize (pd.uncompressed ++ p.lastEdited.val ++ id.id.val)
        pd.subTreeAt)
      (x.byteCountCoded32 (p.type % 4294967296))
      (by simp only [List.length_append, Nat.cast_add]; omega)
    have a5 := OctreePacketData.append_of_cap
      (OctreePacketData.mk pd.targetSize (pd.uncompressed ++ p.lastEdited.val ++ id.id.val
        ++ x.byteCountCoded32 (p.type % 4294967296)) pd.subTreeAt)
      (x.byteCountCoded64 0)
      (by simp only [List.length_append, Nat.cast_add]; omega)
    have a6 := OctreePacketData.append_of_cap
      (OctreePacketData.mk pd.targetSize (pd.uncompressed ++ p.lastEdited.val ++ id.id.val
        ++ x.byteCountCoded32 (p.type % 4294967296) ++ x.byteCountCoded64 0) pd.subTreeAt)
      (x.encodeFlags {PROP_LAST_ITEM})
      (by simp only [List.length_append, Nat.cast_add]; omega)
    simp only [hd, Bool.false_and, Bool.false_eq_true, if_false, a4, a5, a6, Bool.and_self]

/-! ## The shape of a successful packet -/

theorem index_le_last (t : EntityPropertyList) : t.index ≤ PROP_LAST_ITEM.index := by
  cases t <;> decide

/-- Under the length law no flag set is encoded in more bytes than the provisional one. -/
theorem encodeFlags_le_provisional (x : Ext) (hl : x.FlagsLengthLaw)
    (f : EntityPropertyFlags) :
    (x.encodeFlags f).length ≤ (x.encodeFlags {PROP_LAST_ITEM}).length :=
  hl f {PROP_LAST_ITEM} (fun t _ => ⟨PROP_LAST_ITEM, Finset.mem_singleton_self _, index_le_last t⟩)

theorem payloadsIn_congr (x : Ext) (p : EntityItemProperties) (f g : EntityPropertyFlags)
    (ts : List EntityPropertyList) (h : ∀ t ∈ ts, (t ∈ f ↔ t ∈ g)) :
    payloadsIn x p f ts = payloadsIn x p g ts := by
  unfold payloadsIn
  congr 2
  apply List.filter_congr
  intro t ht
  simp [h t ht]

/-- The attribute phase of a successful run. -/
theorem attributePhase_success (x : Ext) (id : EntityItemID) (p : EntityItemProperties)
    (sizeIn : Int) (h : (encodeRun x id p sizeIn).success = true) :
    (attributePhase x id p sizeIn).packetData.uncompressed
        = x.rootOctcode ++ (recordHeaderBytes x id p ++ (x.encodeFlags {PROP_LAST_ITEM}
            ++ payloadsIn x p p.getChangedProperties wireOrder))
    ∧ (attributePhase x id p sizeIn).propertyFlags
        = (wireOrder.filter (fun t => t ∈ p.getChangedProperties)).toFinset
    ∧ (attributePhase x id p sizeIn).propertyCount
        = (wireOrder.filter (fun t => t ∈ p.getChangedProperties)).length
    ∧ (appendHeader x id p (prefixPacket x sizeIn)).propertyFlagsOffset
        = (x.rootOctcode ++ recordHeaderBytes x id p).length
    ∧ (appendHeader x id p (prefixPacket x sizeIn)).startOfEntityItemData
        = (x.rootOctcode ++ recordHeaderBytes x id p).length
          + (x.encodeFlags {PROP_LAST_ITEM}).length := by
  obtain ⟨_, hc, hs⟩ := (encodeRun_success_iff x id p sizeIn).mp h
  have hf := attributePhase_count_pos x id p sizeIn hc
  obtain ⟨e1, e2, e3⟩ := appendHeader_fits x id p (prefixPacket x sizeIn) hf
  rw [attributePhase_header x id p sizeIn hf] at hs ⊢
  obtain ⟨f1, f2, f3⟩ := appendFold_completed x p p.getChangedProperties wireOrder _ hs
  refine ⟨?_, ?_, ?_, e2, e3⟩
  · rw [f1]; dsimp only; rw [e1]; simp only [prefixPacket, List.append_assoc]
  · rw [f2]; simp
  · rw [f3]; simp

/-- The bytes of a successful packet, when the final flags are no longer than the
provisional ones. -/
theorem encodeRun_success_bytes (x : Ext) (id : EntityItemID) (p : EntityItemProperties)
    (sizeIn : Int) (h : (encodeRun x id p sizeIn).success = true)
    (hle : (x.encodeFlags (encodeRun x id p sizeIn).propertyFlags).length
      ≤ (x.encodeFlags {PROP_LAST_ITEM}).length) :
    (encodeRun x id p sizeIn).bufferOut
      = headerBytes x id p ++ (x.encodeFlags (encodeRun x id p sizeIn).propertyFlags
          ++ payloadsOf x p (encodeRun x id p sizeIn).propertyFlags) := by
  obtain ⟨hp, _, _⟩ := (encodeRun_success_iff x id p sizeIn).mp h
  obtain ⟨a1, a2, _, a4, a5⟩ := attributePhase_success x id p sizeIn h
  obtain ⟨l1, _⟩ := encodeRun_locals x id p sizeIn hp
  rw [l1] at hle ⊢
  rw [((encodeRun_outputs x id p sizeIn).2 h).2]
  have := repairPropertyFlags_eq x (appendHeader x id p (prefixPacket x sizeIn))
    (attributePhase x id p sizeIn).propertyFlags (attributePhase x id p sizeIn).packetData
    (x.rootOctcode ++ recordHeaderBytes x id p) (x.encodeFlags {PROP_LAST_ITEM})
    (payloadsIn x p p.getChangedProperties wireOrder)
    (by rw [a1, List.append_assoc]) a4 (appendHeader_old _ _ _ _) a5 hle
  rw [this]
  simp only [headerBytes, List.append_assoc]
  congr 3
  rw [payloadsOf_eq]
  apply payloadsIn_congr
  intro t ht
  rw [a2]; simp [ht]

/-- The header fields of a successful packet are in place whatever the flags do. -/
theorem encodeRun_success_header (x : Ext) (id : EntityItemID) (p : EntityItemProperties)
    (sizeIn : Int) (h : (encodeRun x id p sizeIn).success = true) :
    ∃ rest, (encodeRun x id p sizeIn).bufferOut = headerBytes x id p ++ rest := by
  obtain ⟨a1, _, _, a4, a5⟩ := attributePhase_success x id p sizeIn h
  rw [((encodeRun_outputs x id p sizeIn).2 h).2]
  by_cases hle : (x.encodeFlags (attributePhase x id p sizeIn).propertyFlags).length
      ≤ (x.encodeFlags {PROP_LAST_ITEM}).length
  · have := repairPropertyFlags_eq x (appendHeader x id p (prefixPacket x sizeIn))
      (attributePhase x id p sizeIn).propertyFlags (attributePhase x id p sizeIn).packetData
      (x.rootOctcode ++ recordHeaderBytes x id p) (x.encodeFlags {PROP_LAST_ITEM})
      (payloadsIn x p p.getChangedProperties wireOrder)
      (by rw [a1, List.append_assoc]) a4 (appendHeader_old _ _ _ _) a5 hle
    rw [this]
    exact ⟨_, rfl⟩
  · unfold repairPropertyFlags
    simp only [appendHeader_old]
    rw [if_neg (by omega)]
    unfold OctreePacketData.updatePriorBytes
    split_ifs
    · dsimp only
      rw [a4, a1, ← List.append_assoc x.rootOctcode, take_eq_left _ _ _ rfl,
        List.append_assoc]
      exact ⟨_, rfl⟩
    · rw [a1]
      exact ⟨_, by rw [headerBytes, List.append_assoc]⟩

/-! ## The reference instance satisfies the laws -/

theorem toNat_ofNat_lt (k : Nat) (h : k < 256) : (UInt8.ofNat k).toNat = k := by
  simp [UInt8.toNat, UInt8.ofNat, Fin.ofNat, Nat.mod_eq_of_lt h]

theorem unvarint_varint (k v : Nat) (rest : List Byte) (h : v < 128 ^ (k + 1)) :
    unvarint (varint (k + 1) v ++ rest) = v := by
  induction k generalizing v with
  | zero =>
    have hv : v < 128 := by simpa using h
    simp [varint, unvarint, hv, toNat_ofNat_lt v (by omega)]
  | succ k ih =>
    unfold varint
    split_ifs with hv
    · simp [unvarint, hv, toNat_ofNat_lt v (by omega)]
    · have hb : (UInt8.ofNat (v % 128 + 128)).toNat = v % 128 + 128 :=
        toNat_ofNat_lt _ (by omega)
      have hd : v / 128 < 128 ^ (k + 1) := by
        apply Nat.div_lt_of_lt_mul
        rw [pow_succ] at h; omega
      have e := ih (v / 128) hd
      simp only [List.cons_append, unvarint, hb]
      rw [if_neg (by omega)]
      change v % 128 + 128 - 128 + 128 * unvarint (varint (k + 1) (v / 128) ++ rest) = v
      rw [e]
      omega

theorem varint3_length (v : Nat) :
    (varint 3 v).length = if v < 128 then 1 else if v < 16384 then 2 else 3 := by
  unfold varint
  split_ifs with h1 h2
  · rfl
  · unfold varint
    rw [if_pos (by omega)]; rfl
  · unfold varint
    rw [if_neg (by omega)]
    unfold varint
    split_ifs <;> rfl

theorem ofBits_lt (bs : List Bool) : ofBits bs < 2 ^ bs.length := by
  induction bs with
  | nil => simp [ofBits]
  | cons b bs ih =>
    simp only [ofBits, List.length_cons, pow_succ]
    split_ifs <;> omega

theorem bitAt_ofBits (bs : List Bool) (i : Nat) : bitAt (ofBits bs) i = bs.getD i false := by
  induction bs generalizing i with
  | nil => simp [ofBits, bitAt]
  | cons b bs ih =>
    cases i with
    | zero =>
      cases b <;> simp [ofBits, bitAt, Nat.add_mul_mod_self_left]
    | succ i =>
      have h : ((if b = true then 1 else 0) + 2 * ofBits bs) / 2 ^ (i + 1)
          = ofBits bs / 2 ^ i := by
        rw [pow_succ, Nat.mul_comm (2 ^ i) 2, ← Nat.div_div_eq_div_mul]
        congr 1
        split_ifs <;> omega
      have := ih i
      simp only [bitAt] at this ⊢
      simp only [ofBits, h, List.getD_cons_succ]
      exact this

theorem ofBits_lt_iff (bs : List Bool) (n : Nat) :
    ofBits bs < 2 ^ n ↔ ∀ i, n ≤ i → bs.getD i false = false := by
  induction bs generalizing n with
  | nil => simp [ofBits]
  | cons b bs ih =>
    cases n with
    | zero =>
      simp only [pow_zero, Nat.lt_one_iff, ofBits, zero_le, forall_const]
      constructor
      · intro h i
        have hb : b = false := by
          cases b
          · rfl
          · simp at h
        have h0 : ofBits bs < 2 ^ 0 := by
          simp only [hb] at h; simp at h; simp [h]
        cases i with
        | zero => simp [hb]
        | succ i => simpa using (ih 0).mp h0 i (Nat.zero_le _)
      · intro h
        have hb : b = false := by simpa using h 0
        have h0 : ofBits bs < 2 ^ 0 :=
          (ih 0).mpr (fun i _ => by simpa using h (i + 1))
        simp only [pow_zero, Nat.lt_one_iff] at h0
        simp [hb, h0]
    | succ n =>
      have key : ofBits (b :: bs) < 2 ^ (n + 1) ↔ ofBits bs < 2 ^ n := by
        simp only [ofBits, pow_succ]
        split_ifs <;> omega
      rw [key, ih n]
      constructor
      · intro h i hi
        cases i with
        | zero => omega
        | succ i => simpa using h i (by omega)
      · intro h i hi
        simpa using h (i + 1) (by omega)

theorem allTags_getD (g : EntityPropertyList → Bool) (t : EntityPropertyList) :
    (allTags.map g).getD t.index false = g t := by
  cases t <;> rfl

theorem index_surj (i : Nat) (h : i < 19) : ∃ t : EntityPropertyList, t.index = i := by
  have : i = 0 ∨ i = 1 ∨ i = 2 ∨ i = 3 ∨ i = 4 ∨ i = 5 ∨ i = 6 ∨ i = 7 ∨ i = 8 ∨ i = 9
      ∨ i = 10 ∨ i = 11 ∨ i = 12 ∨ i = 13 ∨ i = 14 ∨ i = 15 ∨ i = 16 ∨ i = 17 ∨ i = 18 := by
    omega
  rcases this with h | h | h | h | h | h | h | h | h | h | h | h | h | h | h | h | h | h | h
    <;> subst h
  · exact ⟨PROP_PAGED_PROPERTY, rfl⟩
  · exact ⟨PROP_CUSTOM_PROPERTIES_INCLUDED, rfl⟩
  · exact ⟨PROP_VISIBLE, rfl⟩
  · exact ⟨PROP_POSITION, rfl⟩
  · exact ⟨PROP_RADIUS, rfl⟩
  · exact ⟨PROP_ROTATION, rfl⟩
  · exact ⟨PROP_MASS, rfl⟩
  · exact ⟨PROP_VELOCITY, rfl⟩
  · exact ⟨PROP_GRAVITY, rfl⟩
  · exact ⟨PROP_DAMPING, rfl⟩
  · exact ⟨PROP_LIFETIME, rfl⟩
  · exact ⟨PROP_SCRIPT, rfl⟩
  · exact ⟨PROP_COLOR, rfl⟩
  · exact ⟨PROP_MODEL_URL, rfl⟩
  · exact ⟨PROP_ANIMATION_URL, rfl⟩
  · exact ⟨PROP_ANIMATION_FPS, rfl⟩
  · exact ⟨PROP_ANIMATION_FRAME_INDEX, rfl⟩
  · exact ⟨PROP_ANIMATION_PLAYING, rfl⟩
  · exact ⟨PROP_LAST_ITEM, rfl⟩

theorem flagBits_lt (f : EntityPropertyFlags) : flagBits f < 2097152 := by
  have := ofBits_lt (allTags.map (fun t => decide (t ∈ f)))
  simp only [List.length_map, allTags, List.length_cons, List.length_nil] at this
  unfold flagBits allTags
  omega

theorem flagBits_lt_iff (f : EntityPropertyFlags) (n : Nat) :
    flagBits f < 2 ^ n ↔ ∀ t ∈ f, t.index < n := by
  unfold flagBits
  rw [ofBits_lt_iff]
  constructor
  · intro h t ht
    by_contra hn
    have := h t.index (by omega)
    rw [allTags_getD] at this
    simp [ht] at this
  · intro h i hi
    by_cases h19 : i < 19
    · obtain ⟨t, rfl⟩ := index_surj i h19
      rw [allTags_getD]
      simp only [decide_eq_false_iff_not]
      intro ht
      have := h t ht
      omega
    · apply List.getD_eq_default
      simp [allTags]; omega

theorem flagsOfBits_flagBits (f : EntityPropertyFlags) : flagsOfBits (flagBits f) = f := by
  ext t
  have hall : t ∈ allTags := by cases t <;> simp [allTags]
  simp only [flagsOfBits, List.mem_toFinset, List.mem_filter, hall, true_and, flagBits,
    bitAt_ofBits, allTags_getD, decide_eq_true_eq]

theorem refExt_octcodeLaw : refExt.OctcodeLaw := by
  intro rest
  simp [refExt, peek]

theorem refExt_byteCount32Law : refExt.ByteCount32Law := by
  intro v hv rest
  exact unvarint_varint 4 v rest (by norm_num; omega)

theorem refExt_byteCount64Law : refExt.ByteCount64Law := by
  intro v hv rest
  exact unvarint_varint 9 v rest (by norm_num; omega)

theorem refExt_flagsLaw : refExt.FlagsLaw := by
  intro f rest
  have h := unvarint_varint 2 (flagBits f) rest (by have := flagBits_lt f; norm_num; omega)
  simp only [refExt, h, flagsOfBits_flagBits]

theorem refExt_flagsLengthLaw : refExt.FlagsLengthLaw := by
  intro f g h
  simp only [refExt, varint3_length]
  have h7 := flagBits_lt_iff f 7
  have h14 := flagBits_lt_iff f 14
  have g7 := flagBits_lt_iff g 7
  have g14 := flagBits_lt_iff g 14
  norm_num at h7 h14 g7 g14
  have m7 : flagBits g < 128 → flagBits f < 128 := by
    intro hg; rw [h7]; intro t ht
    obtain ⟨u, hu, hle⟩ := h t ht
    have := g7.mp hg u hu; omega
  have m14 : flagBits g < 16384 → flagBits f < 16384 := by
    intro hg; rw [h14]; intro t ht
    obtain ⟨u, hu, hle⟩ := h t ht
    have := g14.mp hg u hu; omega
  split_ifs <;> omega

theorem refExt_quatLaw : refExt.QuatLaw := by
  intro q rest
  have := readRaw_at 16 q [] rest
  simp only [List.nil_append, List.length_nil] at this
  simp [refExt, this, q.property]

/-! ## The attribute blocks of the decoder -/

theorem readProperties_eq_foldl (x : Ext) (data : List Byte) (flags : EntityPropertyFlags)
    (s : DecodeState) :
    readProperties x data flags s
      = wireOrder.foldl (fun s t => readProperty x data flags t s) s := rfl

theorem Raw.length_val {n : Nat} (v : Raw n) : v.val.length = n := v.property

theorem readRaw_of (n : Nat) (v : Raw n) (data pre post : List Byte) (pos : Nat)
    (hd : data = pre ++ (v.val ++ post)) (hp : pos = pre.length) :
    readRaw n data pos = v := by
  subst hd hp; exact readRaw_at n v pre post

theorem peek_of (b : Byte) (data pre post : List Byte) (pos : Nat)
    (hd : data = pre ++ (b :: post)) (hp : pos = pre.length) : peek data pos = b := by
  subst hd hp
  have := peek_append_right pre (b :: post) 0
  simpa [peek] using this

theorem qByteArray_of (data pre e post : List Byte) (pos : Nat) (size : Int)
    (hd : data = pre ++ (e ++ post)) (hp : pos = pre.length) (h : (e.length : Int) ≤ size) :
    ∃ rest, qByteArray data pos size = e ++ rest := by
  subst hd hp; exact qByteArray_at pre e post size h

/-- The identity that the decoder reads from a packet that starts with the routing
prefix, a timestamp, an id and, for the sentinel id, a coded creator token. -/
theorem readHeader_entityID (x : Ext) (ho : x.OctcodeLaw) (h32 : x.ByteCount32Law)
    (lastEdited : quint64) (id : EntityItemID) (rest : List Byte) (bytesToRead : Int)
    (tgt : EntityItemProperties)
    (htok : id.id = x.NEW_ENTITY → id.creatorTokenID < 4294967296)
    (hn : id.id = x.NEW_ENTITY →
      ((x.rootOctcode.length + 24 + (x.byteCountCoded32 id.creatorTokenID).length : Nat) : Int)
        ≤ bytesToRead) :
    (readHeader x (x.rootOctcode ++ (lastEdited.val ++ (id.id.val
        ++ ((if id.id = x.NEW_ENTITY then x.byteCountCoded32 id.creatorTokenID else [])
        ++ rest)))) bytesToRead tgt).entityID
      = (if id.id = x.NEW_ENTITY then
          EntityItemID.mk x.NEW_ENTITY id.creatorTokenID false
        else EntityItemID.mk id.id x.UNKNOWN_ENTITY_TOKEN true) := by
  unfold readHeader
  simp only [ho _]
  have k1 : readRaw 16 (x.rootOctcode ++ (lastEdited.val ++ (id.id.val
        ++ ((if id.id = x.NEW_ENTITY then x.byteCountCoded32 id.creatorTokenID else [])
        ++ rest)))) (x.rootOctcode.length + 8) = id.id :=
    readRaw_of 16 id.id _ (x.rootOctcode ++ lastEdited.val)
      ((if id.id = x.NEW_ENTITY then x.byteCountCoded32 id.creatorTokenID else []) ++ rest) _
      (by simp only [List.append_assoc]) (by simp only [List.length_append, Raw.length_val])
  rw [k1]
  by_cases hnew : id.id = x.NEW_ENTITY
  · simp only [if_pos hnew, decide_eq_true hnew, if_true]
    obtain ⟨r, hr⟩ := qByteArray_of (x.rootOctcode ++ (lastEdited.val ++ (id.id.val
        ++ (x.byteCountCoded32 id.creatorTokenID ++ rest))))
      (x.rootOctcode ++ lastEdited.val ++ id.id.val) (x.byteCountCoded32 id.creatorTokenID) rest
      (x.rootOctcode.length + 8 + 16) (bytesToRead - ((x.rootOctcode.length + 8 + 16 : Nat) : Int))
      (by simp only [List.append_assoc]) (by simp only [List.length_append, Raw.length_val])
      (by have := hn hnew; push_cast at this ⊢; omega)
    rw [hr, h32 _ (htok hnew)]
  · simp only [if_neg hnew, decide_eq_false hnew, Bool.false_eq_true, if_false]

/-- The whole header of the decoder on a packet that starts with the header fields and
the encoding of a flag set. -/
theorem readHeader_at (x : Ext) (ho : x.OctcodeLaw) (h32 : x.ByteCount32Law)
    (h64 : x.ByteCount64Law) (hf : x.FlagsLaw)
    (id : EntityItemID) (p : EntityItemProperties) (f : EntityPropertyFlags)
    (rest : List Byte) (bytesToRead : Int) (tgt : EntityItemProperties)
    (htok : id.id = x.NEW_ENTITY → id.creatorTokenID < 4294967296)
    (hn : (((headerBytes x id p).length + (x.encodeFlags f).length : Nat) : Int) ≤ bytesToRead) :
    readHeader x (headerBytes x id p ++ (x.encodeFlags f ++ rest)) bytesToRead tgt
      = DecodedHeader.mk true
          (if id.id = x.NEW_ENTITY then EntityItemID.mk x.NEW_ENTITY id.creatorTokenID false
            else EntityItemID.mk id.id x.UNKNOWN_ENTITY_TOKEN true)
          f
          (DecodeState.mk ((headerBytes x id p).length + (x.encodeFlags f).length)
            (((tgt.setLastEdited p.lastEdited).setCreated
              (if id.id = x.NEW_ENTITY then p.lastEdited else x.USE_EXISTING_CREATED_TIME)).setType
              (p.type % 4294967296))) := by
  have hty : p.type % 4294967296 < 4294967296 := Nat.mod_lt _ (by norm_num)
  generalize hT : p.type % 4294967296 = ty at hty ⊢
  have hdata : headerBytes x id p ++ (x.encodeFlags f ++ rest)
      = x.rootOctcode ++ (p.lastEdited.val ++ (id.id.val
        ++ ((if id.id = x.NEW_ENTITY then x.byteCountCoded32 id.creatorTokenID else [])
        ++ (x.byteCountCoded32 ty ++ (x.byteCountCoded64 0 ++ (x.encodeFlags f ++ rest)))))) := by
    simp only [headerBytes, recordHeaderBytes, hT, List.append_assoc]
  have hlen : (headerBytes x id p).length = x.rootOctcode.length + 8 + 16
      + (if id.id = x.NEW_ENTITY then x.byteCountCoded32 id.creatorTokenID else []).length
      + (x.byteCountCoded32 ty).length + (x.byteCountCoded64 0).length := by
    simp only [headerBytes, recordHeaderBytes, hT, List.length_append, Raw.length_val]
    omega
  rw [hdata]
  rw [hlen] at hn ⊢
  clear hdata hlen
  obtain ⟨tok, htokdef⟩ : ∃ tok, tok
      = (if id.id = x.NEW_ENTITY then x.byteCountCoded32 id.creatorTokenID else []) := ⟨_, rfl⟩
  rw [← htokdef] at hn ⊢
  generalize hD : x.rootOctcode ++ (p.lastEdited.val ++ (id.id.val
        ++ (tok ++ (x.byteCountCoded32 ty ++ (x.byteCountCoded64 0 ++ (x.encodeFlags f ++ rest))))))
      = data
  have k0 : x.bytesOfOctcode data = x.rootOctcode.length := by rw [← hD]; exact ho _
  have k1 : readRaw 8 data x.rootOctcode.length = p.lastEdited :=
    readRaw_of 8 p.lastEdited data x.rootOctcode
      (id.id.val ++ (tok ++ (x.byteCountCoded32 ty ++ (x.byteCountCoded64 0
        ++ (x.encodeFlags f ++ rest))))) _ hD.symm rfl
  have k2 : readRaw 16 data (x.rootOctcode.length + 8) = id.id :=
    readRaw_of 16 id.id data (x.rootOctcode ++ p.lastEdited.val)
      (tok ++ (x.byteCountCoded32 ty ++ (x.byteCountCoded64 0 ++ (x.encodeFlags f ++ rest)))) _
      (by rw [← hD]; simp only [List.append_assoc]) (by simp only [List.length_append, Raw.length_val])
  have k3 : id.id = x.NEW_ENTITY → x.byteCountDecoded32 (qByteArray data
      (x.rootOctcode.length + 8 + 16)
      (bytesToRead - ((x.rootOctcode.length + 8 + 16 : Nat) : Int))) = id.creatorTokenID := by
    intro hnew
    rw [if_pos hnew] at htokdef
    obtain ⟨r, hr⟩ := qByteArray_of data
      (x.rootOctcode ++ p.lastEdited.val ++ id.id.val) (x.byteCountCoded32 id.creatorTokenID)
      (x.byteCountCoded32 ty ++ (x.byteCountCoded64 0 ++ (x.encodeFlags f ++ rest)))
      (x.rootOctcode.length + 8 + 16) (bytesToRead - ((x.rootOctcode.length + 8 + 16 : Nat) : Int))
      (by rw [← hD, htokdef]; simp only [List.append_assoc]) (by simp only [List.length_append, Raw.length_val])
      (by rw [htokdef] at hn; push_cast at hn ⊢; omega)
    rw [hr, h32 _ (htok hnew)]
  have k4 : x.byteCountDecoded32 (qByteArray data (x.rootOctcode.length + 8 + 16 + tok.length)
      (bytesToRead - ((x.rootOctcode.length + 8 + 16 + tok.length : Nat) : Int))) = ty := by
    obtain ⟨r, hr⟩ := qByteArray_of data
      (x.rootOctcode ++ p.lastEdited.val ++ id.id.val ++ tok) (x.byteCountCoded32 ty)
      (x.byteCountCoded64 0 ++ (x.encodeFlags f ++ rest))
      (x.rootOctcode.length + 8 + 16 + tok.length)
      (bytesToRead - ((x.rootOctcode.length + 8 + 16 + tok.length : Nat) : Int))
      (by rw [← hD]; simp only [List.append_assoc]) (by simp only [List.length_append, Raw.length_val])
      (by push_cast at hn ⊢; omega)
    rw [hr, h32 _ hty]
  have k5 : x.byteCountDecoded64 (qByteArray data
      (x.rootOctcode.length + 8 + 16 + tok.length + (x.byteCountCoded32 ty).length)
      (bytesToRead - ((x.rootOctcode.length + 8 + 16 + tok.length
        + (x.byteCountCoded32 ty).length : Nat) : Int))) = 0 := by
    obtain ⟨r, hr⟩ := qByteArray_of data
      (x.rootOctcode ++ p.lastEdited.val ++ id.id.val ++ tok ++ x.byteCountCoded32 ty)
      (x.byteCountCoded64 0) (x.encodeFlags f ++ rest)
      (x.rootOctcode.length + 8 + 16 + tok.length + (x.byteCountCoded32 ty).length)
      (bytesToRead - ((x.rootOctcode.length + 8 + 16 + tok.length
        + (x.byteCountCoded32 ty).length : Nat) : Int))
      (by rw [← hD]; simp only [List.append_assoc]) (by simp only [List.length_append, Raw.length_val])
      (by push_cast at hn ⊢; omega)
    rw [hr, h64 0 (by norm_num)]
  have k6 : x.decodeFlags (qByteArray data
      (x.rootOctcode.length + 8 + 16 + tok.length + (x.byteCountCoded32 ty).length
        + (x.byteCountCoded64 0).length)
      (bytesToRead - ((x.rootOctcode.length + 8 + 16 + tok.length
        + (x.byteCountCoded32 ty).length + (x.byteCountCoded64 0).length : Nat) : Int)))
      = (f, (x.encodeFlags f).length) := by
    obtain ⟨r, hr⟩ := qByteArray_of data
      (x.rootOctcode ++ p.lastEdited.val ++ id.id.val ++ tok ++ x.byteCountCoded32 ty
        ++ x.byteCountCoded64 0)
      (x.encodeFlags f) rest
      (x.rootOctcode.length + 8 + 16 + tok.length + (x.byteCountCoded32 ty).length
        + (x.byteCountCoded64 0).length)
      (bytesToRead - ((x.rootOctcode.length + 8 + 16 + tok.length
        + (x.byteCountCoded32 ty).length + (x.byteCountCoded64 0).length : Nat) : Int))
      (by rw [← hD]; simp only [List.append_assoc]) (by simp only [List.length_append, Raw.length_val])
      (by push_cast at hn ⊢; omega)
    rw [hr, hf f]
  unfold readHeader
  simp only [k0, k1, k2]
  by_cases hnew : id.id = x.NEW_ENTITY
  · have htl : tok.length = (x.byteCountCoded32 id.creatorTokenID).length := by
      rw [htokdef, if_pos hnew]
    simp only [if_pos hnew, decide_eq_true hnew, if_true, k3 hnew, ← htl, k4, k5, k6]
  · have htl : tok.length = 0 := by rw [htokdef, if_neg hnew]; rfl
    rw [htl] at k4 k5 k6 ⊢
    simp only [Nat.add_zero] at k4 k5 k6 ⊢
    simp only [if_neg hnew, decide_eq_false hnew, Bool.false_eq_true, if_false, k4, k5, k6]

/-! ## Attributes by tag -/

theorem copyAttribute_self (t : EntityPropertyList) (ht : t ∈ wireOrder)
    (src tgt : EntityItemProperties) :
    attributeOf t (copyAttribute t src tgt) = attributeOf t src
      ∧ changedBitOf t (copyAttribute t src tgt) = true := by
  cases t <;> first | (exact ⟨rfl, rfl⟩) | (exact absurd ht (by decide))

theorem copyAttribute_other (t u : EntityPropertyList) (h : u ≠ t)
    (src tgt : EntityItemProperties) :
    attributeOf t (copyAttribute u src tgt) = attributeOf t tgt
      ∧ changedBitOf t (copyAttribute u src tgt) = changedBitOf t tgt := by
  cases u <;> cases t <;> first | (exact ⟨rfl, rfl⟩) | (exact absurd rfl h)

theorem copyAttribute_otherMembers (u : EntityPropertyList) (src tgt : EntityItemProperties) :
    otherMembers (copyAttribute u src tgt) = otherMembers tgt := by
  cases u <;> rfl

theorem applyEdits_otherMembers (src : EntityItemProperties) (flags : EntityPropertyFlags)
    (ts : List EntityPropertyList) (tgt : EntityItemProperties) :
    otherMembers (applyEdits src flags ts tgt) = otherMembers tgt := by
  induction ts generalizing tgt with
  | nil => rfl
  | cons u ts ih =>
    simp only [applyEdits, List.foldl_cons] at ih ⊢
    rw [ih]
    split_ifs
    · exact copyAttribute_otherMembers u src tgt
    · rfl

/-- An attribute whose tag is not both among the blocks and in the flag set keeps its
value and its changed bit. -/
theorem applyEdits_untouched (src : EntityItemProperties) (flags : EntityPropertyFlags)
    (ts : List EntityPropertyList) (tgt : EntityItemProperties) (t : EntityPropertyList)
    (h : ¬ (t ∈ ts ∧ t ∈ flags)) :
    attributeOf t (applyEdits src flags ts tgt) = attributeOf t tgt
      ∧ changedBitOf t (applyEdits src flags ts tgt) = changedBitOf t tgt := by
  induction ts generalizing tgt with
  | nil => exact ⟨rfl, rfl⟩
  | cons u ts ih =>
    simp only [applyEdits, List.foldl_cons] at ih ⊢
    have h' : ¬ (t ∈ ts ∧ t ∈ flags) := fun ⟨a, b⟩ => h ⟨List.mem_cons_of_mem _ a, b⟩
    obtain ⟨i1, i2⟩ := ih (if u ∈ flags then copyAttribute u src tgt else tgt) h'
    rw [i1, i2]
    split_ifs with hu
    · have hne : u ≠ t := fun e => h ⟨e ▸ List.mem_cons_self _ _, e ▸ hu⟩
      exact copyAttribute_other t u hne src tgt
    · exact ⟨rfl, rfl⟩

/-- An attribute whose tag is among the blocks and in the flag set gets the value of the
snapshot and is marked changed. -/
theorem applyEdits_copied (src : EntityItemProperties) (flags : EntityPropertyFlags)
    (ts : List EntityPropertyList) (hts : ∀ u ∈ ts, u ∈ wireOrder)
    (tgt : EntityItemProperties) (t : EntityPropertyList)
    (h1 : t ∈ ts) (h2 : t ∈ flags) :
    attributeOf t (applyEdits src flags ts tgt) = attributeOf t src
      ∧ changedBitOf t (applyEdits src flags ts tgt) = true := by
  induction ts generalizing tgt with
  | nil => simp at h1
  | cons u ts ih =>
    have hts' : ∀ v ∈ ts, v ∈ wireOrder := fun v hv => hts v (List.mem_cons_of_mem _ hv)
    by_cases hin : t ∈ ts
    · simp only [applyEdits, List.foldl_cons] at ih ⊢
      exact ih hts' _ hin
    · have htu : t = u := by
        rcases List.mem_cons.mp h1 with e | e
        · exact e
        · exact absurd e hin
      subst htu
      have hun := applyEdits_untouched src flags ts
        (if t ∈ flags then copyAttribute t src tgt else tgt) t (fun ⟨a, _⟩ => hin a)
      simp only [applyEdits, List.foldl_cons] at hun ⊢
      rw [hun.1, hun.2, if_pos h2]
      exact copyAttribute_self t (hts t (List.mem_cons_self _ _)) src tgt

/-! ## Decoding what was encoded -/

theorem encodeEntityEditPacket_eq (x : Ext) (id : EntityItemID) (p : EntityItemProperties)
    (sizeIn : Int) :
    (encodeEntityEditPacket x id p sizeIn).success = (encodeRun x id p sizeIn).success
    ∧ (encodeEntityEditPacket x id p sizeIn).sizeOut = (encodeRun x id p sizeIn).sizeOut
    ∧ (encodeEntityEditPacket x id p sizeIn).bufferOut = (encodeRun x id p sizeIn).bufferOut :=
  ⟨rfl, rfl, rfl⟩

/-- The final flags of a successful run are the requested tags that have a block. -/
theorem encodeRun_success_flags (x : Ext) (id : EntityItemID) (p : EntityItemProperties)
    (sizeIn : Int) (h : (encodeRun x id p sizeIn).success = true) (t : EntityPropertyList) :
    t ∈ (encodeRun x id p sizeIn).propertyFlags ↔ (t ∈ wireOrder ∧ t ∈ p.getChangedProperties) := by
  obtain ⟨hp, _, _⟩ := (encodeRun_success_iff x id p sizeIn).mp h
  obtain ⟨_, a2, _⟩ := attributePhase_success x id p sizeIn h
  rw [(encodeRun_locals x id p sizeIn hp).1, a2]
  simp

/-- The header that the decoder reads from a successful packet does not depend on
`bytesToRead`, as long as it covers the header fields and the flags. -/
theorem readHeader_encoded (x : Ext) (ho : x.OctcodeLaw) (h32 : x.ByteCount32Law)
    (h64 : x.ByteCount64Law) (hf : x.FlagsLaw) (hl : x.FlagsLengthLaw)
    (id : EntityItemID) (p tgt : EntityItemProperties) (sizeIn : Int)
    (htok : id.id = x.NEW_ENTITY → id.creatorTokenID < 4294967296)
    (hs : (encodeRun x id p sizeIn).success = true) (tail : List Byte) (n : Int)
    (hn : (((headerBytes x id p).length
      + (x.encodeFlags (encodeRun x id p sizeIn).propertyFlags).length : Nat) : Int) ≤ n) :
    readHeader x ((encodeRun x id p sizeIn).bufferOut ++ tail) n tgt
      = DecodedHeader.mk true
          (if id.id = x.NEW_ENTITY then EntityItemID.mk x.NEW_ENTITY id.creatorTokenID false
            else EntityItemID.mk id.id x.UNKNOWN_ENTITY_TOKEN true)
          (encodeRun x id p sizeIn).propertyFlags
          (DecodeState.mk ((headerBytes x id p).length
              + (x.encodeFlags (encodeRun x id p sizeIn).propertyFlags).length)
            (((tgt.setLastEdited p.lastEdited).setCreated
              (if id.id = x.NEW_ENTITY then p.lastEdited else x.USE_EXISTING_CREATED_TIME)).setType
              (p.type % 4294967296))) := by
  rw [encodeRun_success_bytes x id p sizeIn hs (encodeFlags_le_provisional x hl _),
    List.append_assoc, List.append_assoc]
  exact readHeader_at x ho h32 h64 hf id p _ _ n tgt htok hn

/-- A capacity that holds the header, the provisional flags and the payloads of the
requested tags makes the encoder succeed, when at least one tag with a block is
requested. -/
theorem encodeRun_of_cap (x : Ext) (id : EntityItemID) (p : EntityItemProperties)
    (sizeIn : Int) (hne : ∃ t ∈ wireOrder, t ∈ p.getChangedProperties)
    (hcap : (((headerBytes x id p).length + (x.encodeFlags {PROP_LAST_ITEM}).length
      + (payloadsOf x p p.getChangedProperties).length : Nat) : Int) ≤ sizeIn) :
    (encodeRun x id p sizeIn).success = true := by
  simp only [headerBytes, List.length_append, payloadsOf_eq] at hcap
  push_cast at hcap
  have hp : (x.rootOctcode.length : Int) ≤ sizeIn := by omega
  have hhdr : (appendHeader x id p (prefixPacket x sizeIn)).headerFits = true :=
    appendHeader_of_cap x id p (prefixPacket x sizeIn) (by simp only [prefixPacket]; omega)
  obtain ⟨e1, _, _⟩ := appendHeader_fits x id p (prefixPacket x sizeIn) hhdr
  have hg := (appendHeader_frame x id p (prefixPacket x sizeIn)).1
  have hfold := appendFold_fits x p p.getChangedProperties wireOrder
    (EncodeState.mk (appendHeader x id p (prefixPacket x sizeIn)).packetData ∅
      p.getChangedProperties 0 AppendState.COMPLETED) rfl
    (by
      show ((appendHeader x id p (prefixPacket x sizeIn)).packetData.uncompressed.length : Int)
        + _ ≤ (appendHeader x id p (prefixPacket x sizeIn)).packetData.targetSize
      rw [e1, hg]
      simp only [prefixPacket, List.length_append]
      push_cast; omega)
  obtain ⟨_, _, c3⟩ := appendFold_completed x p p.getChangedProperties wireOrder _ hfold
  rw [encodeRun_success_iff]
  rw [attributePhase_header x id p sizeIn hhdr]
  refine ⟨hp, ?_, hfold⟩
  rw [c3]
  obtain ⟨t, ht, hreq⟩ := hne
  have : t ∈ wireOrder.filter (fun t => t ∈ p.getChangedProperties) := by
    simp [ht, hreq]
  have := List.length_pos_of_mem this
  simpa using this

/-! ## The claims -/

theorem finishEncode_final (s o h : Bool) (req : EntityPropertyFlags) (st : EncodeState)
    (a b : Nat) (hs : (finishEncode s o h req st a b).success = true) :
    (finishEncode s o h req st a b).packetData.getFinalizedData
        = (finishEncode s o h req st a b).bufferOut
    ∧ (finishEncode s o h req st a b).packetData.getFinalizedSize
        = (finishEncode s o h req st a b).sizeOut := by
  cases s
  · simp [finishEncode] at hs
  · simp [finishEncode]

theorem encodeRun_finish (x : Ext) (id : EntityItemID) (p : EntityItemProperties)
    (sizeIn : Int) :
    ∃ s o h req st a b, encodeRun x id p sizeIn = finishEncode s o h req st a b := by
  by_cases hp : (x.rootOctcode.length : Int) ≤ sizeIn
  · rw [encodeRun_octcode_fits x id p sizeIn hp]
    split_ifs
    · exact ⟨_, _, _, _, _, _, _, rfl⟩
    · exact ⟨_, _, _, _, _, _, _, rfl⟩
  · rw [encodeRun_octcode_too_long x id p sizeIn hp]
    exact ⟨_, _, _, _, _, _, _, rfl⟩

set_option maxRecDepth 100000

/-- C5. Failure is atomic for the caller: when `encodeEntityEditPacket` returns false,
`sizeOut` is 0, nothing was copied to `bufferOut` and the packet is empty; when it returns
true, `sizeOut` is the finalized size of the packet, `bufferOut` holds the finalized bytes,
and `sizeOut` is greater than 0. -/
theorem encode_failure_is_atomic (x : Ext) (id : EntityItemID) (p : EntityItemProperties)
    (sizeIn : Int) :
    ((encodeEntityEditPacket x id p sizeIn).success = false →
        (encodeEntityEditPacket x id p sizeIn).sizeOut = 0
        ∧ (encodeEntityEditPacket x id p sizeIn).bufferOut = []
        ∧ (encodeRun x id p sizeIn).packetData.uncompressed = [])
    ∧ ((encodeEntityEditPacket x id p sizeIn).success = true →
        (encodeEntityEditPacket x id p sizeIn).sizeOut
          = (encodeRun x id p sizeIn).packetData.getFinalizedSize
        ∧ (encodeEntityEditPacket x id p sizeIn).bufferOut
          = (encodeRun x id p sizeIn).packetData.getFinalizedData
        ∧ (encodeEntityEditPacket x id p sizeIn).sizeOut
          = (encodeEntityEditPacket x id p sizeIn).bufferOut.length
        ∧ 0 < (encodeEntityEditPacket x id p sizeIn).sizeOut) := by
  refine ⟨fun h => (encodeRun_outputs x id p sizeIn).1 h, fun h => ?_⟩
  have hs : (encodeRun x id p sizeIn).success = true := h
  obtain ⟨o1, o2⟩ := (encodeRun_outputs x id p sizeIn).2 hs
  obtain ⟨a1, _⟩ := attributePhase_success x id p sizeIn hs
  have hlen := repairPropertyFlags_length x (appendHeader x id p (prefixPacket x sizeIn))
    (attributePhase x id p sizeIn).propertyFlags (attributePhase x id p sizeIn).packetData
  rw [appendHeader_old, a1] at hlen
  have h24 := recordHeaderBytes_length x id p
  have hfin : (encodeRun x id p sizeIn).packetData.getFinalizedData
      = (encodeRun x id p sizeIn).bufferOut ∧
      (encodeRun x id p sizeIn).packetData.getFinalizedSize
      = (encodeRun x id p sizeIn).sizeOut := by
    obtain ⟨s, o, h', req, st, a, b, e⟩ := encodeRun_finish x id p sizeIn
    rw [e] at hs ⊢
    exact finishEncode_final s o h' req st a b hs
  refine ⟨hfin.2.symm, hfin.1.symm, o1, ?_⟩
  show 0 < (encodeRun x id p sizeIn).sizeOut
  rw [o1, o2]
  simp only [List.length_append] at hlen
  omega

/-- C6. Encode abandoned: whenever no attribute payload was written (`propertyCount` is
0 at the end of the run), `encodeEntityEditPacket` returns false, sets `sizeOut` to 0,
copies nothing and leaves no byte of the entity record in the packet; no payload is
written when no requested tag has an attribute block (in particular for an empty changed
set), when no attribute reached the final flags (none fitted), when the routing prefix
did not fit, or when a header field did not fit; and when the routing prefix fitted, the
entity record is discarded with the state `NONE`. -/
theorem encode_abandoned (x : Ext) (id : EntityItemID) (p : EntityItemProperties)
    (sizeIn : Int) :
    ((encodeRun x id p sizeIn).propertyCount = 0 →
        (encodeEntityEditPacket x id p sizeIn).success = false
        ∧ (encodeEntityEditPacket x id p sizeIn).sizeOut = 0
        ∧ (encodeEntityEditPacket x id p sizeIn).bufferOut = []
        ∧ (encodeRun x id p sizeIn).packetData.uncompressed = [])
    ∧ ((∀ t ∈ wireOrder, t ∉ p.getChangedProperties) →
        (encodeRun x id p sizeIn).propertyCount = 0)
    ∧ ((encodeRun x id p sizeIn).octcodeFits = false →
        (encodeRun x id p sizeIn).propertyCount = 0)
    ∧ ((encodeRun x id p sizeIn).headerFits = false →
        (encodeRun x id p sizeIn).propertyCount = 0)
    ∧ ((encodeRun x id p sizeIn).octcodeFits = true →
        (encodeRun x id p sizeIn).propertyCount = 0 →
        (encodeRun x id p sizeIn).appendState = AppendState.NONE)
    ∧ ((∀ t ∈ wireOrder, t ∉ (encodeRun x id p sizeIn).propertyFlags) →
        (encodeRun x id p sizeIn).propertyCount = 0) := by
  refine ⟨fun h0 => ?_, fun hreq => ?_, fun ho => ?_, fun hh => ?_, fun ho h0 => ?_,
    fun hnone => ?_⟩
  · have hs : (encodeRun x id p sizeIn).success = false := by
      by_contra hne
      have ht : (encodeRun x id p sizeIn).success = true := by
        cases hc : (encodeRun x id p sizeIn).success
        · exact absurd hc hne
        · rfl
      obtain ⟨hp, hc, _⟩ := (encodeRun_success_iff x id p sizeIn).mp ht
      rw [(encodeRun_locals x id p sizeIn hp).2.1] at h0
      omega
    exact ⟨hs, (encodeRun_outputs x id p sizeIn).1 hs⟩
  · by_cases hp : (x.rootOctcode.length : Int) ≤ sizeIn
    · rw [(encodeRun_locals x id p sizeIn hp).2.1]
      cases hf : (appendHeader x id p (prefixPacket x sizeIn)).headerFits
      · rw [attributePhase_no_header x id p sizeIn hf]
      · rw [attributePhase_header x id p sizeIn hf]
        have hc := appendFold_count x p p.getChangedProperties wireOrder
          (EncodeState.mk (appendHeader x id p (prefixPacket x sizeIn)).packetData ∅
            p.getChangedProperties 0 AppendState.COMPLETED) wireOrder_nodup
          (fun t _ => Finset.not_mem_empty t) rfl
        have hsub := appendFold_flags_subset x p p.getChangedProperties wireOrder
          (EncodeState.mk (appendHeader x id p (prefixPacket x sizeIn)).packetData ∅
            p.getChangedProperties 0 AppendState.COMPLETED)
        have hempty : wireOrder.filter (fun t => t ∈ p.getChangedProperties) = [] := by
          rw [List.filter_eq_nil_iff]
          intro t ht
          simpa using hreq t ht
        rw [hempty] at hsub
        rw [hc, Finset.card_eq_zero]
        exact Finset.subset_empty.mp (by simpa using hsub)
    · exact (encodeRun_locals_octcode_too_long x id p sizeIn hp).2.1
  · by_cases hp : (x.rootOctcode.length : Int) ≤ sizeIn
    · rw [(encodeRun_locals x id p sizeIn hp).2.2.2.2.2] at ho
      cases ho
    · exact (encodeRun_locals_octcode_too_long x id p sizeIn hp).2.1
  · by_cases hp : (x.rootOctcode.length : Int) ≤ sizeIn
    · rw [(encodeRun_locals x id p sizeIn hp).2.2.2.2.1] at hh
      rw [(encodeRun_locals x id p sizeIn hp).2.1, attributePhase_no_header x id p sizeIn hh]
    · exact (encodeRun_locals_octcode_too_long x id p sizeIn hp).2.1
  · by_cases hp : (x.rootOctcode.length : Int) ≤ sizeIn
    · rw [(encodeRun_locals x id p sizeIn hp).2.1] at h0
      rw [encodeRun_octcode_fits x id p sizeIn hp, if_neg (by omega)]
      rfl
    · rw [(encodeRun_locals_octcode_too_long x id p sizeIn hp).2.2.2] at ho
      cases ho
  · by_cases hp : (x.rootOctcode.length : Int) ≤ sizeIn
    · rw [(encodeRun_locals x id p sizeIn hp).1] at hnone
      rw [(encodeRun_locals x id p sizeIn hp).2.1]
      cases hf : (appendHeader x id p (prefixPacket x sizeIn)).headerFits
      · rw [attributePhase_no_header x id p sizeIn hf]
      · rw [attributePhase_header x id p sizeIn hf] at hnone ⊢
        have hc := appendFold_count x p p.getChangedProperties wireOrder
          (EncodeState.mk (appendHeader x id p (prefixPacket x sizeIn)).packetData ∅
            p.getChangedProperties 0 AppendState.COMPLETED) wireOrder_nodup
          (fun t _ => Finset.not_mem_empty t) rfl
        have hsub := appendFold_flags_subset x p p.getChangedProperties wireOrder
          (EncodeState.mk (appendHeader x id p (prefixPacket x sizeIn)).packetData ∅
            p.getChangedProperties 0 AppendState.COMPLETED)
        rw [hc, Finset.card_eq_zero, Finset.eq_empty_iff_forall_not_mem]
        intro t ht
        have := hsub ht
        simp only [Finset.empty_union, List.mem_toFinset, List.mem_filter] at this
        exact hnone t this.1 ht
    · exact (encodeRun_locals_octcode_too_long x id p sizeIn hp).2.1

/-- C4, as the code has it: `encodeEntityEditPacket` returns true if and only if at least
one attribute was written and every requested tag that has an attribute block ended up in
the final flags (none was dropped for lack of space). -/
theorem encode_success_iff_written_and_none_dropped (x : Ext) (id : EntityItemID)
    (p : EntityItemProperties) (sizeIn : Int) :
    (encodeEntityEditPacket x id p sizeIn).success = true
      ↔ (0 < (encodeRun x id p sizeIn).propertyCount
          ∧ ∀ t ∈ wireOrder, t ∈ p.getChangedProperties →
              t ∈ (encodeRun x id p sizeIn).propertyFlags) := by
  show (encodeRun x id p sizeIn).success = true ↔ _
  rw [encodeRun_success_iff]
  by_cases hp : (x.rootOctcode.length : Int) ≤ sizeIn
  · obtain ⟨l1, l2, _⟩ := encodeRun_locals x id p sizeIn hp
    rw [l1, l2]
    cases hf : (appendHeader x id p (prefixPacket x sizeIn)).headerFits
    · rw [attributePhase_no_header x id p sizeIn hf]
      simp
    · rw [attributePhase_header x id p sizeIn hf]
      rw [appendFold_completed_iff x p p.getChangedProperties wireOrder _ wireOrder_nodup
        (fun t _ => Finset.not_mem_empty t)]
      simp [hp]
  · rw [(encodeRun_locals_octcode_too_long x id p sizeIn hp).2.1]
    simp [hp]

/-- C4, counterexample to the claim as stated: with no attribute marked changed and room
for 9999 bytes nothing is requested and nothing failed to fit, yet
`encodeEntityEditPacket` returns false. -/
theorem encode_false_though_nothing_dropped :
    (encodeRun refExt knownID blankProperties 9999).requestedProperties = ∅
    ∧ (encodeRun refExt knownID blankProperties 9999).propertiesDidntFit = ∅
    ∧ (encodeRun refExt knownID blankProperties 9999).appendState = AppendState.NONE
    ∧ (encodeEntityEditPacket refExt knownID blankProperties 9999).success = false := by
  decide

/-- C2. Wire format: whenever `encodeEntityEditPacket` returns true, the `sizeOut` bytes
copied to `bufferOut` are, in this order and with nothing between or after them: the root
octcode, the 8 bytes of `lastEdited`, the 16 bytes of the id, the byte-count-coded creator
token (only when the id is `NEW_ENTITY`), the byte-count-coded entity type, the
byte-count-coded update delta 0, the encoding of the final property flags, and the
payloads of exactly the flagged attributes in the order of the attribute blocks; the
final flags are the requested tags that have a block.  The law used is the bit-vector
length law of the flag encoding. -/
theorem wire_format (x : Ext) (hl : x.FlagsLengthLaw) (id : EntityItemID)
    (p : EntityItemProperties) (sizeIn : Int)
    (h : (encodeEntityEditPacket x id p sizeIn).success = true) :
    (encodeEntityEditPacket x id p sizeIn).bufferOut
        = x.rootOctcode ++ (p.lastEdited.val ++ (id.id.val
          ++ ((if id.id = x.NEW_ENTITY then x.byteCountCoded32 id.creatorTokenID else [])
          ++ (x.byteCountCoded32 (p.type % 4294967296) ++ (x.byteCountCoded64 0
          ++ (x.encodeFlags (encodeRun x id p sizeIn).propertyFlags
          ++ ((wireOrder.filter
                (fun t => t ∈ (encodeRun x id p sizeIn).propertyFlags)).map
                  (payloadOf x p)).flatten))))))
    ∧ (encodeEntityEditPacket x id p sizeIn).sizeOut
        = (encodeEntityEditPacket x id p sizeIn).bufferOut.length
    ∧ (∀ t, t ∈ (encodeRun x id p sizeIn).propertyFlags
        ↔ (t ∈ wireOrder ∧ t ∈ p.getChangedProperties)) := by
  have hs : (encodeRun x id p sizeIn).success = true := h
  refine ⟨?_, ((encodeRun_outputs x id p sizeIn).2 hs).1,
    encodeRun_success_flags x id p sizeIn hs⟩
  show (encodeRun x id p sizeIn).bufferOut = _
  rw [encodeRun_success_bytes x id p sizeIn hs (encodeFlags_le_provisional x hl _)]
  simp only [headerBytes, recordHeaderBytes, payloadsOf, List.append_assoc]

/-- C2, at a concrete input: the packet of the example edit for an existing entity. -/
theorem wire_format_witness :
    (encodeEntityEditPacket refExt knownID exampleEdit 9999).success = true
    ∧ (encodeEntityEditPacket refExt knownID exampleEdit 9999).bufferOut
        = [0] ++ ([1, 2, 3, 4, 5, 6, 7, 8]
          ++ ([1, 2, 3, 4, 5, 6, 7, 8, 9, 10, 11, 12, 13, 14, 15, 16]
          ++ ([] ++ ([2] ++ ([0] ++ ([24]
          ++ [0, 0, 128, 63, 0, 0, 0, 64, 0, 0, 64, 64, 0, 0, 0, 63]))))))
    ∧ (encodeEntityEditPacket refExt knownID exampleEdit 9999).sizeOut = 44 := by
  have h := wire_format refExt refExt_flagsLengthLaw knownID exampleEdit 9999 (by decide)
  refine ⟨by decide, ?_, ?_⟩
  · rw [h.1]; decide
  · rw [h.2.1, h.1]; decide

theorem mem_ite_insert (b : Bool) (a t : EntityPropertyList) (c : EntityPropertyFlags) :
    t ∈ (if b = true then insert a c else c) ↔ ((b = true ∧ t = a) ∨ t ∈ c) := by
  cases b <;> simp

/-- A tag is in `getChangedProperties` exactly when its changed bit is set. -/
theorem mem_getChangedProperties (p : EntityItemProperties) (t : EntityPropertyList) :
    t ∈ p.getChangedProperties ↔ changedBitOf t p = true := by
  simp only [EntityItemProperties.getChangedProperties, mem_ite_insert,
    Finset.not_mem_empty, or_false]
  cases t <;> simp [changedBitOf]

/-- The attribute order named by the specification is the order of the attribute
blocks of the source. -/
theorem specifiedOrder_eq :
    specifiedOrder = wireOrder := rfl

/-- C9. The attribute blocks of `encodeEntityEditPacket` and those of
`decodeEntityEditPacket` run through one and the same fixed sequence of tags (position,
radius, rotation, mass, velocity, gravity, damping, lifetime, color, model URL, animation
URL, animation FPS, animation frame index, animation playing); a flag set carries no insertion order (`getChangedProperties` holds a tag
exactly when its changed bit is set), and in a successful packet the payloads follow the
flags in that sequence. -/
theorem attribute_order_is_fixed (x : Ext) (p : EntityItemProperties) :
    (∀ (req : EntityPropertyFlags) (s : EncodeState),
        appendProperties x p req s
          = specifiedOrder.foldl (fun s t => appendProperty req t (payloadOf x p t) s) s)
    ∧ (∀ (data : List Byte) (flags : EntityPropertyFlags) (s : DecodeState),
        readProperties x data flags s
          = specifiedOrder.foldl (fun s t => readProperty x data flags t s) s)
    ∧ (∀ t, t ∈ p.getChangedProperties ↔ changedBitOf t p = true)
    ∧ (∀ (id : EntityItemID) (sizeIn : Int),
        (encodeEntityEditPacket x id p sizeIn).success = true →
        ∃ front, front.length = (headerBytes x id p).length
            + (x.encodeFlags {PROP_LAST_ITEM}).length
          ∧ (attributePhase x id p sizeIn).packetData.uncompressed
            = front ++ ((specifiedOrder.filter (fun t => t ∈ p.getChangedProperties)).map
                (payloadOf x p)).flatten) := by
  refine ⟨fun _ _ => rfl, fun _ _ _ => rfl, ?_, ?_⟩
  · exact mem_getChangedProperties p
  · intro id sizeIn h
    obtain ⟨a1, _⟩ := attributePhase_success x id p sizeIn h
    refine ⟨headerBytes x id p ++ x.encodeFlags {PROP_LAST_ITEM}, by simp, ?_⟩
    rw [a1]
    simp only [headerBytes, payloadsIn, specifiedOrder_eq, List.append_assoc]

theorem attributeOf_header_setters (t : EntityPropertyList) (tgt : EntityItemProperties)
    (a b : quint64) (c : Nat) :
    attributeOf t (((tgt.setLastEdited a).setCreated b).setType c) = attributeOf t tgt
    ∧ changedBitOf t (((tgt.setLastEdited a).setCreated b).setType c) = changedBitOf t tgt := by
  cases t <;> exact ⟨rfl, rfl⟩

/-! ## Decoding with a quaternion packing that may round -/

theorem quatLaw_framing (x : Ext) (hq : x.QuatLaw) : x.QuatFramingLaw := by
  intro q rest
  have h1 := hq q rest
  have h2 := hq q []
  rw [List.append_nil] at h2
  rw [h1, h2]

theorem attributeOf_received (x : Ext) (p : EntityItemProperties) (t : EntityPropertyList)
    (ht : t ≠ PROP_ROTATION) : attributeOf t (x.received p) = attributeOf t p := by
  cases t <;> first | rfl | exact absurd rfl ht

/-- An attribute block of the decoder reads the block of the encoder for the same tag
(text attributes apart): the value sent, and for the rotation the value that unpacking
gives for the packed rotation. -/
theorem decodeProperty_received (x : Ext) (hq : x.QuatFramingLaw)
    (src tgt : EntityItemProperties)
    (t : EntityPropertyList) (h1 : t ≠ PROP_MODEL_URL) (h2 : t ≠ PROP_ANIMATION_URL)
    (pre post : List Byte) :
    decodeProperty x (pre ++ (payloadOf x src t ++ post)) t (DecodeState.mk pre.length tgt)
      = DecodeState.mk (pre.length + (payloadOf x src t).length)
          (copyAttribute t (x.received src) tgt) := by
  cases t
  case PROP_MODEL_URL => exact absurd rfl h1
  case PROP_ANIMATION_URL => exact absurd rfl h2
  case PROP_ROTATION =>
    simp only [decodeProperty, payloadOf, copyAttribute, List.drop_left', hq _ _, Ext.received]
  case PROP_ANIMATION_PLAYING =>
    have hb : ∀ b : Bool, (peek (pre ++ (bytesOfBool b ++ post)) pre.length != 0) = b := by
      intro b
      have e : peek (pre ++ (bytesOfBool b ++ post)) pre.length = (if b then 1 else 0) :=
        peek_of (if b then 1 else 0) _ pre post _ rfl rfl
      rw [e]
      cases b <;> decide
    simp only [decodeProperty, payloadOf, copyAttribute, hb, Ext.received]
    simp [bytesOfBool]
  all_goals
    simp [decodeProperty, payloadOf, copyAttribute, Raw.length_val, readRaw_at, Ext.received]

theorem readFold_received (x : Ext) (hq : x.QuatFramingLaw) (src : EntityItemProperties)
    (flags : EntityPropertyFlags) (h1 : PROP_MODEL_URL ∉ flags)
    (h2 : PROP_ANIMATION_URL ∉ flags) (ts : List EntityPropertyList) (data pre post : List Byte)
    (tgt : EntityItemProperties) (hd : data = pre ++ (payloadsIn x src flags ts ++ post)) :
    ts.foldl (fun s t => readProperty x data flags t s) (DecodeState.mk pre.length tgt)
      = DecodeState.mk (pre.length + (payloadsIn x src flags ts).length)
          (applyEdits (x.received src) flags ts tgt) := by
  induction ts generalizing pre tgt with
  | nil => simp [payloadsIn_nil, applyEdits]
  | cons t ts ih =>
    simp only [List.foldl_cons, applyEdits]
    by_cases ht : t ∈ flags
    · have n1 : t ≠ PROP_MODEL_URL := fun e => h1 (e ▸ ht)
      have n2 : t ≠ PROP_ANIMATION_URL := fun e => h2 (e ▸ ht)
      rw [payloadsIn_cons_mem x src flags t ts ht] at hd ⊢
      have hd1 : data = pre ++ (payloadOf x src t ++ (payloadsIn x src flags ts ++ post)) := by
        rw [hd, List.append_assoc]
      have hstep : readProperty x data flags t (DecodeState.mk pre.length tgt)
          = DecodeState.mk (pre ++ payloadOf x src t).length
              (copyAttribute t (x.received src) tgt) := by
        rw [readProperty, if_pos ht, hd1, decodeProperty_received x hq src tgt t n1 n2,
          List.length_append]
      rw [hstep, ih (pre ++ payloadOf x src t) (copyAttribute t (x.received src) tgt)
        (by rw [hd1, List.append_assoc])]
      simp only [if_pos ht, List.length_append, applyEdits, Nat.add_assoc]
    · rw [payloadsIn_cons_not_mem x src flags t ts ht] at hd ⊢
      have hstep : readProperty x data flags t (DecodeState.mk pre.length tgt)
          = DecodeState.mk pre.length tgt := by
        rw [readProperty, if_neg ht]
      rw [hstep, ih pre tgt hd]
      simp only [if_neg ht, applyEdits, if_false]

/-- What the decoder returns for a successful packet that is passed whole, when the
quaternion packing may round. -/
theorem decode_received (x : Ext) (ho : x.OctcodeLaw) (h32 : x.ByteCount32Law)
    (h64 : x.ByteCount64Law) (hf : x.FlagsLaw) (hl : x.FlagsLengthLaw)
    (hq : x.QuatFramingLaw)
    (id : EntityItemID) (p tgt : EntityItemProperties) (sizeIn : Int)
    (htok : id.id = x.NEW_ENTITY → id.creatorTokenID < 4294967296)
    (hs : (encodeRun x id p sizeIn).success = true)
    (hu1 : PROP_MODEL_URL ∉ p.getChangedProperties)
    (hu2 : PROP_ANIMATION_URL ∉ p.getChangedProperties) :
    decodeEntityEditPacket x (encodeEntityEditPacket x id p sizeIn).bufferOut
        (encodeEntityEditPacket x id p sizeIn).sizeOut tgt
      = DecodeResult.mk true (encodeRun x id p sizeIn).bufferOut.length
          (if id.id = x.NEW_ENTITY then EntityItemID.mk x.NEW_ENTITY id.creatorTokenID false
            else EntityItemID.mk id.id x.UNKNOWN_ENTITY_TOKEN true)
          (applyEdits (x.received p) (encodeRun x id p sizeIn).propertyFlags wireOrder
            (((tgt.setLastEdited p.lastEdited).setCreated
              (if id.id = x.NEW_ENTITY then p.lastEdited else x.USE_EXISTING_CREATED_TIME)).setType
              (p.type % 4294967296))) := by
  have hb := encodeRun_success_bytes x id p sizeIn hs (encodeFlags_le_provisional x hl _)
  have hsz := ((encodeRun_outputs x id p sizeIn).2 hs).1
  have hn : (((headerBytes x id p).length
      + (x.encodeFlags (encodeRun x id p sizeIn).propertyFlags).length : Nat) : Int)
      ≤ ((encodeRun x id p sizeIn).sizeOut : Int) := by
    rw [hsz]
    have := congrArg List.length hb
    simp only [List.length_append] at this
    rw [this]; push_cast; omega
  have hh := readHeader_encoded x ho h32 h64 hf hl id p tgt sizeIn htok hs [] _ hn
  rw [List.append_nil] at hh
  have f1 : PROP_MODEL_URL ∉ (encodeRun x id p sizeIn).propertyFlags := fun h =>
    hu1 ((encodeRun_success_flags x id p sizeIn hs _).mp h).2
  have f2 : PROP_ANIMATION_URL ∉ (encodeRun x id p sizeIn).propertyFlags := fun h =>
    hu2 ((encodeRun_success_flags x id p sizeIn hs _).mp h).2
  show decodeEntityEditPacket x (encodeRun x id p sizeIn).bufferOut
    (encodeRun x id p sizeIn).sizeOut tgt = _
  unfold decodeEntityEditPacket
  simp only [hh, readProperties_eq_foldl]
  have hd : (encodeRun x id p sizeIn).bufferOut
      = (headerBytes x id p ++ x.encodeFlags (encodeRun x id p sizeIn).propertyFlags)
        ++ (payloadsIn x p (encodeRun x id p sizeIn).propertyFlags wireOrder ++ []) := by
    rw [hb, payloadsOf_eq]; simp only [List.append_assoc, List.append_nil]
  have hfold := readFold_received x hq p (encodeRun x id p sizeIn).propertyFlags f1 f2 wireOrder
    (encodeRun x id p sizeIn).bufferOut
    (headerBytes x id p ++ x.encodeFlags (encodeRun x id p sizeIn).propertyFlags) []
    (((tgt.setLastEdited p.lastEdited).setCreated
      (if id.id = x.NEW_ENTITY then p.lastEdited else x.USE_EXISTING_CREATED_TIME)).setType
      (p.type % 4294967296)) hd
  rw [List.length_append] at hfold
  rw [hfold]
  have hlen : (encodeRun x id p sizeIn).bufferOut.length
      = (headerBytes x id p).length
        + (x.encodeFlags (encodeRun x id p sizeIn).propertyFlags).length
        + (payloadsIn x p (encodeRun x id p sizeIn).propertyFlags wireOrder).length := by
    have := congrArg List.length hb
    rw [this, payloadsOf_eq]; simp only [List.length_append]; omega
  rw [hlen]

theorem lossyExt_octcodeLaw : lossyExt.OctcodeLaw := by
  intro rest
  exact refExt_octcodeLaw rest

theorem lossyExt_byteCount32Law : lossyExt.ByteCount32Law := by
  intro v hv rest
  exact refExt_byteCount32Law v hv rest

theorem lossyExt_byteCount64Law : lossyExt.ByteCount64Law := by
  intro v hv rest
  exact refExt_byteCount64Law v hv rest

theorem lossyExt_flagsLaw : lossyExt.FlagsLaw := by
  intro f rest
  have h := unvarint_varint 2 (flagBits f) rest (by have := flagBits_lt f; norm_num; omega)
  simp only [lossyExt, refExt, h, flagsOfBits_flagBits]

theorem lossyExt_flagsLengthLaw : lossyExt.FlagsLengthLaw := by
  intro f g h
  have e : ∀ k : EntityPropertyFlags, lossyExt.encodeFlags k = refExt.encodeFlags k := by
    intro k
    simp only [lossyExt]
  rw [e, e]
  exact refExt_flagsLengthLaw f g h

theorem lossyExt_quatFramingLaw : lossyExt.QuatFramingLaw := by
  intro q rest
  have hlen : (q.val.take 8).length = 8 := by
    rw [List.length_take, q.property]
    rfl
  have h1 : readBytes 8 (q.val.take 8 ++ rest) 0 = q.val.take 8 := by
    have := readBytes_self (q.val.take 8) rest
    rwa [hlen] at this
  have h2 : readBytes 8 (q.val.take 8) 0 = q.val.take 8 := by
    have := readBytes_self (q.val.take 8) []
    rwa [hlen, List.append_nil] at this
  simp only [lossyExt]
  rw [Prod.mk.injEq]
  exact ⟨Subtype.ext (by simp only [h1, h2]), hlen.symm⟩

/-- C1, as the code has it.  For every snapshot in which at least one tag with an
attribute block is marked changed and neither text attribute (model URL, animation URL)
is, every 32-bit creator token, and every capacity `sizeIn` that holds the header, the
provisional property flags and the payloads of the changed attributes:
`encodeEntityEditPacket` succeeds, and `decodeEntityEditPacket` applied to its output sets
the changed attributes that have a block (marking them changed): each one but the rotation
to the value of the snapshot, the rotation to the value that unpacking gives for the
packed rotation; it leaves every other attribute of the target, with its changed bit,
untouched (the script and the glow level among them).  The collaborators are assumed to
be self-delimiting (routing prefix, byte-count coding, flag coding, quaternion packing)
and the flag coding not to grow; the quaternion packing may round. -/
theorem edit_roundtrip (x : Ext) (ho : x.OctcodeLaw) (h32 : x.ByteCount32Law)
    (h64 : x.ByteCount64Law) (hf : x.FlagsLaw) (hl : x.FlagsLengthLaw)
    (hq : x.QuatFramingLaw)
    (id : EntityItemID) (p tgt : EntityItemProperties) (sizeIn : Int)
    (htok : id.id = x.NEW_ENTITY → id.creatorTokenID < 4294967296)
    (hne : ∃ t ∈ wireOrder, t ∈ p.getChangedProperties)
    (hu1 : PROP_MODEL_URL ∉ p.getChangedProperties)
    (hu2 : PROP_ANIMATION_URL ∉ p.getChangedProperties)
    (hcap : (((headerBytes x id p).length + (x.encodeFlags {PROP_LAST_ITEM}).length
      + (payloadsOf x p p.getChangedProperties).length : Nat) : Int) ≤ sizeIn) :
    (encodeEntityEditPacket x id p sizeIn).success = true
    ∧ (∀ t, (t ∈ wireOrder ∧ t ∈ p.getChangedProperties) → t ≠ PROP_ROTATION →
        attributeOf t (decodeEntityEditPacket x (encodeEntityEditPacket x id p sizeIn).bufferOut
            (encodeEntityEditPacket x id p sizeIn).sizeOut tgt).properties = attributeOf t p
        ∧ changedBitOf t (decodeEntityEditPacket x
            (encodeEntityEditPacket x id p sizeIn).bufferOut
            (encodeEntityEditPacket x id p sizeIn).sizeOut tgt).properties = true)
    ∧ (PROP_ROTATION ∈ p.getChangedProperties →
        (decodeEntityEditPacket x (encodeEntityEditPacket x id p sizeIn).bufferOut
            (encodeEntityEditPacket x id p sizeIn).sizeOut tgt).properties.rotation
          = (x.unpackOrientationQuatFromBytes (x.packOrientationQuatToBytes p.rotation)).1
        ∧ (decodeEntityEditPacket x (encodeEntityEditPacket x id p sizeIn).bufferOut
            (encodeEntityEditPacket x id p sizeIn).sizeOut tgt).properties.rotationChanged
          = true)
    ∧ (∀ t, ¬ (t ∈ wireOrder ∧ t ∈ p.getChangedProperties) →
        attributeOf t (decodeEntityEditPacket x (encodeEntityEditPacket x id p sizeIn).bufferOut
            (encodeEntityEditPacket x id p sizeIn).sizeOut tgt).properties = attributeOf t tgt
        ∧ changedBitOf t (decodeEntityEditPacket x
            (encodeEntityEditPacket x id p sizeIn).bufferOut
            (encodeEntityEditPacket x id p sizeIn).sizeOut tgt).properties
          = changedBitOf t tgt)
    ∧ (decodeEntityEditPacket x (encodeEntityEditPacket x id p sizeIn).bufferOut
        (encodeEntityEditPacket x id p sizeIn).sizeOut tgt).properties.glowLevel = tgt.glowLevel
    ∧ (decodeEntityEditPacket x (encodeEntityEditPacket x id p sizeIn).bufferOut
        (encodeEntityEditPacket x id p sizeIn).sizeOut tgt).properties.glowLevelChanged
        = tgt.glowLevelChanged := by
  have hs := encodeRun_of_cap x id p sizeIn hne hcap
  have hd := decode_received x ho h32 h64 hf hl hq id p tgt sizeIn htok hs hu1 hu2
  have hfl := encodeRun_success_flags x id p sizeIn hs
  rw [hd]
  refine ⟨hs, ?_, ?_, ?_, ?_, ?_⟩
  · intro t ht hrot
    have := applyEdits_copied (x.received p) (encodeRun x id p sizeIn).propertyFlags wireOrder
      (fun u hu => hu)
      (((tgt.setLastEdited p.lastEdited).setCreated
        (if id.id = x.NEW_ENTITY then p.lastEdited else x.USE_EXISTING_CREATED_TIME)).setType
        (p.type % 4294967296)) t ht.1 ((hfl t).mpr ht)
    rw [attributeOf_received x p t hrot] at this
    exact this
  · intro hrot
    have := applyEdits_copied (x.received p) (encodeRun x id p sizeIn).propertyFlags wireOrder
      (fun u hu => hu)
      (((tgt.setLastEdited p.lastEdited).setCreated
        (if id.id = x.NEW_ENTITY then p.lastEdited else x.USE_EXISTING_CREATED_TIME)).setType
        (p.type % 4294967296)) PROP_ROTATION (by decide) ((hfl PROP_ROTATION).mpr ⟨by decide, hrot⟩)
    simp only [attributeOf, changedBitOf, AttributeValue.rotation.injEq] at this
    exact this
  · intro t ht
    have := applyEdits_untouched (x.received p) (encodeRun x id p sizeIn).propertyFlags
      wireOrder
      (((tgt.setLastEdited p.lastEdited).setCreated
        (if id.id = x.NEW_ENTITY then p.lastEdited else x.USE_EXISTING_CREATED_TIME)).setType
        (p.type % 4294967296)) t (fun ⟨a, b⟩ => ht ((hfl t).mp b))
    rw [(attributeOf_header_setters t tgt _ _ _).1, (attributeOf_header_setters t tgt _ _ _).2]
      at this
    exact this
  · have := congrArg OtherMembers.glowLevel
      (applyEdits_otherMembers (x.received p) (encodeRun x id p sizeIn).propertyFlags wireOrder
        (((tgt.setLastEdited p.lastEdited).setCreated
          (if id.id = x.NEW_ENTITY then p.lastEdited else x.USE_EXISTING_CREATED_TIME)).setType
          (p.type % 4294967296)))
    exact this
  · have := congrArg OtherMembers.glowLevelChanged
      (applyEdits_otherMembers (x.received p) (encodeRun x id p sizeIn).propertyFlags wireOrder
        (((tgt.setLastEdited p.lastEdited).setCreated
          (if id.id = x.NEW_ENTITY then p.lastEdited else x.USE_EXISTING_CREATED_TIME)).setType
          (p.type % 4294967296)))
    exact this

/-- C1, counterexample to the claim as stated: with no attribute marked changed (the
empty subset) and room for 9999 bytes, far more than the 30 bytes of header and flags,
`encodeEntityEditPacket` does not succeed. -/
theorem roundtrip_fails_for_empty_edit :
    blankProperties.getChangedProperties = ∅
    ∧ (headerBytes refExt knownID blankProperties).length
        + (refExt.encodeFlags {PROP_LAST_ITEM}).length = 30
    ∧ (encodeEntityEditPacket refExt knownID blankProperties 9999).success = false := by
  decide

/-- A capacity equal to the size of the finished packet need not be enough: the example
edit makes a packet of 44 bytes, but with room for 44 or 45 bytes the radius does not fit
behind the three bytes of the provisional flags, and the encoder fails; 46 bytes are
enough. -/
theorem capacity_counts_provisional_flags :
    (encodeEntityEditPacket refExt knownID exampleEdit 9999).sizeOut = 44
    ∧ (encodeEntityEditPacket refExt knownID exampleEdit 44).success = false
    ∧ (encodeEntityEditPacket refExt knownID exampleEdit 45).success = false
    ∧ (encodeEntityEditPacket refExt knownID exampleEdit 46).success = true := by
  decide

/-- C1, at concrete inputs: `rotatedEdit` (position, radius and rotation changed) for an
existing entity, capacity 9999, decoded into a blank target.  With the exact packing of
`refExt` the rotation comes back as sent; with the rounding packing of `lossyExt` it
comes back rounded, its last eight bytes zero, while position and radius come back as
sent and the mass of the target is untouched. -/
theorem edit_roundtrip_witness :
    (encodeEntityEditPacket refExt knownID rotatedEdit 9999).success = true
    ∧ (decodeEntityEditPacket refExt (encodeEntityEditPacket refExt knownID rotatedEdit 9999).bufferOut
        (encodeEntityEditPacket refExt knownID rotatedEdit 9999).sizeOut
        blankProperties).properties.rotation = rotatedEdit.rotation
    ∧ (encodeEntityEditPacket lossyExt knownID rotatedEdit 9999).success = true
    ∧ (decodeEntityEditPacket lossyExt
        (encodeEntityEditPacket lossyExt knownID rotatedEdit 9999).bufferOut
        (encodeEntityEditPacket lossyExt knownID rotatedEdit 9999).sizeOut
        blankProperties).properties.rotation
        = ⟨[1, 2, 3, 4, 5, 6, 7, 8, 0, 0, 0, 0, 0, 0, 0, 0], rfl⟩
    ∧ (decodeEntityEditPacket lossyExt
        (encodeEntityEditPacket lossyExt knownID rotatedEdit 9999).bufferOut
        (encodeEntityEditPacket lossyExt knownID rotatedEdit 9999).sizeOut
        blankProperties).properties.position = rotatedEdit.position
    ∧ (decodeEntityEditPacket lossyExt
        (encodeEntityEditPacket lossyExt knownID rotatedEdit 9999).bufferOut
        (encodeEntityEditPacket lossyExt knownID rotatedEdit 9999).sizeOut
        blankProperties).properties.radius = rotatedEdit.radius
    ∧ attributeOf PROP_MASS (decodeEntityEditPacket lossyExt
        (encodeEntityEditPacket lossyExt knownID rotatedEdit 9999).bufferOut
        (encodeEntityEditPacket lossyExt knownID rotatedEdit 9999).sizeOut
        blankProperties).properties = attributeOf PROP_MASS blankProperties := by
  have h := edit_roundtrip refExt refExt_octcodeLaw refExt_byteCount32Law refExt_byteCount64Law
    refExt_flagsLaw refExt_flagsLengthLaw (quatLaw_framing refExt refExt_quatLaw) knownID
    rotatedEdit blankProperties 9999
    (by decide) ⟨PROP_POSITION, by decide, by decide⟩ (by decide) (by decide) (by decide)
  have g := edit_roundtrip lossyExt lossyExt_octcodeLaw lossyExt_byteCount32Law
    lossyExt_byteCount64Law lossyExt_flagsLaw lossyExt_flagsLengthLaw lossyExt_quatFramingLaw knownID
    rotatedEdit blankProperties 9999
    (by decide) ⟨PROP_POSITION, by decide, by decide⟩ (by decide) (by decide) (by decide)
  refine ⟨h.1, ?_, g.1, ?_, ?_, ?_, ?_⟩
  · exact (h.2.2.1 (by decide)).1.trans (by decide)
  · exact (g.2.2.1 (by decide)).1.trans (by decide)
  · have := (g.2.1 PROP_POSITION ⟨by decide, by decide⟩ (by decide)).1
    simpa [attributeOf] using this
  · have := (g.2.1 PROP_RADIUS ⟨by decide, by decide⟩ (by decide)).1
    simpa [attributeOf] using this
  · exact (g.2.2.2.1 PROP_MASS (by decide)).1

theorem decode_entityID (x : Ext) (data : List Byte) (n : Int) (tgt : EntityItemProperties) :
    (decodeEntityEditPacket x data n tgt).entityID = (readHeader x data n tgt).entityID := rfl

/-- The identity that the decoder returns for a successful packet. -/
theorem decode_identity (x : Ext) (ho : x.OctcodeLaw) (h32 : x.ByteCount32Law)
    (id : EntityItemID) (p tgt : EntityItemProperties) (sizeIn : Int)
    (htok : id.id = x.NEW_ENTITY → id.creatorTokenID < 4294967296)
    (hs : (encodeRun x id p sizeIn).success = true) :
    (decodeEntityEditPacket x (encodeEntityEditPacket x id p sizeIn).bufferOut
        (encodeEntityEditPacket x id p sizeIn).sizeOut tgt).entityID
      = (if id.id = x.NEW_ENTITY then EntityItemID.mk x.NEW_ENTITY id.creatorTokenID false
          else EntityItemID.mk id.id x.UNKNOWN_ENTITY_TOKEN true) := by
  obtain ⟨rest, hr⟩ := encodeRun_success_header x id p sizeIn hs
  have hsz := ((encodeRun_outputs x id p sizeIn).2 hs).1
  rw [decode_entityID]
  show (readHeader x (encodeRun x id p sizeIn).bufferOut
    ((encodeRun x id p sizeIn).sizeOut : Int) tgt).entityID = _
  rw [hsz, hr]
  have hshape : headerBytes x id p ++ rest
      = x.rootOctcode ++ (p.lastEdited.val ++ (id.id.val
        ++ ((if id.id = x.NEW_ENTITY then x.byteCountCoded32 id.creatorTokenID else [])
        ++ (x.byteCountCoded32 (p.type % 4294967296) ++ (x.byteCountCoded64 0 ++ rest))))) := by
    simp only [headerBytes, recordHeaderBytes, List.append_assoc]
  rw [hshape]
  apply readHeader_entityID x ho h32 p.lastEdited id _ _ tgt htok
  intro hnew
  simp only [if_pos hnew, List.length_append, Raw.length_val]
  push_cast
  omega

/-- C7. New-entity path: for every 32-bit creator token, every snapshot and every capacity
for which `encodeEntityEditPacket` with the id `NEW_ENTITY` succeeds,
`decodeEntityEditPacket` on the output yields the id `NEW_ENTITY`, `isKnownID` false and
the original creator token. -/
theorem new_entity_roundtrip (x : Ext) (ho : x.OctcodeLaw) (h32 : x.ByteCount32Law)
    (id : EntityItemID) (p tgt : EntityItemProperties) (sizeIn : Int)
    (hnew : id.id = x.NEW_ENTITY) (htok : id.creatorTokenID < 4294967296)
    (hs : (encodeEntityEditPacket x id p sizeIn).success = true) :
    (decodeEntityEditPacket x (encodeEntityEditPacket x id p sizeIn).bufferOut
        (encodeEntityEditPacket x id p sizeIn).sizeOut tgt).entityID.id = x.NEW_ENTITY
    ∧ (decodeEntityEditPacket x (encodeEntityEditPacket x id p sizeIn).bufferOut
        (encodeEntityEditPacket x id p sizeIn).sizeOut tgt).entityID.isKnownID = false
    ∧ (decodeEntityEditPacket x (encodeEntityEditPacket x id p sizeIn).bufferOut
        (encodeEntityEditPacket x id p sizeIn).sizeOut tgt).entityID.creatorTokenID
        = id.creatorTokenID := by
  have := decode_identity x ho h32 id p tgt sizeIn (fun _ => htok) hs
  rw [this, if_pos hnew]
  exact ⟨rfl, rfl, rfl⟩

/-- C7, at a concrete input: the example edit sent for a new entity with creator token
300. -/
theorem new_entity_roundtrip_witness :
    newID.id = refExt.NEW_ENTITY ∧ newID.creatorTokenID = 300
    ∧ (encodeEntityEditPacket refExt newID exampleEdit 9999).success = true
    ∧ (decodeEntityEditPacket refExt (encodeEntityEditPacket refExt newID exampleEdit 9999).bufferOut
        (encodeEntityEditPacket refExt newID exampleEdit 9999).sizeOut
        blankProperties).entityID.id = refExt.NEW_ENTITY
    ∧ (decodeEntityEditPacket refExt (encodeEntityEditPacket refExt newID exampleEdit 9999).bufferOut
        (encodeEntityEditPacket refExt newID exampleEdit 9999).sizeOut
        blankProperties).entityID.isKnownID = false
    ∧ (decodeEntityEditPacket refExt (encodeEntityEditPacket refExt newID exampleEdit 9999).bufferOut
        (encodeEntityEditPacket refExt newID exampleEdit 9999).sizeOut
        blankProperties).entityID.creatorTokenID = newID.creatorTokenID :=
  ⟨rfl, rfl, by decide,
    new_entity_roundtrip refExt refExt_octcodeLaw refExt_byteCount32Law newID exampleEdit
      blankProperties 9999 rfl (by decide) (by decide)⟩

/-- C8. Identity discrimination.  Encoder: a header that fits holds the creator token,
between the id and the type, exactly when the id is `NEW_ENTITY`.  Decoder: the type is
read right after the 16-byte id when the id read is not `NEW_ENTITY`, and after a
creator-token field otherwise.  And for every id different from `NEW_ENTITY`, decoding a
successful encoding yields that id, `isKnownID` true and the creator token
`UNKNOWN_ENTITY_TOKEN`. -/
theorem identity_discrimination (x : Ext) (ho : x.OctcodeLaw) (id : EntityItemID)
    (p tgt : EntityItemProperties) (sizeIn : Int) :
    (∀ pd : OctreePacketData, (appendHeader x id p pd).headerFits = true →
      (appendHeader x id p pd).packetData.uncompressed
        = pd.uncompressed ++ (p.lastEdited.val ++ (id.id.val
          ++ ((if id.id = x.NEW_ENTITY then x.byteCountCoded32 id.creatorTokenID else [])
          ++ (x.byteCountCoded32 (p.type % 4294967296) ++ (x.byteCountCoded64 0
          ++ x.encodeFlags {PROP_LAST_ITEM}))))))
    ∧ (∀ (data : List Byte) (n : Int),
        (readHeader x data n tgt).state.properties.type
          = x.byteCountDecoded32 (qByteArray data
              (x.bytesOfOctcode data + 8 + 16
                + (if readRaw 16 data (x.bytesOfOctcode data + 8) = x.NEW_ENTITY then
                    (x.byteCountCoded32 (x.byteCountDecoded32 (qByteArray data
                      (x.bytesOfOctcode data + 8 + 16)
                      (n - ((x.bytesOfOctcode data + 8 + 16 : Nat) : Int))))).length
                  else 0))
              (n - ((x.bytesOfOctcode data + 8 + 16
                + (if readRaw 16 data (x.bytesOfOctcode data + 8) = x.NEW_ENTITY then
                    (x.byteCountCoded32 (x.byteCountDecoded32 (qByteArray data
                      (x.bytesOfOctcode data + 8 + 16)
                      (n - ((x.bytesOfOctcode data + 8 + 16 : Nat) : Int))))).length
                  else 0) : Nat) : Int))))
    ∧ (id.id ≠ x.NEW_ENTITY → (encodeEntityEditPacket x id p sizeIn).success = true →
        (decodeEntityEditPacket x (encodeEntityEditPacket x id p sizeIn).bufferOut
          (encodeEntityEditPacket x id p sizeIn).sizeOut tgt).entityID
          = EntityItemID.mk id.id x.UNKNOWN_ENTITY_TOKEN true) := by
  refine ⟨fun pd hfit => ?_, fun data n => ?_, fun hne hs => ?_⟩
  · rw [(appendHeader_fits x id p pd hfit).1]
    simp only [recordHeaderBytes, List.append_assoc]
  · unfold readHeader
    by_cases hnew : readRaw 16 data (x.bytesOfOctcode data + 8) = x.NEW_ENTITY
    · simp only [hnew, decide_True, if_true, EntityItemProperties.setType]
    · simp only [hnew, decide_False, Bool.false_eq_true, if_false, Nat.add_zero,
        EntityItemProperties.setType]
  · obtain ⟨rest, hr⟩ := encodeRun_success_header x id p sizeIn hs
    rw [decode_entityID]
    show (readHeader x (encodeRun x id p sizeIn).bufferOut
      ((encodeRun x id p sizeIn).sizeOut : Int) tgt).entityID = _
    rw [hr]
    unfold readHeader
    simp only [headerBytes, recordHeaderBytes, List.append_assoc, ho _]
    have k1 : readRaw 16 (x.rootOctcode ++ (p.lastEdited.val ++ (id.id.val
        ++ ((if id.id = x.NEW_ENTITY then x.byteCountCoded32 id.creatorTokenID else [])
        ++ (x.byteCountCoded32 (p.type % 4294967296) ++ (x.byteCountCoded64 0 ++ rest))))))
        (x.rootOctcode.length + 8) = id.id :=
      readRaw_of 16 id.id _ (x.rootOctcode ++ p.lastEdited.val)
        ((if id.id = x.NEW_ENTITY then x.byteCountCoded32 id.creatorTokenID else [])
        ++ (x.byteCountCoded32 (p.type % 4294967296) ++ (x.byteCountCoded64 0 ++ rest))) _
        (by simp only [List.append_assoc]) (by simp only [List.length_append, Raw.length_val])
    rw [k1]
    simp only [hne, decide_False, Bool.false_eq_true, if_false]

/-- C8, at a concrete input: the example edit sent for an existing entity comes back with
its id, `isKnownID` true and the unknown creator token. -/
theorem identity_discrimination_witness :
    knownID.id ≠ refExt.NEW_ENTITY
    ∧ (encodeEntityEditPacket refExt knownID exampleEdit 9999).success = true
    ∧ (decodeEntityEditPacket refExt
        (encodeEntityEditPacket refExt knownID exampleEdit 9999).bufferOut
        (encodeEntityEditPacket refExt knownID exampleEdit 9999).sizeOut
        blankProperties).entityID
        = EntityItemID.mk knownID.id refExt.UNKNOWN_ENTITY_TOKEN true :=
  ⟨by decide, by decide,
    (identity_discrimination refExt refExt_octcodeLaw knownID exampleEdit blankProperties
      9999).2.2 (by decide) (by decide)⟩

/-- C3, as the code has it.  `decodeEntityEditPacket` has no failure path: it returns
valid = true for every input.  And for a buffer produced by a successful
`encodeEntityEditPacket`, every `bytesToRead` that still covers the header fields and the
property flags, however much shorter than the packet, gives the same result as the
length of the whole packet: the attribute payloads are read wherever they lie, also at
indices at or beyond `bytesToRead`. -/
theorem truncation_is_not_detected (x : Ext) (ho : x.OctcodeLaw) (h32 : x.ByteCount32Law)
    (h64 : x.ByteCount64Law) (hf : x.FlagsLaw) (hl : x.FlagsLengthLaw)
    (id : EntityItemID) (p tgt : EntityItemProperties) (sizeIn : Int)
    (htok : id.id = x.NEW_ENTITY → id.creatorTokenID < 4294967296)
    (hs : (encodeEntityEditPacket x id p sizeIn).success = true) (bytesToRead : Int)
    (hn : (((headerBytes x id p).length
      + (x.encodeFlags (encodeRun x id p sizeIn).propertyFlags).length : Nat) : Int)
        ≤ bytesToRead) :
    (∀ (data : List Byte) (m : Int) (t : EntityItemProperties),
        (decodeEntityEditPacket x data m t).valid = true)
    ∧ decodeEntityEditPacket x (encodeEntityEditPacket x id p sizeIn).bufferOut bytesToRead tgt
        = decodeEntityEditPacket x (encodeEntityEditPacket x id p sizeIn).bufferOut
            (encodeEntityEditPacket x id p sizeIn).sizeOut tgt := by
  have hs' : (encodeRun x id p sizeIn).success = true := hs
  refine ⟨fun data m t => ?_, ?_⟩
  · simp only [decodeEntityEditPacket, readHeader, ite_self]
  · have hb := encodeRun_success_bytes x id p sizeIn hs' (encodeFlags_le_provisional x hl _)
    have hsz := ((encodeRun_outputs x id p sizeIn).2 hs').1
    have hn2 : (((headerBytes x id p).length
        + (x.encodeFlags (encodeRun x id p sizeIn).propertyFlags).length : Nat) : Int)
        ≤ ((encodeRun x id p sizeIn).sizeOut : Int) := by
      rw [hsz]
      have := congrArg List.length hb
      simp only [List.length_append] at this
      rw [this]; push_cast; omega
    have e1 := readHeader_encoded x ho h32 h64 hf hl id p tgt sizeIn htok hs' [] bytesToRead hn
    have e2 := readHeader_encoded x ho h32 h64 hf hl id p tgt sizeIn htok hs' [] _ hn2
    rw [List.append_nil] at e1 e2
    show decodeEntityEditPacket x (encodeRun x id p sizeIn).bufferOut bytesToRead tgt
      = decodeEntityEditPacket x (encodeRun x id p sizeIn).bufferOut
          ((encodeRun x id p sizeIn).sizeOut : Int) tgt
    unfold decodeEntityEditPacket
    rw [e1, e2]

/-- C3, counterexample to the claim as stated: the 44-byte packet of the example edit, cut
to its first 43 bytes and passed with bytesToRead = 43, is decoded with valid = true, and
the decoder consumes 44 bytes: the last byte of the radius is read at index 43. -/
theorem truncated_packet_is_accepted :
    (encodeEntityEditPacket refExt knownID exampleEdit 9999).success = true
    ∧ (encodeEntityEditPacket refExt knownID exampleEdit 9999).bufferOut.length = 44
    ∧ (decodeEntityEditPacket refExt
        ((encodeEntityEditPacket refExt knownID exampleEdit 9999).bufferOut.take 43) 43
        blankProperties).valid = true
    ∧ (decodeEntityEditPacket refExt
        ((encodeEntityEditPacket refExt knownID exampleEdit 9999).bufferOut.take 43) 43
        blankProperties).processedBytes = 44 := by
  decide

/-- C3, at a concrete input: the packet of the example edit read with bytesToRead = 43,
one less than its length. -/
theorem truncation_is_not_detected_witness :
    (encodeEntityEditPacket refExt knownID exampleEdit 9999).success = true
    ∧ (encodeEntityEditPacket refExt knownID exampleEdit 9999).sizeOut = 44
    ∧ decodeEntityEditPacket refExt
        (encodeEntityEditPacket refExt knownID exampleEdit 9999).bufferOut 43 blankProperties
      = decodeEntityEditPacket refExt
        (encodeEntityEditPacket refExt knownID exampleEdit 9999).bufferOut
        (encodeEntityEditPacket refExt knownID exampleEdit 9999).sizeOut blankProperties :=
  ⟨by decide, by decide,
    (truncation_is_not_detected refExt refExt_octcodeLaw refExt_byteCount32Law
      refExt_byteCount64Law refExt_flagsLaw refExt_flagsLengthLaw knownID exampleEdit
      blankProperties 9999 (by decide) (by decide) 43 (by decide)).2⟩

/-! ## The erase message, the constructor and the changed bits -/

/-- C17. Erase message: for every entity id, every output buffer and every `maxLength`,
`encodeEraseEntityMessage` returns true, sets `outputLength` to 18, and the 18 bytes at
the start of the output buffer are the 2-byte count 1 (as `memcpy` lays a `uint16_t` out on
the little-endian host: 1, 0) followed by the 16 bytes of the RFC 4122 form of the id;
nothing else is written: no flags, no attribute bytes, and the memory after the 18 bytes
is as it was. -/
theorem erase_message (entityItemID : EntityItemID) (outputBuffer : List Byte)
    (maxLength : Nat) :
    (encodeEraseEntityMessage entityItemID outputBuffer maxLength).result = true
    ∧ (encodeEraseEntityMessage entityItemID outputBuffer maxLength).outputLength = 18
    ∧ (encodeEraseEntityMessage entityItemID outputBuffer maxLength).outputBuffer.take 18
        = [1, 0] ++ entityItemID.id.val
    ∧ readU16 (encodeEraseEntityMessage entityItemID outputBuffer maxLength).outputBuffer 0 = 1
    ∧ readRaw 16 (encodeEraseEntityMessage entityItemID outputBuffer maxLength).outputBuffer 2
        = entityItemID.id
    ∧ (encodeEraseEntityMessage entityItemID outputBuffer maxLength).outputBuffer.drop 18
        = outputBuffer.drop 18 := by
  have hlen : entityItemID.id.val.length = 16 := entityItemID.id.property
  have hbuf : (encodeEraseEntityMessage entityItemID outputBuffer maxLength).outputBuffer
      = [1, 0] ++ (entityItemID.id.val ++ outputBuffer.drop 18) := by
    have ht : entityItemID.id.val.take 16 = entityItemID.id.val :=
      List.take_of_length_le (by omega)
    simp only [encodeEraseEntityMessage, memcpyAt, ht, hlen, u16Bytes]
    simp [List.drop_drop]
  refine ⟨rfl, rfl, ?_, ?_, ?_, ?_⟩
  · rw [hbuf, ← List.append_assoc]
    exact take_eq_left _ _ 18 (by simp [hlen])
  · rw [hbuf]; simp [readU16, peek]
  · rw [hbuf]
    exact readRaw_of 16 entityItemID.id _ [1, 0] (outputBuffer.drop 18) 2 rfl rfl
  · rw [hbuf, ← List.append_assoc]
    exact drop_eq_right _ _ 18 (by simp [hlen])

/-- C18, as the code has it.  The constructor sets `_defaultSettings` to true and every
changed bit to false: a freshly constructed instance reports no tag as changed
(`getChangedProperties` is empty), whatever the default constants are; it reports the
fifteen tags only after `markAllChanged`. -/
theorem fresh_instance_reports_no_tag (d : EntityDefaults) :
    (EntityItemProperties.construct d).defaultSettings = true
    ∧ (EntityItemProperties.construct d).getChangedProperties = ∅
    ∧ (∀ t, changedBitOf t (EntityItemProperties.construct d) = false)
    ∧ (EntityItemProperties.construct d).glowLevelChanged = false
    ∧ (EntityItemProperties.construct d).markAllChanged.getChangedProperties
        = reportableTags := by
  refine ⟨rfl, ?_, ?_, rfl, ?_⟩
  · ext t
    rw [mem_getChangedProperties]
    cases t <;> simp [changedBitOf, EntityItemProperties.construct]
  · intro t
    cases t <;> rfl
  · ext t
    rw [mem_getChangedProperties]
    cases t <;>
      simp [changedBitOf, EntityItemProperties.construct,
        EntityItemProperties.markAllChanged, reportableTags]

/-- C18, counterexample to the claim as stated: the freshly constructed instance has
`_defaultSettings` true, and `getChangedProperties` on it is empty; it holds neither the
position tag nor any other. -/
theorem fresh_instance_reports_nothing :
    (EntityItemProperties.construct refDefaults).defaultSettings = true
    ∧ (EntityItemProperties.construct refDefaults).getChangedProperties = ∅
    ∧ PROP_POSITION ∉ (EntityItemProperties.construct refDefaults).getChangedProperties
    ∧ ¬ (∀ t ∈ reportableTags,
        t ∈ (EntityItemProperties.construct refDefaults).getChangedProperties) := by
  decide

/-- C19. For every state of an `EntityItemProperties`, `getChangedProperties` holds each of
the fifteen tags (position, radius, rotation, mass, velocity, gravity, damping, lifetime,
script, color, model URL, animation URL, animation playing, animation frame index,
animation FPS) exactly when the changed bit of that attribute is set, and it holds no
other tag; after `markAllChanged` it holds all fifteen. -/
theorem changed_properties_iff_bits (p : EntityItemProperties) :
    (PROP_POSITION ∈ p.getChangedProperties ↔ p.positionChanged = true)
    ∧ (PROP_RADIUS ∈ p.getChangedProperties ↔ p.radiusChanged = true)
    ∧ (PROP_ROTATION ∈ p.getChangedProperties ↔ p.rotationChanged = true)
    ∧ (PROP_MASS ∈ p.getChangedProperties ↔ p.massChanged = true)
    ∧ (PROP_VELOCITY ∈ p.getChangedProperties ↔ p.velocityChanged = true)
    ∧ (PROP_GRAVITY ∈ p.getChangedProperties ↔ p.gravityChanged = true)
    ∧ (PROP_DAMPING ∈ p.getChangedProperties ↔ p.dampingChanged = true)
    ∧ (PROP_LIFETIME ∈ p.getChangedProperties ↔ p.lifetimeChanged = true)
    ∧ (PROP_SCRIPT ∈ p.getChangedProperties ↔ p.scriptChanged = true)
    ∧ (PROP_COLOR ∈ p.getChangedProperties ↔ p.colorChanged = true)
    ∧ (PROP_MODEL_URL ∈ p.getChangedProperties ↔ p.modelURLChanged = true)
    ∧ (PROP_ANIMATION_URL ∈ p.getChangedProperties ↔ p.animationURLChanged = true)
    ∧ (PROP_ANIMATION_PLAYING ∈ p.getChangedProperties
        ↔ p.animationIsPlayingChanged = true)
    ∧ (PROP_ANIMATION_FRAME_INDEX ∈ p.getChangedProperties
        ↔ p.animationFrameIndexChanged = true)
    ∧ (PROP_ANIMATION_FPS ∈ p.getChangedProperties ↔ p.animationFPSChanged = true)
    ∧ PROP_PAGED_PROPERTY ∉ p.getChangedProperties
    ∧ PROP_CUSTOM_PROPERTIES_INCLUDED ∉ p.getChangedProperties
    ∧ PROP_VISIBLE ∉ p.getChangedProperties
    ∧ PROP_LAST_ITEM ∉ p.getChangedProperties
    ∧ p.getChangedProperties ⊆ reportableTags
    ∧ reportableTags.card = 15
    ∧ p.markAllChanged.getChangedProperties = reportableTags := by
  have k := mem_getChangedProperties p
  have no : ∀ t, changedBitOf t p = false → t ∉ p.getChangedProperties := by
    intro t h hm
    rw [k, h] at hm
    exact Bool.false_ne_true hm
  refine ⟨k PROP_POSITION, k PROP_RADIUS, k PROP_ROTATION, k PROP_MASS, k PROP_VELOCITY,
    k PROP_GRAVITY, k PROP_DAMPING, k PROP_LIFETIME, k PROP_SCRIPT, k PROP_COLOR,
    k PROP_MODEL_URL, k PROP_ANIMATION_URL, k PROP_ANIMATION_PLAYING,
    k PROP_ANIMATION_FRAME_INDEX, k PROP_ANIMATION_FPS, no _ rfl, no _ rfl, no _ rfl,
    no _ rfl, ?_, by decide, ?_⟩
  · intro t ht
    rw [k] at ht
    cases t <;> first | (exact absurd ht Bool.false_ne_true) | decide
  · ext t
    rw [mem_getChangedProperties]
    cases t <;> simp [changedBitOf, EntityItemProperties.markAllChanged, reportableTags]

/-! ## What the attribute blocks of the decoder leave alone -/

theorem decodeProperty_other (x : Ext) (data : List Byte) (t u : EntityPropertyList)
    (h : u ≠ t) (s : DecodeState) :
    attributeOf t (decodeProperty x data u s).properties = attributeOf t s.properties
      ∧ changedBitOf t (decodeProperty x data u s).properties
          = changedBitOf t s.properties := by
  cases u <;> cases t <;> first | (exact ⟨rfl, rfl⟩) | (exact absurd rfl h)

theorem decodeProperty_self (x : Ext) (data : List Byte) (t : EntityPropertyList)
    (ht : t ∈ wireOrder) (s : DecodeState) :
    changedBitOf t (decodeProperty x data t s).properties = true := by
  cases t <;> first | rfl | (exact absurd ht (by decide))

theorem decodeProperty_no_block (x : Ext) (data : List Byte) (t : EntityPropertyList)
    (ht : t ∉ wireOrder) (s : DecodeState) : decodeProperty x data t s = s := by
  cases t <;> first | rfl | (exact absurd (by decide) ht)

theorem decodeProperty_otherMembers (x : Ext) (data : List Byte) (u : EntityPropertyList)
    (s : DecodeState) :
    otherMembers (decodeProperty x data u s).properties = otherMembers s.properties := by
  cases u <;> rfl

theorem readFold_otherMembers (x : Ext) (data : List Byte) (flags : EntityPropertyFlags)
    (ts : List EntityPropertyList) (s : DecodeState) :
    otherMembers (ts.foldl (fun s t => readProperty x data flags t s) s).properties
      = otherMembers s.properties := by
  induction ts generalizing s with
  | nil => rfl
  | cons u ts ih =>
    simp only [List.foldl_cons]
    rw [ih]
    unfold readProperty
    split_ifs
    · exact decodeProperty_otherMembers x data u s
    · rfl

/-- An attribute whose tag is not both among the blocks run and in the flag set keeps its
value and its changed bit. -/
theorem readFold_untouched (x : Ext) (data : List Byte) (flags : EntityPropertyFlags)
    (ts : List EntityPropertyList) (s : DecodeState) (t : EntityPropertyList)
    (h : ¬ (t ∈ ts ∧ t ∈ flags)) :
    attributeOf t (ts.foldl (fun s t => readProperty x data flags t s) s).properties
        = attributeOf t s.properties
      ∧ changedBitOf t (ts.foldl (fun s t => readProperty x data flags t s) s).properties
        = changedBitOf t s.properties := by
  induction ts generalizing s with
  | nil => exact ⟨rfl, rfl⟩
  | cons u ts ih =>
    simp only [List.foldl_cons]
    have h' : ¬ (t ∈ ts ∧ t ∈ flags) := fun ⟨a, b⟩ => h ⟨List.mem_cons_of_mem _ a, b⟩
    obtain ⟨i1, i2⟩ := ih (readProperty x data flags u s) h'
    rw [i1, i2]
    unfold readProperty
    split_ifs with hu
    · have hne : u ≠ t := fun e => h ⟨e ▸ List.mem_cons_self _ _, e ▸ hu⟩
      exact decodeProperty_other x data t u hne s
    · exact ⟨rfl, rfl⟩

/-- An attribute whose tag has a block that is run and is in the flag set ends up marked
changed. -/
theorem readFold_changed (x : Ext) (data : List Byte) (flags : EntityPropertyFlags)
    (ts : List EntityPropertyList) (s : DecodeState) (t : EntityPropertyList)
    (hw : t ∈ wireOrder)
    (h : changedBitOf t s.properties = true ∨ (t ∈ ts ∧ t ∈ flags)) :
    changedBitOf t (ts.foldl (fun s t => readProperty x data flags t s) s).properties
      = true := by
  induction ts generalizing s with
  | nil =>
    rcases h with h | ⟨h, _⟩
    · exact h
    · simp at h
  | cons u ts ih =>
    simp only [List.foldl_cons]
    apply ih
    by_cases hut : u = t
    · subst hut
      by_cases hu : u ∈ flags
      · left
        rw [readProperty, if_pos hu]
        exact decodeProperty_self x data u hw s
      · rcases h with h | ⟨_, h⟩
        · left; rw [readProperty, if_neg hu]; exact h
        · exact absurd h hu
    · rcases h with h | ⟨h1, h2⟩
      · left
        unfold readProperty
        split_ifs
        · rw [(decodeProperty_other x data t u hut s).2]; exact h
        · exact h
      · right
        rcases List.mem_cons.mp h1 with e | e
        · exact absurd e.symm hut
        · exact ⟨e, h2⟩

theorem readHeader_frame (x : Ext) (data : List Byte) (n : Int) (tgt : EntityItemProperties)
    (t : EntityPropertyList) :
    attributeOf t (readHeader x data n tgt).state.properties = attributeOf t tgt
      ∧ changedBitOf t (readHeader x data n tgt).state.properties = changedBitOf t tgt := by
  unfold readHeader
  simp only
  split_ifs <;> exact attributeOf_header_setters t tgt _ _ _

theorem readHeader_flags_indep (x : Ext) (data : List Byte) (n : Int)
    (tgt tgt2 : EntityItemProperties) :
    (readHeader x data n tgt).propertyFlags = (readHeader x data n tgt2).propertyFlags
    ∧ (readHeader x data n tgt).state.processedBytes
        = (readHeader x data n tgt2).state.processedBytes
    ∧ (readHeader x data n tgt).entityID = (readHeader x data n tgt2).entityID := by
  unfold readHeader
  exact ⟨rfl, rfl, rfl⟩

/-- C14. Frame of decode: for every packet, every `bytesToRead` and every target, each
attribute whose tag is not in the property flags read from the packet keeps its prior
value and its prior changed bit after `decodeEntityEditPacket`; so does each attribute
whose tag has no attribute block (the script), flagged or not; a flagged attribute that
has a block ends up marked changed; and of the members outside the attributes only
`lastEdited`, `created` and `type` are written: the id, its set bit, the glow level with
its changed bit and the default-settings bit stay as they were. -/
theorem decode_frame (x : Ext) (data : List Byte) (bytesToRead : Int)
    (properties : EntityItemProperties) :
    (∀ t, t ∉ (readHeader x data bytesToRead properties).propertyFlags →
      attributeOf t (decodeEntityEditPacket x data bytesToRead properties).properties
          = attributeOf t properties
        ∧ changedBitOf t (decodeEntityEditPacket x data bytesToRead properties).properties
          = changedBitOf t properties)
    ∧ (∀ t, t ∉ wireOrder →
      attributeOf t (decodeEntityEditPacket x data bytesToRead properties).properties
          = attributeOf t properties
        ∧ changedBitOf t (decodeEntityEditPacket x data bytesToRead properties).properties
          = changedBitOf t properties)
    ∧ (∀ t, t ∈ wireOrder → t ∈ (readHeader x data bytesToRead properties).propertyFlags →
        changedBitOf t (decodeEntityEditPacket x data bytesToRead properties).properties
          = true)
    ∧ (decodeEntityEditPacket x data bytesToRead properties).properties.id = properties.id
    ∧ (decodeEntityEditPacket x data bytesToRead properties).properties.idSet
        = properties.idSet
    ∧ (decodeEntityEditPacket x data bytesToRead properties).properties.glowLevel
        = properties.glowLevel
    ∧ (decodeEntityEditPacket x data bytesToRead properties).properties.glowLevelChanged
        = properties.glowLevelChanged
    ∧ (decodeEntityEditPacket x data bytesToRead properties).properties.defaultSettings
        = properties.defaultSettings
    ∧ (decodeEntityEditPacket x data bytesToRead properties).properties.lastEdited
        = readRaw 8 data (x.bytesOfOctcode data)
    ∧ (decodeEntityEditPacket x data bytesToRead properties).properties.created
        = (if readRaw 16 data (x.bytesOfOctcode data + 8) = x.NEW_ENTITY
            then readRaw 8 data (x.bytesOfOctcode data) else x.USE_EXISTING_CREATED_TIME)
    ∧ (decodeEntityEditPacket x data bytesToRead properties).properties.type
        = (readHeader x data bytesToRead properties).state.properties.type := by
  have hdec : (decodeEntityEditPacket x data bytesToRead properties).properties
      = (wireOrder.foldl (fun s t => readProperty x data
          (readHeader x data bytesToRead properties).propertyFlags t s)
          (readHeader x data bytesToRead properties).state).properties := rfl
  have hom := readFold_otherMembers x data
    (readHeader x data bytesToRead properties).propertyFlags wireOrder
    (readHeader x data bytesToRead properties).state
  rw [← hdec] at hom
  have hh : (readHeader x data bytesToRead properties).state.properties.id = properties.id
      ∧ (readHeader x data bytesToRead properties).state.properties.idSet = properties.idSet
      ∧ (readHeader x data bytesToRead properties).state.properties.glowLevel
          = properties.glowLevel
      ∧ (readHeader x data bytesToRead properties).state.properties.glowLevelChanged
          = properties.glowLevelChanged
      ∧ (readHeader x data bytesToRead properties).state.properties.defaultSettings
          = properties.defaultSettings := by
    unfold readHeader
    simp only
    split_ifs <;> exact ⟨rfl, rfl, rfl, rfl, rfl⟩
  refine ⟨fun t ht => ?_, fun t ht => ?_, fun t hw ht => ?_, ?_, ?_, ?_, ?_, ?_, ?_, ?_, ?_⟩
  · rw [hdec]
    have := readFold_untouched x data _ wireOrder
      (readHeader x data bytesToRead properties).state t (fun ⟨_, b⟩ => ht b)
    rw [this.1, this.2]
    exact readHeader_frame x data bytesToRead properties t
  · rw [hdec]
    have := readFold_untouched x data
      (readHeader x data bytesToRead properties).propertyFlags wireOrder
      (readHeader x data bytesToRead properties).state t (fun ⟨a, _⟩ => ht a)
    rw [this.1, this.2]
    exact readHeader_frame x data bytesToRead properties t
  · rw [hdec]
    exact readFold_changed x data _ wireOrder _ t hw (Or.inr ⟨hw, ht⟩)
  · exact (congrArg OtherMembers.id hom).trans hh.1
  · exact (congrArg OtherMembers.idSet hom).trans hh.2.1
  · exact (congrArg OtherMembers.glowLevel hom).trans hh.2.2.1
  · exact (congrArg OtherMembers.glowLevelChanged hom).trans hh.2.2.2.1
  · exact (congrArg OtherMembers.defaultSettings hom).trans hh.2.2.2.2
  · refine (congrArg OtherMembers.lastEdited hom).trans ?_
    unfold readHeader
    simp only
    split_ifs <;> rfl
  · refine (congrArg OtherMembers.created hom).trans ?_
    unfold readHeader
    by_cases hnew : readRaw 16 data (x.bytesOfOctcode data + 8) = x.NEW_ENTITY
    · simp only [hnew, decide_True, if_true]; rfl
    · simp only [hnew, decide_False, Bool.false_eq_true, if_false]; rfl
  · exact congrArg OtherMembers.type hom

/-- C13, as the code has it.  `decodeEntityEditPacket` performs no check of the type code:
it returns valid = true for every input, and whatever type code a successfully encoded
packet carries, inside an enumeration or not, the decoder stores that code as the type of
the output properties and applies the record: every flagged attribute that has a block
ends up marked changed. -/
theorem type_code_is_not_checked (x : Ext) (ho : x.OctcodeLaw) (h32 : x.ByteCount32Law)
    (h64 : x.ByteCount64Law) (hf : x.FlagsLaw) (hl : x.FlagsLengthLaw)
    (id : EntityItemID) (p tgt : EntityItemProperties) (sizeIn : Int)
    (htok : id.id = x.NEW_ENTITY → id.creatorTokenID < 4294967296)
    (hs : (encodeEntityEditPacket x id p sizeIn).success = true) :
    (∀ (data : List Byte) (n : Int) (t : EntityItemProperties),
        (decodeEntityEditPacket x data n t).valid = true)
    ∧ (decodeEntityEditPacket x (encodeEntityEditPacket x id p sizeIn).bufferOut
        (encodeEntityEditPacket x id p sizeIn).sizeOut tgt).properties.type
        = p.type % 4294967296
    ∧ (∀ t ∈ wireOrder, t ∈ p.getChangedProperties →
        changedBitOf t (decodeEntityEditPacket x (encodeEntityEditPacket x id p sizeIn).bufferOut
          (encodeEntityEditPacket x id p sizeIn).sizeOut tgt).properties = true) := by
  have hs' : (encodeRun x id p sizeIn).success = true := hs
  have hb := encodeRun_success_bytes x id p sizeIn hs' (encodeFlags_le_provisional x hl _)
  have hsz := ((encodeRun_outputs x id p sizeIn).2 hs').1
  have hn : (((headerBytes x id p).length
      + (x.encodeFlags (encodeRun x id p sizeIn).propertyFlags).length : Nat) : Int)
      ≤ ((encodeRun x id p sizeIn).sizeOut : Int) := by
    rw [hsz]
    have := congrArg List.length hb
    simp only [List.length_append] at this
    rw [this]; push_cast; omega
  have e := readHeader_encoded x ho h32 h64 hf hl id p tgt sizeIn htok hs' [] _ hn
  rw [List.append_nil] at e
  have hdec : (decodeEntityEditPacket x (encodeEntityEditPacket x id p sizeIn).bufferOut
      (encodeEntityEditPacket x id p sizeIn).sizeOut tgt).properties
      = (wireOrder.foldl (fun s t => readProperty x (encodeRun x id p sizeIn).bufferOut
          (readHeader x (encodeRun x id p sizeIn).bufferOut
            ((encodeRun x id p sizeIn).sizeOut : Int) tgt).propertyFlags t s)
          (readHeader x (encodeRun x id p sizeIn).bufferOut
            ((encodeRun x id p sizeIn).sizeOut : Int) tgt).state).properties := rfl
  refine ⟨fun data m t => ?_, ?_, fun t hw ht => ?_⟩
  · simp only [decodeEntityEditPacket, readHeader, ite_self]
  · rw [hdec]
    have := congrArg OtherMembers.type (readFold_otherMembers x
      (encodeRun x id p sizeIn).bufferOut
      (readHeader x (encodeRun x id p sizeIn).bufferOut
        ((encodeRun x id p sizeIn).sizeOut : Int) tgt).propertyFlags wireOrder
      (readHeader x (encodeRun x id p sizeIn).bufferOut
        ((encodeRun x id p sizeIn).sizeOut : Int) tgt).state)
    refine this.trans ?_
    rw [e]
    rfl
  · rw [hdec]
    apply readFold_changed x _ _ wireOrder _ t hw
    right
    refine ⟨hw, ?_⟩
    rw [e]
    exact (encodeRun_success_flags x id p sizeIn hs' t).mpr ⟨hw, ht⟩

/-- C13, counterexample to the claim as stated: a packet whose type code is 4000000000, a
code that the small enumeration of entity types does not reach, is decoded with
valid = true, and the record is applied: the type, the position and the radius of the
output properties are those of the packet. -/
theorem unknown_type_is_accepted :
    (encodeEntityEditPacket refExt knownID unknownTypeEdit 9999).bufferOut = unknownTypePacket
    ∧ (decodeEntityEditPacket refExt unknownTypePacket 48 blankProperties).valid = true
    ∧ (decodeEntityEditPacket refExt unknownTypePacket 48 blankProperties).properties.type
        = 4000000000
    ∧ (decodeEntityEditPacket refExt unknownTypePacket 48 blankProperties).properties.position
        = exampleEdit.position
    ∧ (decodeEntityEditPacket refExt unknownTypePacket 48
        blankProperties).properties.positionChanged = true
    ∧ (decodeEntityEditPacket refExt unknownTypePacket 48 blankProperties).properties.radius
        = exampleEdit.radius := by
  decide

/-- C13, at a concrete input: the example edit with the type code 4000000000, sent for an
existing entity and decoded into a blank target. -/
theorem type_code_is_not_checked_witness :
    (encodeEntityEditPacket refExt knownID unknownTypeEdit 9999).success = true
    ∧ (decodeEntityEditPacket refExt
        (encodeEntityEditPacket refExt knownID unknownTypeEdit 9999).bufferOut
        (encodeEntityEditPacket refExt knownID unknownTypeEdit 9999).sizeOut
        blankProperties).properties.type = 4000000000 :=
  ⟨by decide,
    (type_code_is_not_checked refExt refExt_octcodeLaw refExt_byteCount32Law
      refExt_byteCount64Law refExt_flagsLaw refExt_flagsLengthLaw knownID unknownTypeEdit
      blankProperties 9999 (by decide) (by decide)).2.1⟩

/-- C12, the code at a failing input.  In the packet `urlPacket` (what the encoder makes
of an edit with model URL "ab" and animation URL "cd") both text fields declare the
length 2.  `decodeEntityEditPacket` consumes 2 + 2 bytes for each, yet the model URL it
builds has three bytes: "ab" and the low byte of the length field that follows; the
animation URL has three bytes as well: "cd" and the flag byte that follows.  With another
flag byte after the same two text fields the decoded animation URL is another one. -/
theorem text_field_is_read_past_its_length :
    (encodeEntityEditPacket refExt knownID urlEdit 9999).success = true
    ∧ (encodeEntityEditPacket refExt knownID urlEdit 9999).bufferOut = urlPacket
    ∧ (readHeader refExt urlPacket 39 blankProperties).state.processedBytes = 30
    ∧ readU16 urlPacket 30 = 2
    ∧ readBytes 2 urlPacket 32 = [97, 98]
    ∧ readU16 urlPacket 34 = 2
    ∧ readBytes 2 urlPacket 36 = [99, 100]
    ∧ (decodeEntityEditPacket refExt urlPacket 39 blankProperties).properties.modelURL
        = [97, 98, 2]
    ∧ (decodeEntityEditPacket refExt urlPacket 39 blankProperties).properties.animationURL
        = [99, 100, 1]
    ∧ (decodeEntityEditPacket refExt urlPacket 39 blankProperties).processedBytes = 39
    ∧ urlPacketOtherFlag.take 38 = urlPacket.take 38
    ∧ (decodeEntityEditPacket refExt urlPacketOtherFlag 39
        blankProperties).properties.animationURL = [99, 100, 7] := by
  decide

/-! ## The two-attribute scenarios -/

theorem appendStep_skip (x : Ext) (p : EntityItemProperties) (req : EntityPropertyFlags)
    (s : EncodeState) (t : EntityPropertyList) (h : t ∉ req) :
    appendStep x p req s t
      = EncodeState.mk s.packetData s.propertyFlags (s.propertiesDidntFit.erase t)
          s.propertyCount s.appendState := by
  rcases appendStep_cases x p req s t with ⟨_, e⟩ | ⟨h1, _⟩ | ⟨h1, _⟩
  · exact e
  · exact absurd h1 h
  · exact absurd h1 h

theorem appendStep_write (x : Ext) (p : EntityItemProperties) (req : EntityPropertyFlags)
    (s : EncodeState) (t : EntityPropertyList) (h : t ∈ req)
    (hc : ((s.packetData.uncompressed.length : Int) + ((payloadOf x p t).length : Int))
      ≤ s.packetData.targetSize) :
    appendStep x p req s t
      = EncodeState.mk
          (OctreePacketData.mk s.packetData.targetSize
            (s.packetData.uncompressed ++ payloadOf x p t) s.packetData.subTreeAt)
          (insert t s.propertyFlags) (s.propertiesDidntFit.erase t)
          (s.propertyCount + 1) s.appendState := by
  rcases appendStep_cases x p req s t with ⟨h1, _⟩ | ⟨_, _, e⟩ | ⟨_, h2, _⟩
  · exact absurd h h1
  · exact e
  · rw [OctreePacketData.append_fst, decide_eq_false_iff_not] at h2
    exact absurd hc h2

theorem appendStep_drop (x : Ext) (p : EntityItemProperties) (req : EntityPropertyFlags)
    (s : EncodeState) (t : EntityPropertyList) (h : t ∈ req)
    (hc : ¬ ((s.packetData.uncompressed.length : Int) + ((payloadOf x p t).length : Int))
      ≤ s.packetData.targetSize) :
    appendStep x p req s t
      = EncodeState.mk s.packetData s.propertyFlags s.propertiesDidntFit
          s.propertyCount AppendState.PARTIAL := by
  rcases appendStep_cases x p req s t with ⟨h1, _⟩ | ⟨_, h2, _⟩ | ⟨_, _, e⟩
  · exact absurd h h1
  · rw [OctreePacketData.append_fst, decide_eq_true_iff] at h2
    exact absurd h2 hc
  · exact e

/-- Blocks of tags that are not requested only clear their tags from the set of the
attributes that did not fit. -/
theorem appendFold_skip (x : Ext) (p : EntityItemProperties) (req : EntityPropertyFlags)
    (ts : List EntityPropertyList) (h : ∀ t ∈ ts, t ∉ req) (s : EncodeState) :
    ts.foldl (appendStep x p req) s
      = EncodeState.mk s.packetData s.propertyFlags
          (ts.foldl (fun f t => f.erase t) s.propertiesDidntFit)
          s.propertyCount s.appendState := by
  induction ts generalizing s with
  | nil => rfl
  | cons t ts ih =>
    simp only [List.foldl_cons]
    rw [ih (fun u hu => h u (List.mem_cons_of_mem _ hu)),
      appendStep_skip x p req s t (h t (List.mem_cons_self _ _))]

/-- The attribute phase of the scenario in which the position fits and the radius does
not. -/
theorem attributePhase_position_only (x : Ext) (id : EntityItemID)
    (p : EntityItemProperties) (sizeIn : Int)
    (hch : p.getChangedProperties = {PROP_POSITION, PROP_RADIUS})
    (hpos : (((headerBytes x id p).length + (x.encodeFlags {PROP_LAST_ITEM}).length + 12
      : Nat) : Int) ≤ sizeIn)
    (hrad : sizeIn < (((headerBytes x id p).length + (x.encodeFlags {PROP_LAST_ITEM}).length
      + 16 : Nat) : Int)) :
    attributePhase x id p sizeIn
      = EncodeState.mk
          (OctreePacketData.mk sizeIn
            (x.rootOctcode ++ (recordHeaderBytes x id p ++ x.encodeFlags {PROP_LAST_ITEM})
              ++ p.position.val) 0)
          {PROP_POSITION} {PROP_RADIUS} 1 AppendState.PARTIAL := by
  simp only [headerBytes, List.length_append] at hpos hrad
  push_cast at hpos hrad
  have hhdr : (appendHeader x id p (prefixPacket x sizeIn)).headerFits = true :=
    appendHeader_of_cap x id p (prefixPacket x sizeIn) (by simp only [prefixPacket]; omega)
  obtain ⟨e1, _, _⟩ := appendHeader_fits x id p (prefixPacket x sizeIn) hhdr
  obtain ⟨g1, g2, _⟩ := appendHeader_frame x id p (prefixPacket x sizeIn)
  have hpd : (appendHeader x id p (prefixPacket x sizeIn)).packetData
      = OctreePacketData.mk sizeIn
          (x.rootOctcode ++ (recordHeaderBytes x id p ++ x.encodeFlags {PROP_LAST_ITEM})) 0 := by
    cases hq : (appendHeader x id p (prefixPacket x sizeIn)).packetData with
    | mk a b c =>
      rw [hq] at e1 g1 g2
      simp only [prefixPacket] at e1 g1 g2
      rw [e1, g1, g2]
  rw [attributePhase_header x id p sizeIn hhdr, hpd, hch]
  have hw : wireOrder = PROP_POSITION :: PROP_RADIUS ::
      [PROP_ROTATION, PROP_MASS, PROP_VELOCITY, PROP_GRAVITY, PROP_DAMPING, PROP_LIFETIME,
       PROP_COLOR, PROP_MODEL_URL, PROP_ANIMATION_URL, PROP_ANIMATION_FPS,
       PROP_ANIMATION_FRAME_INDEX, PROP_ANIMATION_PLAYING] := rfl
  rw [hw, List.foldl_cons, List.foldl_cons]
  rw [appendStep_write x p _ _ PROP_POSITION (by decide)
    (by
      simp only [payloadOf, List.length_append, Raw.length_val]
      push_cast; omega)]
  rw [appendStep_drop x p _ _ PROP_RADIUS (by decide)
    (by
      simp only [payloadOf, List.length_append, Raw.length_val]
      push_cast; omega)]
  rw [appendFold_skip x p _ _ (by decide)]
  simp only [payloadOf, EncodeState.mk.injEq, true_and, and_true, zero_add]
  refine ⟨by decide, by decide⟩

/-- C16. Concrete scenario: a snapshot in which only position and radius are marked
changed, and a capacity that holds the header as the encoder writes it (routing prefix,
header fields, provisional flags) and the twelve bytes of the position, but not the four
bytes of the radius after them.  `encodeEntityEditPacket` returns false (with `sizeOut`
0 and nothing copied); its final property flags are {PROP_POSITION}, the radius is the
one attribute that did not fit, one attribute was written and the state is `PARTIAL`;
after the attribute blocks the packet buffer ends with the position payload, no byte of
the radius behind it; the repaired record is the header fields, the encoding of
{PROP_POSITION} and the position (under the length law of the flag encoding); and the
failed packet is rolled back to empty. -/
theorem scenario_radius_dropped (x : Ext) (id : EntityItemID) (p : EntityItemProperties)
    (sizeIn : Int)
    (hch : p.getChangedProperties = {PROP_POSITION, PROP_RADIUS})
    (hpos : (((headerBytes x id p).length + (x.encodeFlags {PROP_LAST_ITEM}).length + 12
      : Nat) : Int) ≤ sizeIn)
    (hrad : sizeIn < (((headerBytes x id p).length + (x.encodeFlags {PROP_LAST_ITEM}).length
      + 16 : Nat) : Int)) :
    (encodeEntityEditPacket x id p sizeIn).success = false
    ∧ (encodeEntityEditPacket x id p sizeIn).sizeOut = 0
    ∧ (encodeEntityEditPacket x id p sizeIn).bufferOut = []
    ∧ (encodeRun x id p sizeIn).propertyFlags = {PROP_POSITION}
    ∧ (encodeRun x id p sizeIn).propertiesDidntFit = {PROP_RADIUS}
    ∧ (encodeRun x id p sizeIn).propertyCount = 1
    ∧ (encodeRun x id p sizeIn).appendState = AppendState.PARTIAL
    ∧ (attributePhase x id p sizeIn).packetData.uncompressed
        = headerBytes x id p ++ (x.encodeFlags {PROP_LAST_ITEM} ++ p.position.val)
    ∧ (x.FlagsLengthLaw →
        (repairPropertyFlags x (appendHeader x id p (prefixPacket x sizeIn))
          (encodeRun x id p sizeIn).propertyFlags
          (attributePhase x id p sizeIn).packetData).uncompressed
          = headerBytes x id p ++ (x.encodeFlags {PROP_POSITION} ++ p.position.val))
    ∧ (encodeRun x id p sizeIn).packetData.uncompressed = [] := by
  have hA := attributePhase_position_only x id p sizeIn hch hpos hrad
  have hp : (x.rootOctcode.length : Int) ≤ sizeIn := by
    simp only [headerBytes, List.length_append] at hpos
    push_cast at hpos; omega
  obtain ⟨l1, l2, l3, _, _, _⟩ := encodeRun_locals x id p sizeIn hp
  have hfail : (encodeRun x id p sizeIn).success = false := by
    cases hs : (encodeRun x id p sizeIn).success with
    | false => rfl
    | true =>
      have := ((encodeRun_success_iff x id p sizeIn).mp hs).2.2
      rw [hA] at this
      exact AppendState.noConfusion this
  obtain ⟨o1, o2, o3⟩ := (encodeRun_outputs x id p sizeIn).1 hfail
  have hstate : (encodeRun x id p sizeIn).appendState = AppendState.PARTIAL := by
    rw [encodeRun_octcode_fits x id p sizeIn hp, hA]
    rfl
  have hhdr : (appendHeader x id p (prefixPacket x sizeIn)).headerFits = true := by
    apply attributePhase_count_pos
    rw [hA]
    exact Nat.one_pos
  obtain ⟨_, e2, e3⟩ := appendHeader_fits x id p (prefixPacket x sizeIn) hhdr
  refine ⟨hfail, o1, o2, ?_, ?_, ?_, hstate, ?_, fun hl => ?_, o3⟩
  · rw [l1, hA]
  · rw [l3, hA]
  · rw [l2, hA]
  · rw [hA]
    simp only [headerBytes, List.append_assoc]
  · rw [l1, hA]
    have := repairPropertyFlags_eq x (appendHeader x id p (prefixPacket x sizeIn))
      {PROP_POSITION}
      (OctreePacketData.mk sizeIn
        (x.rootOctcode ++ (recordHeaderBytes x id p ++ x.encodeFlags {PROP_LAST_ITEM})
          ++ p.position.val) 0)
      (x.rootOctcode ++ recordHeaderBytes x id p) (x.encodeFlags {PROP_LAST_ITEM})
      p.position.val (by simp only [List.append_assoc]) e2
      (appendHeader_old x id p _) e3 (encodeFlags_le_provisional x hl _)
    rw [this]
    simp only [headerBytes, List.append_assoc]

/-- C16, at a concrete input: the example edit (position and radius marked changed) for
an existing entity with room for 44 bytes: the 27 bytes of routing prefix and header
fields, the 3 bytes of the provisional flags and the 12 bytes of the position fit, the 4
bytes of the radius do not. -/
theorem scenario_radius_dropped_witness :
    exampleEdit.getChangedProperties = {PROP_POSITION, PROP_RADIUS}
    ∧ (headerBytes refExt knownID exampleEdit).length = 27
    ∧ (refExt.encodeFlags {PROP_LAST_ITEM}).length = 3
    ∧ (encodeEntityEditPacket refExt knownID exampleEdit 44).success = false
    ∧ (encodeRun refExt knownID exampleEdit 44).propertyFlags = {PROP_POSITION}
    ∧ (encodeRun refExt knownID exampleEdit 44).propertiesDidntFit = {PROP_RADIUS}
    ∧ (attributePhase refExt knownID exampleEdit 44).packetData.uncompressed
        = headerBytes refExt knownID exampleEdit
          ++ (refExt.encodeFlags {PROP_LAST_ITEM} ++ exampleEdit.position.val) := by
  have h := scenario_radius_dropped refExt knownID exampleEdit 44 (by decide) (by decide)
    (by decide)
  exact ⟨by decide, by decide, by decide, h.1, h.2.2.2.1, h.2.2.2.2.1, h.2.2.2.2.2.2.2.1⟩

theorem encodeRun_requested (x : Ext) (id : EntityItemID) (p : EntityItemProperties)
    (sizeIn : Int) :
    (encodeRun x id p sizeIn).requestedProperties = p.getChangedProperties := by
  by_cases hp : (x.rootOctcode.length : Int) ≤ sizeIn
  · rw [encodeRun_octcode_fits x id p sizeIn hp]
    split_ifs <;> rfl
  · rw [encodeRun_octcode_too_long x id p sizeIn hp]
    rfl

theorem encodeRun_flags_offset (x : Ext) (id : EntityItemID) (p : EntityItemProperties)
    (sizeIn : Int) (hp : (x.rootOctcode.length : Int) ≤ sizeIn) :
    (encodeRun x id p sizeIn).propertyFlagsOffset
      = (appendHeader x id p (prefixPacket x sizeIn)).propertyFlagsOffset := by
  rw [encodeRun_octcode_fits x id p sizeIn hp]
  split_ifs <;> rfl

/-- C11, as the code has it.  In every run of `encodeEntityEditPacket` in which the header
fits, the provisional property flags written into the header, before any attribute
payload, are the encoding of the flag set {PROP_LAST_ITEM}, whatever the caller
requested: the buffer after the header is written is the header fields followed by that
encoding, the recorded offset is the length of the header fields and the recorded length
is that of the encoding of {PROP_LAST_ITEM}.  The changed tags
(`getChangedProperties`) are held in `requestedProperties`, which is not written. -/
theorem provisional_flags_are_the_end_marker (x : Ext) (id : EntityItemID)
    (p : EntityItemProperties) (sizeIn : Int)
    (h : (encodeRun x id p sizeIn).headerFits = true) :
    (appendHeader x id p ((OctreePacketData.create sizeIn).startSubTree
        x.rootOctcode).2).packetData.uncompressed
        = headerBytes x id p ++ x.encodeFlags {PROP_LAST_ITEM}
    ∧ (encodeRun x id p sizeIn).propertyFlagsOffset = (headerBytes x id p).length
    ∧ (encodeRun x id p sizeIn).oldPropertyFlagsLength
        = (x.encodeFlags {PROP_LAST_ITEM}).length
    ∧ (appendHeader x id p ((OctreePacketData.create sizeIn).startSubTree
        x.rootOctcode).2).packetData.uncompressed.drop
          (encodeRun x id p sizeIn).propertyFlagsOffset
        = x.encodeFlags {PROP_LAST_ITEM}
    ∧ (encodeRun x id p sizeIn).requestedProperties = p.getChangedProperties := by
  have hp : (x.rootOctcode.length : Int) ≤ sizeIn := by
    by_contra hn
    rw [encodeRun_octcode_too_long x id p sizeIn hn] at h
    exact Bool.false_ne_true h
  obtain ⟨_, _, _, l4, l5, _⟩ := encodeRun_locals x id p sizeIn hp
  rw [l5] at h
  obtain ⟨e1, e2, _⟩ := appendHeader_fits x id p (prefixPacket x sizeIn) h
  have hoff : (encodeRun x id p sizeIn).propertyFlagsOffset = (headerBytes x id p).length := by
    rw [encodeRun_flags_offset x id p sizeIn hp, e2]
    rfl
  have hbuf : (appendHeader x id p ((OctreePacketData.create sizeIn).startSubTree
      x.rootOctcode).2).packetData.uncompressed
      = headerBytes x id p ++ x.encodeFlags {PROP_LAST_ITEM} := by
    rw [startSubTree_fits x sizeIn hp, e1]
    simp only [prefixPacket, headerBytes, List.append_assoc]
  refine ⟨hbuf, hoff, l4, ?_, encodeRun_requested x id p sizeIn⟩
  rw [hbuf, hoff]
  exact drop_eq_right _ _ _ rfl

/-- C11, counterexample to the claim as stated: for the example edit the changed tags are
position and radius, whose flag set is encoded in the one byte 24; the flags that the
header holds are the three bytes 128, 128, 16, the encoding of {PROP_LAST_ITEM}, which
decode to {PROP_LAST_ITEM} and not to the changed tags. -/
theorem provisional_flags_are_not_the_changed_tags :
    exampleEdit.getChangedProperties = {PROP_POSITION, PROP_RADIUS}
    ∧ refExt.encodeFlags exampleEdit.getChangedProperties = [24]
    ∧ (encodeRun refExt knownID exampleEdit 9999).headerFits = true
    ∧ (encodeRun refExt knownID exampleEdit 9999).propertyFlagsOffset = 27
    ∧ (appendHeader refExt knownID exampleEdit ((OctreePacketData.create 9999).startSubTree
        refExt.rootOctcode).2).packetData.uncompressed.drop 27 = [128, 128, 16]
    ∧ (refExt.decodeFlags [128, 128, 16]).1 = {PROP_LAST_ITEM}
    ∧ (refExt.decodeFlags [128, 128, 16]).1 ≠ exampleEdit.getChangedProperties := by
  decide

/-- C11, at a concrete input: the example edit for an existing entity with room for 9999
bytes. -/
theorem provisional_flags_are_the_end_marker_witness :
    (encodeRun refExt knownID exampleEdit 9999).headerFits = true
    ∧ (appendHeader refExt knownID exampleEdit ((OctreePacketData.create 9999).startSubTree
        refExt.rootOctcode).2).packetData.uncompressed.drop
          (encodeRun refExt knownID exampleEdit 9999).propertyFlagsOffset
        = refExt.encodeFlags {PROP_LAST_ITEM}
    ∧ (encodeRun refExt knownID exampleEdit 9999).requestedProperties
        = exampleEdit.getChangedProperties :=
  ⟨by decide,
    (provisional_flags_are_the_end_marker refExt knownID exampleEdit 9999 (by decide)).2.2.2.1,
    (provisional_flags_are_the_end_marker refExt knownID exampleEdit 9999 (by decide)).2.2.2.2⟩

/-! ## The bytes that the decoder consumes -/

theorem decodeProperty_width (x : Ext) (data : List Byte) (t : EntityPropertyList)
    (s : DecodeState) :
    (decodeProperty x data t s).processedBytes
      = s.processedBytes + specifiedWidth x data t s.processedBytes := by
  cases t <;> simp only [decodeProperty, specifiedWidth, Nat.add_assoc, Nat.add_zero]

theorem readFold_width (x : Ext) (data : List Byte) (flags : EntityPropertyFlags)
    (ts : List EntityPropertyList) (s : DecodeState) :
    (ts.foldl (fun s t => readProperty x data flags t s) s).processedBytes
      = s.processedBytes + specifiedWidths x data flags ts s.processedBytes := by
  induction ts generalizing s with
  | nil => rfl
  | cons t ts ih =>
    simp only [List.foldl_cons, specifiedWidths]
    rw [ih]
    by_cases ht : t ∈ flags
    · rw [readProperty, if_pos ht, if_pos ht, decodeProperty_width, Nat.add_assoc]
    · rw [readProperty, if_neg ht, if_neg ht]

theorem specifiedWidth_fixed (x : Ext) (data : List Byte) (t : EntityPropertyList) (pos : Nat)
    (h1 : t ≠ PROP_ROTATION) (h2 : t ≠ PROP_MODEL_URL) (h3 : t ≠ PROP_ANIMATION_URL) :
    specifiedWidth x data t pos = fixedWidth t := by
  cases t <;> first | rfl | (exact absurd rfl h1) | (exact absurd rfl h2) | (exact absurd rfl h3)

theorem specifiedWidths_fixed (x : Ext) (data : List Byte) (flags : EntityPropertyFlags)
    (h1 : PROP_ROTATION ∉ flags) (h2 : PROP_MODEL_URL ∉ flags)
    (h3 : PROP_ANIMATION_URL ∉ flags) (ts : List EntityPropertyList) (pos : Nat) :
    specifiedWidths x data flags ts pos
      = ((ts.filter (fun t => t ∈ flags)).map fixedWidth).sum := by
  induction ts generalizing pos with
  | nil => rfl
  | cons t ts ih =>
    simp only [specifiedWidths]
    by_cases ht : t ∈ flags
    · rw [if_pos ht, ih, List.filter_cons_of_pos (by simpa using ht), List.map_cons,
        List.sum_cons,
        specifiedWidth_fixed x data t pos (fun e => h1 (e ▸ ht)) (fun e => h2 (e ▸ ht))
          (fun e => h3 (e ▸ ht))]
    · rw [if_neg ht, ih, List.filter_cons_of_neg (by simpa using ht)]

theorem fixedWidth_sum (flags : EntityPropertyFlags) :
    ((wireOrder.filter (fun t => t ∈ flags)).map fixedWidth).sum
      = ∑ t in flags, fixedWidth t := by
  have hnd : (wireOrder.filter (fun t => t ∈ flags)).Nodup := wireOrder_nodup.filter _
  rw [← List.sum_toFinset fixedWidth hnd]
  have hset : (wireOrder.filter (fun t => t ∈ flags)).toFinset
      = flags.filter (fun t => t ∈ wireOrder) := by
    ext t
    simp only [List.mem_toFinset, List.mem_filter, decide_eq_true_eq, Finset.mem_filter]
    exact And.comm
  rw [hset]
  apply Finset.sum_filter_of_ne
  intro t _ hne
  by_contra hw
  apply hne
  cases t <;> first | rfl | (exact absurd (by decide) hw)

/-- The bytes that the header part of the decoder consumes, field by field: the routing
prefix, 8 for the timestamp, 16 for the id, then the creator token of a new entity, the
type, the update delta and the property flags, each read where the field before it ended
and each advancing by the length of its own encoding. -/
theorem readHeader_width (x : Ext) (data : List Byte) (n : Int) (tgt : EntityItemProperties)
    (tokenAt typeAt deltaAt flagsAt : Nat)
    (h1 : tokenAt = x.bytesOfOctcode data + 8 + 16)
    (h2 : typeAt = tokenAt
      + (if readRaw 16 data (x.bytesOfOctcode data + 8) = x.NEW_ENTITY then
          (x.byteCountCoded32
            (x.byteCountDecoded32 (qByteArray data tokenAt (n - tokenAt)))).length
        else 0))
    (h3 : deltaAt = typeAt
      + (x.byteCountCoded32 (x.byteCountDecoded32 (qByteArray data typeAt (n - typeAt)))).length)
    (h4 : flagsAt = deltaAt
      + (x.byteCountCoded64
          (x.byteCountDecoded64 (qByteArray data deltaAt (n - deltaAt)))).length) :
    (readHeader x data n tgt).state.processedBytes
        = flagsAt + (x.decodeFlags (qByteArray data flagsAt (n - flagsAt))).2
    ∧ (readHeader x data n tgt).propertyFlags
        = (x.decodeFlags (qByteArray data flagsAt (n - flagsAt))).1
    ∧ (readHeader x data n tgt).state.properties.type
        = x.byteCountDecoded32 (qByteArray data typeAt (n - typeAt))
    ∧ (readHeader x data n tgt).state.properties.lastEdited
        = readRaw 8 data (x.bytesOfOctcode data)
    ∧ (readRaw 16 data (x.bytesOfOctcode data + 8) = x.NEW_ENTITY →
        (readHeader x data n tgt).entityID.creatorTokenID
          = x.byteCountDecoded32 (qByteArray data tokenAt (n - tokenAt)))
    ∧ (readRaw 16 data (x.bytesOfOctcode data + 8) ≠ x.NEW_ENTITY →
        (readHeader x data n tgt).entityID.id
          = readRaw 16 data (x.bytesOfOctcode data + 8)) := by
  subst h1
  by_cases hnew : readRaw 16 data (x.bytesOfOctcode data + 8) = x.NEW_ENTITY
  · simp only [hnew, if_true] at h2
    subst h2 h3 h4
    unfold readHeader
    simp only [hnew, decide_True, if_true, EntityItemProperties.setType,
      EntityItemProperties.setCreated, EntityItemProperties.setLastEdited, and_self,
      implies_true, not_true_eq_false, false_implies, true_and]
  · simp only [hnew, if_false, Nat.add_zero] at h2
    subst h2 h3 h4
    unfold readHeader
    simp only [hnew, decide_False, Bool.false_eq_true, if_false,
      EntityItemProperties.setType, EntityItemProperties.setCreated,
      EntityItemProperties.setLastEdited, and_self, implies_true, not_false_eq_true,
      false_implies, true_and]

/-- C20. Fixed payload widths on decode.  `decodeEntityEditPacket` advances
`processedBytes` by the length of the routing prefix, 8 for the timestamp (read right
behind the prefix), 16 for the id (read 8 bytes further), then by the encoded lengths of
the creator token (new entities only), of the type, of the update delta and of the property
flags, each of which is decoded at the position where the field before it ended; each
attribute block advances it by 12 for position,
velocity and gravity, by 4 for radius, mass, damping, lifetime, animation FPS and
animation frame index, by 1 for animation playing, by 3 for color and by 2 + the
declared length for each text field (the orientation by the size that its unpacking
reports).  The final `processedBytes` is what the header consumed plus the sum of the
widths of exactly the flagged attributes; for a flag set without orientation and text
fields that sum is the sum of the fixed widths over the flag set. -/
theorem decode_payload_widths (x : Ext) (data : List Byte) (bytesToRead : Int)
    (properties : EntityItemProperties) :
    (∀ tokenAt typeAt deltaAt flagsAt : Nat,
      tokenAt = x.bytesOfOctcode data + 8 + 16 →
      typeAt = tokenAt
        + (if readRaw 16 data (x.bytesOfOctcode data + 8) = x.NEW_ENTITY then
            (x.byteCountCoded32
              (x.byteCountDecoded32 (qByteArray data tokenAt (bytesToRead - tokenAt)))).length
          else 0) →
      deltaAt = typeAt
        + (x.byteCountCoded32
            (x.byteCountDecoded32 (qByteArray data typeAt (bytesToRead - typeAt)))).length →
      flagsAt = deltaAt
        + (x.byteCountCoded64
            (x.byteCountDecoded64 (qByteArray data deltaAt (bytesToRead - deltaAt)))).length →
      (readHeader x data bytesToRead properties).state.processedBytes
          = flagsAt + (x.decodeFlags (qByteArray data flagsAt (bytesToRead - flagsAt))).2
      ∧ (readHeader x data bytesToRead properties).propertyFlags
          = (x.decodeFlags (qByteArray data flagsAt (bytesToRead - flagsAt))).1
      ∧ (decodeEntityEditPacket x data bytesToRead properties).properties.type
          = x.byteCountDecoded32 (qByteArray data typeAt (bytesToRead - typeAt))
      ∧ (decodeEntityEditPacket x data bytesToRead properties).properties.lastEdited
          = readRaw 8 data (x.bytesOfOctcode data)
      ∧ (readRaw 16 data (x.bytesOfOctcode data + 8) = x.NEW_ENTITY →
          (decodeEntityEditPacket x data bytesToRead properties).entityID.creatorTokenID
            = x.byteCountDecoded32 (qByteArray data tokenAt (bytesToRead - tokenAt)))
      ∧ (readRaw 16 data (x.bytesOfOctcode data + 8) ≠ x.NEW_ENTITY →
          (decodeEntityEditPacket x data bytesToRead properties).entityID.id
            = readRaw 16 data (x.bytesOfOctcode data + 8)))
    ∧ (∀ s : DecodeState,
        (decodeProperty x data PROP_POSITION s).processedBytes = s.processedBytes + 12
        ∧ (decodeProperty x data PROP_VELOCITY s).processedBytes = s.processedBytes + 12
        ∧ (decodeProperty x data PROP_GRAVITY s).processedBytes = s.processedBytes + 12
        ∧ (decodeProperty x data PROP_RADIUS s).processedBytes = s.processedBytes + 4
        ∧ (decodeProperty x data PROP_MASS s).processedBytes = s.processedBytes + 4
        ∧ (decodeProperty x data PROP_DAMPING s).processedBytes = s.processedBytes + 4
        ∧ (decodeProperty x data PROP_LIFETIME s).processedBytes = s.processedBytes + 4
        ∧ (decodeProperty x data PROP_ANIMATION_FPS s).processedBytes = s.processedBytes + 4
        ∧ (decodeProperty x data PROP_ANIMATION_FRAME_INDEX s).processedBytes
            = s.processedBytes + 4
        ∧ (decodeProperty x data PROP_ANIMATION_PLAYING s).processedBytes
            = s.processedBytes + 1
        ∧ (decodeProperty x data PROP_COLOR s).processedBytes = s.processedBytes + 3
        ∧ (decodeProperty x data PROP_MODEL_URL s).processedBytes
            = s.processedBytes + (2 + readU16 data s.processedBytes)
        ∧ (decodeProperty x data PROP_ANIMATION_URL s).processedBytes
            = s.processedBytes + (2 + readU16 data s.processedBytes)
        ∧ (decodeProperty x data PROP_ROTATION s).processedBytes
            = s.processedBytes
              + (x.unpackOrientationQuatFromBytes (data.drop s.processedBytes)).2)
    ∧ (∀ (flags : EntityPropertyFlags) (t : EntityPropertyList) (s : DecodeState),
        t ∉ flags → (readProperty x data flags t s).processedBytes = s.processedBytes)
    ∧ (decodeEntityEditPacket x data bytesToRead properties).processedBytes
        = (readHeader x data bytesToRead properties).state.processedBytes
          + specifiedWidths x data (readHeader x data bytesToRead properties).propertyFlags
              wireOrder (readHeader x data bytesToRead properties).state.processedBytes
    ∧ (PROP_ROTATION ∉ (readHeader x data bytesToRead properties).propertyFlags →
        PROP_MODEL_URL ∉ (readHeader x data bytesToRead properties).propertyFlags →
        PROP_ANIMATION_URL ∉ (readHeader x data bytesToRead properties).propertyFlags →
        (decodeEntityEditPacket x data bytesToRead properties).processedBytes
          = (readHeader x data bytesToRead properties).state.processedBytes
            + ∑ t in (readHeader x data bytesToRead properties).propertyFlags,
                fixedWidth t) := by
  have hdec : decodeEntityEditPacket x data bytesToRead properties
      = DecodeResult.mk (readHeader x data bytesToRead properties).valid
          (wireOrder.foldl (fun s t => readProperty x data
            (readHeader x data bytesToRead properties).propertyFlags t s)
            (readHeader x data bytesToRead properties).state).processedBytes
          (readHeader x data bytesToRead properties).entityID
          (wireOrder.foldl (fun s t => readProperty x data
            (readHeader x data bytesToRead properties).propertyFlags t s)
            (readHeader x data bytesToRead properties).state).properties := rfl
  have htype : (decodeEntityEditPacket x data bytesToRead properties).properties.type
      = (readHeader x data bytesToRead properties).state.properties.type := by
    rw [hdec]
    exact congrArg OtherMembers.type (readFold_otherMembers x data _ wireOrder _)
  have htotal : (decodeEntityEditPacket x data bytesToRead properties).processedBytes
      = (readHeader x data bytesToRead properties).state.processedBytes
        + specifiedWidths x data (readHeader x data bytesToRead properties).propertyFlags
            wireOrder (readHeader x data bytesToRead properties).state.processedBytes := by
    rw [hdec]
    exact readFold_width x data _ wireOrder _
  have hedited : (decodeEntityEditPacket x data bytesToRead properties).properties.lastEdited
      = (readHeader x data bytesToRead properties).state.properties.lastEdited := by
    rw [hdec]
    exact congrArg OtherMembers.lastEdited (readFold_otherMembers x data _ wireOrder _)
  refine ⟨?_, fun s => ?_, fun flags t s ht => ?_, htotal, fun h1 h2 h3 => ?_⟩
  · intro tokenAt typeAt deltaAt flagsAt e1 e2 e3 e4
    rw [htype, hedited, decode_entityID]
    exact readHeader_width x data bytesToRead properties tokenAt typeAt deltaAt flagsAt
      e1 e2 e3 e4
  · refine ⟨rfl, rfl, rfl, rfl, rfl, rfl, rfl, rfl, rfl, rfl, rfl, ?_, ?_, rfl⟩
    · exact decodeProperty_width x data PROP_MODEL_URL s
    · exact decodeProperty_width x data PROP_ANIMATION_URL s
  · rw [readProperty, if_neg ht]
  · rw [htotal, specifiedWidths_fixed x data _ h1 h2 h3, fixedWidth_sum]

/-- Example for C20: the packet `urlPacket` of 39 bytes, read with the reference
collaborators.  The routing prefix is one byte, the timestamp ends at 9 and the id at 25;
the entity is not new, so the type is read at 25 (one byte), the update delta at 26 (one
byte) and the property flags at 27 (three bytes): the header ends at 30.  The two text
fields of declared length 2 take 4 bytes each and the playing flag 1: 39 bytes are
processed. -/
theorem decode_payload_widths_witness :
    (readHeader refExt urlPacket 39 blankProperties).state.processedBytes = 27 + 3
    ∧ (readHeader refExt urlPacket 39 blankProperties).propertyFlags
        = {PROP_MODEL_URL, PROP_ANIMATION_URL, PROP_ANIMATION_PLAYING}
    ∧ (decodeEntityEditPacket refExt urlPacket 39 blankProperties).processedBytes
        = 30 + (2 + 2) + (2 + 2) + 1 := by
  have h := decode_payload_widths refExt urlPacket 39 blankProperties
  have h1 := h.1 25 25 26 27 (by decide) (by decide) (by decide) (by decide)
  exact ⟨h1.1.trans (by decide), h1.2.1.trans (by decide), h.2.2.2.1.trans (by decide)⟩

/-! ## The capacity of the erase message, the created time -/

/-- C29. `encodeEraseEntityMessage` performs no capacity check: for every `maxLength`,
also every one smaller than 18, and every output buffer, also one shorter than 18 bytes,
it returns true, sets `outputLength` to 18 and leaves at least 18 bytes written; its
results do not depend on `maxLength`; so `outputLength ≤ maxLength` holds exactly when
`maxLength` is at least 18. -/
theorem erase_message_ignores_capacity (entityItemID : EntityItemID) (outputBuffer : List Byte)
    (maxLength : Nat) :
    (encodeEraseEntityMessage entityItemID outputBuffer maxLength).result = true
    ∧ (encodeEraseEntityMessage entityItemID outputBuffer maxLength).outputLength = 18
    ∧ 18 ≤ (encodeEraseEntityMessage entityItemID outputBuffer maxLength).outputBuffer.length
    ∧ (∀ other : Nat, encodeEraseEntityMessage entityItemID outputBuffer other
        = encodeEraseEntityMessage entityItemID outputBuffer maxLength)
    ∧ ((encodeEraseEntityMessage entityItemID outputBuffer maxLength).outputLength ≤ maxLength
        ↔ 18 ≤ maxLength)
    ∧ (maxLength < 18 →
        maxLength < (encodeEraseEntityMessage entityItemID outputBuffer maxLength).outputLength)
      := by
  have hlen : entityItemID.id.val.length = 16 := entityItemID.id.property
  refine ⟨rfl, rfl, ?_, fun _ => rfl, Iff.rfl, fun h => h⟩
  have ht : entityItemID.id.val.take 16 = entityItemID.id.val :=
    List.take_of_length_le (by omega)
  simp only [encodeEraseEntityMessage, memcpyAt, ht, u16Bytes, List.length_append, hlen,
    List.length_take, List.length_cons, List.length_nil]
  omega

/-- C30. Created time on decode: for every input, `decodeEntityEditPacket` sets the
created time of the target to the decoded `lastEdited` when the decoded id equals
`NEW_ENTITY` (the returned identity is then not a known id), and to
`USE_EXISTING_CREATED_TIME` otherwise; the prior created time of the target has no
influence.  No created time is on the wire: the encoder's results do not depend on the
created time of the snapshot. -/
theorem created_time_on_decode (x : Ext) (data : List Byte) (bytesToRead : Int)
    (properties : EntityItemProperties) :
    ((decodeEntityEditPacket x data bytesToRead properties).entityID.id = x.NEW_ENTITY
        ∧ (decodeEntityEditPacket x data bytesToRead properties).entityID.isKnownID = false
        ∧ (decodeEntityEditPacket x data bytesToRead properties).properties.created
          = (decodeEntityEditPacket x data bytesToRead properties).properties.lastEdited
      ∨ (decodeEntityEditPacket x data bytesToRead properties).entityID.id ≠ x.NEW_ENTITY
        ∧ (decodeEntityEditPacket x data bytesToRead properties).entityID.isKnownID = true
        ∧ (decodeEntityEditPacket x data bytesToRead properties).properties.created
          = x.USE_EXISTING_CREATED_TIME)
    ∧ (decodeEntityEditPacket x data bytesToRead properties).entityID.id
        = readRaw 16 data (x.bytesOfOctcode data + 8)
    ∧ (decodeEntityEditPacket x data bytesToRead properties).properties.lastEdited
        = readRaw 8 data (x.bytesOfOctcode data)
    ∧ (∀ created : quint64,
        (decodeEntityEditPacket x data bytesToRead
          (properties.setCreated created)).properties.created
          = (decodeEntityEditPacket x data bytesToRead properties).properties.created)
    ∧ (∀ (id : EntityItemID) (sizeIn : Int) (created : quint64),
        encodeEntityEditPacket x id (properties.setCreated created) sizeIn
          = encodeEntityEditPacket x id properties sizeIn) := by
  have hom : ∀ q : EntityItemProperties,
      otherMembers (decodeEntityEditPacket x data bytesToRead q).properties
        = otherMembers (readHeader x data bytesToRead q).state.properties := fun q =>
    readFold_otherMembers x data (readHeader x data bytesToRead q).propertyFlags wireOrder
      (readHeader x data bytesToRead q).state
  have hc : ∀ q : EntityItemProperties,
      (decodeEntityEditPacket x data bytesToRead q).properties.created
        = (readHeader x data bytesToRead q).state.properties.created := fun q =>
    congrArg OtherMembers.created (hom q)
  have hl : (decodeEntityEditPacket x data bytesToRead properties).properties.lastEdited
      = (readHeader x data bytesToRead properties).state.properties.lastEdited :=
    congrArg OtherMembers.lastEdited (hom properties)
  refine ⟨?_, ?_, ?_, fun created => ?_, fun id sizeIn created => rfl⟩
  · rw [hc, hl, decode_entityID]
    unfold readHeader
    by_cases hnew : readRaw 16 data (x.bytesOfOctcode data + 8) = x.NEW_ENTITY
    · left
      simp only [hnew, decide_True, if_true]
      exact ⟨trivial, trivial, rfl⟩
    · right
      simp only [hnew, decide_False, Bool.false_eq_true, if_false]
      exact ⟨hnew, trivial, rfl⟩
  · rw [decode_entityID]
    unfold readHeader
    by_cases hnew : readRaw 16 data (x.bytesOfOctcode data + 8) = x.NEW_ENTITY
    · simp only [hnew, decide_True, if_true]
    · simp only [hnew, decide_False, Bool.false_eq_true, if_false]
  · rw [hl]
    unfold readHeader
    simp only
    split_ifs <;> rfl
  · rw [hc, hc]
    unfold readHeader
    simp only
    split_ifs <;> rfl

/-! ## What the encoder's results depend on -/

/-- Two attribute phases that agree on which tags of the blocks are requested and on the
payloads of these tags run in step: buffer, flags, count and state stay equal (the sets
of the attributes that did not fit may differ). -/
theorem appendFold_agree (x : Ext) (p q : EntityItemProperties)
    (req req2 : EntityPropertyFlags) (ts : List EntityPropertyList)
    (hreq : ∀ t ∈ ts, (t ∈ req ↔ t ∈ req2))
    (hpay : ∀ t ∈ ts, payloadOf x p t = payloadOf x q t) (s s2 : EncodeState)
    (h1 : s.packetData = s2.packetData) (h2 : s.propertyFlags = s2.propertyFlags)
    (h3 : s.propertyCount = s2.propertyCount) (h4 : s.appendState = s2.appendState) :
    (ts.foldl (appendStep x p req) s).packetData
        = (ts.foldl (appendStep x q req2) s2).packetData
    ∧ (ts.foldl (appendStep x p req) s).propertyFlags
        = (ts.foldl (appendStep x q req2) s2).propertyFlags
    ∧ (ts.foldl (appendStep x p req) s).propertyCount
        = (ts.foldl (appendStep x q req2) s2).propertyCount
    ∧ (ts.foldl (appendStep x p req) s).appendState
        = (ts.foldl (appendStep x q req2) s2).appendState := by
  induction ts generalizing s s2 with
  | nil => exact ⟨h1, h2, h3, h4⟩
  | cons t ts ih =>
    simp only [List.foldl_cons]
    have hr := hreq t (List.mem_cons_self _ _)
    have hp := hpay t (List.mem_cons_self _ _)
    have step : (appendStep x p req s t).packetData = (appendStep x q req2 s2 t).packetData
        ∧ (appendStep x p req s t).propertyFlags = (appendStep x q req2 s2 t).propertyFlags
        ∧ (appendStep x p req s t).propertyCount = (appendStep x q req2 s2 t).propertyCount
        ∧ (appendStep x p req s t).appendState = (appendStep x q req2 s2 t).appendState := by
      by_cases ht : t ∈ req
      · by_cases hc : ((s.packetData.uncompressed.length : Int)
            + ((payloadOf x p t).length : Int)) ≤ s.packetData.targetSize
        · rw [appendStep_write x p req s t ht hc,
            appendStep_write x q req2 s2 t (hr.mp ht) (by rw [← hp, ← h1]; exact hc)]
          simp only [h1, h2, h3, h4, hp, and_self]
        · rw [appendStep_drop x p req s t ht hc,
            appendStep_drop x q req2 s2 t (hr.mp ht) (by rw [← hp, ← h1]; exact hc)]
          simp only [h1, h2, h3, h4, and_self]
      · rw [appendStep_skip x p req s t ht,
          appendStep_skip x q req2 s2 t (fun h => ht (hr.mpr h))]
        simp only [h1, h2, h3, h4, and_self]
    exact ih (fun u hu => hreq u (List.mem_cons_of_mem _ hu))
      (fun u hu => hpay u (List.mem_cons_of_mem _ hu)) _ _ step.1 step.2.1 step.2.2.1
      step.2.2.2

/-- The three results of the encoder are decided by the two header fields taken from the
snapshot, by which tags of the blocks are marked changed and by the payloads of these
tags. -/
theorem encode_agree (x : Ext) (id : EntityItemID) (p q : EntityItemProperties)
    (sizeIn : Int)
    (hhdr : ∀ pd, appendHeader x id p pd = appendHeader x id q pd)
    (hreq : ∀ t ∈ wireOrder, (t ∈ p.getChangedProperties ↔ t ∈ q.getChangedProperties))
    (hpay : ∀ t ∈ wireOrder, payloadOf x p t = payloadOf x q t) :
    encodeEntityEditPacket x id p sizeIn = encodeEntityEditPacket x id q sizeIn := by
  have hph : (attributePhase x id p sizeIn).packetData = (attributePhase x id q sizeIn).packetData
      ∧ (attributePhase x id p sizeIn).propertyFlags
          = (attributePhase x id q sizeIn).propertyFlags
      ∧ (attributePhase x id p sizeIn).propertyCount
          = (attributePhase x id q sizeIn).propertyCount
      ∧ (attributePhase x id p sizeIn).appendState
          = (attributePhase x id q sizeIn).appendState := by
    unfold attributePhase
    rw [← hhdr]
    split_ifs
    · exact appendFold_agree x p q _ _ wireOrder hreq hpay _ _ rfl rfl rfl rfl
    · exact ⟨rfl, rfl, rfl, rfl⟩
  obtain ⟨a1, a2, a3, a4⟩ := hph
  unfold encodeEntityEditPacket
  by_cases hp : (x.rootOctcode.length : Int) ≤ sizeIn
  · rw [encodeRun_octcode_fits x id p sizeIn hp, encodeRun_octcode_fits x id q sizeIn hp,
      ← hhdr, ← a1, ← a2, ← a3, ← a4]
    split_ifs <;> rfl
  · rw [encodeRun_octcode_too_long x id p sizeIn hp, encodeRun_octcode_too_long x id q sizeIn hp]
    rfl

theorem encodeRun_flags_in_blocks (x : Ext) (id : EntityItemID) (p : EntityItemProperties)
    (sizeIn : Int) (t : EntityPropertyList)
    (h : t ∈ (encodeRun x id p sizeIn).propertyFlags) :
    t = PROP_LAST_ITEM ∨ (t ∈ wireOrder ∧ t ∈ p.getChangedProperties) := by
  by_cases hp : (x.rootOctcode.length : Int) ≤ sizeIn
  · rw [(encodeRun_locals x id p sizeIn hp).1] at h
    cases hf : (appendHeader x id p (prefixPacket x sizeIn)).headerFits
    · rw [attributePhase_no_header x id p sizeIn hf] at h
      left
      simpa using h
    · rw [attributePhase_header x id p sizeIn hf] at h
      have := appendFold_flags_subset x p p.getChangedProperties wireOrder _ h
      right
      simpa using this
  · rw [(encodeRun_locals_octcode_too_long x id p sizeIn hp).1] at h
    simp at h

/-- C27. The script attribute is reported but never transmitted.  For every snapshot
whose script changed bit is set `getChangedProperties` holds PROP_SCRIPT; PROP_SCRIPT has
no attribute block and no payload, and for every id and capacity the final property
flags of `encodeEntityEditPacket` do not hold it; neither the script nor its changed bit
has any influence on the three results of the encoder.  When at least one attribute is
written and every changed tag that has a block is in the final flags (all encodable ones
fitted), the encoder returns true, the script being marked changed or not; and when the
script is the only changed tag it returns false with `sizeOut` 0. -/
theorem script_is_reported_but_not_sent (x : Ext) (id : EntityItemID)
    (p : EntityItemProperties) (sizeIn : Int) :
    (p.scriptChanged = true → PROP_SCRIPT ∈ p.getChangedProperties)
    ∧ PROP_SCRIPT ∉ wireOrder
    ∧ payloadOf x p PROP_SCRIPT = []
    ∧ PROP_SCRIPT ∉ (encodeRun x id p sizeIn).propertyFlags
    ∧ (∀ (script : QString) (scriptChanged : Bool),
        encodeEntityEditPacket x id
          { p with script := script, scriptChanged := scriptChanged } sizeIn
          = encodeEntityEditPacket x id p sizeIn)
    ∧ (0 < (encodeRun x id p sizeIn).propertyCount →
        (∀ t ∈ wireOrder, t ∈ p.getChangedProperties →
          t ∈ (encodeRun x id p sizeIn).propertyFlags) →
        (encodeEntityEditPacket x id p sizeIn).success = true)
    ∧ (p.getChangedProperties = {PROP_SCRIPT} →
        (encodeEntityEditPacket x id p sizeIn).success = false
        ∧ (encodeEntityEditPacket x id p sizeIn).sizeOut = 0
        ∧ (encodeEntityEditPacket x id p sizeIn).bufferOut = []) := by
  refine ⟨fun h => (mem_getChangedProperties p PROP_SCRIPT).mpr h, by decide, rfl, ?_,
    fun script scriptChanged => ?_, fun hc hall => ?_, fun honly => ?_⟩
  · intro h
    rcases encodeRun_flags_in_blocks x id p sizeIn PROP_SCRIPT h with e | ⟨e, _⟩
    · exact absurd e (by decide)
    · exact absurd e (by decide)
  · refine encode_agree x id { p with script := script, scriptChanged := scriptChanged } p
      sizeIn (fun _ => rfl) ?_ ?_
    · intro t ht
      rw [mem_getChangedProperties, mem_getChangedProperties]
      cases t <;> first | exact Iff.rfl | exact absurd ht (by decide)
    · intro t _
      cases t <;> rfl
  · show (encodeRun x id p sizeIn).success = true
    rw [encodeRun_success_iff]
    by_cases hp : (x.rootOctcode.length : Int) ≤ sizeIn
    · obtain ⟨l1, l2, _⟩ := encodeRun_locals x id p sizeIn hp
      rw [l2] at hc
      rw [l1] at hall
      refine ⟨hp, hc, ?_⟩
      have hf := attributePhase_count_pos x id p sizeIn hc
      rw [attributePhase_header x id p sizeIn hf] at hall ⊢
      exact (appendFold_completed_iff x p p.getChangedProperties wireOrder _ wireOrder_nodup
        (fun t _ => Finset.not_mem_empty t)).mpr ⟨rfl, hall⟩
    · rw [(encodeRun_locals_octcode_too_long x id p sizeIn hp).2.1] at hc
      exact absurd hc (Nat.lt_irrefl 0)
  · have hfail : (encodeRun x id p sizeIn).success = false := by
      cases hs : (encodeRun x id p sizeIn).success with
      | false => rfl
      | true =>
        obtain ⟨hp, hc, _⟩ := (encodeRun_success_iff x id p sizeIn).mp hs
        have hf := attributePhase_count_pos x id p sizeIn hc
        rw [attributePhase_header x id p sizeIn hf] at hc
        have hsk := appendFold_skip x p p.getChangedProperties wireOrder
          (by rw [honly]; decide)
          (EncodeState.mk (appendHeader x id p (prefixPacket x sizeIn)).packetData ∅
            p.getChangedProperties 0 AppendState.COMPLETED)
        rw [hsk] at hc
        exact absurd hc (Nat.lt_irrefl 0)
    obtain ⟨o1, o2, _⟩ := (encodeRun_outputs x id p sizeIn).1 hfail
    exact ⟨hfail, o1, o2⟩

/-! ## A flag coding with the bits in the other order -/

theorem mirroredExt_octcodeLaw : mirroredExt.OctcodeLaw := by
  intro rest
  exact refExt_octcodeLaw rest

theorem mirroredExt_byteCount32Law : mirroredExt.ByteCount32Law := by
  intro v hv rest
  exact refExt_byteCount32Law v hv rest

theorem mirroredExt_byteCount64Law : mirroredExt.ByteCount64Law := by
  intro v hv rest
  exact refExt_byteCount64Law v hv rest

/-- The buffer after the attribute phase of a run that wrote at least one attribute: the
routing prefix and the header fields, the provisional flags, the attribute data. -/
theorem attributePhase_shape (x : Ext) (id : EntityItemID) (p : EntityItemProperties)
    (sizeIn : Int) (h : 0 < (encodeRun x id p sizeIn).propertyCount) :
    (x.rootOctcode.length : Int) ≤ sizeIn
    ∧ (encodeRun x id p sizeIn).propertyFlagsOffset = (headerBytes x id p).length
    ∧ (appendHeader x id p (prefixPacket x sizeIn)).propertyFlagsOffset
        = (headerBytes x id p).length
    ∧ (appendHeader x id p (prefixPacket x sizeIn)).startOfEntityItemData
        = (headerBytes x id p).length + (x.encodeFlags {PROP_LAST_ITEM}).length
    ∧ ∃ D, (attributePhase x id p sizeIn).packetData.uncompressed
        = headerBytes x id p ++ (x.encodeFlags {PROP_LAST_ITEM} ++ D) := by
  have hp : (x.rootOctcode.length : Int) ≤ sizeIn := by
    by_contra hn
    rw [(encodeRun_locals_octcode_too_long x id p sizeIn hn).2.1] at h
    exact Nat.lt_irrefl 0 h
  rw [(encodeRun_locals x id p sizeIn hp).2.1] at h
  have hf := attributePhase_count_pos x id p sizeIn h
  obtain ⟨e1, e2, e3⟩ := appendHeader_fits x id p (prefixPacket x sizeIn) hf
  obtain ⟨_, _, ⟨D, hD⟩, _⟩ := appendFold_frame x p p.getChangedProperties wireOrder
    (EncodeState.mk (appendHeader x id p (prefixPacket x sizeIn)).packetData ∅
      p.getChangedProperties 0 AppendState.COMPLETED)
  refine ⟨hp, ?_, ?_, ?_, D, ?_⟩
  · rw [encodeRun_flags_offset x id p sizeIn hp, e2]; rfl
  · rw [e2]; rfl
  · rw [e3]; rfl
  · rw [attributePhase_header x id p sizeIn hf, hD]
    show (appendHeader x id p (prefixPacket x sizeIn)).packetData.uncompressed ++ D = _
    rw [e1]
    simp only [prefixPacket, headerBytes, List.append_assoc]

/-- C24. Flag repair with shift.  In a run that wrote at least one attribute and whose
re-encoded final flags are no longer than the provisional ones, the repair leaves the
bytes before `propertyFlagsOffset` unchanged, puts the new flag encoding at
[propertyFlagsOffset, propertyFlagsOffset + newLength), and the attribute bytes that
started at propertyFlagsOffset + oldLength start at propertyFlagsOffset + newLength, in
the same order and with the same content; the size of the buffer is the old size minus
the difference d of the two lengths.  When the lengths are equal (d = 0) the size is
unchanged and the bytes behind the flag region stay where they were.  Capacity and
routing-prefix mark are not touched, and on success the repaired buffer is the output. -/
theorem flag_repair_shifts (x : Ext) (id : EntityItemID) (p : EntityItemProperties)
    (sizeIn : Int) (h : 0 < (encodeRun x id p sizeIn).propertyCount)
    (hle : (x.encodeFlags (encodeRun x id p sizeIn).propertyFlags).length
      ≤ (encodeRun x id p sizeIn).oldPropertyFlagsLength) :
    ((repairPropertyFlags x (appendHeader x id p (prefixPacket x sizeIn))
        (encodeRun x id p sizeIn).propertyFlags
        (attributePhase x id p sizeIn).packetData).uncompressed.take
          (encodeRun x id p sizeIn).propertyFlagsOffset
      = (attributePhase x id p sizeIn).packetData.uncompressed.take
          (encodeRun x id p sizeIn).propertyFlagsOffset)
    ∧ (((repairPropertyFlags x (appendHeader x id p (prefixPacket x sizeIn))
        (encodeRun x id p sizeIn).propertyFlags
        (attributePhase x id p sizeIn).packetData).uncompressed.drop
          (encodeRun x id p sizeIn).propertyFlagsOffset).take
            (x.encodeFlags (encodeRun x id p sizeIn).propertyFlags).length
      = x.encodeFlags (encodeRun x id p sizeIn).propertyFlags)
    ∧ ((repairPropertyFlags x (appendHeader x id p (prefixPacket x sizeIn))
        (encodeRun x id p sizeIn).propertyFlags
        (attributePhase x id p sizeIn).packetData).uncompressed.drop
          ((encodeRun x id p sizeIn).propertyFlagsOffset
            + (x.encodeFlags (encodeRun x id p sizeIn).propertyFlags).length)
      = (attributePhase x id p sizeIn).packetData.uncompressed.drop
          ((encodeRun x id p sizeIn).propertyFlagsOffset
            + (encodeRun x id p sizeIn).oldPropertyFlagsLength))
    ∧ ((repairPropertyFlags x (appendHeader x id p (prefixPacket x sizeIn))
        (encodeRun x id p sizeIn).propertyFlags
        (attributePhase x id p sizeIn).packetData).uncompressed.length
      = (attributePhase x id p sizeIn).packetData.uncompressed.length
        - ((encodeRun x id p sizeIn).oldPropertyFlagsLength
          - (x.encodeFlags (encodeRun x id p sizeIn).propertyFlags).length))
    ∧ ((encodeRun x id p sizeIn).oldPropertyFlagsLength
        ≤ (attributePhase x id p sizeIn).packetData.uncompressed.length)
    ∧ ((x.encodeFlags (encodeRun x id p sizeIn).propertyFlags).length
        = (encodeRun x id p sizeIn).oldPropertyFlagsLength →
        (repairPropertyFlags x (appendHeader x id p (prefixPacket x sizeIn))
          (encodeRun x id p sizeIn).propertyFlags
          (attributePhase x id p sizeIn).packetData).uncompressed.length
          = (attributePhase x id p sizeIn).packetData.uncompressed.length)
    ∧ ((repairPropertyFlags x (appendHeader x id p (prefixPacket x sizeIn))
        (encodeRun x id p sizeIn).propertyFlags
        (attributePhase x id p sizeIn).packetData).targetSize
      = (attributePhase x id p sizeIn).packetData.targetSize)
    ∧ ((repairPropertyFlags x (appendHeader x id p (prefixPacket x sizeIn))
        (encodeRun x id p sizeIn).propertyFlags
        (attributePhase x id p sizeIn).packetData).subTreeAt
      = (attributePhase x id p sizeIn).packetData.subTreeAt)
    ∧ ((encodeRun x id p sizeIn).success = true →
        (encodeRun x id p sizeIn).bufferOut
          = (repairPropertyFlags x (appendHeader x id p (prefixPacket x sizeIn))
              (encodeRun x id p sizeIn).propertyFlags
              (attributePhase x id p sizeIn).packetData).uncompressed) := by
  obtain ⟨hp, hoff, hoff2, hstart, D, hD⟩ := attributePhase_shape x id p sizeIn h
  obtain ⟨l1, _, _, l4, _, _⟩ := encodeRun_locals x id p sizeIn hp
  rw [l4] at hle ⊢
  rw [hoff]
  generalize hN : x.encodeFlags (encodeRun x id p sizeIn).propertyFlags = N at hle ⊢
  have hR := repairPropertyFlags_eq x (appendHeader x id p (prefixPacket x sizeIn))
    (encodeRun x id p sizeIn).propertyFlags (attributePhase x id p sizeIn).packetData
    (headerBytes x id p) (x.encodeFlags {PROP_LAST_ITEM}) D hD hoff2
    (appendHeader_old x id p _) hstart (by rw [hN]; exact hle)
  rw [hR, hN, hD]
  refine ⟨?_, ?_, ?_, ?_, ?_, fun he => ?_, rfl, rfl, fun hs => ?_⟩
  · show (headerBytes x id p ++ (N ++ D)).take _ = _
    rw [take_eq_left _ _ _ rfl, take_eq_left _ _ _ rfl]
  · show ((headerBytes x id p ++ (N ++ D)).drop _).take _ = _
    rw [drop_eq_right _ _ _ rfl, take_eq_left _ _ _ rfl]
  · show (headerBytes x id p ++ (N ++ D)).drop _ = _
    rw [← List.append_assoc, ← List.append_assoc,
      drop_eq_right (headerBytes x id p ++ N) D _ (by rw [List.length_append]),
      drop_eq_right (headerBytes x id p ++ x.encodeFlags {PROP_LAST_ITEM}) D _
        (by rw [List.length_append])]
  · show (headerBytes x id p ++ (N ++ D)).length = _
    simp only [List.length_append]
    omega
  · simp only [List.length_append]
    omega
  · show (headerBytes x id p ++ (N ++ D)).length = _
    simp only [List.length_append]
    omega
  · rw [((encodeRun_outputs x id p sizeIn).2 hs).2, ← l1, hR, hN]

/-- C24, at a concrete input: in the run of the example edit the provisional flags take
three bytes and the final flags one (d = 2): the buffer of 46 bytes is repaired to one of
44, and the sixteen attribute bytes that started at offset 27 + 3 start at 27 + 1. -/
theorem flag_repair_shifts_witness :
    0 < (encodeRun refExt knownID exampleEdit 9999).propertyCount
    ∧ (refExt.encodeFlags (encodeRun refExt knownID exampleEdit 9999).propertyFlags).length = 1
    ∧ (encodeRun refExt knownID exampleEdit 9999).oldPropertyFlagsLength = 3
    ∧ (encodeRun refExt knownID exampleEdit 9999).propertyFlagsOffset = 27
    ∧ (attributePhase refExt knownID exampleEdit 9999).packetData.uncompressed.length = 46
    ∧ (repairPropertyFlags refExt (appendHeader refExt knownID exampleEdit
          (prefixPacket refExt 9999))
        (encodeRun refExt knownID exampleEdit 9999).propertyFlags
        (attributePhase refExt knownID exampleEdit 9999).packetData).uncompressed.length = 44
    ∧ ((repairPropertyFlags refExt (appendHeader refExt knownID exampleEdit
          (prefixPacket refExt 9999))
        (encodeRun refExt knownID exampleEdit 9999).propertyFlags
        (attributePhase refExt knownID exampleEdit 9999).packetData).uncompressed.drop
          ((encodeRun refExt knownID exampleEdit 9999).propertyFlagsOffset
            + (refExt.encodeFlags
                (encodeRun refExt knownID exampleEdit 9999).propertyFlags).length)
      = (attributePhase refExt knownID exampleEdit 9999).packetData.uncompressed.drop
          ((encodeRun refExt knownID exampleEdit 9999).propertyFlagsOffset
            + (encodeRun refExt knownID exampleEdit 9999).oldPropertyFlagsLength)) :=
  ⟨by decide, by decide, by decide, by decide, by decide, by decide,
    (flag_repair_shifts refExt knownID exampleEdit 9999 (by decide) (by decide)).2.2.1⟩

/-! ## The header and the length of a decoded packet -/

/-- The position of the update delta in a packet: behind the routing prefix, the
timestamp, the id, the creator token of a new entity and the type. -/
theorem headerBytes_split (x : Ext) (id : EntityItemID) (p : EntityItemProperties) :
    headerBytes x id p
      = (x.rootOctcode ++ (p.lastEdited.val ++ (id.id.val
          ++ ((if id.id = x.NEW_ENTITY then x.byteCountCoded32 id.creatorTokenID else [])
          ++ x.byteCountCoded32 (p.type % 4294967296)))))
        ++ x.byteCountCoded64 0 := by
  simp only [headerBytes, recordHeaderBytes, List.append_assoc]

/-- C25. Header round trip: for every successful `encodeEntityEditPacket` (of a snapshot
whose type is a 32-bit code), `decodeEntityEditPacket` on its output returns valid = true,
sets the `lastEdited` of the target to that of the snapshot and its type to the type of
the snapshot; and the update delta field of the packet, the bytes behind the type, is the
encoding of 0 and is decoded as 0 by the decoder, which reads it at that position with
the rest of the packet as its length bound. -/
theorem header_roundtrip (x : Ext) (ho : x.OctcodeLaw) (h32 : x.ByteCount32Law)
    (h64 : x.ByteCount64Law) (hf : x.FlagsLaw) (hl : x.FlagsLengthLaw)
    (id : EntityItemID) (p tgt : EntityItemProperties) (sizeIn : Int)
    (htok : id.id = x.NEW_ENTITY → id.creatorTokenID < 4294967296)
    (hty : p.type < 4294967296)
    (hs : (encodeEntityEditPacket x id p sizeIn).success = true) :
    (decodeEntityEditPacket x (encodeEntityEditPacket x id p sizeIn).bufferOut
        (encodeEntityEditPacket x id p sizeIn).sizeOut tgt).valid = true
    ∧ (decodeEntityEditPacket x (encodeEntityEditPacket x id p sizeIn).bufferOut
        (encodeEntityEditPacket x id p sizeIn).sizeOut tgt).properties.lastEdited
        = p.lastEdited
    ∧ (decodeEntityEditPacket x (encodeEntityEditPacket x id p sizeIn).bufferOut
        (encodeEntityEditPacket x id p sizeIn).sizeOut tgt).properties.type = p.type
    ∧ ((encodeEntityEditPacket x id p sizeIn).bufferOut.drop
          ((headerBytes x id p).length - (x.byteCountCoded64 0).length)).take
            (x.byteCountCoded64 0).length
        = x.byteCountCoded64 0
    ∧ x.byteCountDecoded64 (qByteArray (encodeEntityEditPacket x id p sizeIn).bufferOut
          ((headerBytes x id p).length - (x.byteCountCoded64 0).length)
          ((encodeEntityEditPacket x id p sizeIn).sizeOut
            - (((headerBytes x id p).length - (x.byteCountCoded64 0).length : Nat) : Int)))
        = 0
    ∧ (readHeader x (encodeEntityEditPacket x id p sizeIn).bufferOut
        (encodeEntityEditPacket x id p sizeIn).sizeOut tgt).state.processedBytes
        = (headerBytes x id p).length
          + (x.encodeFlags (encodeRun x id p sizeIn).propertyFlags).length := by
  have hs' : (encodeRun x id p sizeIn).success = true := hs
  have hb := encodeRun_success_bytes x id p sizeIn hs' (encodeFlags_le_provisional x hl _)
  have hsz := ((encodeRun_outputs x id p sizeIn).2 hs').1
  have hn : (((headerBytes x id p).length
      + (x.encodeFlags (encodeRun x id p sizeIn).propertyFlags).length : Nat) : Int)
      ≤ ((encodeRun x id p sizeIn).sizeOut : Int) := by
    rw [hsz]
    have := congrArg List.length hb
    simp only [List.length_append] at this
    rw [this]; push_cast; omega
  have e := readHeader_encoded x ho h32 h64 hf hl id p tgt sizeIn htok hs' [] _ hn
  rw [List.append_nil] at e
  have hom := readFold_otherMembers x (encodeRun x id p sizeIn).bufferOut
    (readHeader x (encodeRun x id p sizeIn).bufferOut
      ((encodeRun x id p sizeIn).sizeOut : Int) tgt).propertyFlags wireOrder
    (readHeader x (encodeRun x id p sizeIn).bufferOut
      ((encodeRun x id p sizeIn).sizeOut : Int) tgt).state
  have hsplit := headerBytes_split x id p
  generalize hA : x.rootOctcode ++ (p.lastEdited.val ++ (id.id.val
      ++ ((if id.id = x.NEW_ENTITY then x.byteCountCoded32 id.creatorTokenID else [])
      ++ x.byteCountCoded32 (p.type % 4294967296)))) = A at hsplit
  have hoff : (headerBytes x id p).length - (x.byteCountCoded64 0).length = A.length := by
    rw [hsplit, List.length_append]; omega
  have hbuf : (encodeRun x id p sizeIn).bufferOut
      = A ++ (x.byteCountCoded64 0
          ++ (x.encodeFlags (encodeRun x id p sizeIn).propertyFlags
            ++ payloadsOf x p (encodeRun x id p sizeIn).propertyFlags)) := by
    rw [hb, hsplit, List.append_assoc]
  refine ⟨?_, ?_, ?_, ?_, ?_, ?_⟩
  · show (readHeader x (encodeRun x id p sizeIn).bufferOut
      ((encodeRun x id p sizeIn).sizeOut : Int) tgt).valid = true
    rw [e]
  · refine (congrArg OtherMembers.lastEdited hom).trans ?_
    rw [e]; rfl
  · refine (congrArg OtherMembers.type hom).trans ?_
    rw [e]
    exact Nat.mod_eq_of_lt hty
  · show ((encodeRun x id p sizeIn).bufferOut.drop _).take _ = _
    rw [hoff, hbuf, drop_eq_right _ _ _ rfl, take_eq_left _ _ _ rfl]
  · show x.byteCountDecoded64 (qByteArray (encodeRun x id p sizeIn).bufferOut _
      (((encodeRun x id p sizeIn).sizeOut : Int) - _)) = 0
    rw [hoff]
    obtain ⟨r, hr⟩ := qByteArray_of (encodeRun x id p sizeIn).bufferOut A
      (x.byteCountCoded64 0) _ A.length
      (((encodeRun x id p sizeIn).sizeOut : Int) - ((A.length : Nat) : Int)) hbuf rfl
      (by
        rw [hsplit, List.length_append] at hn
        push_cast at hn ⊢
        omega)
    rw [hr, h64 0 (by norm_num)]
  · show (readHeader x (encodeRun x id p sizeIn).bufferOut
      ((encodeRun x id p sizeIn).sizeOut : Int) tgt).state.processedBytes = _
    rw [e]

/-- C25, at a concrete input: the example edit for an existing entity, decoded into a
blank target. -/
theorem header_roundtrip_witness :
    (encodeEntityEditPacket refExt knownID exampleEdit 9999).success = true
    ∧ exampleEdit.type = 2
    ∧ (decodeEntityEditPacket refExt (encodeEntityEditPacket refExt knownID exampleEdit 9999).bufferOut
        (encodeEntityEditPacket refExt knownID exampleEdit 9999).sizeOut
        blankProperties).properties.lastEdited = exampleEdit.lastEdited
    ∧ (decodeEntityEditPacket refExt (encodeEntityEditPacket refExt knownID exampleEdit 9999).bufferOut
        (encodeEntityEditPacket refExt knownID exampleEdit 9999).sizeOut
        blankProperties).properties.type = exampleEdit.type := by
  have h := header_roundtrip refExt refExt_octcodeLaw refExt_byteCount32Law
    refExt_byteCount64Law refExt_flagsLaw refExt_flagsLengthLaw knownID exampleEdit
    blankProperties 9999 (by decide) (by decide) (by decide)
  exact ⟨by decide, rfl, h.2.1, h.2.2.1⟩

/-! ## The attribute phase block by block -/

theorem appendStep_flags (x : Ext) (p : EntityItemProperties) (req : EntityPropertyFlags)
    (s : EncodeState) (t : EntityPropertyList) :
    (appendStep x p req s t).propertyFlags
      = if t ∈ req ∧ (s.packetData.append (payloadOf x p t)).1 = true
        then insert t s.propertyFlags else s.propertyFlags := by
  rcases appendStep_cases x p req s t with ⟨h1, e⟩ | ⟨h1, h2, e⟩ | ⟨h1, h2, e⟩
  · rw [e, if_neg (fun h => h1 h.1)]
  · rw [e, if_pos ⟨h1, h2⟩]
  · rw [e, if_neg (fun h => by rw [h2] at h; exact Bool.false_ne_true h.2)]

/-- A tag of the blocks is in the final flags exactly when it is requested and its
payload fitted when its block ran. -/
theorem appendFold_flag_iff (x : Ext) (p : EntityItemProperties) (req : EntityPropertyFlags)
    (ts : List EntityPropertyList) (hnd : ts.Nodup) (s : EncodeState)
    (hfresh : ∀ u ∈ ts, u ∉ s.propertyFlags) (t : EntityPropertyList) (ht : t ∈ ts) :
    t ∈ (ts.foldl (appendStep x p req) s).propertyFlags
      ↔ (t ∈ req
          ∧ (((ts.takeWhile (fun u => u != t)).foldl (appendStep x p req) s).packetData.append
              (payloadOf x p t)).1 = true) := by
  induction ts generalizing s with
  | nil => simp at ht
  | cons u rest ih =>
    obtain ⟨hu, hrest⟩ := List.nodup_cons.mp hnd
    simp only [List.foldl_cons]
    by_cases hut : u = t
    · subst hut
      have htw : (u :: rest).takeWhile (fun v => v != u) = [] := by
        simp [List.takeWhile]
      rw [htw, List.foldl_nil]
      have hsub := appendFold_flags_subset x p req rest (appendStep x p req s u)
      have hsup := (appendFold_frame x p req rest (appendStep x p req s u)).2.2.2.2.1
      have hin : u ∈ (rest.foldl (appendStep x p req) (appendStep x p req s u)).propertyFlags
          ↔ u ∈ (appendStep x p req s u).propertyFlags := by
        constructor
        · intro h
          rcases Finset.mem_union.mp (hsub h) with h | h
          · exact h
          · rw [List.mem_toFinset] at h
            exact absurd (List.mem_of_mem_filter h) hu
        · intro h
          exact hsup h
      rw [hin, appendStep_flags]
      have hs : u ∉ s.propertyFlags := hfresh u (List.mem_cons_self _ _)
      split_ifs with hc
      · simp [hc.1, hc.2]
      · constructor
        · intro h; exact absurd h hs
        · intro h; exact absurd h hc
    · have htw : (u :: rest).takeWhile (fun v => v != t)
          = u :: rest.takeWhile (fun v => v != t) := by
        have hb : (u != t) = true := by simpa using hut
        rw [List.takeWhile_cons, hb]; rfl
      rw [htw, List.foldl_cons]
      have ht' : t ∈ rest := by
        rcases List.mem_cons.mp ht with e | e
        · exact absurd e.symm hut
        · exact e
      apply ih hrest
      · intro v hv hmem
        rw [appendStep_flags] at hmem
        have hvs : v ∉ s.propertyFlags := hfresh v (List.mem_cons_of_mem _ hv)
        split_ifs at hmem
        · rcases Finset.mem_insert.mp hmem with e | e
          · exact hu (e ▸ hv)
          · exact hvs e
        · exact hvs hmem
      · exact ht'

theorem dropWhile_of_mem (t : EntityPropertyList) (ts : List EntityPropertyList)
    (ht : t ∈ ts) :
    ts.dropWhile (fun u => u != t) = t :: (ts.dropWhile (fun u => u != t)).tail := by
  induction ts with
  | nil => simp at ht
  | cons u rest ih =>
    by_cases hut : u = t
    · subst hut
      simp [List.dropWhile]
    · have ht' : t ∈ rest := by
        rcases List.mem_cons.mp ht with e | e
        · exact absurd e.symm hut
        · exact e
      have hd : (u :: rest).dropWhile (fun v => v != t) = rest.dropWhile (fun v => v != t) := by
        have hb : (u != t) = true := by simpa using hut
        rw [List.dropWhile_cons, hb]; rfl
      rw [hd]
      exact ih ht'

/-- C23. Per-attribute try-write invariant.  When the header fits, after the attribute
phase of `encodeEntityEditPacket`: the final property flags are exactly the requested
tags with an attribute block whose payload fitted when the block tried to append it;
`propertyCount` is the number of these tags; the state is `PARTIAL` (and otherwise
`COMPLETED`) exactly when the payload of at least one requested tag with a block did not
fit; a block whose payload did not fit leaves the buffer as it was before the attempt;
and the blocks that follow a block run from the state that this block left, whether it
wrote or dropped its attribute. -/
theorem try_write_invariant (x : Ext) (id : EntityItemID) (p : EntityItemProperties)
    (sizeIn : Int) (hf : (encodeRun x id p sizeIn).headerFits = true) :
    (∀ t, t ∈ (encodeRun x id p sizeIn).propertyFlags
      ↔ (t ∈ wireOrder ∧ t ∈ p.getChangedProperties
          ∧ appendSucceeded x id p sizeIn t = true))
    ∧ (encodeRun x id p sizeIn).propertyCount = (encodeRun x id p sizeIn).propertyFlags.card
    ∧ ((attributePhase x id p sizeIn).appendState = AppendState.PARTIAL
      ↔ ∃ t ∈ wireOrder, t ∈ p.getChangedProperties
          ∧ appendSucceeded x id p sizeIn t = false)
    ∧ ((attributePhase x id p sizeIn).appendState = AppendState.COMPLETED
      ∨ (attributePhase x id p sizeIn).appendState = AppendState.PARTIAL)
    ∧ (∀ t ∈ wireOrder, t ∈ p.getChangedProperties →
        appendSucceeded x id p sizeIn t = false →
        (appendStep x p p.getChangedProperties (stateBefore x id p sizeIn t) t).packetData
          = (stateBefore x id p sizeIn t).packetData)
    ∧ (∀ t ∈ wireOrder,
        attributePhase x id p sizeIn
          = ((wireOrder.dropWhile (fun u => u != t)).tail).foldl
              (appendStep x p p.getChangedProperties)
              (appendStep x p p.getChangedProperties (stateBefore x id p sizeIn t) t)) := by
  have hp : (x.rootOctcode.length : Int) ≤ sizeIn := by
    by_contra hn
    rw [encodeRun_octcode_too_long x id p sizeIn hn] at hf
    exact Bool.false_ne_true hf
  obtain ⟨l1, l2, _, _, l5, _⟩ := encodeRun_locals x id p sizeIn hp
  rw [l5] at hf
  have hA : attributePhase x id p sizeIn
      = wireOrder.foldl (appendStep x p p.getChangedProperties)
          (attributeStart x id p sizeIn) := attributePhase_header x id p sizeIn hf
  have hfresh : ∀ u ∈ wireOrder, u ∉ (attributeStart x id p sizeIn).propertyFlags :=
    fun u _ => Finset.not_mem_empty u
  have hflags : ∀ t, t ∈ (attributePhase x id p sizeIn).propertyFlags
      ↔ (t ∈ wireOrder ∧ t ∈ p.getChangedProperties
          ∧ appendSucceeded x id p sizeIn t = true) := by
    intro t
    by_cases hw : t ∈ wireOrder
    · rw [hA, appendFold_flag_iff x p p.getChangedProperties wireOrder wireOrder_nodup _
        hfresh t hw]
      simp only [hw, true_and, appendSucceeded, stateBefore]
    · constructor
      · intro h
        rw [hA] at h
        have := appendFold_flags_subset x p p.getChangedProperties wireOrder _ h
        rcases Finset.mem_union.mp this with h1 | h1
        · exact absurd h1 (Finset.not_mem_empty t)
        · rw [List.mem_toFinset] at h1
          exact absurd (List.mem_of_mem_filter h1) hw
      · intro h
        exact absurd h.1 hw
  have hcomp := appendFold_completed_iff x p p.getChangedProperties wireOrder
    (attributeStart x id p sizeIn) wireOrder_nodup hfresh
  rw [← hA] at hcomp
  have hnone : (attributePhase x id p sizeIn).appendState ≠ AppendState.NONE := by
    rw [hA]
    exact (appendFold_frame x p p.getChangedProperties wireOrder
      (attributeStart x id p sizeIn)).2.2.2.2.2.2 (by simp [attributeStart])
  have hpart : (attributePhase x id p sizeIn).appendState = AppendState.PARTIAL
      ↔ ∃ t ∈ wireOrder, t ∈ p.getChangedProperties
          ∧ appendSucceeded x id p sizeIn t = false := by
    constructor
    · intro hpar
      have hnc : ¬ (attributePhase x id p sizeIn).appendState = AppendState.COMPLETED := by
        rw [hpar]; exact fun h => AppendState.noConfusion h
      rw [hcomp] at hnc
      by_contra hex
      apply hnc
      refine ⟨rfl, fun t hw hr => ?_⟩
      rw [hflags]
      refine ⟨hw, hr, ?_⟩
      cases hsuc : appendSucceeded x id p sizeIn t with
      | true => rfl
      | false => exact absurd ⟨t, hw, hr, hsuc⟩ hex
    · rintro ⟨t, hw, hr, hsuc⟩
      have hnc : ¬ (attributePhase x id p sizeIn).appendState = AppendState.COMPLETED := by
        rw [hcomp]
        rintro ⟨_, hall⟩
        have := ((hflags t).mp (hall t hw hr)).2.2
        rw [hsuc] at this
        exact Bool.false_ne_true this
      cases hst : (attributePhase x id p sizeIn).appendState with
      | COMPLETED => exact absurd hst hnc
      | PARTIAL => rfl
      | NONE => exact absurd hst hnone
  refine ⟨fun t => ?_, ?_, hpart, ?_, fun t _ hr hsuc => ?_, fun t hw => ?_⟩
  · rw [l1]; exact hflags t
  · rw [l1, l2, hA]
    exact appendFold_count x p p.getChangedProperties wireOrder _ wireOrder_nodup hfresh rfl
  · cases hst : (attributePhase x id p sizeIn).appendState with
    | COMPLETED => exact Or.inl rfl
    | PARTIAL => exact Or.inr rfl
    | NONE => exact absurd hst hnone
  · have hc : ¬ (((stateBefore x id p sizeIn t).packetData.uncompressed.length : Int)
        + ((payloadOf x p t).length : Int)) ≤ (stateBefore x id p sizeIn t).packetData.targetSize := by
      intro hc
      have : appendSucceeded x id p sizeIn t = true := by
        rw [appendSucceeded, OctreePacketData.append_fst]
        exact decide_eq_true hc
      rw [hsuc] at this
      exact Bool.false_ne_true this
    rw [appendStep_drop x p _ _ t hr hc]
  · rw [hA]
    have hsplit : wireOrder = wireOrder.takeWhile (fun u => u != t)
        ++ (t :: (wireOrder.dropWhile (fun u => u != t)).tail) := by
      rw [← dropWhile_of_mem t wireOrder hw, List.takeWhile_append_dropWhile]
    conv_lhs => rw [hsplit]
    rw [List.foldl_append, List.foldl_cons]
    rfl

/-- C23, at a concrete input: the example edit with room for 36 bytes.  The header and
the provisional flags take 30 bytes; the 12 bytes of the position do not fit, the buffer
stays at 30 bytes, and the radius, attempted after it, is written: the final flags are
{PROP_RADIUS}, one attribute is counted and the state is `PARTIAL`. -/
theorem try_write_invariant_witness :
    (encodeRun refExt knownID exampleEdit 36).headerFits = true
    ∧ appendSucceeded refExt knownID exampleEdit 36 PROP_POSITION = false
    ∧ appendSucceeded refExt knownID exampleEdit 36 PROP_RADIUS = true
    ∧ (stateBefore refExt knownID exampleEdit 36 PROP_POSITION).packetData.uncompressed.length
        = 30
    ∧ (stateBefore refExt knownID exampleEdit 36 PROP_RADIUS).packetData.uncompressed.length
        = 30
    ∧ (encodeRun refExt knownID exampleEdit 36).propertyFlags = {PROP_RADIUS}
    ∧ (encodeRun refExt knownID exampleEdit 36).propertyCount
        = (encodeRun refExt knownID exampleEdit 36).propertyFlags.card
    ∧ (attributePhase refExt knownID exampleEdit 36).appendState = AppendState.PARTIAL := by
  have h := try_write_invariant refExt knownID exampleEdit 36 (by decide)
  exact ⟨by decide, by decide, by decide, by decide, by decide, by decide, h.2.1,
    h.2.2.1.mpr ⟨PROP_POSITION, by decide, by decide, by decide⟩⟩

/-! ## copyFromScriptValue block by block -/

theorem colour_differs (a b : xColor) :
    (peek a.val 0 != peek b.val 0 || peek a.val 1 != peek b.val 1
      || peek a.val 2 != peek b.val 2) = decide (a ≠ b) := by
  obtain ⟨la, ha⟩ := a
  obtain ⟨lb, hb⟩ := b
  match la, ha, lb, hb with
  | [a0, a1, a2], _, [b0, b1, b2], _ =>
    simp only [peek, List.getD_cons_zero, List.getD_cons_succ, ne_eq, Subtype.mk.injEq,
      List.cons.injEq, and_true]
    by_cases h0 : a0 = b0 <;> by_cases h1 : a1 = b1 <;> by_cases h2 : a2 = b2 <;>
      simp [h0, h1, h2]

theorem bool_differs (a b : Bool) : (a != b) = decide (a ≠ b) := by
  cases a <;> cases b <;> decide

/-- What the block of a tag does on an object that does not represent default settings:
without a complete valid value, or with one that does not differ from the stored value,
nothing; with one that differs, the value is stored and the attribute marked changed. -/
theorem copyBlock_own (e : ScriptExt) (object : QScriptValue) (t : EntityPropertyList)
    (p : EntityItemProperties) (hd : p.defaultSettings = false) :
    (suppliedValue object t = none → copyBlock e object t p = p)
    ∧ (∀ v, suppliedValue object t = some v →
        valueDiffers e v (attributeOf t p) = false → copyBlock e object t p = p)
    ∧ (∀ v, suppliedValue object t = some v →
        valueDiffers e v (attributeOf t p) = true →
        attributeOf t (copyBlock e object t p) = v
          ∧ changedBitOf t (copyBlock e object t p) = true) := by
  cases t
  case PROP_POSITION =>
    simp only [copyBlock, suppliedValue, suppliedScalar, suppliedVector, suppliedText, hd,
      Bool.false_or, attributeOf, changedBitOf, EntityItemProperties.setPosition]
    cases (object.property "position").isValid <;>
    cases ((object.property "position").property "x").isValid <;>
    cases ((object.property "position").property "y").isValid <;>
    cases ((object.property "position").property "z").isValid
    all_goals first
      | (simp only [if_true, Option.some.injEq, reduceCtorEq, false_implies, true_and,
          forall_eq', valueDiffers, and_self, Bool.and_self]
         constructor
         · intro h; simp only [h, Bool.false_eq_true, if_false]
         · intro h; simp only [h, if_true, and_self])
      | simp
  case PROP_RADIUS =>
    simp only [copyBlock, suppliedValue, suppliedScalar, suppliedVector, suppliedText, hd,
      Bool.false_or, attributeOf, changedBitOf, EntityItemProperties.setPosition]
    cases (object.property "radius").isValid
    all_goals first
      | (simp only [if_true, Option.some.injEq, reduceCtorEq, false_implies, true_and,
          forall_eq', valueDiffers, and_self, Bool.and_self]
         constructor
         · intro h; simp only [h, Bool.false_eq_true, if_false]
         · intro h; simp only [h, if_true, and_self])
      | simp
  case PROP_ROTATION =>
    simp only [copyBlock, suppliedValue, suppliedScalar, suppliedVector, suppliedText, hd,
      Bool.false_or, attributeOf, changedBitOf, EntityItemProperties.setPosition]
    cases (object.property "rotation").isValid <;>
    cases ((object.property "rotation").property "x").isValid <;>
    cases ((object.property "rotation").property "y").isValid <;>
    cases ((object.property "rotation").property "z").isValid <;>
    cases ((object.property "rotation").property "w").isValid
    all_goals first
      | (simp only [if_true, Option.some.injEq, reduceCtorEq, false_implies, true_and,
          forall_eq', valueDiffers, and_self, Bool.and_self]
         constructor
         · intro h; simp only [h, Bool.false_eq_true, if_false]
         · intro h; simp only [h, if_true, and_self])
      | simp
  case PROP_MASS =>
    simp only [copyBlock, suppliedValue, suppliedScalar, suppliedVector, suppliedText, hd,
      Bool.false_or, attributeOf, changedBitOf, EntityItemProperties.setPosition]
    cases (object.property "mass").isValid
    all_goals first
      | (simp only [if_true, Option.some.injEq, reduceCtorEq, false_implies, true_and,
          forall_eq', valueDiffers, and_self, Bool.and_self]
         constructor
         · intro h; simp only [h, Bool.false_eq_true, if_false]
         · intro h; simp only [h, if_true, and_self])
      | simp
  case PROP_VELOCITY =>
    simp only [copyBlock, suppliedValue, suppliedScalar, suppliedVector, suppliedText, hd,
      Bool.false_or, attributeOf, changedBitOf, EntityItemProperties.setPosition]
    cases (object.property "velocity").isValid <;>
    cases ((object.property "velocity").property "x").isValid <;>
    cases ((object.property "velocity").property "y").isValid <;>
    cases ((object.property "velocity").property "z").isValid
    all_goals first
      | (simp only [if_true, Option.some.injEq, reduceCtorEq, false_implies, true_and,
          forall_eq', valueDiffers, and_self, Bool.and_self]
         constructor
         · intro h; simp only [h, Bool.false_eq_true, if_false]
         · intro h; simp only [h, if_true, and_self])
      | simp
  case PROP_GRAVITY =>
    simp only [copyBlock, suppliedValue, suppliedScalar, suppliedVector, suppliedText, hd,
      Bool.false_or, attributeOf, changedBitOf, EntityItemProperties.setPosition]
    cases (object.property "gravity").isValid <;>
    cases ((object.property "gravity").property "x").isValid <;>
    cases ((object.property "gravity").property "y").isValid <;>
    cases ((object.property "gravity").property "z").isValid
    all_goals first
      | (simp only [if_true, Option.some.injEq, reduceCtorEq, false_implies, true_and,
          forall_eq', valueDiffers, and_self, Bool.and_self]
         constructor
         · intro h; simp only [h, Bool.false_eq_true, if_false]
         · intro h; simp only [h, if_true, and_self])
      | simp
  case PROP_DAMPING =>
    simp only [copyBlock, suppliedValue, suppliedScalar, suppliedVector, suppliedText, hd,
      Bool.false_or, attributeOf, changedBitOf, EntityItemProperties.setPosition]
    cases (object.property "damping").isValid
    all_goals first
      | (simp only [if_true, Option.some.injEq, reduceCtorEq, false_implies, true_and,
          forall_eq', valueDiffers, and_self, Bool.and_self]
         constructor
         · intro h; simp only [h, Bool.false_eq_true, if_false]
         · intro h; simp only [h, if_true, and_self])
      | simp
  case PROP_LIFETIME =>
    simp only [copyBlock, suppliedValue, suppliedScalar, suppliedVector, suppliedText, hd,
      Bool.false_or, attributeOf, changedBitOf, EntityItemProperties.setPosition]
    cases (object.property "lifetime").isValid
    all_goals first
      | (simp only [if_true, Option.some.injEq, reduceCtorEq, false_implies, true_and,
          forall_eq', valueDiffers, and_self, Bool.and_self]
         constructor
         · intro h; simp only [h, Bool.false_eq_true, if_false]
         · intro h; simp only [h, if_true, and_self])
      | simp
  case PROP_SCRIPT =>
    simp only [copyBlock, suppliedValue, suppliedScalar, suppliedVector, suppliedText, hd,
      Bool.false_or, attributeOf, changedBitOf, EntityItemProperties.setPosition]
    cases (object.property "script").isValid
    all_goals first
      | (simp only [if_true, Option.some.injEq, reduceCtorEq, false_implies, true_and,
          forall_eq', valueDiffers, and_self, Bool.and_self]
         constructor
         · intro h; simp only [h, Bool.false_eq_true, if_false]
         · intro h; simp only [h, if_true, and_self])
      | simp
  case PROP_COLOR =>
    simp only [copyBlock, suppliedValue, suppliedScalar, suppliedVector, suppliedText, hd,
      Bool.false_or, attributeOf, changedBitOf, EntityItemProperties.setPosition, colour_differs]
    cases (object.property "color").isValid <;>
    cases ((object.property "color").property "red").isValid <;>
    cases ((object.property "color").property "green").isValid <;>
    cases ((object.property "color").property "blue").isValid
    all_goals first
      | (simp only [if_true, Option.some.injEq, reduceCtorEq, false_implies, true_and,
          forall_eq', valueDiffers, and_self, Bool.and_self]
         constructor
         · intro h; simp only [h, Bool.false_eq_true, if_false]
         · intro h; simp only [h, if_true, and_self])
      | simp
  case PROP_MODEL_URL =>
    simp only [copyBlock, suppliedValue, suppliedScalar, suppliedVector, suppliedText, hd,
      Bool.false_or, attributeOf, changedBitOf, EntityItemProperties.setPosition]
    cases (object.property "modelURL").isValid
    all_goals first
      | (simp only [if_true, Option.some.injEq, reduceCtorEq, false_implies, true_and,
          forall_eq', valueDiffers, and_self, Bool.and_self]
         constructor
         · intro h; simp only [h, Bool.false_eq_true, if_false]
         · intro h; simp only [h, if_true, and_self])
      | simp
  case PROP_ANIMATION_URL =>
    simp only [copyBlock, suppliedValue, suppliedScalar, suppliedVector, suppliedText, hd,
      Bool.false_or, attributeOf, changedBitOf, EntityItemProperties.setPosition]
    cases (object.property "animationURL").isValid
    all_goals first
      | (simp only [if_true, Option.some.injEq, reduceCtorEq, false_implies, true_and,
          forall_eq', valueDiffers, and_self, Bool.and_self]
         constructor
         · intro h; simp only [h, Bool.false_eq_true, if_false]
         · intro h; simp only [h, if_true, and_self])
      | simp
  case PROP_ANIMATION_PLAYING =>
    simp only [copyBlock, suppliedValue, suppliedScalar, suppliedVector, suppliedText, hd,
      Bool.false_or, attributeOf, changedBitOf, EntityItemProperties.setPosition, bool_differs]
    cases (object.property "animationIsPlaying").isValid
    all_goals first
      | (simp only [if_true, Option.some.injEq, reduceCtorEq, false_implies, true_and,
          forall_eq', valueDiffers, and_self, Bool.and_self]
         constructor
         · intro h; simp only [h, Bool.false_eq_true, if_false]
         · intro h; simp only [h, if_true, and_self])
      | simp
  case PROP_ANIMATION_FRAME_INDEX =>
    simp only [copyBlock, suppliedValue, suppliedScalar, suppliedVector, suppliedText, hd,
      Bool.false_or, attributeOf, changedBitOf, EntityItemProperties.setPosition]
    cases (object.property "animationFrameIndex").isValid
    all_goals first
      | (simp only [if_true, Option.some.injEq, reduceCtorEq, false_implies, true_and,
          forall_eq', valueDiffers, and_self, Bool.and_self]
         constructor
         · intro h; simp only [h, Bool.false_eq_true, if_false]
         · intro h; simp only [h, if_true, and_self])
      | simp
  case PROP_ANIMATION_FPS =>
    simp only [copyBlock, suppliedValue, suppliedScalar, suppliedVector, suppliedText, hd,
      Bool.false_or, attributeOf, changedBitOf, EntityItemProperties.setPosition]
    cases (object.property "animationFPS").isValid
    all_goals first
      | (simp only [if_true, Option.some.injEq, reduceCtorEq, false_implies, true_and,
          forall_eq', valueDiffers, and_self, Bool.and_self]
         constructor
         · intro h; simp only [h, Bool.false_eq_true, if_false]
         · intro h; simp only [h, if_true, and_self])
      | simp
  all_goals simp [copyBlock, suppliedValue]

theorem copyBlock_other (e : ScriptExt) (object : QScriptValue) (t u : EntityPropertyList)
    (h : u ≠ t) (p : EntityItemProperties) :
    attributeOf t (copyBlock e object u p) = attributeOf t p
      ∧ changedBitOf t (copyBlock e object u p) = changedBitOf t p := by
  cases u
  all_goals
    first
      | exact ⟨rfl, rfl⟩
      | (simp only [copyBlock, EntityItemProperties.setPosition]
         split_ifs <;> cases t <;> first | exact ⟨rfl, rfl⟩ | exact absurd rfl h)

theorem copyBlock_otherMembers (e : ScriptExt) (object : QScriptValue)
    (u : EntityPropertyList) (p : EntityItemProperties) :
    otherMembers (copyBlock e object u p) = otherMembers p := by
  cases u
  all_goals
    first
      | rfl
      | (simp only [copyBlock, EntityItemProperties.setPosition]
         split_ifs <;> rfl)

theorem copyFold_otherMembers (e : ScriptExt) (object : QScriptValue)
    (ts : List EntityPropertyList) (p : EntityItemProperties) :
    otherMembers (ts.foldl (fun q t => copyBlock e object t q) p) = otherMembers p := by
  induction ts generalizing p with
  | nil => rfl
  | cons u ts ih =>
    simp only [List.foldl_cons]
    rw [ih, copyBlock_otherMembers]

theorem copyFold_untouched (e : ScriptExt) (object : QScriptValue)
    (ts : List EntityPropertyList) (p : EntityItemProperties) (t : EntityPropertyList)
    (h : t ∉ ts) :
    attributeOf t (ts.foldl (fun q t => copyBlock e object t q) p) = attributeOf t p
      ∧ changedBitOf t (ts.foldl (fun q t => copyBlock e object t q) p)
          = changedBitOf t p := by
  induction ts generalizing p with
  | nil => exact ⟨rfl, rfl⟩
  | cons u ts ih =>
    simp only [List.foldl_cons]
    have hu : u ≠ t := fun e => h (e ▸ List.mem_cons_self _ _)
    obtain ⟨i1, i2⟩ := ih (copyBlock e object u p) (fun hm => h (List.mem_cons_of_mem _ hm))
    rw [i1, i2]
    exact copyBlock_other e object t u hu p

theorem copyFromScriptValue_eq (e : ScriptExt) (object : QScriptValue)
    (p : EntityItemProperties) :
    copyFromScriptValue e object p
      = { copyGlowLevel e object
            (scriptOrder.foldl (fun q t => copyBlock e object t q) (copyType e object p)) with
          lastEdited := e.usecTimestampNow } := rfl

theorem copyType_frame (e : ScriptExt) (object : QScriptValue) (p : EntityItemProperties)
    (t : EntityPropertyList) :
    attributeOf t (copyType e object p) = attributeOf t p
      ∧ changedBitOf t (copyType e object p) = changedBitOf t p
      ∧ (copyType e object p).defaultSettings = p.defaultSettings
      ∧ (copyType e object p).glowLevel = p.glowLevel
      ∧ (copyType e object p).glowLevelChanged = p.glowLevelChanged := by
  unfold copyType
  simp only
  split_ifs
  · cases t <;> exact ⟨rfl, rfl, rfl, rfl, rfl⟩
  · exact ⟨rfl, rfl, rfl, rfl, rfl⟩

theorem copyGlowLevel_frame (e : ScriptExt) (object : QScriptValue)
    (p : EntityItemProperties) (t : EntityPropertyList) :
    attributeOf t (copyGlowLevel e object p) = attributeOf t p
      ∧ changedBitOf t (copyGlowLevel e object p) = changedBitOf t p := by
  unfold copyGlowLevel
  simp only
  split_ifs <;> cases t <;> exact ⟨rfl, rfl⟩

theorem lastEdited_frame (p : EntityItemProperties) (v : quint64) (t : EntityPropertyList) :
    attributeOf t { p with lastEdited := v } = attributeOf t p
      ∧ changedBitOf t { p with lastEdited := v } = changedBitOf t p := by
  cases t <;> exact ⟨rfl, rfl⟩

theorem copyBlock_defaultSettings (e : ScriptExt) (object : QScriptValue)
    (u : EntityPropertyList) (p : EntityItemProperties) :
    (copyBlock e object u p).defaultSettings = p.defaultSettings :=
  congrArg OtherMembers.defaultSettings (copyBlock_otherMembers e object u p)

/-- In a run of blocks the attribute of a tag is decided by the block of that tag, which
finds the attribute as it was before the run. -/
theorem copyFold_own (e : ScriptExt) (object : QScriptValue) (ts : List EntityPropertyList)
    (hnd : ts.Nodup) (t : EntityPropertyList) (ht : t ∈ ts) (p : EntityItemProperties) :
    ∃ p1, attributeOf t p1 = attributeOf t p ∧ changedBitOf t p1 = changedBitOf t p
      ∧ p1.defaultSettings = p.defaultSettings
      ∧ attributeOf t (ts.foldl (fun q t => copyBlock e object t q) p)
          = attributeOf t (copyBlock e object t p1)
      ∧ changedBitOf t (ts.foldl (fun q t => copyBlock e object t q) p)
          = changedBitOf t (copyBlock e object t p1) := by
  induction ts generalizing p with
  | nil => simp at ht
  | cons u rest ih =>
    obtain ⟨hu, hrest⟩ := List.nodup_cons.mp hnd
    simp only [List.foldl_cons]
    by_cases hut : u = t
    · subst hut
      obtain ⟨i1, i2⟩ := copyFold_untouched e object rest (copyBlock e object u p) u hu
      exact ⟨p, rfl, rfl, rfl, i1, i2⟩
    · have ht' : t ∈ rest := by
        rcases List.mem_cons.mp ht with h | h
        · exact absurd h.symm hut
        · exact h
      obtain ⟨p1, a1, a2, a3, a4, a5⟩ := ih hrest ht' (copyBlock e object u p)
      obtain ⟨b1, b2⟩ := copyBlock_other e object t u hut p
      exact ⟨p1, a1.trans b1, a2.trans b2,
        a3.trans (copyBlock_defaultSettings e object u p), a4, a5⟩

theorem scriptOrder_nodup : scriptOrder.Nodup := by decide

/-- The attribute of a tag after `copyFromScriptValue` is the one that the block of the
tag leaves, and the block finds the attribute as it was before the call. -/
theorem copyFromScriptValue_own (e : ScriptExt) (object : QScriptValue)
    (p : EntityItemProperties) (t : EntityPropertyList) (ht : t ∈ scriptOrder) :
    ∃ p1, attributeOf t p1 = attributeOf t p ∧ changedBitOf t p1 = changedBitOf t p
      ∧ p1.defaultSettings = p.defaultSettings
      ∧ attributeOf t (copyFromScriptValue e object p)
          = attributeOf t (copyBlock e object t p1)
      ∧ changedBitOf t (copyFromScriptValue e object p)
          = changedBitOf t (copyBlock e object t p1) := by
  obtain ⟨p1, a1, a2, a3, a4, a5⟩ :=
    copyFold_own e object scriptOrder scriptOrder_nodup t ht (copyType e object p)
  obtain ⟨c1, c2, c3, _, _⟩ := copyType_frame e object p t
  refine ⟨p1, a1.trans c1, a2.trans c2, a3.trans c3, ?_, ?_⟩
  · rw [copyFromScriptValue_eq, (lastEdited_frame _ _ t).1, (copyGlowLevel_frame e object _ t).1]
    exact a4
  · rw [copyFromScriptValue_eq, (lastEdited_frame _ _ t).2, (copyGlowLevel_frame e object _ t).2]
    exact a5

/-- C22. In-place edit tracking: for `copyFromScriptValue` applied to an instance that
does not represent default settings, and each attribute with a block in it (radius,
rotation, mass, velocity, gravity, damping, lifetime, script, color, model URL, animation
URL, animation playing, animation frame index and animation FPS, and position as well):
the attribute is newly marked changed only if the script object supplies a complete valid
value that differs from the stored one; when the property is missing, or a component of
a vector, of the rotation or of the colour is missing, or the supplied value does not
differ from the stored one, the value and the changed bit stay as they were; and a
supplied value that differs is stored and marked changed.  Values are compared by the
comparison of their C++ type. -/
theorem in_place_edit_tracking (e : ScriptExt) (object : QScriptValue)
    (p : EntityItemProperties) (hd : p.defaultSettings = false) (t : EntityPropertyList)
    (ht : t ∈ scriptOrder) :
    (changedBitOf t p = false → changedBitOf t (copyFromScriptValue e object p) = true →
      ∃ v, suppliedValue object t = some v ∧ valueDiffers e v (attributeOf t p) = true)
    ∧ (suppliedValue object t = none →
        attributeOf t (copyFromScriptValue e object p) = attributeOf t p
        ∧ changedBitOf t (copyFromScriptValue e object p) = changedBitOf t p)
    ∧ (∀ v, suppliedValue object t = some v → valueDiffers e v (attributeOf t p) = false →
        attributeOf t (copyFromScriptValue e object p) = attributeOf t p
        ∧ changedBitOf t (copyFromScriptValue e object p) = changedBitOf t p)
    ∧ (∀ v, suppliedValue object t = some v → valueDiffers e v (attributeOf t p) = true →
        attributeOf t (copyFromScriptValue e object p) = v
        ∧ changedBitOf t (copyFromScriptValue e object p) = true) := by
  obtain ⟨p1, a1, a2, a3, a4, a5⟩ := copyFromScriptValue_own e object p t ht
  obtain ⟨o1, o2, o3⟩ := copyBlock_own e object t p1 (a3.trans hd)
  rw [a1] at o2 o3
  have hnone : suppliedValue object t = none →
      attributeOf t (copyFromScriptValue e object p) = attributeOf t p
      ∧ changedBitOf t (copyFromScriptValue e object p) = changedBitOf t p := by
    intro h
    rw [a4, a5, o1 h]
    exact ⟨a1, a2⟩
  have hsame : ∀ v, suppliedValue object t = some v →
      valueDiffers e v (attributeOf t p) = false →
      attributeOf t (copyFromScriptValue e object p) = attributeOf t p
      ∧ changedBitOf t (copyFromScriptValue e object p) = changedBitOf t p := by
    intro v hv hne
    rw [a4, a5, o2 v hv hne]
    exact ⟨a1, a2⟩
  refine ⟨fun hb hq => ?_, hnone, hsame, fun v hv hne => ?_⟩
  · cases hsv : suppliedValue object t with
    | none =>
      rw [(hnone hsv).2, hb] at hq
      exact absurd hq Bool.false_ne_true
    | some v =>
      cases hne : valueDiffers e v (attributeOf t p) with
      | false =>
        rw [(hsame v hsv hne).2, hb] at hq
        exact absurd hq Bool.false_ne_true
      | true => exact ⟨v, rfl, hne⟩
  · rw [a4, a5]
    exact o3 v hv hne

/-- C22, at a concrete input: a blank object without default settings and a script object
that supplies the radius 0.5 (stored: 0), the mass 0 (stored: 0) and a velocity without
the component `z`: the radius is stored and marked changed, mass and velocity stay as
they were. -/
theorem in_place_edit_tracking_witness :
    blankProperties.defaultSettings = false
    ∧ suppliedValue exampleScript PROP_RADIUS
        = some (AttributeValue.scalar ⟨[0, 0, 0, 63], rfl⟩)
    ∧ attributeOf PROP_RADIUS (copyFromScriptValue refScriptExt exampleScript blankProperties)
        = AttributeValue.scalar ⟨[0, 0, 0, 63], rfl⟩
    ∧ changedBitOf PROP_RADIUS (copyFromScriptValue refScriptExt exampleScript blankProperties)
        = true
    ∧ suppliedValue exampleScript PROP_MASS = some (AttributeValue.scalar (Raw.zero 4))
    ∧ changedBitOf PROP_MASS (copyFromScriptValue refScriptExt exampleScript blankProperties)
        = false
    ∧ suppliedValue exampleScript PROP_VELOCITY = none
    ∧ changedBitOf PROP_VELOCITY (copyFromScriptValue refScriptExt exampleScript blankProperties)
        = false := by
  have hr := (in_place_edit_tracking refScriptExt exampleScript blankProperties rfl PROP_RADIUS
    (by decide)).2.2.2 (AttributeValue.scalar ⟨[0, 0, 0, 63], rfl⟩) (by decide) (by decide)
  have hm := (in_place_edit_tracking refScriptExt exampleScript blankProperties rfl PROP_MASS
    (by decide)).2.2.1 (AttributeValue.scalar (Raw.zero 4)) (by decide) (by decide)
  have hv := (in_place_edit_tracking refScriptExt exampleScript blankProperties rfl
    PROP_VELOCITY (by decide)).2.1 (by decide)
  exact ⟨rfl, by decide, hr.1, hr.2, by decide, hm.2, by decide, hv.2⟩

/-- C28. The glow level is tracked but never reported: for every state, neither the glow
level nor its changed bit has any influence on the result of `getChangedProperties` or on
the three results of `encodeEntityEditPacket` (nor on any local of the run), although
`markAllChanged` sets the bit and `copyFromScriptValue` sets it whenever the script
object supplies a glow level and the object represents default settings or the supplied
level differs from the stored one. -/
theorem glow_level_is_not_reported (x : Ext) (id : EntityItemID) (p : EntityItemProperties)
    (sizeIn : Int) :
    (∀ (glowLevel : float32) (glowLevelChanged : Bool),
      ({ p with glowLevel := glowLevel, glowLevelChanged := glowLevelChanged }
        : EntityItemProperties).getChangedProperties = p.getChangedProperties)
    ∧ (∀ (glowLevel : float32) (glowLevelChanged : Bool),
      encodeEntityEditPacket x id
        { p with glowLevel := glowLevel, glowLevelChanged := glowLevelChanged } sizeIn
        = encodeEntityEditPacket x id p sizeIn)
    ∧ (∀ (glowLevel : float32) (glowLevelChanged : Bool),
      encodeRun x id
        { p with glowLevel := glowLevel, glowLevelChanged := glowLevelChanged } sizeIn
        = encodeRun x id p sizeIn)
    ∧ p.markAllChanged.glowLevelChanged = true
    ∧ (∀ (e : ScriptExt) (object : QScriptValue),
        (object.property "glowLevel").isValid = true →
        (p.defaultSettings = true
          ∨ e.floatNe (object.property "glowLevel").toFloat p.glowLevel = true) →
        (copyFromScriptValue e object p).glowLevelChanged = true
        ∧ (copyFromScriptValue e object p).glowLevel = (object.property "glowLevel").toFloat)
      := by
  refine ⟨fun _ _ => rfl, fun _ _ => rfl, fun _ _ => rfl, rfl, fun e object hv hc => ?_⟩
  have hom := copyFold_otherMembers e object scriptOrder (copyType e object p)
  obtain ⟨_, _, c3, c4, _⟩ := copyType_frame e object p PROP_POSITION
  have hds : (scriptOrder.foldl (fun q t => copyBlock e object t q)
      (copyType e object p)).defaultSettings = p.defaultSettings :=
    (congrArg OtherMembers.defaultSettings hom).trans c3
  have hgl : (scriptOrder.foldl (fun q t => copyBlock e object t q)
      (copyType e object p)).glowLevel = p.glowLevel :=
    (congrArg OtherMembers.glowLevel hom).trans c4
  have hcond : ((scriptOrder.foldl (fun q t => copyBlock e object t q)
      (copyType e object p)).defaultSettings
      || e.floatNe (object.property "glowLevel").toFloat
        (scriptOrder.foldl (fun q t => copyBlock e object t q)
          (copyType e object p)).glowLevel) = true := by
    rw [hds, hgl]
    rcases hc with h | h
    · rw [h]; rfl
    · rw [h, Bool.or_true]
  rw [copyFromScriptValue_eq]
  simp only [copyGlowLevel, hv, hcond, if_true, and_self]

/-! ## The log handler: formatting -/

theorem split_ne_nil (sep : Byte) (l : QString) : QString.split sep l ≠ [] := by
  cases l with
  | nil => simp [QString.split]
  | cons b rest =>
    simp only [QString.split]
    split_ifs
    · simp
    · cases h : QString.split sep rest <;> simp

theorem join_cons_cons (sep : QString) (b : Byte) (part : QString) (parts : List QString) :
    QStringList.join sep ((b :: part) :: parts) = b :: QStringList.join sep (part :: parts) := by
  cases parts with
  | nil => simp [QStringList.join]
  | cons next parts => simp [QStringList.join]

theorem join_nil_cons (sep : QString) (parts : List QString) (h : parts ≠ []) :
    QStringList.join sep ([] :: parts) = sep ++ QStringList.join sep parts := by
  cases parts with
  | nil => exact absurd rfl h
  | cons next parts => simp [QStringList.join]

/-- Joining the pieces of a message with newline, `pre` and a space replaces every
newline of the message by these. -/
theorem join_split (pre : QString) (message : QString) :
    QStringList.join ([10] ++ pre ++ literal " ") (QString.split 10 message) =
      replaceNewlines pre message := by
  induction message with
  | nil => simp [QString.split, QStringList.join, replaceNewlines]
  | cons b rest ih =>
    simp only [QString.split, replaceNewlines]
    by_cases hb : b = 10
    · simp only [hb, if_true]
      rw [join_nil_cons _ _ (split_ne_nil 10 rest), ih]
      simp [literal]
    · simp only [hb, if_false]
      cases hs : QString.split 10 rest with
      | nil => exact absurd hs (split_ne_nil 10 rest)
      | cons part parts =>
        simp only
        rw [join_cons_cons, ← hs, ih]

/-- The text of `logMessage` line by line: every piece of the message is written after
`pre` and a space. -/
theorem join_lines (pre : QString) (pieces : List QString) (h : pieces ≠ []) :
    pre ++ literal " " ++ QStringList.join ([10] ++ pre ++ literal " ") pieces ++ [10] =
      linesWith pre pieces := by
  induction pieces with
  | nil => exact absurd rfl h
  | cons piece pieces ih =>
    cases pieces with
    | nil => simp [QStringList.join, linesWith, literal]
    | cons next pieces =>
      have ih1 := ih (by simp)
      simp only [QStringList.join, linesWith] at ih1 ⊢
      rw [← ih1]
      simp [literal]

theorem prefixString_onetimeMessages (h : LogHandler) (ps : List OnceOnlyMessage)
    (now : Caller) (type : LogMsgType) (context : QMessageLogContext) :
    LogHandler.prefixString { h with onetimeMessages := ps } now type context =
      h.prefixString now type context := rfl

theorem logMessage_onetimeMessages (h : LogHandler) (ps : List OnceOnlyMessage)
    (now : Caller) (type : LogMsgType) (context : QMessageLogContext) (message : QString) :
    LogHandler.logMessage { h with onetimeMessages := ps } now type context message =
      h.logMessage now type context message := rfl

theorem logMessage_ne_nil (h : LogHandler) (now : Caller) (type : LogMsgType)
    (context : QMessageLogContext) (message : QString) :
    h.logMessage now type context message ≠ [] := by
  simp [LogHandler.logMessage]

/-! ## The log handler: the once-only scan -/

theorem mem_of_getElem_some {α : Type} {l : List α} {i : Nat} {a : α} (h : l[i]? = some a) :
    a ∈ l := by
  obtain ⟨hl, he⟩ := List.getElem?_eq_some_iff.1 h
  rw [← he]
  exact List.getElem_mem hl

theorem increment_ok (c : Int) (h : c < INT_MAX) : increment c = Except.ok (c + 1) := by
  simp [increment, h]

/-- The scan when no element matches: nothing changes and nothing is suppressed. -/
theorem scan_no_match (x : LogExt) (message : QString) (ps : List OnceOnlyMessage)
    (h : ∀ p ∈ ps, p.matches x message = false) :
    scanOnetimeMessages x message ps =
      Except.ok { onetimeMessages := ps, suppressed := false } := by
  induction ps with
  | nil => rfl
  | cons p rest ih =>
    have hp : (x.indexIn p.regexp message != -1) = false := h p (by simp)
    simp only [scanOnetimeMessages, hp, Bool.false_eq_true, if_false]
    rw [ih (fun q hq => h q (by simp [hq]))]

theorem firstMatch_none (x : LogExt) (message : QString) (ps : List OnceOnlyMessage) :
    firstMatch x message ps = none ↔ ∀ p ∈ ps, p.matches x message = false := by
  induction ps with
  | nil => simp [firstMatch]
  | cons p rest ih =>
    simp only [firstMatch]
    by_cases hp : p.matches x message = true
    · simp [hp]
    · simp only [hp, Bool.false_eq_true, if_false, Option.map_eq_none', ih]
      simp only [Bool.not_eq_true] at hp
      simp [hp]

/-- The position `firstMatch` finds is the first, in registration order, whose expression
matches. -/
theorem firstMatch_some (x : LogExt) (message : QString) (ps : List OnceOnlyMessage) (i : Nat) :
    firstMatch x message ps = some i ↔
      (∃ p, ps[i]? = some p ∧ p.matches x message = true) ∧
        ∀ j q, j < i → ps[j]? = some q → q.matches x message = false := by
  induction ps generalizing i with
  | nil => simp [firstMatch]
  | cons p rest ih =>
    simp only [firstMatch]
    by_cases hp : p.matches x message = true
    · simp only [hp, if_true, Option.some.injEq]
      constructor
      · intro h
        subst h
        exact ⟨⟨p, by simp, hp⟩, fun j q hj => absurd hj (Nat.not_lt_zero j)⟩
      · rintro ⟨_, h2⟩
        cases i with
        | zero => rfl
        | succ k =>
          have := h2 0 p (Nat.succ_pos k) (by simp)
          rw [hp] at this
          exact absurd this (by decide)
    · simp only [hp, Bool.false_eq_true, if_false, Option.map_eq_some']
      simp only [Bool.not_eq_true] at hp
      constructor
      · rintro ⟨k, hk, rfl⟩
        obtain ⟨⟨q, hq1, hq2⟩, hall⟩ := (ih k).1 hk
        refine ⟨⟨q, by simpa using hq1, hq2⟩, ?_⟩
        intro j r hj hr
        cases j with
        | zero =>
          simp only [List.getElem?_cons_zero, Option.some.injEq] at hr
          rw [← hr]
          exact hp
        | succ j =>
          simp only [List.getElem?_cons_succ] at hr
          exact hall j r (by omega) hr
      · rintro ⟨⟨q, hq1, hq2⟩, hall⟩
        cases i with
        | zero =>
          simp only [List.getElem?_cons_zero, Option.some.injEq] at hq1
          rw [← hq1, hp] at hq2
          exact absurd hq2 (by decide)
        | succ k =>
          simp only [List.getElem?_cons_succ] at hq1
          refine ⟨k, (ih k).2 ⟨⟨q, hq1, hq2⟩, ?_⟩, rfl⟩
          intro j r hj hr
          exact hall (j + 1) r (by omega) (by simpa using hr)

/-- The scan when the first match is at position `i`: the count of that element is
incremented, no other element changes, and the message is suppressed unless the count
was zero. -/
theorem scan_first_match (x : LogExt) (message : QString) (ps : List OnceOnlyMessage) (i : Nat)
    (p : OnceOnlyMessage) (hi : firstMatch x message ps = some i) (hp : ps[i]? = some p)
    (hc : p.messageCount < INT_MAX) :
    scanOnetimeMessages x message ps =
      Except.ok { onetimeMessages := ps.set i { p with messageCount := p.messageCount + 1 },
                  suppressed := !(p.messageCount == 0) } := by
  induction ps generalizing i with
  | nil => simp [firstMatch] at hi
  | cons q rest ih =>
    simp only [firstMatch] at hi
    by_cases hq : q.matches x message = true
    · simp only [hq, if_true, Option.some.injEq] at hi
      subst hi
      simp only [List.getElem?_cons_zero, Option.some.injEq] at hp
      subst hp
      have hq1 : (x.indexIn q.regexp message != -1) = true := hq
      simp only [scanOnetimeMessages, hq1, if_true, increment_ok _ hc, List.set_cons_zero]
    · simp only [hq, Bool.false_eq_true, if_false, Option.map_eq_some'] at hi
      obtain ⟨k, hk, rfl⟩ := hi
      simp only [List.getElem?_cons_succ] at hp
      have hq1 : (x.indexIn q.regexp message != -1) = false := by
        simpa [OnceOnlyMessage.matches] using hq
      simp only [scanOnetimeMessages, hq1, Bool.false_eq_true, if_false, ih k hk hp,
        List.set_cons_succ]
theorem scan_overflow (x : LogExt) (message : QString) (ps : List OnceOnlyMessage) (i : Nat)
    (p : OnceOnlyMessage) (hi : firstMatch x message ps = some i) (hp : ps[i]? = some p)
    (hc : ¬ p.messageCount < INT_MAX) :
    scanOnetimeMessages x message ps = Except.error Fault.signedOverflow := by
  induction ps generalizing i with
  | nil => simp [firstMatch] at hi
  | cons q rest ih =>
    simp only [firstMatch] at hi
    by_cases hq : q.matches x message = true
    · simp only [hq, if_true, Option.some.injEq] at hi
      subst hi
      simp only [List.getElem?_cons_zero, Option.some.injEq] at hp
      subst hp
      have hq1 : (x.indexIn q.regexp message != -1) = true := hq
      simp only [scanOnetimeMessages, hq1, if_true, increment, hc, if_false]
    · simp only [hq, Bool.false_eq_true, if_false, Option.map_eq_some'] at hi
      obtain ⟨k, hk, rfl⟩ := hi
      simp only [List.getElem?_cons_succ] at hp
      have hq1 : (x.indexIn q.regexp message != -1) = false := by
        simpa [OnceOnlyMessage.matches] using hq
      simp only [scanOnetimeMessages, hq1, Bool.false_eq_true, if_false, ih k hk hp]

theorem firstMatch_get (x : LogExt) (message : QString) (ps : List OnceOnlyMessage) (i : Nat)
    (hi : firstMatch x message ps = some i) : ∃ p, ps[i]? = some p :=
  let ⟨⟨p, hp, _⟩, _⟩ := (firstMatch_some x message ps i).1 hi
  ⟨p, hp⟩

theorem firstMatch_congr (x : LogExt) (message : QString) (ps qs : List OnceOnlyMessage)
    (h : ps.map OnceOnlyMessage.regexp = qs.map OnceOnlyMessage.regexp) :
    firstMatch x message ps = firstMatch x message qs := by
  induction ps generalizing qs with
  | nil =>
    cases qs with
    | nil => rfl
    | cons q qs => simp at h
  | cons p ps ih =>
    cases qs with
    | nil => simp at h
    | cons q qs =>
      simp only [List.map_cons, List.cons.injEq] at h
      simp only [firstMatch, OnceOnlyMessage.matches, h.1, ih qs h.2]

/-! ## The log handler: `printMessage` -/

theorem printMessage_empty (x : LogExt) (now : Caller) (h : LogHandler) (type : LogMsgType)
    (context : QMessageLogContext) :
    h.printMessage x now type context [] =
      Except.ok { handler := h, returned := [], written := [] } := by
  simp [LogHandler.printMessage]

theorem isEmpty_false {message : QString} (hm : message ≠ []) : message.isEmpty = false := by
  cases message with
  | nil => exact absurd rfl hm
  | cons b rest => rfl

/-- A message of another type than `LogDebug` is printed whatever the once-only elements
are. -/
theorem printMessage_other (x : LogExt) (now : Caller) (h : LogHandler) (type : LogMsgType)
    (context : QMessageLogContext) (message : QString) (hm : message ≠ [])
    (ht : type ≠ LogMsgType.LogDebug) :
    h.printMessage x now type context message =
      Except.ok { handler := h, returned := h.logMessage now type context message,
                  written := [cString (h.logMessage now type context message)] } := by
  simp only [LogHandler.printMessage, isEmpty_false hm, Bool.false_eq_true, if_false, ht]

theorem printMessage_no_match (x : LogExt) (now : Caller) (h : LogHandler)
    (context : QMessageLogContext) (message : QString) (hm : message ≠ [])
    (hn : ∀ p ∈ h.onetimeMessages, p.matches x message = false) :
    h.printMessage x now LogMsgType.LogDebug context message =
      Except.ok { handler := h,
                  returned := h.logMessage now LogMsgType.LogDebug context message,
                  written :=
                    [cString (h.logMessage now LogMsgType.LogDebug context message)] } := by
  simp only [LogHandler.printMessage, isEmpty_false hm, Bool.false_eq_true, if_false, if_true,
    scan_no_match x message _ hn]

theorem printMessage_first_match (x : LogExt) (now : Caller) (h : LogHandler)
    (context : QMessageLogContext) (message : QString) (hm : message ≠ []) (i : Nat)
    (p : OnceOnlyMessage) (hi : firstMatch x message h.onetimeMessages = some i)
    (hp : h.onetimeMessages[i]? = some p) (hc : p.messageCount < INT_MAX) :
    h.printMessage x now LogMsgType.LogDebug context message =
      Except.ok
        { handler := { h with onetimeMessages :=
            h.onetimeMessages.set i { p with messageCount := p.messageCount + 1 } },
          returned := if p.messageCount = 0
            then h.logMessage now LogMsgType.LogDebug context message else [],
          written := if p.messageCount = 0
            then [cString (h.logMessage now LogMsgType.LogDebug context message)]
            else [] } := by
  simp only [LogHandler.printMessage, isEmpty_false hm, Bool.false_eq_true, if_false, if_true,
    scan_first_match x message _ i p hi hp hc]
  by_cases h0 : p.messageCount = 0
  · simp only [h0, beq_self_eq_true, Bool.not_true, Bool.false_eq_true, if_false, if_true]
    rfl
  · have hb : (p.messageCount == 0) = false := by simpa using h0
    simp only [hb, Bool.not_false, if_true, h0, if_false]

/-- What `printMessage` leaves alone: every member but `_onetimeMessages`, and in
`_onetimeMessages` the expressions. The count at position `i` goes up by one exactly when
the scan stops there. -/
theorem printMessage_frame (x : LogExt) (c : PrintCall) (h : LogHandler) (r : Printed)
    (hr : h.printMessage x c.now c.type c.context c.message = Except.ok r) :
    r.handler = { h with onetimeMessages := r.handler.onetimeMessages } ∧
      r.handler.onetimeMessages.map OnceOnlyMessage.regexp =
        h.onetimeMessages.map OnceOnlyMessage.regexp ∧
      ∀ i p, h.onetimeMessages[i]? = some p →
        ∃ q, r.handler.onetimeMessages[i]? = some q ∧
          q.messageCount =
            p.messageCount + if c.stopsAt x h.onetimeMessages i then 1 else 0 := by
  by_cases hm : c.message = []
  · rw [hm, printMessage_empty] at hr
    cases hr
    refine ⟨rfl, rfl, fun i p hp => ⟨p, hp, ?_⟩⟩
    simp [PrintCall.stopsAt, hm]
  · by_cases ht : c.type = LogMsgType.LogDebug
    · rw [ht] at hr
      cases hf : firstMatch x c.message h.onetimeMessages with
      | none =>
        rw [printMessage_no_match x c.now h c.context c.message hm
          ((firstMatch_none x c.message _).1 hf)] at hr
        cases hr
        refine ⟨rfl, rfl, fun i p hp => ⟨p, hp, ?_⟩⟩
        simp [PrintCall.stopsAt, hf]
      | some k =>
        obtain ⟨pk, hpk⟩ := firstMatch_get x c.message _ k hf
        by_cases hc : pk.messageCount < INT_MAX
        · rw [printMessage_first_match x c.now h c.context c.message hm k pk hf hpk hc] at hr
          cases hr
          refine ⟨rfl, ?_, ?_⟩
          · simp only
            apply List.ext_getElem?
            intro n
            simp only [List.getElem?_map, List.getElem?_set]
            by_cases hkn : k = n
            · subst hkn
              have hlt : k < h.onetimeMessages.length := by
                rcases List.getElem?_eq_some_iff.1 hpk with ⟨hl, _⟩
                exact hl
              simp [hlt, hpk]
            · simp [hkn]
          · intro i p hp
            simp only [List.getElem?_set]
            by_cases hki : k = i
            · subst hki
              have hlt : k < h.onetimeMessages.length := by
                rcases List.getElem?_eq_some_iff.1 hpk with ⟨hl, _⟩
                exact hl
              rw [hpk] at hp
              cases hp
              refine ⟨{ pk with messageCount := pk.messageCount + 1 }, by simp [hlt], ?_⟩
              simp [PrintCall.stopsAt, hf, ht, isEmpty_false hm]
            · refine ⟨p, by simp [hki, hp], ?_⟩
              simp [PrintCall.stopsAt, hf, hki]
        · simp only [LogHandler.printMessage, isEmpty_false hm, Bool.false_eq_true, if_false,
            if_true, scan_overflow x c.message _ k pk hf hpk hc] at hr
          cases hr
    · rw [printMessage_other x c.now h c.type c.context c.message hm ht] at hr
      cases hr
      refine ⟨rfl, rfl, fun i p hp => ⟨p, hp, ?_⟩⟩
      have : (c.type == LogMsgType.LogDebug) = false := by simpa using ht
      simp [PrintCall.stopsAt, this]

/-- After a sequence of `printMessage` calls the expressions are the same and the count at
each position has grown by the number of calls whose scan stopped there. -/
theorem printAll_counts (x : LogExt) (calls : List PrintCall) (h h1 : LogHandler)
    (hr : printAll x calls h = Except.ok h1) :
    h1.onetimeMessages.map OnceOnlyMessage.regexp =
        h.onetimeMessages.map OnceOnlyMessage.regexp ∧
      ∀ i p, h.onetimeMessages[i]? = some p →
        ∃ q, h1.onetimeMessages[i]? = some q ∧
          q.messageCount =
            p.messageCount +
              ((calls.countP (fun c => c.stopsAt x h.onetimeMessages i) : Nat) : Int) := by
  induction calls generalizing h with
  | nil =>
    simp only [printAll, Except.ok.injEq] at hr
    subst hr
    exact ⟨rfl, fun i p hp => ⟨p, hp, by simp⟩⟩
  | cons c calls ih =>
    simp only [printAll] at hr
    cases hpm : h.printMessage x c.now c.type c.context c.message with
    | error e => rw [hpm] at hr; cases hr
    | ok r =>
      rw [hpm] at hr
      simp only at hr
      obtain ⟨_, hre, hcount⟩ := printMessage_frame x c h r hpm
      obtain ⟨ihre, ihcount⟩ := ih r.handler hr
      refine ⟨ihre.trans hre, ?_⟩
      intro i p hp
      obtain ⟨q, hq, hqc⟩ := hcount i p hp
      obtain ⟨q1, hq1, hq1c⟩ := ihcount i q hq
      refine ⟨q1, hq1, ?_⟩
      have hsame : ∀ c1 : PrintCall, c1.stopsAt x r.handler.onetimeMessages i =
          c1.stopsAt x h.onetimeMessages i := by
        intro c1
        simp only [PrintCall.stopsAt, firstMatch_congr x c1.message _ _ hre]
      rw [hq1c, hqc, List.countP_cons]
      simp only [hsame]
      split_ifs <;> push_cast <;> ring
/-! ## The log handler: repeated messages -/

theorem vectorAt_ok {α : Type} (v : List α) (i : Nat) (a : α) (h : v[i]? = some a) :
    vectorAt v (i : Int) = Except.ok a := by
  simp [vectorAt, h]

theorem vectorSet_ok {α : Type} (v : List α) (i : Nat) (a : α) (h : i < v.length) :
    vectorSet v (i : Int) a = Except.ok (v.set i a) := by
  simp [vectorSet, h]

theorem vectorAt_negative {α : Type} (v : List α) (i : Int) (h : i < 0) :
    vectorAt v i = Except.error Fault.indexOutOfRange := by
  simp [vectorAt, not_le.2 h]

theorem scan_error (x : LogExt) (message : QString) (ps : List OnceOnlyMessage) (e : Fault)
    (h : scanOnetimeMessages x message ps = Except.error e) : e = Fault.signedOverflow := by
  induction ps with
  | nil => simp [scanOnetimeMessages] at h
  | cons p rest ih =>
    simp only [scanOnetimeMessages] at h
    split_ifs at h with hp
    · simp only [increment] at h
      split_ifs at h with hc
      cases h
      rfl
    · cases hs : scanOnetimeMessages x message rest with
      | error e1 =>
        rw [hs] at h
        cases h
        exact ih hs
      | ok s =>
        rw [hs] at h
        cases h

/-- The only fault of `printMessage` is the overflow of a once-only count. -/
theorem printMessage_error (x : LogExt) (now : Caller) (h : LogHandler) (type : LogMsgType)
    (context : QMessageLogContext) (message : QString) (e : Fault)
    (he : h.printMessage x now type context message = Except.error e) :
    e = Fault.signedOverflow := by
  simp only [LogHandler.printMessage] at he
  split_ifs at he with hm ht
  · cases hs : scanOnetimeMessages x message h.onetimeMessages with
    | error e1 =>
      rw [hs] at he
      cases he
      exact scan_error x message _ _ hs
    | ok s =>
      rw [hs] at he
      simp only at he
      split_ifs at he
  · simp only at he
    split_ifs at he

/-- What `printMessage` does to the members of the repeated messages: nothing. -/
theorem printMessage_repeated (x : LogExt) (now : Caller) (h : LogHandler) (type : LogMsgType)
    (context : QMessageLogContext) (message : QString) (r : Printed)
    (hr : h.printMessage x now type context message = Except.ok r) :
    r.handler = { h with onetimeMessages := r.handler.onetimeMessages } :=
  (printMessage_frame x { now := now, type := type, context := context, message := message }
    h r hr).1

theorem printRepeatedMessage_unissued (x : LogExt) (now : Caller) (h : LogHandler)
    (messageID : Int) (type : LogMsgType) (context : QMessageLogContext) (message : QString)
    (hid : h.currentMessageID ≤ messageID) :
    h.printRepeatedMessage x now messageID type context message =
      Except.ok { handler := h, written := [] } := by
  simp [LogHandler.printRepeatedMessage, hid]

theorem printRepeatedMessage_negative (x : LogExt) (now : Caller) (h : LogHandler)
    (messageID : Int) (type : LogMsgType) (context : QMessageLogContext) (message : QString)
    (hid : messageID < h.currentMessageID) (hneg : messageID < 0) :
    h.printRepeatedMessage x now messageID type context message =
      Except.error Fault.indexOutOfRange := by
  simp [LogHandler.printRepeatedMessage, not_le.2 hid, vectorAt_negative _ _ hneg]

/-- The first occurrence of a repeated message: `printMessage` fails. -/
theorem printRepeatedMessage_first_error (x : LogExt) (now : Caller) (h : LogHandler) (i : Nat)
    (type : LogMsgType) (context : QMessageLogContext) (message : QString) (e : Fault)
    (hid : (i : Int) < h.currentMessageID) (hc : h.repeatCounts[i]? = some 0)
    (hp : h.printMessage x now type context message = Except.error e) :
    h.printRepeatedMessage x now i type context message = Except.error e := by
  simp [LogHandler.printRepeatedMessage, not_le.2 hid, vectorAt_ok _ _ _ hc, hp]

/-- The first occurrence of a repeated message: it is handed to `printMessage`, the
stored string is not touched and the count becomes one. -/
theorem printRepeatedMessage_first (x : LogExt) (now : Caller) (h : LogHandler) (i : Nat)
    (type : LogMsgType) (context : QMessageLogContext) (message : QString) (r : Printed)
    (hid : (i : Int) < h.currentMessageID) (hc : h.repeatCounts[i]? = some 0)
    (hp : h.printMessage x now type context message = Except.ok r) :
    h.printRepeatedMessage x now i type context message =
      Except.ok { handler := { r.handler with repeatCounts := h.repeatCounts.set i 1 },
                  written := r.written } := by
  have hf := printMessage_repeated x now h type context message r hp
  have hrc : r.handler.repeatCounts = h.repeatCounts := by rw [hf]
  have hlt : i < h.repeatCounts.length := (List.getElem?_eq_some_iff.1 hc).1
  simp only [LogHandler.printRepeatedMessage, not_le.2 hid, ge_iff_le, if_false,
    vectorAt_ok _ _ _ hc, if_true, hp, hrc, vectorSet_ok _ _ _ hlt]
  rfl

/-- A further occurrence of a repeated message: it is stored, nothing is written and the
count goes up by one. -/
theorem printRepeatedMessage_again (x : LogExt) (now : Caller) (h : LogHandler) (i : Nat)
    (c : Int) (type : LogMsgType) (context : QMessageLogContext) (message : QString)
    (hid : (i : Int) < h.currentMessageID) (hc : h.repeatCounts[i]? = some c) (h0 : c ≠ 0)
    (hs : i < h.repeatedMessageStrings.length) (hmax : c < INT_MAX) :
    h.printRepeatedMessage x now i type context message =
      Except.ok
        { handler := { h with repeatCounts := h.repeatCounts.set i (c + 1),
                              repeatedMessageStrings := h.repeatedMessageStrings.set i message },
          written := [] } := by
  have hlt : i < h.repeatCounts.length := (List.getElem?_eq_some_iff.1 hc).1
  simp only [LogHandler.printRepeatedMessage, not_le.2 hid, ge_iff_le, if_false,
    vectorAt_ok _ _ _ hc, h0, vectorSet_ok _ _ _ hs, increment_ok _ hmax,
    vectorSet_ok _ _ _ hlt]

theorem printRepeatedMessage_again_overflow (x : LogExt) (now : Caller) (h : LogHandler)
    (i : Nat) (c : Int) (type : LogMsgType) (context : QMessageLogContext) (message : QString)
    (hid : (i : Int) < h.currentMessageID) (hc : h.repeatCounts[i]? = some c) (h0 : c ≠ 0)
    (hs : i < h.repeatedMessageStrings.length) (hmax : ¬ c < INT_MAX) :
    h.printRepeatedMessage x now i type context message =
      Except.error Fault.signedOverflow := by
  simp only [LogHandler.printRepeatedMessage, not_le.2 hid, ge_iff_le, if_false,
    vectorAt_ok _ _ _ hc, h0, vectorSet_ok _ _ _ hs, increment, hmax]

theorem consistent_bounds (h : LogHandler) (hc : h.Consistent) (i : Nat)
    (hid : (i : Int) < h.currentMessageID) :
    i < h.repeatCounts.length ∧ i < h.repeatedMessageStrings.length := by
  obtain ⟨h1, h2⟩ := hc
  constructor <;> omega

/-- On a consistent handler a call of `printRepeatedMessage` with an identifier that is
not negative either returns or stops at the overflow of a count. -/
theorem printRepeatedMessage_total (x : LogExt) (now : Caller) (h : LogHandler)
    (hc : h.Consistent) (messageID : Int) (type : LogMsgType) (context : QMessageLogContext)
    (message : QString) (hid : 0 ≤ messageID) :
    (∃ e, h.printRepeatedMessage x now messageID type context message = Except.ok e) ∨
      h.printRepeatedMessage x now messageID type context message =
        Except.error Fault.signedOverflow := by
  by_cases hcur : h.currentMessageID ≤ messageID
  · exact Or.inl ⟨_, printRepeatedMessage_unissued x now h messageID type context message hcur⟩
  · obtain ⟨i, rfl⟩ := Int.eq_ofNat_of_zero_le hid
    have hlt := not_le.1 hcur
    obtain ⟨hb1, hb2⟩ := consistent_bounds h hc i hlt
    obtain ⟨c, hcc⟩ : ∃ c, h.repeatCounts[i]? = some c :=
      ⟨h.repeatCounts[i], List.getElem?_eq_getElem hb1⟩
    by_cases h0 : c = 0
    · subst h0
      cases hp : h.printMessage x now type context message with
      | error e =>
        right
        rw [printRepeatedMessage_first_error x now h i type context message e hlt hcc hp,
          printMessage_error x now h type context message e hp]
      | ok r =>
        exact Or.inl ⟨_, printRepeatedMessage_first x now h i type context message r hlt hcc hp⟩
    · by_cases hmax : c < INT_MAX
      · exact Or.inl ⟨_, printRepeatedMessage_again x now h i c type context message hlt hcc h0
          hb2 hmax⟩
      · exact Or.inr (printRepeatedMessage_again_overflow x now h i c type context message hlt
          hcc h0 hb2 hmax)
/-! ## The log handler: the flush -/

theorem repeatLogMessage_ne_nil (c : Int) (last : QString) : repeatLogMessage c last ≠ [] := by
  simp [repeatLogMessage]

/-- One turn of the flush at an index inside both vectors. -/
theorem flushTurn_eq (x : LogExt) (now : Nat → Caller) (s : Effect) (m : Nat) (c : Int)
    (last : QString) (hc : s.handler.repeatCounts[m]? = some c)
    (hl : s.handler.repeatedMessageStrings[m]? = some last) :
    flushTurn x now s m =
      Except.ok (if c > 1 then
        { handler := { s.handler with
            repeatCounts := s.handler.repeatCounts.set m 0,
            repeatedMessageStrings := s.handler.repeatedMessageStrings.set m [] },
          written := s.written ++ [cString (s.handler.logMessage (now m)
            LogMsgType.LogSuppressed QMessageLogContext.null (repeatLogMessage c last))] }
      else s) := by
  have h1 : m < s.handler.repeatCounts.length := (List.getElem?_eq_some_iff.1 hc).1
  have h2 : m < s.handler.repeatedMessageStrings.length := (List.getElem?_eq_some_iff.1 hl).1
  simp only [flushTurn, vectorAt_ok _ _ _ hc]
  by_cases h : c > 1
  · simp only [h, if_true, vectorAt_ok _ _ _ hl,
      printMessage_other x (now m) s.handler LogMsgType.LogSuppressed QMessageLogContext.null _
        (repeatLogMessage_ne_nil c last) (by decide),
      vectorSet_ok _ _ _ h1, vectorSet_ok _ _ _ h2]
  · simp only [h, if_false]

theorem suppressedLines_congr (h1 h2 : LogHandler) (now : Nat → Caller) (ms : List Nat)
    (hframe : h2 = { h1 with repeatCounts := h2.repeatCounts,
                             repeatedMessageStrings := h2.repeatedMessageStrings })
    (hsame : ∀ j ∈ ms, h2.repeatCounts[j]? = h1.repeatCounts[j]? ∧
      h2.repeatedMessageStrings[j]? = h1.repeatedMessageStrings[j]?) :
    suppressedLines h2 now ms = suppressedLines h1 now ms := by
  have hlog : ∀ (w : Caller) (type : LogMsgType) (context : QMessageLogContext)
      (message : QString),
      h2.logMessage w type context message = h1.logMessage w type context message := by
    intro w type context message
    rw [hframe]
    rfl
  unfold suppressedLines
  apply List.filterMap_congr
  intro j hj
  rw [(hsame j hj).1, (hsame j hj).2]
  simp only [hlog]

theorem suppressedLines_cons (h : LogHandler) (now : Nat → Caller) (m : Nat) (ms : List Nat)
    (c : Int) (last : QString) (hc : h.repeatCounts[m]? = some c)
    (hl : h.repeatedMessageStrings[m]? = some last) :
    suppressedLines h now (m :: ms) =
      (if c > 1 then [h.logMessage (now m) LogMsgType.LogSuppressed QMessageLogContext.null
        (repeatLogMessage c last)] else []) ++ suppressedLines h now ms := by
  simp only [suppressedLines, List.filterMap_cons, hc, hl]
  by_cases h1 : c > 1
  · simp only [h1, if_true]
    rfl
  · simp only [h1, if_false]
    rfl

/-- The turns of the flush at the indices `m`, ..., `m + k - 1`: the handler and the output
afterwards, index by index. -/
theorem flushTurns_spec (x : LogExt) (now : Nat → Caller) (k : Nat) :
    ∀ (m : Nat) (s : Effect), m + k ≤ s.handler.repeatCounts.length →
      s.handler.repeatCounts.length = s.handler.repeatedMessageStrings.length →
      ∃ s1, flushTurns x now (List.range' m k) s = Except.ok s1 ∧
        s1.handler = { s.handler with
          repeatCounts := s1.handler.repeatCounts,
          repeatedMessageStrings := s1.handler.repeatedMessageStrings } ∧
        s1.handler.repeatCounts.length = s.handler.repeatCounts.length ∧
        s1.handler.repeatedMessageStrings.length = s.handler.repeatedMessageStrings.length ∧
        (∀ (j : Nat) (c : Int) (last : QString), s.handler.repeatCounts[j]? = some c →
          s.handler.repeatedMessageStrings[j]? = some last →
          s1.handler.repeatCounts[j]? = some (if m ≤ j ∧ j < m + k ∧ c > 1 then 0 else c) ∧
          s1.handler.repeatedMessageStrings[j]? =
            some (if m ≤ j ∧ j < m + k ∧ c > 1 then [] else last)) ∧
        s1.written =
          s.written ++ (suppressedLines s.handler now (List.range' m k)).map cString := by
  induction k with
  | zero =>
    intro m s _ _
    refine ⟨s, rfl, rfl, rfl, rfl, ?_, by simp [suppressedLines]⟩
    intro j c last hc hl
    have : ¬ (m ≤ j ∧ j < m + 0 ∧ c > 1) := by omega
    simp only [this, if_false]
    exact ⟨hc, hl⟩
  | succ k ih =>
    intro m s hm hlen
    have hm1 : m < s.handler.repeatCounts.length := by omega
    have hm2 : m < s.handler.repeatedMessageStrings.length := by omega
    have hcm : s.handler.repeatCounts[m]? = some s.handler.repeatCounts[m] :=
      List.getElem?_eq_getElem hm1
    have hlm : s.handler.repeatedMessageStrings[m]? = some s.handler.repeatedMessageStrings[m] :=
      List.getElem?_eq_getElem hm2
    generalize s.handler.repeatCounts[m] = cm at hcm
    generalize s.handler.repeatedMessageStrings[m] = lm at hlm
    have hturn := flushTurn_eq x now s m cm lm hcm hlm
    simp only [List.range'_succ, flushTurns, hturn]
    by_cases hgt : cm > 1
    · simp only [hgt, if_true]
      obtain ⟨s1, hs1, hf1, hl1, hl2, hpt, hw⟩ := ih (m + 1)
        { handler := { s.handler with
            repeatCounts := s.handler.repeatCounts.set m 0,
            repeatedMessageStrings := s.handler.repeatedMessageStrings.set m [] },
          written := s.written ++ [cString (s.handler.logMessage (now m)
            LogMsgType.LogSuppressed QMessageLogContext.null (repeatLogMessage cm lm))] }
        (by simp only [List.length_set]; omega) (by simp only [List.length_set]; exact hlen)
      simp only [List.length_set] at hl1 hl2
      refine ⟨s1, hs1, ?_, hl1, hl2, ?_, ?_⟩
      · rw [hf1]
      · intro j c last hc hl
        by_cases hjm : j = m
        · subst hjm
          rw [hcm] at hc
          rw [hlm] at hl
          cases hc
          cases hl
          have h1 := hpt j 0 [] (by simp [hm1]) (by simp [hm2])
          have hno : ¬ (j + 1 ≤ j ∧ j < j + 1 + k ∧ (0 : Int) > 1) := by omega
          have hyes : j ≤ j ∧ j < j + (k + 1) ∧ cm > 1 := ⟨le_refl j, by omega, hgt⟩
          rw [if_neg hno, if_neg hno] at h1
          rw [if_pos hyes, if_pos hyes]
          exact h1
        · have h1 := hpt j c last (by simp [List.getElem?_set, Ne.symm hjm, hc])
            (by simp [List.getElem?_set, Ne.symm hjm, hl])
          have hiff : (m + 1 ≤ j ∧ j < m + 1 + k ∧ c > 1) ↔ (m ≤ j ∧ j < m + (k + 1) ∧ c > 1) := by
            constructor
            · rintro ⟨a, b, d⟩
              exact ⟨by omega, by omega, d⟩
            · rintro ⟨a, b, d⟩
              exact ⟨by omega, by omega, d⟩
          simp only [hiff] at h1
          exact h1
      · have hcongr := suppressedLines_congr s.handler
          { s.handler with
            repeatCounts := s.handler.repeatCounts.set m 0,
            repeatedMessageStrings := s.handler.repeatedMessageStrings.set m [] }
          now (List.range' (m + 1) k) rfl (by
            intro j hj
            have hjm : m ≠ j := by
              have := (List.mem_range'_1.1 hj).1
              omega
            simp [List.getElem?_set, hjm])
        rw [hw, hcongr, suppressedLines_cons s.handler now m _ cm lm hcm hlm]
        simp only [hgt, if_true, List.append_assoc, List.map_append, List.map_cons,
          List.map_nil]
    · simp only [hgt, if_false]
      obtain ⟨s1, hs1, hf1, hl1, hl2, hpt, hw⟩ := ih (m + 1) s (by omega) hlen
      refine ⟨s1, hs1, hf1, hl1, hl2, ?_, ?_⟩
      · intro j c last hc hl
        have h1 := hpt j c last hc hl
        by_cases hjm : j = m
        · subst hjm
          rw [hcm] at hc
          cases hc
          have hno : ¬ (j + 1 ≤ j ∧ j < j + 1 + k ∧ cm > 1) := by omega
          have hno2 : ¬ (j ≤ j ∧ j < j + (k + 1) ∧ cm > 1) := fun hh => hgt hh.2.2
          rw [if_neg hno, if_neg hno] at h1
          rw [if_neg hno2, if_neg hno2]
          exact h1
        · have hiff : (m + 1 ≤ j ∧ j < m + 1 + k ∧ c > 1) ↔ (m ≤ j ∧ j < m + (k + 1) ∧ c > 1) := by
            constructor
            · rintro ⟨a, b, d⟩
              exact ⟨by omega, by omega, d⟩
            · rintro ⟨a, b, d⟩
              exact ⟨by omega, by omega, d⟩
          simp only [hiff] at h1
          exact h1
      · rw [hw, suppressedLines_cons s.handler now m _ cm lm hcm hlm]
        simp only [hgt, if_false, List.nil_append]
/-- The flush on a handler whose vectors have the same size: it returns, and the handler
and the output afterwards are known index by index. -/
theorem flushRepeatedMessages_spec (x : LogExt) (now : Nat → Caller) (h : LogHandler)
    (hlen : h.repeatCounts.length = h.repeatedMessageStrings.length) :
    ∃ e, h.flushRepeatedMessages x now = Except.ok e ∧
      e.handler = { h with repeatCounts := e.handler.repeatCounts,
                           repeatedMessageStrings := e.handler.repeatedMessageStrings } ∧
      e.handler.repeatCounts.length = h.repeatCounts.length ∧
      e.handler.repeatedMessageStrings.length = h.repeatedMessageStrings.length ∧
      (∀ (j : Nat) (c : Int) (last : QString), h.repeatCounts[j]? = some c →
        h.repeatedMessageStrings[j]? = some last →
        e.handler.repeatCounts[j]? = some (if c > 1 then 0 else c) ∧
        e.handler.repeatedMessageStrings[j]? = some (if c > 1 then [] else last)) ∧
      e.written = (suppressedLines h now (List.range h.repeatCounts.length)).map cString := by
  obtain ⟨s1, hs1, hf, hl1, hl2, hpt, hw⟩ := flushTurns_spec x now h.repeatCounts.length 0
    { handler := h, written := [] } (by simp) hlen
  refine ⟨s1, ?_, hf, hl1, hl2, ?_, ?_⟩
  · rw [LogHandler.flushRepeatedMessages, List.range_eq_range']
    exact hs1
  · intro j c last hc hl
    have hj : j < h.repeatCounts.length := (List.getElem?_eq_some_iff.1 hc).1
    have h1 := hpt j c last hc hl
    simp only [Nat.zero_le, true_and, Nat.zero_add] at h1
    simp only [hj, true_and] at h1
    exact h1
  · rw [hw, List.range_eq_range']
    rfl

/-- A message that is not empty and that the once-only elements do not suppress is
returned as `logMessage` and written up to its first NUL byte. -/
theorem printMessage_not_suppressed (x : LogExt) (now : Caller) (h : LogHandler)
    (type : LogMsgType) (context : QMessageLogContext) (message : QString) (hm : message ≠ [])
    (hs : h.suppresses x type message = false) :
    ∃ h1, h.printMessage x now type context message =
      Except.ok { handler := h1, returned := h.logMessage now type context message,
                  written := [cString (h.logMessage now type context message)] } := by
  by_cases ht : type = LogMsgType.LogDebug
  · subst ht
    cases hf : firstMatch x message h.onetimeMessages with
    | none =>
      exact ⟨h, printMessage_no_match x now h context message hm
        ((firstMatch_none x message _).1 hf)⟩
    | some i =>
      obtain ⟨p, hp⟩ := firstMatch_get x message _ i hf
      have h0 : p.messageCount = 0 := by
        simpa [LogHandler.suppresses, hf, hp] using hs
      refine ⟨{ h with onetimeMessages :=
        h.onetimeMessages.set i { p with messageCount := p.messageCount + 1 } }, ?_⟩
      rw [printMessage_first_match x now h context message hm i p hf hp (by rw [h0]; decide)]
      simp only [h0, if_true]
  · exact ⟨h, printMessage_other x now h type context message hm ht⟩

theorem cString_eq_self (l : List Byte) (h : (0 : Byte) ∉ l) : cString l = l := by
  unfold cString
  rw [List.takeWhile_eq_self_iff]
  intro b hb
  have : b ≠ 0 := fun e => h (e ▸ hb)
  simpa using this

/-- A message that is not empty and that the once-only elements suppress: when the call
returns, the empty string is returned and nothing is written. -/
theorem printMessage_suppressed (x : LogExt) (now : Caller) (h : LogHandler)
    (type : LogMsgType) (context : QMessageLogContext) (message : QString) (hm : message ≠ [])
    (hs : h.suppresses x type message = true) (r : Printed)
    (hr : h.printMessage x now type context message = Except.ok r) :
    r.returned = [] ∧ r.written = [] := by
  have ht : type = LogMsgType.LogDebug := by
    by_contra hne
    have : (type == LogMsgType.LogDebug) = false := by simpa using hne
    simp [LogHandler.suppresses, this] at hs
  subst ht
  cases hf : firstMatch x message h.onetimeMessages with
  | none => simp [LogHandler.suppresses, hf] at hs
  | some i =>
    obtain ⟨p, hp⟩ := firstMatch_get x message _ i hf
    have h0 : p.messageCount ≠ 0 := by
      simpa [LogHandler.suppresses, hf, hp] using hs
    by_cases hc : p.messageCount < INT_MAX
    · rw [printMessage_first_match x now h context message hm i p hf hp hc] at hr
      cases hr
      simp only [h0, if_false, and_self]
    · simp only [LogHandler.printMessage, isEmpty_false hm, Bool.false_eq_true, if_false,
        if_true, scan_overflow x message _ i p hf hp hc] at hr
      cases hr

theorem printMessage_suppressed_ok (x : LogExt) (now : Caller) (h : LogHandler)
    (type : LogMsgType) (context : QMessageLogContext) (message : QString) (hm : message ≠ [])
    (hs : h.suppresses x type message = true)
    (hmax : ∀ p ∈ h.onetimeMessages, p.messageCount < INT_MAX) :
    ∃ r, h.printMessage x now type context message = Except.ok r := by
  have ht : type = LogMsgType.LogDebug := by
    by_contra hne
    have : (type == LogMsgType.LogDebug) = false := by simpa using hne
    simp [LogHandler.suppresses, this] at hs
  subst ht
  cases hf : firstMatch x message h.onetimeMessages with
  | none => simp [LogHandler.suppresses, hf] at hs
  | some i =>
    obtain ⟨p, hp⟩ := firstMatch_get x message _ i hf
    exact ⟨_, printMessage_first_match x now h context message hm i p hf hp
      (hmax p (mem_of_getElem_some hp))⟩

/-- Every way in which `printRepeatedMessage` returns on a consistent handler. -/
theorem printRepeatedMessage_ok (x : LogExt) (now : Caller) (h : LogHandler)
    (hc : h.Consistent) (messageID : Int) (type : LogMsgType) (context : QMessageLogContext)
    (message : QString) (e : Effect)
    (he : h.printRepeatedMessage x now messageID type context message = Except.ok e) :
    (h.currentMessageID ≤ messageID ∧ e = { handler := h, written := [] }) ∨
      ∃ (i : Nat) (c : Int), messageID = (i : Int) ∧ (i : Int) < h.currentMessageID ∧
        h.repeatCounts[i]? = some c ∧ c < INT_MAX ∧
        ((c = 0 ∧ ∃ r, h.printMessage x now type context message = Except.ok r ∧
            e = { handler := { r.handler with repeatCounts := h.repeatCounts.set i 1 },
                  written := r.written }) ∨
          (c ≠ 0 ∧
            e = { handler := { h with
                    repeatCounts := h.repeatCounts.set i (c + 1),
                    repeatedMessageStrings := h.repeatedMessageStrings.set i message },
                  written := [] })) := by
  by_cases hcur : h.currentMessageID ≤ messageID
  · rw [printRepeatedMessage_unissued x now h messageID type context message hcur] at he
    cases he
    exact Or.inl ⟨hcur, rfl⟩
  · have hlt := not_le.1 hcur
    by_cases hneg : messageID < 0
    · rw [printRepeatedMessage_negative x now h messageID type context message hlt hneg] at he
      cases he
    · obtain ⟨i, rfl⟩ := Int.eq_ofNat_of_zero_le (not_lt.1 hneg)
      obtain ⟨hb1, hb2⟩ := consistent_bounds h hc i hlt
      obtain ⟨c, hcc⟩ : ∃ c, h.repeatCounts[i]? = some c :=
        ⟨h.repeatCounts[i], List.getElem?_eq_getElem hb1⟩
      right
      by_cases h0 : c = 0
      · subst h0
        cases hp : h.printMessage x now type context message with
        | error e1 =>
          rw [printRepeatedMessage_first_error x now h i type context message e1 hlt hcc hp] at he
          cases he
        | ok r =>
          rw [printRepeatedMessage_first x now h i type context message r hlt hcc hp] at he
          cases he
          exact ⟨i, 0, rfl, hlt, hcc, by decide, Or.inl ⟨rfl, r, rfl, rfl⟩⟩
      · by_cases hmax : c < INT_MAX
        · rw [printRepeatedMessage_again x now h i c type context message hlt hcc h0 hb2 hmax]
            at he
          cases he
          exact ⟨i, c, rfl, hlt, hcc, hmax, Or.inr ⟨h0, rfl⟩⟩
        · rw [printRepeatedMessage_again_overflow x now h i c type context message hlt hcc h0
            hb2 hmax] at he
          cases he
/-! ## The log handler: runs -/

/-- The member function `newRepeatedMessageID` on a consistent handler below `INT_MAX`. -/
theorem newRepeatedMessageID_eq (h : LogHandler) (hc : h.Consistent)
    (hmax : h.currentMessageID < INT_MAX) :
    h.newRepeatedMessageID =
      Except.ok (h.currentMessageID,
        { h with currentMessageID := h.currentMessageID + 1,
                 repeatCounts := h.repeatCounts ++ [0],
                 repeatedMessageStrings := h.repeatedMessageStrings ++ [[]] }) := by
  obtain ⟨h1, h2⟩ := hc
  have hnn : 0 ≤ h.currentMessageID + 1 := by omega
  have htn : (h.currentMessageID + 1).toNat = h.repeatedMessageStrings.length + 1 := by omega
  simp only [LogHandler.newRepeatedMessageID, increment_ok _ hmax, vectorResize, hnn, if_true,
    htn, List.take_of_length_le (Nat.le_succ _), Nat.add_sub_cancel_left, List.replicate_one]

theorem newRepeatedMessageID_overflow (h : LogHandler) (hmax : ¬ h.currentMessageID < INT_MAX) :
    h.newRepeatedMessageID = Except.error Fault.signedOverflow := by
  simp only [LogHandler.newRepeatedMessageID, increment, hmax, if_false]

theorem construct_eq (x : LogExt) (now : Caller) :
    ∃ w, LogHandler.construct x now =
      Except.ok { handler := LogHandler.initial, returned := w, written := [cString w] } := by
  have hne : literal "Time zone: " ++ now.currentDateTime (literal "t") ≠ [] :=
    List.append_ne_nil_of_left_ne_nil (by decide) _
  exact ⟨_, printMessage_other x now LogHandler.initial LogMsgType.LogInfo
    QMessageLogContext.null _ hne (by decide)⟩

theorem range_cast_succ (n : Nat) :
    (List.range (n + 1)).map (fun k : Nat => (k : Int)) =
      (List.range n).map (fun k : Nat => (k : Int)) ++ [(n : Int)] := by
  rw [List.range_succ, List.map_append]
  rfl

/-- One call keeps the bookkeeping consistent, the counts not negative and the issued
identifiers equal to `0, 1, ...` up to `_currentMessageID`. -/
theorem perform_inv (x : LogExt) (t t1 : Trace) (call : Call)
    (hp : perform x t call = Except.ok t1) (hc : t.handler.Consistent)
    (hn : ∀ c ∈ t.handler.repeatCounts, 0 ≤ c)
    (hi : t.issued = (List.range t.issued.length).map (fun k : Nat => (k : Int)))
    (hl : (t.issued.length : Int) = t.handler.currentMessageID) :
    t1.handler.Consistent ∧ (∀ c ∈ t1.handler.repeatCounts, 0 ≤ c) ∧
      t1.issued = (List.range t1.issued.length).map (fun k : Nat => (k : Int)) ∧
      (t1.issued.length : Int) = t1.handler.currentMessageID := by
  cases call with
  | setTargetName targetName =>
    simp only [perform, Except.ok.injEq] at hp
    subst hp
    exact ⟨hc, hn, hi, hl⟩
  | setShouldOutputProcessID b =>
    simp only [perform, Except.ok.injEq] at hp
    subst hp
    exact ⟨hc, hn, hi, hl⟩
  | setShouldOutputThreadID b =>
    simp only [perform, Except.ok.injEq] at hp
    subst hp
    exact ⟨hc, hn, hi, hl⟩
  | setShouldDisplayMilliseconds b =>
    simp only [perform, Except.ok.injEq] at hp
    subst hp
    exact ⟨hc, hn, hi, hl⟩
  | addOnlyOnceMessageRegex regexString =>
    simp only [perform, Except.ok.injEq] at hp
    subst hp
    exact ⟨hc, hn, hi, hl⟩
  | printMessage now type context message =>
    simp only [perform] at hp
    cases hr : t.handler.printMessage x now type context message with
    | error e => rw [hr] at hp; cases hp
    | ok r =>
      rw [hr] at hp
      simp only [Except.ok.injEq] at hp
      subst hp
      have hf := printMessage_repeated x now t.handler type context message r hr
      have h1 : r.handler.repeatCounts = t.handler.repeatCounts := by rw [hf]
      have h2 : r.handler.repeatedMessageStrings = t.handler.repeatedMessageStrings := by
        rw [hf]
      have h3 : r.handler.currentMessageID = t.handler.currentMessageID := by rw [hf]
      refine ⟨?_, by simpa only [h1] using hn, hi, by simpa only [h3] using hl⟩
      simpa only [LogHandler.Consistent, h1, h2, h3] using hc
  | newRepeatedMessageID =>
    simp only [perform] at hp
    by_cases hmax : t.handler.currentMessageID < INT_MAX
    · rw [newRepeatedMessageID_eq t.handler hc hmax] at hp
      simp only [Except.ok.injEq] at hp
      subst hp
      obtain ⟨h1, h2⟩ := hc
      refine ⟨⟨?_, ?_⟩, ?_, ?_, ?_⟩
      · simp only [List.length_append, List.length_singleton]
        push_cast
        omega
      · simp only [List.length_append, List.length_singleton]
        push_cast
        omega
      · intro c hcm
        simp only [List.mem_append, List.mem_singleton] at hcm
        rcases hcm with hcm | hcm
        · exact hn c hcm
        · omega
      · simp only [List.length_append, List.length_singleton]
        rw [range_cast_succ, ← hi, ← hl]
      · simp only [List.length_append, List.length_singleton]
        push_cast
        omega
    · rw [newRepeatedMessageID_overflow t.handler hmax] at hp
      cases hp
  | printRepeatedMessage now messageID type context message =>
    simp only [perform] at hp
    cases hr : t.handler.printRepeatedMessage x now messageID type context message with
    | error e => rw [hr] at hp; cases hp
    | ok e =>
      rw [hr] at hp
      simp only [Except.ok.injEq] at hp
      subst hp
      rcases printRepeatedMessage_ok x now t.handler hc messageID type context message e hr with
        ⟨_, rfl⟩ | ⟨i, c, _, _, hcc, _, hcase⟩
      · exact ⟨hc, hn, hi, hl⟩
      · have hc0 : 0 ≤ c := hn c (mem_of_getElem_some hcc)
        rcases hcase with ⟨_, r, hpr, rfl⟩ | ⟨_, rfl⟩
        · have hf := printMessage_repeated x now t.handler type context message r hpr
          have h2 : r.handler.repeatedMessageStrings = t.handler.repeatedMessageStrings := by
            rw [hf]
          have h3 : r.handler.currentMessageID = t.handler.currentMessageID := by rw [hf]
          refine ⟨?_, ?_, hi, by simpa only [h3] using hl⟩
          · simpa [LogHandler.Consistent, h2, h3] using hc
          · intro c1 hc1
            rcases List.mem_or_eq_of_mem_set hc1 with hm | hm
            · exact hn c1 hm
            · omega
        · refine ⟨?_, ?_, hi, hl⟩
          · simpa [LogHandler.Consistent] using hc
          · intro c1 hc1
            rcases List.mem_or_eq_of_mem_set hc1 with hm | hm
            · exact hn c1 hm
            · omega
  | flushRepeatedMessages now =>
    simp only [perform] at hp
    have hlen : t.handler.repeatCounts.length = t.handler.repeatedMessageStrings.length := by
      obtain ⟨h1, h2⟩ := hc
      omega
    obtain ⟨e, he, hf, hl1, hl2, hpt, _⟩ := flushRepeatedMessages_spec x now t.handler hlen
    rw [he] at hp
    simp only [Except.ok.injEq] at hp
    subst hp
    have hcur : e.handler.currentMessageID = t.handler.currentMessageID := by rw [hf]
    refine ⟨?_, ?_, hi, by simpa only [hcur] using hl⟩
    · obtain ⟨h1, h2⟩ := hc
      exact ⟨by rw [hl1, hcur]; exact h1, by rw [hl2, hcur]; exact h2⟩
    · intro c hmem
      obtain ⟨j, hj⟩ := List.mem_iff_getElem?.1 hmem
      have hjlt : j < t.handler.repeatCounts.length := by
        rw [← hl1]
        exact (List.getElem?_eq_some_iff.1 hj).1
      have hjlt2 : j < t.handler.repeatedMessageStrings.length := by omega
      have h1 := (hpt j t.handler.repeatCounts[j] t.handler.repeatedMessageStrings[j]
        (List.getElem?_eq_getElem hjlt) (List.getElem?_eq_getElem hjlt2)).1
      rw [hj] at h1
      have h0 := hn t.handler.repeatCounts[j] (List.getElem_mem hjlt)
      simp only [Option.some.injEq] at h1
      by_cases hgt : t.handler.repeatCounts[j] > 1
      · simp only [hgt, if_true] at h1
        omega
      · simp only [hgt, if_false] at h1
        omega

theorem performAll_inv (x : LogExt) (calls : List Call) :
    ∀ (t t1 : Trace), performAll x calls t = Except.ok t1 → t.handler.Consistent →
      (∀ c ∈ t.handler.repeatCounts, 0 ≤ c) →
      t.issued = (List.range t.issued.length).map (fun k : Nat => (k : Int)) →
      (t.issued.length : Int) = t.handler.currentMessageID →
      t1.handler.Consistent ∧ (∀ c ∈ t1.handler.repeatCounts, 0 ≤ c) ∧
        t1.issued = (List.range t1.issued.length).map (fun k : Nat => (k : Int)) ∧
        (t1.issued.length : Int) = t1.handler.currentMessageID := by
  induction calls with
  | nil =>
    intro t t1 hp hc hn hi hl
    simp only [performAll, Except.ok.injEq] at hp
    subst hp
    exact ⟨hc, hn, hi, hl⟩
  | cons call calls ih =>
    intro t t1 hp hc hn hi hl
    simp only [performAll] at hp
    cases hs : perform x t call with
    | error e => rw [hs] at hp; cases hp
    | ok t2 =>
      rw [hs] at hp
      obtain ⟨a, b, c, d⟩ := perform_inv x t t2 call hs hc hn hi hl
      exact ih t2 t1 hp a b c d

/-- Every state a run reaches: the bookkeeping is consistent, no count is negative, and
the identifiers issued so far are `0, 1, ...` up to `_currentMessageID`. -/
theorem run_inv (x : LogExt) (now : Caller) (calls : List Call) (t : Trace)
    (hr : run x now calls = Except.ok t) :
    t.handler.Consistent ∧ (∀ c ∈ t.handler.repeatCounts, 0 ≤ c) ∧
      t.issued = (List.range t.issued.length).map (fun k : Nat => (k : Int)) ∧
      (t.issued.length : Int) = t.handler.currentMessageID := by
  obtain ⟨w, hw⟩ := construct_eq x now
  simp only [run, hw] at hr
  have h0 : LogHandler.initial.Consistent := by decide
  exact performAll_inv x calls _ t hr h0 (by intro c hc; cases hc) rfl rfl

/-! ## Claims about the log handler -/

/-- C31, as the claim is worded, fails: at the count zero the message is not always
printed.  On `unseenHandler` the identifier 0 has the count zero.  An empty message is
handed to `printMessage`, which returns at once: nothing is written, and the count becomes
1.  The `LogDebug` message `abc` is handed to `printMessage`, which suppresses it because
the once-only expression `ab` has matched before: nothing is written, and the count
becomes 1. -/
theorem count_zero_does_not_always_print :
    unseenHandler.Consistent
    ∧ unseenHandler.repeatCounts[0]? = some 0
    ∧ unseenHandler.printRepeatedMessage refLogExt refCaller 0 LogMsgType.LogWarning
        QMessageLogContext.null [] =
        Except.ok { handler := { unseenHandler with repeatCounts := [1, 1] }, written := [] }
    ∧ unseenHandler.suppresses refLogExt LogMsgType.LogDebug (literal "abc") = true
    ∧ unseenHandler.printRepeatedMessage refLogExt refCaller 0 LogMsgType.LogDebug
        QMessageLogContext.null (literal "abc") =
        Except.ok
          { handler := { unseenHandler with
              repeatCounts := [1, 1],
              onetimeMessages := [{ regexp := literal "ab", messageCount := 2 },
                                  { regexp := literal "cd", messageCount := 0 }] },
            written := [] } := by
  decide

/-- C31, amended.  The member function `printRepeatedMessage`.  For an identifier that was
never issued, `messageID >= _currentMessageID`, the call changes nothing and writes
nothing.  For an issued identifier of a consistent handler, with the count `c` below
`INT_MAX`: when `c` is zero the message is handed to `printMessage` at once and the stored
string stays, so what is written is what `printMessage` writes: the formatted message (up
to its first NUL byte) when the message is not empty and no once-only element suppresses
it, and nothing when the message is empty or suppressed (a suppressed message returns
when no once-only count stands at `INT_MAX`); when `c` is not zero nothing is written
and the message is only stored as the last string of the identifier.  In all
these cases the count becomes `c + 1`, also when nothing was printed, and the counts and
strings of all other identifiers, the number of identifiers and the sizes of the vectors
stay as they were. -/
theorem print_repeated_message (x : LogExt) (now : Caller) (h : LogHandler) (messageID : Int)
    (type : LogMsgType) (context : QMessageLogContext) (message : QString) :
    (h.currentMessageID ≤ messageID →
        h.printRepeatedMessage x now messageID type context message =
          Except.ok { handler := h, written := [] })
    ∧ (∀ (i : Nat) (c : Int), messageID = (i : Int) → (i : Int) < h.currentMessageID →
        h.Consistent → h.repeatCounts[i]? = some c → c < INT_MAX →
        (c = 0 → ∀ r, h.printMessage x now type context message = Except.ok r →
          h.printRepeatedMessage x now messageID type context message =
            Except.ok { handler := { r.handler with repeatCounts := h.repeatCounts.set i 1 },
                        written := r.written })
        ∧ (c = 0 → message ≠ [] → h.suppresses x type message = false →
          ∃ e, h.printRepeatedMessage x now messageID type context message = Except.ok e ∧
            e.written = [cString (h.logMessage now type context message)])
        ∧ (c = 0 → message = [] →
          h.printRepeatedMessage x now messageID type context message =
            Except.ok { handler := { h with repeatCounts := h.repeatCounts.set i 1 },
                        written := [] })
        ∧ (c = 0 → message ≠ [] → h.suppresses x type message = true →
          (∀ e, h.printRepeatedMessage x now messageID type context message = Except.ok e →
            e.written = [])
          ∧ ((∀ p ∈ h.onetimeMessages, p.messageCount < INT_MAX) →
            ∃ e, h.printRepeatedMessage x now messageID type context message = Except.ok e ∧
              e.written = [] ∧ e.handler.repeatCounts = h.repeatCounts.set i 1))
        ∧ (c ≠ 0 →
          h.printRepeatedMessage x now messageID type context message =
            Except.ok
              { handler := { h with
                  repeatCounts := h.repeatCounts.set i (c + 1),
                  repeatedMessageStrings := h.repeatedMessageStrings.set i message },
                written := [] })
        ∧ (∀ e, h.printRepeatedMessage x now messageID type context message = Except.ok e →
          (e.written ≠ [] → c = 0)
          ∧ e.handler.repeatCounts[i]? = some (c + 1)
          ∧ e.handler.repeatedMessageStrings[i]? =
              (if c = 0 then h.repeatedMessageStrings[i]? else some message)
          ∧ (∀ j, j ≠ i → e.handler.repeatCounts[j]? = h.repeatCounts[j]? ∧
              e.handler.repeatedMessageStrings[j]? = h.repeatedMessageStrings[j]?)
          ∧ e.handler.currentMessageID = h.currentMessageID
          ∧ e.handler.Consistent)) := by
  refine ⟨printRepeatedMessage_unissued x now h messageID type context message, ?_⟩
  intro i c hid hlt hcons hcc hmax
  subst hid
  obtain ⟨hb1, hb2⟩ := consistent_bounds h hcons i hlt
  have hinv : ∀ e, h.printRepeatedMessage x now (i : Int) type context message = Except.ok e →
      (c = 0 ∧ ∃ r, h.printMessage x now type context message = Except.ok r ∧
          e = { handler := { r.handler with repeatCounts := h.repeatCounts.set i 1 },
                written := r.written }) ∨
        (c ≠ 0 ∧
          e = { handler := { h with
                  repeatCounts := h.repeatCounts.set i (c + 1),
                  repeatedMessageStrings := h.repeatedMessageStrings.set i message },
                written := [] }) := by
    intro e he
    rcases printRepeatedMessage_ok x now h hcons (i : Int) type context message e he with
      ⟨hge, _⟩ | ⟨i1, c1, hi1, _, hc1, _, hcase⟩
    · exact absurd hlt (not_lt.2 hge)
    · have hii : i1 = i := by exact_mod_cast hi1.symm
      subst hii
      rw [hcc] at hc1
      cases hc1
      exact hcase
  refine ⟨?_, ?_, ?_, ?_, ?_, ?_⟩
  · intro h0 r hr
    subst h0
    exact printRepeatedMessage_first x now h i type context message r hlt hcc hr
  · intro h0 hm hs
    subst h0
    obtain ⟨h1, hp⟩ := printMessage_not_suppressed x now h type context message hm hs
    exact ⟨_, printRepeatedMessage_first x now h i type context message _ hlt hcc hp, rfl⟩
  · intro h0 hm
    subst h0 hm
    exact printRepeatedMessage_first x now h i type context [] _ hlt hcc
      (printMessage_empty x now h type context)
  · intro h0 hm hs
    constructor
    · intro e he
      rcases hinv e he with ⟨_, r, hr, rfl⟩ | ⟨hne, _⟩
      · exact (printMessage_suppressed x now h type context message hm hs r hr).2
      · exact absurd h0 hne
    · intro hcounts
      subst h0
      obtain ⟨r, hr⟩ :=
        printMessage_suppressed_ok x now h type context message hm hs hcounts
      exact ⟨_, printRepeatedMessage_first x now h i type context message r hlt hcc hr,
        (printMessage_suppressed x now h type context message hm hs r hr).2, rfl⟩
  · intro h0
    exact printRepeatedMessage_again x now h i c type context message hlt hcc h0 hb2 hmax
  · intro e he
    rcases hinv e he with ⟨h0, r, hr, rfl⟩ | ⟨h0, rfl⟩
    · subst h0
      have hf := printMessage_repeated x now h type context message r hr
      have hs : r.handler.repeatedMessageStrings = h.repeatedMessageStrings := by rw [hf]
      have hcur : r.handler.currentMessageID = h.currentMessageID := by rw [hf]
      refine ⟨fun _ => rfl, by simp [hb1], by simp [hs], ?_, hcur, ?_⟩
      · intro j hj
        simp [List.getElem?_set, Ne.symm hj, hs]
      · simpa [LogHandler.Consistent, hs, hcur] using hcons
    · refine ⟨fun hw => absurd rfl hw, by simp [hb1], by simp [h0, hb2], ?_, rfl, ?_⟩
      · intro j hj
        simp [List.getElem?_set, Ne.symm hj]
      · simpa [LogHandler.Consistent] using hcons

/-- Example for C31 on `exampleHandler`: the identifier 7 was never issued and changes
nothing; the identifier 0 has the count 5, so the message is stored and the count
becomes 6; on `unseenHandler`, in which the count of the identifier 0 is zero, the
message is written at once and the count becomes 1, and an empty message writes nothing
and makes the count 1. -/
theorem print_repeated_message_witness :
    exampleHandler.Consistent
    ∧ exampleHandler.printRepeatedMessage refLogExt refCaller 7 LogMsgType.LogDebug
        QMessageLogContext.null (literal "tock") =
        Except.ok { handler := exampleHandler, written := [] }
    ∧ exampleHandler.printRepeatedMessage refLogExt refCaller 0 LogMsgType.LogDebug
        QMessageLogContext.null (literal "tock") =
        Except.ok
          { handler := { exampleHandler with
              repeatCounts := [6, 1], repeatedMessageStrings := [literal "tock", []] },
            written := [] }
    ∧ (∃ e, unseenHandler.printRepeatedMessage refLogExt refCaller 0 LogMsgType.LogDebug
        QMessageLogContext.null (literal "tock") = Except.ok e ∧
        e.written = [literal "[11/18 13:55:36] [DEBUG] [] [4242] [app] tock\n"] ∧
        e.handler.repeatCounts = [1, 1])
    ∧ unseenHandler.printRepeatedMessage refLogExt refCaller 0 LogMsgType.LogDebug
        QMessageLogContext.null [] =
        Except.ok { handler := { unseenHandler with repeatCounts := [1, 1] }, written := [] }
      := by
  have h1 := (print_repeated_message refLogExt refCaller exampleHandler 7 LogMsgType.LogDebug
    QMessageLogContext.null (literal "tock")).1 (by decide)
  have h2 := ((print_repeated_message refLogExt refCaller exampleHandler 0 LogMsgType.LogDebug
    QMessageLogContext.null (literal "tock")).2 0 5 rfl (by decide) (by decide) rfl
      (by decide)).2.2.2.2.1 (by decide)
  obtain ⟨e, he, hw⟩ := ((print_repeated_message refLogExt refCaller unseenHandler 0
    LogMsgType.LogDebug QMessageLogContext.null (literal "tock")).2 0 0 rfl (by decide)
      (by decide) rfl (by decide)).2.1 rfl (by decide) (by decide)
  have h4 := ((print_repeated_message refLogExt refCaller unseenHandler 0
    LogMsgType.LogDebug QMessageLogContext.null []).2 0 0 rfl (by decide)
      (by decide) rfl (by decide)).2.2.1 rfl rfl
  refine ⟨by decide, h1, h2, ⟨e, he, hw.trans (by decide), ?_⟩, h4⟩
  have hd : unseenHandler.printRepeatedMessage refLogExt refCaller 0 LogMsgType.LogDebug
      QMessageLogContext.null (literal "tock") =
      Except.ok
        { handler := { unseenHandler with repeatCounts := [1, 1] },
          written := [literal "[11/18 13:55:36] [DEBUG] [] [4242] [app] tock\n"] } := by
    decide
  rw [hd] at he
  cases he
  rfl

/-- C32, as the claim is worded, fails for a stored message with a NUL byte.  On
`nulHandler` the identifier 0 has the count 5 and the last message `ti`, NUL, `ck`.  The
line of the claim is the leading text, `5 repeated log entries - Last entry: "`, the
message, `"` and a newline; `fprintf` with `%s` stops at the NUL byte, so what the flush
writes ends after `ti`: the rest of the message, the closing quote and the newline are
missing. -/
theorem flushed_line_is_cut_at_nul :
    nulHandler.Consistent
    ∧ suppressedLines nulHandler (fun _ => refCaller) (List.range 2) =
        [literal "[11/18 13:55:36] [SUPPRESS] [] [4242] [app] 5 repeated log entries" ++
          literal " - Last entry: \"ti" ++ [0] ++ literal "ck\"\n"]
    ∧ nulHandler.flushRepeatedMessages refLogExt (fun _ => refCaller) =
        Except.ok
          { handler := { nulHandler with
              repeatCounts := [0, 1], repeatedMessageStrings := [[], []] },
            written := [literal "[11/18 13:55:36] [SUPPRESS] [] [4242] [app] 5 repeated log" ++
              literal " entries - Last entry: \"ti"] }
    ∧ ¬ (∀ e, nulHandler.flushRepeatedMessages refLogExt (fun _ => refCaller) = Except.ok e →
          e.written = suppressedLines nulHandler (fun _ => refCaller) (List.range 2)) := by
  refine ⟨by decide, by decide, by decide, ?_⟩
  intro h
  have := h _ (by decide :
    nulHandler.flushRepeatedMessages refLogExt (fun _ => refCaller) =
      Except.ok
        { handler := { nulHandler with
            repeatCounts := [0, 1], repeatedMessageStrings := [[], []] },
          written := [literal "[11/18 13:55:36] [SUPPRESS] [] [4242] [app] 5 repeated log" ++
            literal " entries - Last entry: \"ti"] })
  revert this
  decide

/-- C32, amended.  The member function `flushRepeatedMessages` on a consistent handler.
It returns; for every identifier whose count is greater than 1 it hands to `printMessage`,
in the order of the identifiers, one `LogSuppressed` line with the text
`<count> repeated log entries - Last entry: "<last message>"`, which is written up to its
first NUL byte (whole, when it holds none), and sets the count to 0 and the stored string
to the empty string; every identifier whose count is at most 1 keeps its count and its
string; no other member changes.  So when no count was negative, as in every state that a
run reaches, every count is 0 or 1 after the flush, and an identifier left at the count 1
does not print its next occurrence: the next `printRepeatedMessage` only stores the
message, writes nothing and makes the count 2. -/
theorem flush_repeated_messages (x : LogExt) (now : Nat → Caller) (h : LogHandler)
    (hc : h.Consistent) :
    ∃ e, h.flushRepeatedMessages x now = Except.ok e
      ∧ e.written = (suppressedLines h now (List.range h.repeatCounts.length)).map cString
      ∧ ((∀ line ∈ suppressedLines h now (List.range h.repeatCounts.length),
            (0 : Byte) ∉ line) →
          e.written = suppressedLines h now (List.range h.repeatCounts.length))
      ∧ e.handler = { h with repeatCounts := e.handler.repeatCounts,
                             repeatedMessageStrings := e.handler.repeatedMessageStrings }
      ∧ e.handler.Consistent
      ∧ (∀ (m : Nat) (c : Int) (last : QString), h.repeatCounts[m]? = some c →
          h.repeatedMessageStrings[m]? = some last →
          (c > 1 → e.handler.repeatCounts[m]? = some 0 ∧
            e.handler.repeatedMessageStrings[m]? = some [])
          ∧ (c ≤ 1 → e.handler.repeatCounts[m]? = some c ∧
            e.handler.repeatedMessageStrings[m]? = some last))
      ∧ ((∀ c ∈ h.repeatCounts, 0 ≤ c) → ∀ c ∈ e.handler.repeatCounts, c = 0 ∨ c = 1)
      ∧ (∀ (now0 : Caller) (calls : List Call) (t : Trace), run x now0 calls = Except.ok t →
          t.handler = h → ∀ c ∈ e.handler.repeatCounts, c = 0 ∨ c = 1)
      ∧ (∀ (m : Nat), e.handler.repeatCounts[m]? = some 1 →
          ∀ (now1 : Caller) (type : LogMsgType) (context : QMessageLogContext)
            (message : QString),
            e.handler.printRepeatedMessage x now1 m type context message =
              Except.ok
                { handler := { e.handler with
                    repeatCounts := e.handler.repeatCounts.set m 2,
                    repeatedMessageStrings := e.handler.repeatedMessageStrings.set m message },
                  written := [] }) := by
  have hlen : h.repeatCounts.length = h.repeatedMessageStrings.length := by
    obtain ⟨h1, h2⟩ := hc
    omega
  obtain ⟨e, he, hf, hl1, hl2, hpt, hw⟩ := flushRepeatedMessages_spec x now h hlen
  have hcur : e.handler.currentMessageID = h.currentMessageID := by rw [hf]
  have hcons : e.handler.Consistent := by
    obtain ⟨h1, h2⟩ := hc
    exact ⟨by rw [hl1, hcur]; exact h1, by rw [hl2, hcur]; exact h2⟩
  have hz : (∀ c ∈ h.repeatCounts, 0 ≤ c) → ∀ c ∈ e.handler.repeatCounts, c = 0 ∨ c = 1 := by
    intro hnn c hmem
    obtain ⟨j, hj⟩ := List.mem_iff_getElem?.1 hmem
    have hjlt : j < h.repeatCounts.length := by
      rw [← hl1]
      exact (List.getElem?_eq_some_iff.1 hj).1
    have hjlt2 : j < h.repeatedMessageStrings.length := by omega
    have h1 := (hpt j h.repeatCounts[j] h.repeatedMessageStrings[j]
      (List.getElem?_eq_getElem hjlt) (List.getElem?_eq_getElem hjlt2)).1
    rw [hj] at h1
    have h0 := hnn h.repeatCounts[j] (List.getElem_mem hjlt)
    simp only [Option.some.injEq] at h1
    by_cases hgt : h.repeatCounts[j] > 1
    · simp only [hgt, if_true] at h1
      exact Or.inl h1
    · simp only [hgt, if_false] at h1
      omega
  have hwhole : (∀ line ∈ suppressedLines h now (List.range h.repeatCounts.length),
      (0 : Byte) ∉ line) →
      e.written = suppressedLines h now (List.range h.repeatCounts.length) := by
    intro hnul
    rw [hw]
    conv_rhs => rw [← List.map_id (suppressedLines h now (List.range h.repeatCounts.length))]
    apply List.map_congr_left
    intro line hl
    exact cString_eq_self line (hnul line hl)
  refine ⟨e, he, hw, hwhole, hf, hcons, ?_, hz, ?_, ?_⟩
  · intro m c last hcm hlm
    have h1 := hpt m c last hcm hlm
    constructor
    · intro hgt
      simpa only [hgt, if_true] using h1
    · intro hle
      simpa only [not_lt.2 hle, gt_iff_lt, if_false] using h1
  · intro now0 calls t hrun ht
    subst ht
    exact hz (run_inv x now0 calls t hrun).2.1
  · intro m hm now1 type context message
    have hmlt : m < e.handler.repeatCounts.length := (List.getElem?_eq_some_iff.1 hm).1
    have hid : (m : Int) < e.handler.currentMessageID := by
      obtain ⟨h1, _⟩ := hcons
      omega
    exact printRepeatedMessage_again x now1 e.handler m 1 type context message hid hm
      (by decide) (consistent_bounds e.handler hcons m hid).2 (by decide)

/-- Example for C32: the flush of `exampleHandler`, whose identifiers have the counts 5
and 1: one line is written for the identifier 0, whose count and string are reset; the
identifier 1 keeps the count 1, and its next occurrence is stored, not written. -/
theorem flush_repeated_messages_witness :
    exampleHandler.Consistent
    ∧ exampleHandler.flushRepeatedMessages refLogExt (fun _ => refCaller) =
        Except.ok
          { handler := { exampleHandler with
              repeatCounts := [0, 1], repeatedMessageStrings := [[], []] },
            written := [literal "[11/18 13:55:36] [SUPPRESS] [] [4242] [app] 5 repeated log" ++
              literal " entries - Last entry: \"tick\"\n"] }
    ∧ LogHandler.printRepeatedMessage
        { exampleHandler with repeatCounts := [0, 1], repeatedMessageStrings := [[], []] }
        refLogExt refCaller 1 LogMsgType.LogWarning QMessageLogContext.null (literal "tock") =
        Except.ok
          { handler := { exampleHandler with
              repeatCounts := [0, 2], repeatedMessageStrings := [[], literal "tock"] },
            written := [] } := by
  obtain ⟨e, he, _, _, _, _, _, _, _, hnext⟩ := flush_repeated_messages refLogExt
    (fun _ => refCaller) exampleHandler (by decide)
  have hd : exampleHandler.flushRepeatedMessages refLogExt (fun _ => refCaller) =
      Except.ok
        { handler := { exampleHandler with
            repeatCounts := [0, 1], repeatedMessageStrings := [[], []] },
          written := [literal "[11/18 13:55:36] [SUPPRESS] [] [4242] [app] 5 repeated log" ++
            literal " entries - Last entry: \"tick\"\n"] } := by
    decide
  rw [hd] at he
  cases he
  exact ⟨by decide, hd, hnext 1 rfl refCaller LogMsgType.LogWarning QMessageLogContext.null
    (literal "tock")⟩

/-- C33, as the claim is worded, fails: the first expression that matches a message may
have matched an earlier message and the message is printed all the same, because a match
is counted only for the expression at which the scan of a `LogDebug` message stops.
On `overlapHandler` the expressions `ab` and `a` are registered: the `LogDebug` message
`abX` is matched by both, the scan stops at `ab`, and the count of `a` stays zero; the
`LogDebug` message `aY` that follows, first matched by `a`, is printed.  On
`registeredHandler` the `LogWarning` message `abc` is matched by `ab` but not scanned; the
`LogDebug` message `abd` that follows, first matched by `ab`, is printed. -/
theorem matched_before_yet_printed :
    OnceOnlyMessage.matches { regexp := literal "a", messageCount := 0 } refLogExt
        (literal "abX") = true
    ∧ printAll refLogExt [overlapCall] overlapHandler =
        Except.ok { overlapHandler with onetimeMessages :=
          [{ regexp := literal "ab", messageCount := 1 },
           { regexp := literal "a", messageCount := 0 }] }
    ∧ firstMatch refLogExt (literal "aY")
        [{ regexp := literal "ab", messageCount := 1 },
         { regexp := literal "a", messageCount := 0 }] = some 1
    ∧ LogHandler.printMessage
        { overlapHandler with onetimeMessages :=
          [{ regexp := literal "ab", messageCount := 1 },
           { regexp := literal "a", messageCount := 0 }] }
        refLogExt refCaller LogMsgType.LogDebug QMessageLogContext.null (literal "aY") =
        Except.ok
          { handler := { overlapHandler with onetimeMessages :=
              [{ regexp := literal "ab", messageCount := 1 },
               { regexp := literal "a", messageCount := 1 }] },
            returned := literal "[11/18 13:55:36] [DEBUG] [] aY\n",
            written := [literal "[11/18 13:55:36] [DEBUG] [] aY\n"] }
    ∧ OnceOnlyMessage.matches { regexp := literal "ab", messageCount := 0 } refLogExt
        (literal "abc") = true
    ∧ printAll refLogExt [warningCall] registeredHandler = Except.ok registeredHandler
    ∧ firstMatch refLogExt (literal "abd") registeredHandler.onetimeMessages = some 0
    ∧ registeredHandler.printMessage refLogExt refCaller LogMsgType.LogDebug
        QMessageLogContext.null (literal "abd") =
        Except.ok
          { handler := { registeredHandler with onetimeMessages :=
              [{ regexp := literal "ab", messageCount := 1 },
               { regexp := literal "cd", messageCount := 0 }] },
            returned := literal "[11/18 13:55:36] [DEBUG] [] abd\n",
            written := [literal "[11/18 13:55:36] [DEBUG] [] abd\n"] } := by
  decide

/-- C33, amended.  Once-only messages in `printMessage`, for a message that is not empty.
With type `LogDebug`: when no registered expression matches, the message is printed and no
count changes; when the first expression that matches, in registration order, has the
count zero, the message is printed, and when its count is not zero the message is
suppressed: nothing is written and the empty string is returned; in both cases the count
of that expression, the one matching expression the scan visits, goes up by one and no
other count changes.  With any other type the message is printed and no count changes.
Over time: after any sequence of `printMessage` calls on a handler whose counts were all
zero, a `LogDebug` message is suppressed exactly when the expression that matches it first
was the first match of an earlier `LogDebug` message that was not empty.  Printed means
returned whole and written up to the first NUL byte. -/
theorem once_only_messages (x : LogExt) (now : Caller) (h : LogHandler)
    (context : QMessageLogContext) (message : QString) (hm : message ≠ []) :
    ((∀ p ∈ h.onetimeMessages, p.matches x message = false) →
        h.printMessage x now LogMsgType.LogDebug context message =
          Except.ok
            { handler := h,
              returned := h.logMessage now LogMsgType.LogDebug context message,
              written := [cString (h.logMessage now LogMsgType.LogDebug context message)] })
    ∧ (∀ (i : Nat) (p : OnceOnlyMessage), h.onetimeMessages[i]? = some p →
        p.matches x message = true →
        (∀ j q, j < i → h.onetimeMessages[j]? = some q → q.matches x message = false) →
        p.messageCount < INT_MAX →
        h.printMessage x now LogMsgType.LogDebug context message =
          Except.ok
            { handler := { h with onetimeMessages :=
                h.onetimeMessages.set i { p with messageCount := p.messageCount + 1 } },
              returned := if p.messageCount = 0
                then h.logMessage now LogMsgType.LogDebug context message else [],
              written := if p.messageCount = 0
                then [cString (h.logMessage now LogMsgType.LogDebug context message)]
                else [] })
    ∧ (∀ type, type ≠ LogMsgType.LogDebug →
        h.printMessage x now type context message =
          Except.ok
            { handler := h, returned := h.logMessage now type context message,
              written := [cString (h.logMessage now type context message)] })
    ∧ (∀ type, h.logMessage now type context message ≠ [])
    ∧ (∀ (calls : List PrintCall) (h0 : LogHandler) (i : Nat),
        (∀ p ∈ h0.onetimeMessages, p.messageCount = 0) →
        (calls.length : Int) < INT_MAX →
        printAll x calls h0 = Except.ok h →
        firstMatch x message h0.onetimeMessages = some i →
        ∃ r, h.printMessage x now LogMsgType.LogDebug context message = Except.ok r ∧
          (r.returned = [] ↔ ∃ c ∈ calls, c.stopsAt x h0.onetimeMessages i = true) ∧
          (r.returned = [] → r.written = []) ∧
          (r.returned ≠ [] → r.written = [cString r.returned] ∧
            r.returned = h.logMessage now LogMsgType.LogDebug context message)) := by
  refine ⟨printMessage_no_match x now h context message hm, ?_,
    fun type ht => printMessage_other x now h type context message hm ht,
    fun type => logMessage_ne_nil h now type context message, ?_⟩
  · intro i p hp hmatch hfirst hc
    exact printMessage_first_match x now h context message hm i p
      ((firstMatch_some x message _ i).2 ⟨⟨p, hp, hmatch⟩, hfirst⟩) hp hc
  · intro calls h0 i hzero hlen hrun hi
    obtain ⟨hre, hcount⟩ := printAll_counts x calls h0 h hrun
    obtain ⟨p0, hp0⟩ := firstMatch_get x message _ i hi
    obtain ⟨q, hq, hqc⟩ := hcount i p0 hp0
    have hz : p0.messageCount = 0 := hzero p0 (mem_of_getElem_some hp0)
    rw [hz, zero_add] at hqc
    have hle : List.countP (fun c => c.stopsAt x h0.onetimeMessages i) calls ≤ calls.length :=
      List.countP_le_length _
    have hlt : q.messageCount < INT_MAX := by
      rw [hqc]
      have : ((List.countP (fun c => c.stopsAt x h0.onetimeMessages i) calls : Nat) : Int) ≤
          (calls.length : Int) := by exact_mod_cast hle
      omega
    have hi1 : firstMatch x message h.onetimeMessages = some i := by
      rw [firstMatch_congr x message _ _ hre]
      exact hi
    refine ⟨_, printMessage_first_match x now h context message hm i q hi1 hq hlt, ?_, ?_, ?_⟩
    · have hcz : q.messageCount = 0 ↔
          List.countP (fun c => c.stopsAt x h0.onetimeMessages i) calls = 0 := by
        rw [hqc]
        exact Int.natCast_eq_zero
      by_cases h0c : q.messageCount = 0
      · simp only [h0c, if_true]
        constructor
        · intro hnil
          exact absurd hnil (logMessage_ne_nil h now _ context message)
        · rintro ⟨c, hc, hstop⟩
          have := List.countP_eq_zero.1 (hcz.1 h0c) c hc
          exact absurd hstop this
      · simp only [h0c, if_false, true_iff]
        have hne : List.countP (fun c => c.stopsAt x h0.onetimeMessages i) calls ≠ 0 :=
          fun hh => h0c (hcz.2 hh)
        have hpos := List.countP_pos_iff.1 (Nat.pos_of_ne_zero hne)
        obtain ⟨c, hc, hstop⟩ := hpos
        exact ⟨c, hc, hstop⟩
    · intro hnil
      by_cases h0c : q.messageCount = 0
      · simp only [h0c, if_true] at hnil
        exact absurd hnil (logMessage_ne_nil h now _ context message)
      · simp only [h0c, if_false]
    · intro hne
      by_cases h0c : q.messageCount = 0
      · simp only [h0c, if_true, and_self]
      · simp only [h0c, if_false] at hne
        exact absurd rfl hne

/-- Example for C33. On `exampleHandler` the expression `ab` has the count 1 and `cd` the
count 0: the `LogDebug` message `abc` is suppressed and the count of `ab` becomes 2; the
`LogDebug` message `cde` is printed and the count of `cd` becomes 1. Over time: after
`abc` was printed on `registeredHandler`, the `LogDebug` message `abd` is suppressed. -/
theorem once_only_messages_witness :
    literal "abc" ≠ []
    ∧ exampleHandler.printMessage refLogExt refCaller LogMsgType.LogDebug
        QMessageLogContext.null (literal "abc") =
        Except.ok
          { handler := { exampleHandler with onetimeMessages :=
              [{ regexp := literal "ab", messageCount := 2 },
               { regexp := literal "cd", messageCount := 0 }] },
            returned := [], written := [] }
    ∧ exampleHandler.printMessage refLogExt refCaller LogMsgType.LogDebug
        QMessageLogContext.null (literal "cde") =
        Except.ok
          { handler := { exampleHandler with onetimeMessages :=
              [{ regexp := literal "ab", messageCount := 1 },
               { regexp := literal "cd", messageCount := 1 }] },
            returned := literal "[11/18 13:55:36] [DEBUG] [] [4242] [app] cde" ++ [10],
            written := [literal "[11/18 13:55:36] [DEBUG] [] [4242] [app] cde" ++ [10]] }
    ∧ printAll refLogExt [earlierCall] registeredHandler =
        Except.ok { registeredHandler with onetimeMessages :=
          [{ regexp := literal "ab", messageCount := 1 },
           { regexp := literal "cd", messageCount := 0 }] }
    ∧ ∃ r, LogHandler.printMessage
        { registeredHandler with onetimeMessages :=
          [{ regexp := literal "ab", messageCount := 1 },
           { regexp := literal "cd", messageCount := 0 }] }
        refLogExt refCaller LogMsgType.LogDebug QMessageLogContext.null (literal "abd") =
          Except.ok r ∧ r.returned = [] ∧ r.written = [] := by
  have h1 := (once_only_messages refLogExt refCaller exampleHandler QMessageLogContext.null
    (literal "abc") (by decide)).2.1 0 { regexp := literal "ab", messageCount := 1 } rfl
      (by decide) (by intro j q hj; omega) (by decide)
  have hfirst : ∀ (j : Nat) (q : OnceOnlyMessage), j < 1 →
      exampleHandler.onetimeMessages[j]? = some q →
      q.matches refLogExt (literal "cde") = false := by
    intro j q hj hq
    obtain rfl : j = 0 := by omega
    have h0 : exampleHandler.onetimeMessages[0]? =
        some { regexp := literal "ab", messageCount := 1 } := rfl
    rw [h0] at hq
    rw [← Option.some.inj hq]
    decide
  have h2 := (once_only_messages refLogExt refCaller exampleHandler QMessageLogContext.null
    (literal "cde") (by decide)).2.1 1 { regexp := literal "cd", messageCount := 0 } rfl
      (by decide) hfirst (by decide)
  obtain ⟨r, hr, hiff, hw, _⟩ := (once_only_messages refLogExt refCaller
    { registeredHandler with onetimeMessages :=
      [{ regexp := literal "ab", messageCount := 1 },
       { regexp := literal "cd", messageCount := 0 }] }
    QMessageLogContext.null (literal "abd") (by decide)).2.2.2.2 [earlierCall]
      registeredHandler 0 (by decide) (by decide) (by decide) (by decide)
  have hnil : r.returned = [] := hiff.2 ⟨earlierCall, List.mem_cons_self _ _, by decide⟩
  exact ⟨by decide, h1.trans (by decide), h2.trans (by decide), by decide, r, hr, hnil,
    hw hnil⟩

/-- C34.  The guard of `printRepeatedMessage` lets a negative identifier through.  The
claim has every index access of `printRepeatedMessage` inside the vectors, and the test
`messageID >= _currentMessageID` (line 204) is there to turn away the identifiers that
were never issued; it misses the negative ones.  The empty run reaches the state right
after the constructor, and one call of `newRepeatedMessageID` reaches a state with one
identifier; in both, `printRepeatedMessage(-1, ...)` passes the test and reads
`_repeatCounts[-1]` (line 208), an index outside the vector. -/
theorem negative_identifier_is_out_of_bounds :
    run refLogExt refCaller [] =
      Except.ok { handler := LogHandler.initial, written := [timeZoneLine], issued := [] }
    ∧ LogHandler.initial.printRepeatedMessage refLogExt refCaller (-1) LogMsgType.LogDebug
        QMessageLogContext.null (literal "tock") = Except.error Fault.indexOutOfRange
    ∧ run refLogExt refCaller [Call.newRepeatedMessageID] =
      Except.ok
        { handler := { LogHandler.initial with
            currentMessageID := 1, repeatCounts := [0], repeatedMessageStrings := [[]] },
          written := [timeZoneLine], issued := [0] }
    ∧ LogHandler.printRepeatedMessage
        { LogHandler.initial with
          currentMessageID := 1, repeatCounts := [0], repeatedMessageStrings := [[]] }
        refLogExt refCaller (-1) LogMsgType.LogDebug QMessageLogContext.null (literal "tock") =
        Except.error Fault.indexOutOfRange
    ∧ ¬ (∀ (calls : List Call) (t : Trace) (messageID : Int),
          run refLogExt refCaller calls = Except.ok t →
          t.handler.printRepeatedMessage refLogExt refCaller messageID LogMsgType.LogDebug
            QMessageLogContext.null (literal "tock") ≠ Except.error Fault.indexOutOfRange) := by
  refine ⟨by decide, by decide, by decide, by decide, ?_⟩
  intro h
  exact h [] { handler := LogHandler.initial, written := [timeZoneLine], issued := [] } (-1)
    (by decide) (by decide)

/-- The bookkeeping of the repeated messages apart from negative identifiers.  In every
state that a run of the handler reaches (the constructor, then any calls of its member
functions that are defined) both vectors have `_currentMessageID` elements;
`printRepeatedMessage` reads and writes inside the vectors for every identifier that is
not negative; `flushRepeatedMessages` stays inside the vectors and returns; and the
identifiers that `newRepeatedMessageID` has returned are `0, 1, 2, ...` in the order of
the calls: strictly increasing, pairwise distinct, and all below the identifier the next
call returns. -/
theorem repeated_message_bookkeeping (x : LogExt) (now : Caller) (calls : List Call)
    (t : Trace) (hr : run x now calls = Except.ok t) :
    t.handler.Consistent
    ∧ (∀ (now1 : Caller) (messageID : Int) (type : LogMsgType) (context : QMessageLogContext)
        (message : QString), 0 ≤ messageID →
        t.handler.printRepeatedMessage x now1 messageID type context message ≠
          Except.error Fault.indexOutOfRange)
    ∧ (∀ now1 : Nat → Caller, ∃ e, t.handler.flushRepeatedMessages x now1 = Except.ok e)
    ∧ t.issued = (List.range t.issued.length).map (fun k : Nat => (k : Int))
    ∧ (t.issued.length : Int) = t.handler.currentMessageID
    ∧ List.Pairwise (fun a b => a < b) t.issued
    ∧ t.issued.Nodup
    ∧ (∀ r, t.handler.newRepeatedMessageID = Except.ok r →
        r.1 = t.handler.currentMessageID ∧ (∀ a ∈ t.issued, a < r.1) ∧
        r.2.Consistent) := by
  obtain ⟨hc, _, hi, hl⟩ := run_inv x now calls t hr
  have hpw : List.Pairwise (fun a b : Int => a < b) t.issued := by
    rw [hi]
    exact (List.pairwise_map).2 ((List.pairwise_lt_range _).imp (by
      intro a b hab
      exact_mod_cast hab))
  have hlen : t.handler.repeatCounts.length = t.handler.repeatedMessageStrings.length := by
    obtain ⟨h1, h2⟩ := hc
    omega
  refine ⟨hc, ?_, ?_, hi, hl, hpw, hpw.imp (fun hab => ne_of_lt hab), ?_⟩
  · intro now1 messageID type context message hid
    rcases printRepeatedMessage_total x now1 t.handler hc messageID type context message hid with
      ⟨e, he⟩ | he
    · rw [he]
      intro hh
      cases hh
    · rw [he]
      intro hh
      cases hh
  · intro now1
    obtain ⟨e, he, _⟩ := flushRepeatedMessages_spec x now1 t.handler hlen
    exact ⟨e, he⟩
  · intro r hnew
    by_cases hmax : t.handler.currentMessageID < INT_MAX
    · rw [newRepeatedMessageID_eq t.handler hc hmax] at hnew
      cases hnew
      refine ⟨rfl, ?_, ?_⟩
      · intro a ha
        rw [hi] at ha
        obtain ⟨k, hk, rfl⟩ := List.mem_map.1 ha
        have := List.mem_range.1 hk
        simp only
        omega
      · obtain ⟨h1, h2⟩ := hc
        constructor
        · simp only [List.length_append, List.length_singleton]
          push_cast
          omega
        · simp only [List.length_append, List.length_singleton]
          push_cast
          omega
    · rw [newRepeatedMessageID_overflow t.handler hmax] at hnew
      cases hnew

/-- Example of the bookkeeping: the run of `exampleCalls` reaches `exampleTrace`: two
identifiers, 0 and 1, both vectors of size two. -/
theorem repeated_message_bookkeeping_witness :
    run refLogExt refCaller exampleCalls = Except.ok exampleTrace
    ∧ exampleTrace.handler.Consistent
    ∧ exampleTrace.issued = [0, 1]
    ∧ List.Pairwise (fun a b => a < b) exampleTrace.issued
    ∧ exampleTrace.handler.printRepeatedMessage refLogExt refCaller 1 LogMsgType.LogDebug
        QMessageLogContext.null (literal "tock") ≠ Except.error Fault.indexOutOfRange := by
  have hrun : run refLogExt refCaller exampleCalls = Except.ok exampleTrace := by decide
  have h := repeated_message_bookkeeping refLogExt refCaller exampleCalls exampleTrace hrun
  exact ⟨hrun, h.1, rfl, h.2.2.2.2.2.1,
    h.2.1 refCaller 1 LogMsgType.LogDebug QMessageLogContext.null (literal "tock") (by decide)⟩

/-- C35. Formatting in `printMessage`. An empty message returns the empty string, writes
nothing and changes no member, the once-only counts included. For a message that is not
empty and that the once-only elements do not suppress, the text returned is the leading
text, a space, the message with every newline replaced by newline, leading text and space,
and a final newline; said line by line, every piece of the message is a line that begins
with the leading text.  What is written to `stdout` is the text returned up to its first
NUL byte: all of it when it holds none.  The leading text is
`[timestamp] [TYPE] [category]` followed, in this order, by the process identifier when
that option is on, the thread identifier when that option is on, the target name when it
is not empty, and the source file field of a `qml` message. -/
theorem printMessage_format (x : LogExt) (now : Caller) (h : LogHandler) (type : LogMsgType)
    (context : QMessageLogContext) (message : QString) :
    h.printMessage x now type context [] =
        Except.ok { handler := h, returned := [], written := [] }
    ∧ (message ≠ [] → h.suppresses x type message = false →
        ∃ h1, h.printMessage x now type context message =
          Except.ok
            { handler := h1,
              returned := h.prefixString now type context ++ [32] ++
                replaceNewlines (h.prefixString now type context) message ++ [10],
              written := [cString (h.prefixString now type context ++ [32] ++
                replaceNewlines (h.prefixString now type context) message ++ [10])] })
    ∧ ((0 : Byte) ∉ h.prefixString now type context ++ [32] ++
          replaceNewlines (h.prefixString now type context) message ++ [10] →
        cString (h.prefixString now type context ++ [32] ++
          replaceNewlines (h.prefixString now type context) message ++ [10]) =
        h.prefixString now type context ++ [32] ++
          replaceNewlines (h.prefixString now type context) message ++ [10])
    ∧ h.prefixString now type context ++ [32] ++
          replaceNewlines (h.prefixString now type context) message ++ [10] =
        linesWith (h.prefixString now type context) (QString.split 10 message)
    ∧ h.prefixString now type context =
        literal "[" ++
          now.currentDateTime (if h.shouldDisplayMilliseconds
            then literal "MM/dd hh:mm:ss.zzz" else literal "MM/dd hh:mm:ss") ++
          literal "] [" ++ stringForLogType type ++
          literal "] [" ++ ofCString context.category ++ literal "]" ++
          (if h.shouldOutputProcessID
            then literal " [" ++ QString.setNum now.applicationPid ++ literal "]" else []) ++
          (if h.shouldOutputThreadID
            then literal " [" ++ QString.setNum now.currentThreadId ++ literal "]" else []) ++
          (if h.targetName ≠ [] then literal " [" ++ h.targetName ++ literal "]" else []) ++
          sourceFileField context := by
  have hlog : h.logMessage now type context message =
      h.prefixString now type context ++ [32] ++
        replaceNewlines (h.prefixString now type context) message ++ [10] := by
    simp only [LogHandler.logMessage, join_split]
    rfl
  refine ⟨printMessage_empty x now h type context, ?_, cString_eq_self _, ?_, ?_⟩
  · intro hm hs
    obtain ⟨h1, hp⟩ := printMessage_not_suppressed x now h type context message hm hs
    rw [hlog] at hp
    exact ⟨h1, hp⟩
  · rw [← join_split, ← join_lines _ _ (split_ne_nil 10 message)]
    rfl
  · simp only [LogHandler.prefixString, arg3, arg1, DATE_STRING_FORMAT,
      DATE_STRING_FORMAT_WITH_MILLISECONDS]
    cases h.shouldOutputProcessID <;> cases h.shouldOutputThreadID <;>
      cases h.targetName <;> simp

/-- Example for C35: a warning of two lines printed by `exampleHandler`; both lines begin
with the same leading text, which holds the process identifier and the target name.  A
warning with a NUL byte is returned whole and written up to the NUL byte. -/
theorem printMessage_format_witness :
    literal "a\nb" ≠ []
    ∧ exampleHandler.suppresses refLogExt LogMsgType.LogWarning (literal "a\nb") = false
    ∧ (∃ h1, exampleHandler.printMessage refLogExt refCaller LogMsgType.LogWarning
        QMessageLogContext.null (literal "a\nb") =
        Except.ok
          { handler := h1,
            returned := literal "[11/18 13:55:36] [WARNING] [] [4242] [app] a\n" ++
              literal "[11/18 13:55:36] [WARNING] [] [4242] [app] b\n",
            written := [literal "[11/18 13:55:36] [WARNING] [] [4242] [app] a\n" ++
              literal "[11/18 13:55:36] [WARNING] [] [4242] [app] b\n"] })
    ∧ (∃ h1, exampleHandler.printMessage refLogExt refCaller LogMsgType.LogWarning
        QMessageLogContext.null (literal "a" ++ [0] ++ literal "b") =
        Except.ok
          { handler := h1,
            returned := literal "[11/18 13:55:36] [WARNING] [] [4242] [app] a" ++ [0] ++
              literal "b\n",
            written := [literal "[11/18 13:55:36] [WARNING] [] [4242] [app] a"] }) := by
  obtain ⟨h1, hh⟩ := (printMessage_format refLogExt refCaller exampleHandler
    LogMsgType.LogWarning QMessageLogContext.null (literal "a\nb")).2.1 (by decide) (by decide)
  obtain ⟨h2, hh2⟩ := (printMessage_format refLogExt refCaller exampleHandler
    LogMsgType.LogWarning QMessageLogContext.null (literal "a" ++ [0] ++ literal "b")).2.1
      (by decide) (by decide)
  have ht : exampleHandler.prefixString refCaller LogMsgType.LogWarning
      QMessageLogContext.null ++ [32] ++
        replaceNewlines (exampleHandler.prefixString refCaller LogMsgType.LogWarning
          QMessageLogContext.null) (literal "a\nb") ++ [10] =
      literal "[11/18 13:55:36] [WARNING] [] [4242] [app] a\n" ++
        literal "[11/18 13:55:36] [WARNING] [] [4242] [app] b\n" := by
    decide
  have ht2 : exampleHandler.prefixString refCaller LogMsgType.LogWarning
      QMessageLogContext.null ++ [32] ++
        replaceNewlines (exampleHandler.prefixString refCaller LogMsgType.LogWarning
          QMessageLogContext.null) (literal "a" ++ [0] ++ literal "b") ++ [10] =
      literal "[11/18 13:55:36] [WARNING] [] [4242] [app] a" ++ [0] ++ literal "b\n" := by
    decide
  have hc : cString (literal "[11/18 13:55:36] [WARNING] [] [4242] [app] a\n" ++
        literal "[11/18 13:55:36] [WARNING] [] [4242] [app] b\n") =
      literal "[11/18 13:55:36] [WARNING] [] [4242] [app] a\n" ++
        literal "[11/18 13:55:36] [WARNING] [] [4242] [app] b\n" := by
    decide
  have hc2 : cString (literal "[11/18 13:55:36] [WARNING] [] [4242] [app] a" ++ [0] ++
        literal "b\n") =
      literal "[11/18 13:55:36] [WARNING] [] [4242] [app] a" := by
    decide
  rw [ht, hc] at hh
  rw [ht2, hc2] at hh2
  exact ⟨by decide, by decide, ⟨h1, hh⟩, ⟨h2, hh2⟩⟩

/-- C36. The function `stringForLogType` is total: it maps `LogInfo`, `LogDebug`,
`LogWarning`, `LogCritical`, `LogFatal` and `LogSuppressed` to "INFO", "DEBUG", "WARNING",
"CRITICAL", "FATAL" and "SUPPRESS", every other value to "UNKNOWN", and only those; the six
known names are pairwise distinct. -/
theorem stringForLogType_names :
    stringForLogType LogMsgType.LogInfo = literal "INFO"
    ∧ stringForLogType LogMsgType.LogDebug = literal "DEBUG"
    ∧ stringForLogType LogMsgType.LogWarning = literal "WARNING"
    ∧ stringForLogType LogMsgType.LogCritical = literal "CRITICAL"
    ∧ stringForLogType LogMsgType.LogFatal = literal "FATAL"
    ∧ stringForLogType LogMsgType.LogSuppressed = literal "SUPPRESS"
    ∧ (∀ type, stringForLogType type = literal "UNKNOWN" ↔ ∃ value, type = LogMsgType.other value)
    ∧ List.Pairwise (fun a b => a ≠ b)
        ([LogMsgType.LogInfo, LogMsgType.LogDebug, LogMsgType.LogWarning,
          LogMsgType.LogCritical, LogMsgType.LogFatal, LogMsgType.LogSuppressed].map
            stringForLogType) := by
  refine ⟨rfl, rfl, rfl, rfl, rfl, rfl, ?_, by decide⟩
  intro type
  cases type with
  | other value => exact ⟨fun _ => ⟨value, rfl⟩, fun _ => rfl⟩
  | _ =>
    constructor
    · intro h
      exact absurd h (by decide)
    · rintro ⟨value, hv⟩
      cases hv

end Hifi
